import Mathlib

/-!
# The structured-report writer of `fftools/probe.c`

A shallow embedding of the hierarchical report writer of `src/fftools/probe.c`
(the section catalog, the writer engine, the string sanitizer and the JSON
backend) together with theorems about it.

Conventions of the embedding:

* a C string is a `List Byte`; where the C code reads a `const char *` the
  embedding reads the bytes before the first NUL (`c_str`);
* `unsigned int` counters are natural numbers, and `++` on
  them is `uint_inc`, which wraps at `2 ^ 32`;
* a function that can abort (`av_assert0`) or run into undefined behaviour
  (an array index out of range, a NULL or dangling pointer, a pointer handed
  on as a pointer to another type) returns in `Except Fault`;
* the output sink (`writer_put_str`, `writer_w8`, `writer_printf`) is the byte
  list `out` of the context, and `av_log` is the event list `log`;
* the only registered writer is `json_writer`, so `wctx->writer->f` is the JSON
  function `json_f` and `wctx->priv` is a `JSONContext`.
-/

namespace Probe

/-! ## Bytes, strings and formatting -/

/-- A byte of a C string or of the output (`char`, `uint8_t`). -/
abbrev Byte := UInt8

/-- The bytes of an ASCII literal. -/
def cs (s : String) : List Byte := s.toList.map (fun c => UInt8.ofNat c.toNat)

/-- The contents of a NUL-terminated C string: the bytes before the first NUL. -/
def c_str (s : List Byte) : List Byte := s.takeWhile (fun b => b != 0)

/-- The digits of `v` in the given base, lowercase, as printf renders them. -/
def fmt_digits (base : Nat) (v : Nat) : List Byte :=
  (Nat.toDigits base v).map (fun c => UInt8.ofNat c.toNat)

/-- The conversion `%0<width>x` of printf: lowercase hexadecimal, zero-padded
to at least `width` digits. -/
def fmt_0x (width : Nat) (v : Nat) : List Byte :=
  let d := fmt_digits 16 v
  List.replicate (width - d.length) 0x30 ++ d

/-- The conversions `%d` and `%lld` of printf. -/
def fmt_d (v : Int) : List Byte :=
  if v < 0 then 0x2d :: fmt_digits 10 v.natAbs else fmt_digits 10 v.natAbs

/-- The conversion `%*c` of printf: the character padded with blanks to the
given width, on the left, or on the right when the width is negative. -/
def fmt_star_c (width : Int) (c : Byte) : List Byte :=
  if width < 0 then c :: List.replicate (width.natAbs - 1) 0x20
  else List.replicate (width.natAbs - 1) 0x20 ++ [c]

/-- The increment `++` of an `unsigned int`, which wraps at `2 ^ 32`. -/
def uint_inc (n : Nat) : Nat := (n + 1) % 4294967296

/-! ## Faults -/

/-- The ways a call can fail to return. -/
inductive Fault where
  /-- an `av_assert0` failed: the process aborts -/
  | assertion
  /-- undefined behaviour of C: an array index out of range, a NULL or
  dangling pointer was used, or a pointer was handed on as a pointer to another
  type; nothing is known about what happens next -/
  | undefined
deriving DecidableEq, Repr

/-- The result of a call that can abort or run into undefined behaviour. -/
abbrev Result (α : Type) := Except Fault α

deriving instance DecidableEq for Except

/-- Read of `a[i]` for a C array. -/
def arr_get {α : Type} (a : List α) (i : Int) : Result α :=
  if i < 0 then .error .undefined
  else match a[i.toNat]? with
    | some x => .ok x
    | none => .error .undefined

/-- Write `a[i] = x` for a C array. -/
def arr_set {α : Type} (a : List α) (i : Int) (x : α) : Result (List α) :=
  if i < 0 ∨ a.length ≤ i.toNat then .error .undefined
  else .ok (a.set i.toNat x)

/-! ## The section catalog -/

def SECTION_FLAG_IS_WRAPPER : Nat := 1
def SECTION_FLAG_IS_ARRAY : Nat := 2
def SECTION_FLAG_HAS_VARIABLE_FIELDS : Nat := 4

def SECTION_ID_NONE : Int := -1
def SECTION_ID_CHAPTER : Int := 0
def SECTION_ID_CHAPTER_TAGS : Int := 1
def SECTION_ID_CHAPTERS : Int := 2
def SECTION_ID_ERROR : Int := 3
def SECTION_ID_FORMAT : Int := 4
def SECTION_ID_FORMAT_TAGS : Int := 5
def SECTION_ID_FRAME : Int := 6
def SECTION_ID_FRAMES : Int := 7
def SECTION_ID_FRAME_TAGS : Int := 8
def SECTION_ID_FRAME_SIDE_DATA_LIST : Int := 9
def SECTION_ID_FRAME_SIDE_DATA : Int := 10
def SECTION_ID_FRAME_SIDE_DATA_TIMECODE_LIST : Int := 11
def SECTION_ID_FRAME_SIDE_DATA_TIMECODE : Int := 12
def SECTION_ID_FRAME_SIDE_DATA_COMPONENT_LIST : Int := 13
def SECTION_ID_FRAME_SIDE_DATA_COMPONENT : Int := 14
def SECTION_ID_FRAME_SIDE_DATA_PIECE_LIST : Int := 15
def SECTION_ID_FRAME_SIDE_DATA_PIECE : Int := 16
def SECTION_ID_FRAME_LOG : Int := 17
def SECTION_ID_FRAME_LOGS : Int := 18
def SECTION_ID_LIBRARY_VERSION : Int := 19
def SECTION_ID_LIBRARY_VERSIONS : Int := 20
def SECTION_ID_PACKET : Int := 21
def SECTION_ID_PACKET_TAGS : Int := 22
def SECTION_ID_PACKETS : Int := 23
def SECTION_ID_PACKETS_AND_FRAMES : Int := 24
def SECTION_ID_PACKET_SIDE_DATA_LIST : Int := 25
def SECTION_ID_PACKET_SIDE_DATA : Int := 26
def SECTION_ID_PIXEL_FORMAT : Int := 27
def SECTION_ID_PIXEL_FORMAT_FLAGS : Int := 28
def SECTION_ID_PIXEL_FORMAT_COMPONENT : Int := 29
def SECTION_ID_PIXEL_FORMAT_COMPONENTS : Int := 30
def SECTION_ID_PIXEL_FORMATS : Int := 31
def SECTION_ID_PROGRAM_STREAM_DISPOSITION : Int := 32
def SECTION_ID_PROGRAM_STREAM_TAGS : Int := 33
def SECTION_ID_PROGRAM : Int := 34
def SECTION_ID_PROGRAM_STREAMS : Int := 35
def SECTION_ID_PROGRAM_STREAM : Int := 36
def SECTION_ID_PROGRAM_TAGS : Int := 37
def SECTION_ID_PROGRAM_VERSION : Int := 38
def SECTION_ID_PROGRAMS : Int := 39
def SECTION_ID_ROOT : Int := 40
def SECTION_ID_STREAM : Int := 41
def SECTION_ID_STREAM_DISPOSITION : Int := 42
def SECTION_ID_STREAMS : Int := 43
def SECTION_ID_STREAM_TAGS : Int := 44
def SECTION_ID_STREAM_SIDE_DATA_LIST : Int := 45
def SECTION_ID_STREAM_SIDE_DATA : Int := 46
def SECTION_ID_SUBTITLE : Int := 47

def SECTION_MAX_NB_LEVELS : Int := 10

def SECTION_MAX_NB_CHILDREN : Nat := 10

/-- An `AVDictionary`: its entries, key and value, in order; `NULL` is the
empty list. -/
abbrev AVDictionary := List (List Byte × List Byte)

/-- The C `struct section`. `children_ids` holds the ids before the
terminating `-1`; a `NULL` name is `none`. -/
structure Section where
  id : Int
  name : List Byte
  flags : Nat
  children_ids : List Int
  element_name : Option (List Byte)
  unique_name : Option (List Byte)
  entries_to_show : AVDictionary
  show_all_entries : Int
deriving DecidableEq, Repr

/-- One initializer of the `sections` table; the fields it does not name are
zero. -/
def Section.mk0 (id : Int) (name : String) (flags : Nat) (children_ids : List Int)
    (element_name : Option String) (unique_name : Option String)
    (show_all_entries : Int) : Section :=
  { id := id, name := cs name, flags := flags, children_ids := children_ids,
    element_name := element_name.map cs, unique_name := unique_name.map cs,
    entries_to_show := [], show_all_entries := show_all_entries }

/-- The static table `sections`, in the order of its designated indices. -/
def sections : List Section :=
  [ .mk0 SECTION_ID_CHAPTER "chapter" 0 [SECTION_ID_CHAPTER_TAGS] none none 0,
    .mk0 SECTION_ID_CHAPTER_TAGS "tags" SECTION_FLAG_HAS_VARIABLE_FIELDS [] (some "tag") (some "chapter_tags") 0,
    .mk0 SECTION_ID_CHAPTERS "chapters" SECTION_FLAG_IS_ARRAY [SECTION_ID_CHAPTER] none none 0,
    .mk0 SECTION_ID_ERROR "error" 0 [] none none 0,
    .mk0 SECTION_ID_FORMAT "format" 0 [SECTION_ID_FORMAT_TAGS] none none 1,
    .mk0 SECTION_ID_FORMAT_TAGS "tags" SECTION_FLAG_HAS_VARIABLE_FIELDS [] (some "tag") (some "format_tags") 1,
    .mk0 SECTION_ID_FRAME "frame" 0 [SECTION_ID_FRAME_TAGS, SECTION_ID_FRAME_SIDE_DATA_LIST, SECTION_ID_FRAME_LOGS] none none 0,
    .mk0 SECTION_ID_FRAMES "frames" SECTION_FLAG_IS_ARRAY [SECTION_ID_FRAME, SECTION_ID_SUBTITLE] none none 0,
    .mk0 SECTION_ID_FRAME_TAGS "tags" SECTION_FLAG_HAS_VARIABLE_FIELDS [] (some "tag") (some "frame_tags") 0,
    .mk0 SECTION_ID_FRAME_SIDE_DATA_LIST "side_data_list" SECTION_FLAG_IS_ARRAY [SECTION_ID_FRAME_SIDE_DATA] (some "side_data") (some "frame_side_data_list") 0,
    .mk0 SECTION_ID_FRAME_SIDE_DATA "side_data" 0 [SECTION_ID_FRAME_SIDE_DATA_TIMECODE_LIST, SECTION_ID_FRAME_SIDE_DATA_COMPONENT_LIST] none (some "frame_side_data") 0,
    .mk0 SECTION_ID_FRAME_SIDE_DATA_TIMECODE_LIST "timecodes" SECTION_FLAG_IS_ARRAY [SECTION_ID_FRAME_SIDE_DATA_TIMECODE] none none 0,
    .mk0 SECTION_ID_FRAME_SIDE_DATA_TIMECODE "timecode" 0 [] none none 0,
    .mk0 SECTION_ID_FRAME_SIDE_DATA_COMPONENT_LIST "components" SECTION_FLAG_IS_ARRAY [SECTION_ID_FRAME_SIDE_DATA_COMPONENT] none none 0,
    .mk0 SECTION_ID_FRAME_SIDE_DATA_COMPONENT "component" 0 [SECTION_ID_FRAME_SIDE_DATA_PIECE_LIST] none none 0,
    .mk0 SECTION_ID_FRAME_SIDE_DATA_PIECE_LIST "pieces" SECTION_FLAG_IS_ARRAY [SECTION_ID_FRAME_SIDE_DATA_PIECE] none none 0,
    .mk0 SECTION_ID_FRAME_SIDE_DATA_PIECE "section" 0 [] none none 0,
    .mk0 SECTION_ID_FRAME_LOG "log" 0 [] none none 0,
    .mk0 SECTION_ID_FRAME_LOGS "logs" SECTION_FLAG_IS_ARRAY [SECTION_ID_FRAME_LOG] none none 0,
    .mk0 SECTION_ID_LIBRARY_VERSION "library_version" 0 [] none none 0,
    .mk0 SECTION_ID_LIBRARY_VERSIONS "library_versions" SECTION_FLAG_IS_ARRAY [SECTION_ID_LIBRARY_VERSION] none none 0,
    .mk0 SECTION_ID_PACKET "packet" 0 [SECTION_ID_PACKET_TAGS, SECTION_ID_PACKET_SIDE_DATA_LIST] none none 0,
    .mk0 SECTION_ID_PACKET_TAGS "tags" SECTION_FLAG_HAS_VARIABLE_FIELDS [] (some "tag") (some "packet_tags") 0,
    .mk0 SECTION_ID_PACKETS "packets" SECTION_FLAG_IS_ARRAY [SECTION_ID_PACKET] none none 0,
    .mk0 SECTION_ID_PACKETS_AND_FRAMES "packets_and_frames" SECTION_FLAG_IS_ARRAY [SECTION_ID_PACKET] none none 0,
    .mk0 SECTION_ID_PACKET_SIDE_DATA_LIST "side_data_list" SECTION_FLAG_IS_ARRAY [SECTION_ID_PACKET_SIDE_DATA] (some "side_data") (some "packet_side_data_list") 0,
    .mk0 SECTION_ID_PACKET_SIDE_DATA "side_data" 0 [] none (some "packet_side_data") 0,
    .mk0 SECTION_ID_PIXEL_FORMAT "pixel_format" 0 [SECTION_ID_PIXEL_FORMAT_FLAGS, SECTION_ID_PIXEL_FORMAT_COMPONENTS] none none 1,
    .mk0 SECTION_ID_PIXEL_FORMAT_FLAGS "flags" 0 [] none (some "pixel_format_flags") 0,
    .mk0 SECTION_ID_PIXEL_FORMAT_COMPONENT "component" 0 [] none none 0,
    .mk0 SECTION_ID_PIXEL_FORMAT_COMPONENTS "components" SECTION_FLAG_IS_ARRAY [SECTION_ID_PIXEL_FORMAT_COMPONENT] none (some "pixel_format_components") 0,
    .mk0 SECTION_ID_PIXEL_FORMATS "pixel_formats" SECTION_FLAG_IS_ARRAY [SECTION_ID_PIXEL_FORMAT] none none 0,
    .mk0 SECTION_ID_PROGRAM_STREAM_DISPOSITION "disposition" 0 [] none (some "program_stream_disposition") 0,
    .mk0 SECTION_ID_PROGRAM_STREAM_TAGS "tags" SECTION_FLAG_HAS_VARIABLE_FIELDS [] (some "tag") (some "program_stream_tags") 0,
    .mk0 SECTION_ID_PROGRAM "program" 0 [SECTION_ID_PROGRAM_TAGS, SECTION_ID_PROGRAM_STREAMS] none none 0,
    .mk0 SECTION_ID_PROGRAM_STREAMS "streams" SECTION_FLAG_IS_ARRAY [SECTION_ID_PROGRAM_STREAM] none (some "program_streams") 0,
    .mk0 SECTION_ID_PROGRAM_STREAM "stream" 0 [SECTION_ID_PROGRAM_STREAM_DISPOSITION, SECTION_ID_PROGRAM_STREAM_TAGS] none (some "program_stream") 1,
    .mk0 SECTION_ID_PROGRAM_TAGS "tags" SECTION_FLAG_HAS_VARIABLE_FIELDS [] (some "tag") (some "program_tags") 0,
    .mk0 SECTION_ID_PROGRAM_VERSION "program_version" 0 [] none none 0,
    .mk0 SECTION_ID_PROGRAMS "programs" SECTION_FLAG_IS_ARRAY [SECTION_ID_PROGRAM] none none 0,
    .mk0 SECTION_ID_ROOT "root" SECTION_FLAG_IS_WRAPPER
      [SECTION_ID_CHAPTERS, SECTION_ID_FORMAT, SECTION_ID_FRAMES, SECTION_ID_PROGRAMS, SECTION_ID_STREAMS,
       SECTION_ID_PACKETS, SECTION_ID_ERROR, SECTION_ID_PROGRAM_VERSION, SECTION_ID_LIBRARY_VERSIONS,
       SECTION_ID_PIXEL_FORMATS] none none 0,
    .mk0 SECTION_ID_STREAM "stream" 0 [SECTION_ID_STREAM_DISPOSITION, SECTION_ID_STREAM_TAGS, SECTION_ID_STREAM_SIDE_DATA_LIST] none none 1,
    .mk0 SECTION_ID_STREAM_DISPOSITION "disposition" 0 [] none (some "stream_disposition") 1,
    .mk0 SECTION_ID_STREAMS "streams" SECTION_FLAG_IS_ARRAY [SECTION_ID_STREAM] none none 1,
    .mk0 SECTION_ID_STREAM_TAGS "tags" SECTION_FLAG_HAS_VARIABLE_FIELDS [] (some "tag") (some "stream_tags") 1,
    .mk0 SECTION_ID_STREAM_SIDE_DATA_LIST "side_data_list" SECTION_FLAG_IS_ARRAY [SECTION_ID_STREAM_SIDE_DATA] (some "side_data") (some "stream_side_data_list") 0,
    .mk0 SECTION_ID_STREAM_SIDE_DATA "side_data" 0 [] none (some "stream_side_data") 0,
    .mk0 SECTION_ID_SUBTITLE "subtitle" 0 [] none none 0 ]

/-! ## The writer context -/

/-- A `const struct section *` held by the writer: `NULL`, or the address
`&wctx->sections[k]` of the catalog entry with index `k`. -/
abbrev SectionPtr := Option Int

/-- The messages `av_log` receives from the writer, by call site. -/
inductive LogEvent where
  /-- `AV_LOG_DEBUG`, `validate_string`: the bytes of an invalid sequence -/
  | invalid_sequence (bytes src : List Byte)
  /-- `AV_LOG_ERROR`, `validate_string` under the `fail` policy -/
  | invalid_string (src : List Byte)
  /-- `AV_LOG_WARNING`, `validate_string` under the `replace` policy: the
  number of invalid sequences, the string and the replacement -/
  | replaced (invalid_chars_nb : Nat) (src replacement : List Byte)
  /-- `AV_LOG_ERROR`, `writer_print_string`: key, value and section -/
  | invalid_combination (key val : List Byte) (unique_name : Option (List Byte))
deriving DecidableEq, Repr

/-- The C `struct JSONContext`. -/
structure JSONContext where
  indent_level : Int
  compact : Int
  item_sep : List Byte
  item_start_end : List Byte
deriving DecidableEq, Repr

/-- The C `struct WriterContext` with the JSON private data, the output
written so far (`out`) and the messages logged so far (`log`). `nb_item` and
`section_` are the arrays of `SECTION_MAX_NB_LEVELS` entries; `nb_sections` is
the length of `sections`. -/
structure WriterContext where
  priv : JSONContext
  sections : List Section
  level : Int
  nb_item : List Nat
  section_ : List SectionPtr
  nb_section_packet : Nat
  nb_section_frame : Nat
  nb_section_packet_frame : Nat
  string_validation : Int
  string_validation_replacement : List Byte
  string_validation_utf8_flags : Nat
  out : List Byte
  log : List LogEvent
deriving DecidableEq, Repr

/-- The dereference `p->...` of a section pointer. -/
def WriterContext.deref (wctx : WriterContext) (p : SectionPtr) : Result Section :=
  match p with
  | none => .error .undefined
  | some k => arr_get wctx.sections k

/-- The sink functions `writer_put_str`, `writer_w8` and `writer_printf`
append to the output. -/
def writer_put_str (wctx : WriterContext) (str : List Byte) : WriterContext :=
  { wctx with out := wctx.out ++ str }

def writer_w8 (wctx : WriterContext) (b : Byte) : WriterContext :=
  { wctx with out := wctx.out ++ [b] }

/-! ## The JSON backend -/

def json_init (wctx : WriterContext) : WriterContext :=
  { wctx with priv :=
      { wctx.priv with
        item_sep := if wctx.priv.compact ≠ 0 then cs ", " else cs ",\n",
        item_start_end := if wctx.priv.compact ≠ 0 then cs " " else cs "\n" } }

def json_escape : List Byte := [0x22, 0x5c, 0x08, 0x0c, 0x0a, 0x0d, 0x09]

def json_subst : List Byte := [0x22, 0x5c, 0x62, 0x66, 0x6e, 0x72, 0x74]

/-- The index of the first occurrence of a non-NUL `c` in the string. -/
def strchr (s : List Byte) (c : Byte) : Option Nat :=
  if s.indexOf c < s.length then some (s.indexOf c) else none

/-- The body of the loop of `json_escape_str` for one byte. -/
def json_escape_char (c : Byte) : List Byte :=
  match strchr json_escape c with
  | some i => [0x5c, json_subst.getD i 0]
  | none =>
    if c.toNat < 32 then cs "\\u00" ++ fmt_0x 2 (c.toNat &&& 0xff)
    else [c]

/-- Appends the escaped string to the print buffer `dst` and returns the
buffer. -/
def json_escape_str (dst : List Byte) (src : List Byte) : List Byte :=
  dst ++ (c_str src).flatMap json_escape_char

/-- The macro `JSON_INDENT()`. -/
def JSON_INDENT (wctx : WriterContext) : WriterContext :=
  writer_put_str wctx (fmt_star_c (wctx.priv.indent_level * 4) 0x20)

/-- The statements `json->indent_level++` and `json->indent_level--`. -/
def json_indent_add (wctx : WriterContext) (d : Int) : WriterContext :=
  { wctx with priv := { wctx.priv with indent_level := wctx.priv.indent_level + d } }

def json_print_section_header (wctx : WriterContext) : Result WriterContext := do
  let section_p ← arr_get wctx.section_ wctx.level
  let parent_section : SectionPtr ←
    if wctx.level ≠ 0 then arr_get wctx.section_ (wctx.level - 1) else pure none
  let nb_parent ← if wctx.level ≠ 0 then arr_get wctx.nb_item (wctx.level - 1) else pure 0
  let wctx := if nb_parent ≠ 0 then writer_put_str wctx (cs ",\n") else wctx
  let sect ← wctx.deref section_p
  if sect.flags &&& SECTION_FLAG_IS_WRAPPER ≠ 0 then
    pure (json_indent_add (writer_put_str wctx (cs "\x7b\n")) 1)
  else
    let buf := json_escape_str [] sect.name
    let wctx := json_indent_add (JSON_INDENT wctx) 1
    if sect.flags &&& SECTION_FLAG_IS_ARRAY ≠ 0 then
      pure (writer_put_str wctx (cs "\"" ++ buf ++ cs "\": [\n"))
    else
      match parent_section with
      | none => pure (writer_put_str wctx (cs "\x7b" ++ c_str wctx.priv.item_start_end))
      | some _ => do
        let parent ← wctx.deref parent_section
        if parent.flags &&& SECTION_FLAG_IS_ARRAY = 0 then
          pure (writer_put_str wctx (cs "\"" ++ buf ++ cs "\": \x7b" ++ c_str wctx.priv.item_start_end))
        else
          let wctx := writer_put_str wctx (cs "\x7b" ++ c_str wctx.priv.item_start_end)
          if parent.id = SECTION_ID_PACKETS_AND_FRAMES then
            let wctx := if wctx.priv.compact = 0 then JSON_INDENT wctx else wctx
            let wctx := writer_put_str wctx (cs "\"type\": \"" ++ c_str sect.name ++ cs "\"")
            let n ← arr_get wctx.nb_item wctx.level
            let nb_item ← arr_set wctx.nb_item wctx.level (uint_inc n)
            pure { wctx with nb_item := nb_item }
          else pure wctx

def json_print_section_footer (wctx : WriterContext) : Result WriterContext := do
  let section_p ← arr_get wctx.section_ wctx.level
  if wctx.level = 0 then
    pure (writer_put_str (json_indent_add wctx (-1)) (cs "\n\x7d\n"))
  else
    let sect ← wctx.deref section_p
    if sect.flags &&& SECTION_FLAG_IS_ARRAY ≠ 0 then
      pure (writer_w8 (JSON_INDENT (json_indent_add (writer_w8 wctx 0x0a) (-1))) 0x5d)
    else
      let wctx := json_indent_add (writer_put_str wctx (c_str wctx.priv.item_start_end)) (-1)
      let wctx := if wctx.priv.compact = 0 then JSON_INDENT wctx else wctx
      pure (writer_w8 wctx 0x7d)

def json_print_item_str (wctx : WriterContext) (key value : List Byte) : WriterContext :=
  let wctx := writer_put_str wctx (cs "\"" ++ json_escape_str [] key ++ cs "\":")
  writer_put_str wctx (cs " \"" ++ json_escape_str [] value ++ cs "\"")

/-- The test `wctx->nb_item[wctx->level] || (parent_section &&
parent_section->id == SECTION_ID_PACKETS_AND_FRAMES)` that `json_print_str`
and `json_print_int` share. -/
def json_item_needs_sep (wctx : WriterContext) : Result Bool := do
  let parent_section : SectionPtr ←
    if wctx.level ≠ 0 then arr_get wctx.section_ (wctx.level - 1) else pure none
  let n ← arr_get wctx.nb_item wctx.level
  if n ≠ 0 then pure true
  else match parent_section with
    | none => pure false
    | some _ => do
      let parent ← wctx.deref parent_section
      pure (decide (parent.id = SECTION_ID_PACKETS_AND_FRAMES))

def json_print_str (wctx : WriterContext) (key value : List Byte) : Result WriterContext := do
  let sep ← json_item_needs_sep wctx
  let wctx := if sep then writer_put_str wctx (c_str wctx.priv.item_sep) else wctx
  let wctx := if wctx.priv.compact = 0 then JSON_INDENT wctx else wctx
  pure (json_print_item_str wctx key value)

def json_print_int (wctx : WriterContext) (key : List Byte) (value : Int) : Result WriterContext := do
  let sep ← json_item_needs_sep wctx
  let wctx := if sep then writer_put_str wctx (c_str wctx.priv.item_sep) else wctx
  let wctx := if wctx.priv.compact = 0 then JSON_INDENT wctx else wctx
  pure (writer_put_str wctx (cs "\"" ++ json_escape_str [] key ++ cs "\": " ++ fmt_d value))

/-! ## The writer engine: sections -/

def writer_print_section_header (wctx : WriterContext) (section_id : Int) :
    Result WriterContext := do
  let wctx := { wctx with level := wctx.level + 1 }
  if ¬ (wctx.level < SECTION_MAX_NB_LEVELS) then throw Fault.assertion
  let parent_section_id ←
    if wctx.level ≠ 0 then do
      let p ← arr_get wctx.section_ (wctx.level - 1)
      let parent ← wctx.deref p
      pure parent.id
    else pure SECTION_ID_NONE
  let nb_item ← arr_set wctx.nb_item wctx.level 0
  let section_ ← arr_set wctx.section_ wctx.level (some section_id)
  let wctx := { wctx with nb_item := nb_item, section_ := section_ }
  let wctx :=
    if section_id = SECTION_ID_PACKETS_AND_FRAMES then
      { wctx with nb_section_packet := 0, nb_section_frame := 0, nb_section_packet_frame := 0 }
    else if parent_section_id = SECTION_ID_PACKETS_AND_FRAMES then
      { wctx with nb_section_packet_frame :=
          if section_id = SECTION_ID_PACKET then wctx.nb_section_packet
          else wctx.nb_section_frame }
    else wctx
  json_print_section_header wctx

def writer_print_section_footer (wctx : WriterContext) : Result WriterContext := do
  let sect ← wctx.deref (← arr_get wctx.section_ wctx.level)
  let section_id := sect.id
  let parent_section_id ←
    if wctx.level ≠ 0 then do
      let p ← arr_get wctx.section_ (wctx.level - 1)
      let parent ← wctx.deref p
      pure parent.id
    else pure SECTION_ID_NONE
  let wctx ←
    if parent_section_id ≠ SECTION_ID_NONE then do
      let n ← arr_get wctx.nb_item (wctx.level - 1)
      let nb_item ← arr_set wctx.nb_item (wctx.level - 1) (uint_inc n)
      pure { wctx with nb_item := nb_item }
    else pure wctx
  let wctx :=
    if parent_section_id = SECTION_ID_PACKETS_AND_FRAMES then
      if section_id = SECTION_ID_PACKET then
        { wctx with nb_section_packet := uint_inc wctx.nb_section_packet }
      else { wctx with nb_section_frame := uint_inc wctx.nb_section_frame }
    else wctx
  let wctx ← json_print_section_footer wctx
  pure { wctx with level := wctx.level - 1 }

/-! ## The string sanitizer -/

def WRITER_STRING_VALIDATION_FAIL : Int := 0
def WRITER_STRING_VALIDATION_REPLACE : Int := 1
def WRITER_STRING_VALIDATION_IGNORE : Int := 2
def WRITER_STRING_VALIDATION_NB : Int := 3

/-- The error code `AVERROR(EILSEQ)` of libavutil; only its sign is used. -/
def AVERROR_EILSEQ : Int := -84

/-- The error code `AVERROR_INVALIDDATA` of libavutil, `-MKTAG('I','N','D','A')`. -/
def AVERROR_INVALIDDATA : Int := -1094995529

def AV_UTF8_FLAG_ACCEPT_INVALID_BIG_CODES : Nat := 1
def AV_UTF8_FLAG_ACCEPT_NON_CHARACTERS : Nat := 2
def AV_UTF8_FLAG_ACCEPT_SURROGATES : Nat := 4
def AV_UTF8_FLAG_EXCLUDE_XML_INVALID_CONTROL_CODES : Nat := 8

def overlong_encoding_mins : List Nat :=
  [0x00000000, 0x00000080, 0x00000800, 0x00010000, 0x00200000, 0x04000000]

/-- Modelled from the spec: the continuation-byte loop of `av_utf8_decode`,
which is a libavutil routine and not under src/. It reads one byte `10xxxxxx`
per iteration while the lead byte announces more; `none` is its early return
on a truncated sequence or a byte that is no continuation byte. Otherwise the
result is the accumulated code, the mask bit `top` (a `uint32_t`) and the
number of continuation bytes read. -/
def utf8_tail (code top tail_len : Nat) (p : List Byte) : Option (Nat × Nat × Nat) :=
  if code &&& top = 0 then some (code, top, tail_len)
  else match p with
    | [] => none
    | b :: p' =>
      let tmp : Int := (b.toNat : Int) - 128
      if tmp >>> 6 ≠ 0 then none
      else utf8_tail ((code <<< 6) + tmp.toNat) ((top <<< 5) % 4294967296) (tail_len + 1) p'

/-- Modelled from the spec: the checks of `av_utf8_decode` (libavutil, not
under src/) on the decoded code once the continuation bytes are read: an
overlong encoding, a code of `2 ^ 31` or more, and, depending on the flags, a
code above `0x10FFFF`, a control code, a surrogate or a non-character are
invalid. The result is the return value. -/
def utf8_check (code top tail_len flags : Nat) : Int :=
  let code := code &&& (((top <<< 1) % 4294967296 + 4294967295) % 4294967296)
  if code < overlong_encoding_mins.getD tail_len 0 then AVERROR_EILSEQ
  else if code ≥ 2147483648 then AVERROR_EILSEQ
  else
    let ret : Int := 0
    let ret := if code > 0x10FFFF ∧ flags &&& AV_UTF8_FLAG_ACCEPT_INVALID_BIG_CODES = 0
      then AVERROR_EILSEQ else ret
    let ret := if code < 0x20 ∧ code ≠ 0x9 ∧ code ≠ 0xA ∧ code ≠ 0xD ∧
        flags &&& AV_UTF8_FLAG_EXCLUDE_XML_INVALID_CONTROL_CODES ≠ 0
      then AVERROR_EILSEQ else ret
    let ret := if code ≥ 0xD800 ∧ code ≤ 0xDFFF ∧ flags &&& AV_UTF8_FLAG_ACCEPT_SURROGATES = 0
      then AVERROR_EILSEQ else ret
    let ret := if (code = 0xFFFE ∨ code = 0xFFFF) ∧
        flags &&& AV_UTF8_FLAG_ACCEPT_NON_CHARACTERS = 0
      then AVERROR_EILSEQ else ret
    ret

/-- Modelled from the spec: `av_utf8_decode` of libavutil, not under src/,
which the spec describes as decoding the input code point by code point and
telling which ones fail to decode. `buf` is the range from `*bufp` to
`buf_end`; the result is the return value (negative for an invalid sequence)
and the number of bytes by which `*bufp` advances. A lead byte `10xxxxxx`,
`0xFE` or `0xFF`, an overlong encoding and a code outside the accepted ranges
are invalid and consume all the bytes read; a truncated sequence and a wrong
continuation byte are invalid and consume the lead byte only. The lead byte is
below `0xFE` when the loop runs, so it reads at most five continuation bytes
and the assertion `tail_len <= 5` holds. -/
def av_utf8_decode (buf : List Byte) (flags : Nat) : Int × Nat :=
  match buf with
  | [] => (0, 0)
  | b :: p =>
    let code := b.toNat
    if code &&& 0xc0 = 0x80 ∨ code ≥ 0xFE then (AVERROR_EILSEQ, 1)
    else
      match utf8_tail code ((code &&& 128) >>> 1) 0 p with
      | none => (AVERROR_EILSEQ, 1)
      | some r => (utf8_check r.1 r.2.1 r.2.2 flags, 1 + r.2.2)

/-- The loop of `validate_string`, from the position `p` on, with the print
buffer `dstbuf`, the counter `invalid_chars_nb` and the messages logged so
far. `fuel` bounds the number of iterations; every iteration consumes at least
one of the bytes left, so the number of bytes left is enough. The result is
the return value, the buffer, the counter and the messages. The counter is an
`int`; a string is shorter than `2 ^ 31` bytes, so it cannot overflow. -/
def validate_string_loop (wctx : WriterContext) (src : List Byte) :
    Nat → List Byte → List Byte → Nat → List LogEvent → Int × List Byte × Nat × List LogEvent
  | 0, _, dstbuf, invalid_chars_nb, log => (0, dstbuf, invalid_chars_nb, log)
  | fuel + 1, p, dstbuf, invalid_chars_nb, log =>
    if p = [] then (0, dstbuf, invalid_chars_nb, log)
    else
      let r := av_utf8_decode p wctx.string_validation_utf8_flags
      if r.1 < 0 then
        let log := log ++ [LogEvent.invalid_sequence (p.take r.2) src]
        let invalid_chars_nb := invalid_chars_nb + 1
        if wctx.string_validation = WRITER_STRING_VALIDATION_FAIL then
          (AVERROR_INVALIDDATA, dstbuf, invalid_chars_nb, log ++ [LogEvent.invalid_string src])
        else
          let dstbuf :=
            if wctx.string_validation = WRITER_STRING_VALIDATION_REPLACE then
              dstbuf ++ c_str wctx.string_validation_replacement
            else dstbuf
          let dstbuf :=
            if wctx.string_validation = WRITER_STRING_VALIDATION_IGNORE then
              dstbuf ++ p.take r.2
            else dstbuf
          validate_string_loop wctx src fuel (p.drop r.2) dstbuf invalid_chars_nb log
      else
        validate_string_loop wctx src fuel (p.drop r.2) (dstbuf ++ p.take r.2)
          invalid_chars_nb log

/-- The function `validate_string`: the return value, the string stored in
`*dstp` and the messages logged. -/
def validate_string (wctx : WriterContext) (src : List Byte) :
    Int × List Byte × List LogEvent :=
  let s := c_str src
  let r := validate_string_loop wctx s s.length s [] 0 []
  if r.1 < 0 then (r.1, r.2.1, r.2.2.2)
  else if r.2.2.1 ≠ 0 ∧ wctx.string_validation = WRITER_STRING_VALIDATION_REPLACE then
    (r.1, r.2.1,
      r.2.2.2 ++ [LogEvent.replaced r.2.2.1 s (c_str wctx.string_validation_replacement)])
  else (r.1, r.2.1, r.2.2.2)

/-! ## The writer engine: fields -/

def PRINT_STRING_OPT : Nat := 1
def PRINT_STRING_VALIDATE : Nat := 2

/-- The function `av_toupper` of libavutil. -/
def av_toupper (c : Byte) : Byte :=
  if 0x61 ≤ c.toNat ∧ c.toNat ≤ 0x7a then c ^^^ 0x20 else c

/-- Modelled from the spec: `av_dict_get(m, key, NULL, 0)` of libavutil, not
under src/, which the spec calls the key being present in the allow-list. With
the flags zero it returns the first entry whose whole key equals `key` up to
the case of ASCII letters, and `NULL` (`none`) when there is none. -/
def av_dict_get (m : AVDictionary) (key : List Byte) : Option (List Byte × List Byte) :=
  m.find? (fun e => (c_str e.1).map av_toupper == (c_str key).map av_toupper)

/-- The test `section->show_all_entries || av_dict_get(section->entries_to_show,
key, NULL, 0)` of `writer_print_string` and `writer_print_integer`. -/
def Section.shows (sect : Section) (key : List Byte) : Bool :=
  sect.show_all_entries ≠ 0 || (av_dict_get sect.entries_to_show key).isSome

/-- The statement `wctx->nb_item[wctx->level]++`. -/
def nb_item_inc (wctx : WriterContext) : Result WriterContext := do
  let n ← arr_get wctx.nb_item wctx.level
  let nb_item ← arr_set wctx.nb_item wctx.level (uint_inc n)
  pure { wctx with nb_item := nb_item }

/-- The block of `writer_print_string` under `PRINT_STRING_VALIDATE`: the
return value and the context after it. -/
def writer_print_string_validate (wctx : WriterContext) (sect : Section)
    (key val : List Byte) : Result (Int × WriterContext) :=
  let k := validate_string wctx key
  let wctx := { wctx with log := wctx.log ++ k.2.2 }
  let failed (wctx : WriterContext) : WriterContext :=
    { wctx with log := wctx.log ++
        [LogEvent.invalid_combination (c_str key) (c_str val) sect.unique_name] }
  if k.1 < 0 then pure (k.1, failed wctx)
  else
    let v := validate_string wctx val
    let wctx := { wctx with log := wctx.log ++ v.2.2 }
    if v.1 < 0 then pure (v.1, failed wctx)
    else do
      let wctx ← json_print_str wctx k.2.1 v.2.1
      pure (v.1, wctx)

def writer_print_string (wctx : WriterContext) (key val : List Byte) (flags : Nat) :
    Result (Int × WriterContext) := do
  let sect ← wctx.deref (← arr_get wctx.section_ wctx.level)
  if sect.shows key then
    let r ←
      if flags &&& PRINT_STRING_VALIDATE ≠ 0 then
        writer_print_string_validate wctx sect key val
      else do
        let wctx ← json_print_str wctx key val
        pure ((0 : Int), wctx)
    let wctx ← nb_item_inc r.2
    pure (r.1, wctx)
  else pure (0, wctx)

def writer_print_integer (wctx : WriterContext) (key : List Byte) (val : Int) :
    Result WriterContext := do
  let sect ← wctx.deref (← arr_get wctx.section_ wctx.level)
  if sect.shows key then
    let wctx ← json_print_int wctx key val
    nb_item_inc wctx
  else pure wctx

/-! ## Opening the writer -/

/-- The error code `AVERROR(ENOMEM)` of libavutil; only its sign is used. -/
def AVERROR_ENOMEM : Int := -12

/-- The loop of `writer_open` that validates the replacement string, from the
position `p` on: the value of `ret` when it ends, negative when it returns
early. `fuel` bounds the number of iterations as in `validate_string_loop`. -/
def writer_open_replace_loop (flags : Nat) : Nat → List Byte → Int
  | 0, _ => 0
  | fuel + 1, p =>
    if p = [] then 0
    else
      let r := av_utf8_decode p flags
      if r.1 < 0 then r.1 else writer_open_replace_loop flags fuel (p.drop r.2)

/-- What the environment and the libavutil option system decide during
`writer_open`: whether the two allocations succeed, the result of parsing and
applying the option string (`0` when `args` is `NULL`), the values of the
options afterwards, whether `output_filename` is set and what `avio_open`
returns. -/
structure WriterOpenEnv where
  malloc_wctx : Bool
  malloc_priv : Bool
  args_ret : Int
  string_validation : Int
  string_validation_replacement : List Byte
  compact : Int
  output_filename : Bool
  avio_open_ret : Int
deriving DecidableEq, Repr

/-- The environment of the call in `ffprobe`: no option string, so the
defaults of `writer_options` and `json_options` apply, and an output file
that can be opened. -/
def ffprobe_open_env : WriterOpenEnv :=
  { malloc_wctx := true, malloc_priv := true, args_ret := 0,
    string_validation := WRITER_STRING_VALIDATION_REPLACE,
    string_validation_replacement := [0xEF, 0xBF, 0xBD],
    compact := 0, output_filename := true, avio_open_ret := 0 }

/-- The context after the allocation, the assignments and the option
processing of `writer_open`: zeroed memory, `level = -1`. -/
def writer_open_alloc (env : WriterOpenEnv) (sections : List Section) : WriterContext :=
  { priv := { indent_level := 0, compact := env.compact, item_sep := [], item_start_end := [] },
    sections := sections,
    level := -1,
    nb_item := List.replicate 10 0,
    section_ := List.replicate 10 none,
    nb_section_packet := 0,
    nb_section_frame := 0,
    nb_section_packet_frame := 0,
    string_validation := env.string_validation,
    string_validation_replacement := env.string_validation_replacement,
    string_validation_utf8_flags := 0,
    out := [],
    log := [] }

/-- The function `writer_open`: its return value and `*wctx` afterwards
(`none` for `NULL`). Under `fail:` the context is closed and freed by
`writer_close`; when the private data cannot be allocated `writer_close`
dereferences the `writer` field that is still `NULL`. On an invalid
replacement string the function calls `av_log(wctx, ...)` before its
`return ret`: `wctx` is the `WriterContext **` there, where every other call
passes `*wctx`, and `av_log` reads its first argument as a pointer to a
structure that starts with an `AVClass *`, so the call takes the context
itself for the class and its `writer` field for the function `item_name`. -/
def writer_open (env : WriterOpenEnv) (sections : List Section) :
    Result (Int × Option WriterContext) :=
  if ¬ env.malloc_wctx then pure (AVERROR_ENOMEM, none)
  else if ¬ env.malloc_priv then throw Fault.undefined
  else
    let wctx := writer_open_alloc env sections
    if env.args_ret < 0 then pure (env.args_ret, none)
    else
      let p := c_str wctx.string_validation_replacement
      let ret := writer_open_replace_loop wctx.string_validation_utf8_flags p.length p
      if ret < 0 then throw Fault.undefined
      else if env.output_filename ∧ env.avio_open_ret < 0 then pure (env.avio_open_ret, none)
      else pure (0, some (json_init wctx))

/-! ## Well-formed contexts and sequences of section operations -/

/-- The open section of a context, `wctx->section[wctx->level]`. -/
def WriterContext.current (wctx : WriterContext) : Result Section := do
  wctx.deref (← arr_get wctx.section_ wctx.level)

/-- The invariant of a writer context between two calls: the level is between
`-1` and `SECTION_MAX_NB_LEVELS - 1`, the two per-level arrays have
`SECTION_MAX_NB_LEVELS` entries, every level up to the current one holds a
pointer into the catalog, and every catalog entry carries its own index as
its id, as in the table `sections`. -/
def WriterContext.wf (wctx : WriterContext) : Prop :=
  -1 ≤ wctx.level ∧ wctx.level < SECTION_MAX_NB_LEVELS ∧
  wctx.nb_item.length = 10 ∧ wctx.section_.length = 10 ∧
  (∀ i : Nat, i < 10 → (i : Int) ≤ wctx.level →
    ∃ k : Nat, k < wctx.sections.length ∧ wctx.section_[i]? = some (some (k : Int))) ∧
  (∀ k : Nat, k < wctx.sections.length → (wctx.sections[k]?).map Section.id = some (k : Int))

instance (wctx : WriterContext) : Decidable wctx.wf := by
  unfold WriterContext.wf
  infer_instance

/-- A call of `writer_print_section_header` or `writer_print_section_footer`. -/
inductive SectionOp where
  | header (section_id : Int)
  | footer
deriving DecidableEq, Repr

/-- The calls of a sequence, one after the other. -/
def run_ops : List SectionOp → WriterContext → Result WriterContext
  | [], wctx => pure wctx
  | SectionOp.header section_id :: ops, wctx =>
    writer_print_section_header wctx section_id >>= run_ops ops
  | SectionOp.footer :: ops, wctx =>
    writer_print_section_footer wctx >>= run_ops ops

/-- A sequence of calls, started at level `lvl`, is balanced above level `lo`:
every footer closes a section the sequence opened above `lo`, the sequence ends
at level `lo`, it opens sections of a catalog of `nb_sections` entries only,
and it never has more than `SECTION_MAX_NB_LEVELS` sections open. -/
def balanced (nb_sections : Nat) (lo : Int) : Int → List SectionOp → Prop
  | lvl, [] => lvl = lo
  | lvl, SectionOp.header section_id :: ops =>
    lvl + 1 < SECTION_MAX_NB_LEVELS ∧ 0 ≤ section_id ∧ section_id < nb_sections ∧
      balanced nb_sections lo (lvl + 1) ops
  | lvl, SectionOp.footer :: ops => lo < lvl ∧ balanced nb_sections lo (lvl - 1) ops

/-! ## What the spec says of the sanitizer -/

/-- The sequences `av_utf8_decode` reads from a string one after the other,
each with whether it decoded. -/
def utf8_sequences (flags : Nat) : Nat → List Byte → List (Bool × List Byte)
  | 0, _ => []
  | fuel + 1, p =>
    if p = [] then []
    else
      let r := av_utf8_decode p flags
      (decide (¬ r.1 < 0), p.take r.2) :: utf8_sequences flags fuel (p.drop r.2)

/-- The decomposition of a string into valid and invalid sequences. -/
def utf8_seqs (flags : Nat) (s : List Byte) : List (Bool × List Byte) :=
  utf8_sequences flags s.length s

/-- The number of invalid sequences of a string. -/
def utf8_invalid_count (flags : Nat) (s : List Byte) : Nat :=
  ((utf8_seqs flags s).filter (fun q => !q.1)).length

/-- The string has no invalid sequence. -/
def utf8_valid (flags : Nat) (s : List Byte) : Prop :=
  ∀ q ∈ utf8_seqs flags s, q.1 = true

instance (flags : Nat) (s : List Byte) : Decidable (utf8_valid flags s) := by
  unfold utf8_valid
  infer_instance

/-- The spec of the `Replace` policy: the string with each invalid sequence
replaced by one copy of `r` and every valid sequence kept in place. -/
def utf8_replace_invalid (flags : Nat) (r : List Byte) (s : List Byte) : List Byte :=
  (utf8_seqs flags s).flatMap (fun q => if q.1 then q.2 else r)

/-- The spec of the `Ignore` policy: the string with the bytes of every
invalid sequence removed and all valid sequences kept in order. -/
def utf8_drop_invalid (flags : Nat) (s : List Byte) : List Byte :=
  (utf8_seqs flags s).flatMap (fun q => if q.1 then q.2 else [])

/-- The messages of a log that are the warning of the `Replace` policy. -/
def replaced_warnings (log : List LogEvent) : List LogEvent :=
  log.filter (fun e => match e with
    | LogEvent.replaced _ _ _ => true
    | _ => false)


/-! ## Frames and renderings, for the proofs -/

/-- What a backend call or a field call leaves alone: the level, the catalog,
the per-level sections, the length of the counter array and the counters of
the other levels, the interleave counters and the validation options. -/
structure Frame (w w' : WriterContext) : Prop where
  level : w'.level = w.level
  sections : w'.sections = w.sections
  section_ : w'.section_ = w.section_
  nb_len : w'.nb_item.length = w.nb_item.length
  nb_item : ∀ i : Nat, (i : Int) ≠ w.level → w'.nb_item[i]? = w.nb_item[i]?
  nb_section_packet : w'.nb_section_packet = w.nb_section_packet
  nb_section_frame : w'.nb_section_frame = w.nb_section_frame
  nb_section_packet_frame : w'.nb_section_packet_frame = w.nb_section_packet_frame
  string_validation : w'.string_validation = w.string_validation
  replacement : w'.string_validation_replacement = w.string_validation_replacement
  utf8_flags : w'.string_validation_utf8_flags = w.string_validation_utf8_flags

/-- What the loop of `validate_string` appends to its buffer for one sequence
under a policy other than `fail`, read off its two `if` statements. -/
def validate_render (wctx : WriterContext) (q : Bool × List Byte) : List Byte :=
  if q.1 then q.2
  else
    (if wctx.string_validation = WRITER_STRING_VALIDATION_REPLACE then
        c_str wctx.string_validation_replacement
      else []) ++
    (if wctx.string_validation = WRITER_STRING_VALIDATION_IGNORE then q.2 else [])

/-- The debug messages of `validate_string` for the invalid sequences of a
string. -/
def validate_events (src : List Byte) (qs : List (Bool × List Byte)) : List LogEvent :=
  (qs.filter (fun q => !q.1)).map (fun q => LogEvent.invalid_sequence q.2 src)

/-! ## Concrete contexts -/

/-- The context `ffprobe` gets from `writer_open`: no section is open. -/
def ctx_open : WriterContext :=
  json_init (writer_open_alloc ffprobe_open_env sections)

/-- The context after `ffprobe` has opened the root section. -/
def ctx_root : WriterContext :=
  { ctx_open with
    level := 0,
    section_ := [some SECTION_ID_ROOT, none, none, none, none, none, none, none, none, none],
    priv := { ctx_open.priv with indent_level := 1 },
    out := cs "\x7b\n" }

/-- The context after `show_streams` has opened the `streams` array in the
root section. -/
def ctx_streams : WriterContext :=
  { ctx_root with
    level := 1,
    section_ := [some SECTION_ID_ROOT, some SECTION_ID_STREAMS, none, none, none, none, none,
      none, none, none],
    priv := { ctx_root.priv with indent_level := 2 },
    out := cs "\x7b\n    \"streams\": [\n" }

/-- A context with ten sections open, the most the writer holds. -/
def ctx_full : WriterContext :=
  { ctx_root with
    level := 9,
    section_ := [some SECTION_ID_ROOT, some SECTION_ID_FRAMES, some SECTION_ID_FRAME,
      some SECTION_ID_FRAME_SIDE_DATA_LIST, some SECTION_ID_FRAME_SIDE_DATA,
      some SECTION_ID_FRAME_SIDE_DATA_COMPONENT_LIST, some SECTION_ID_FRAME_SIDE_DATA_COMPONENT,
      some SECTION_ID_FRAME_SIDE_DATA_PIECE_LIST, some SECTION_ID_FRAME_SIDE_DATA_PIECE,
      some SECTION_ID_FRAME_SIDE_DATA_PIECE],
    priv := { ctx_root.priv with indent_level := 10 } }

/-- The root section open with its item counter at the largest value of an
`unsigned int`. -/
def ctx_root_max : WriterContext :=
  { ctx_root with nb_item := [4294967295, 0, 0, 0, 0, 0, 0, 0, 0, 0] }

/-- The `format` section open in the root section with its item counter at the
largest value of an `unsigned int`. -/
def ctx_format_max : WriterContext :=
  { ctx_root with
    level := 1,
    section_ := [some SECTION_ID_ROOT, some SECTION_ID_FORMAT, none, none, none, none, none,
      none, none, none],
    nb_item := [1, 4294967295, 0, 0, 0, 0, 0, 0, 0, 0],
    priv := { ctx_root.priv with indent_level := 2 } }

/-- The `format` section open in the root section under the `fail` policy. -/
def ctx_format_fail : WriterContext :=
  { ctx_root with
    level := 1,
    section_ := [some SECTION_ID_ROOT, some SECTION_ID_FORMAT, none, none, none, none, none,
      none, none, none],
    nb_item := [1, 0, 0, 0, 0, 0, 0, 0, 0, 0],
    priv := { ctx_root.priv with indent_level := 2 },
    string_validation := WRITER_STRING_VALIDATION_FAIL }

/-- A context like the one `ffprobe` opens, with `?` as the replacement
string. -/
def ctx_replace_qmark (string_validation : Int) : WriterContext :=
  { json_init (writer_open_alloc ffprobe_open_env sections) with
    string_validation := string_validation,
    string_validation_replacement := cs "?" }

/-- The section below the open one, `wctx->section[wctx->level - 1]`, or
`NULL` at level 0. -/
def WriterContext.parent (wctx : WriterContext) : Result (Option Section) :=
  if wctx.level ≠ 0 then do
    let p ← arr_get wctx.section_ (wctx.level - 1)
    let s ← wctx.deref p
    pure (some s)
  else pure none

/-- What `JSON_INDENT()` writes at an indent level. -/
def json_indent_text (indent_level : Int) : List Byte := fmt_star_c (indent_level * 4) 0x20

/-- The separator `json_print_section_header` writes first: a comma and a
newline when the section below the new one already holds an item. -/
def json_header_sep (w : WriterContext) : List Byte :=
  if w.level ≠ 0 ∧ w.nb_item.getD (w.level - 1).toNat 0 ≠ 0 then cs ",\n" else []

/-- The header opens an element of the `packets_and_frames` array, which gets
the `type` field. -/
def json_header_typed (sect : Section) (parent : Option Section) : Bool :=
  match parent with
  | none => false
  | some p =>
    decide (sect.flags &&& SECTION_FLAG_IS_WRAPPER = 0 ∧ sect.flags &&& SECTION_FLAG_IS_ARRAY = 0 ∧
      p.flags &&& SECTION_FLAG_IS_ARRAY ≠ 0 ∧ p.id = SECTION_ID_PACKETS_AND_FRAMES)

/-- The text `json_print_section_header` writes after the separator for a
section `sect` opened in `parent`. -/
def json_header_text (j : JSONContext) (sect : Section) (parent : Option Section) : List Byte :=
  if sect.flags &&& SECTION_FLAG_IS_WRAPPER ≠ 0 then cs "\x7b\n"
  else
    json_indent_text j.indent_level ++
    (if sect.flags &&& SECTION_FLAG_IS_ARRAY ≠ 0 then
      cs "\"" ++ json_escape_str [] sect.name ++ cs "\": [\n"
    else
      match parent with
      | none => cs "\x7b" ++ c_str j.item_start_end
      | some p =>
        if p.flags &&& SECTION_FLAG_IS_ARRAY = 0 then
          cs "\"" ++ json_escape_str [] sect.name ++ cs "\": \x7b" ++ c_str j.item_start_end
        else
          cs "\x7b" ++ c_str j.item_start_end ++
          (if p.id = SECTION_ID_PACKETS_AND_FRAMES then
            (if j.compact = 0 then json_indent_text (j.indent_level + 1) else []) ++
            cs "\"type\": \"" ++ c_str sect.name ++ cs "\""
          else []))

/-- The context `json_print_section_header` returns. -/
def json_header_result (w : WriterContext) (sect : Section) (parent : Option Section) :
    WriterContext :=
  { w with
    priv := { w.priv with indent_level := w.priv.indent_level + 1 },
    out := w.out ++ json_header_sep w ++ json_header_text w.priv sect parent,
    nb_item :=
      if json_header_typed sect parent then
        w.nb_item.set w.level.toNat (uint_inc (w.nb_item.getD w.level.toNat 0))
      else w.nb_item }


/-- The context `writer_print_section_header` hands to the backend when
`show_streams` opens the first `stream` of the `streams` array. -/
def ctx_stream_header : WriterContext :=
  { ctx_streams with
    level := 2,
    section_ := [some SECTION_ID_ROOT, some SECTION_ID_STREAMS, some SECTION_ID_STREAM, none,
      none, none, none, none, none, none] }

/-- The text `json_print_section_footer` writes for the open section `sect`
at a level, the indent level being the one before the call. -/
def json_footer_text (j : JSONContext) (level : Int) (sect : Section) : List Byte :=
  if level = 0 then cs "\n\x7d\n"
  else if sect.flags &&& SECTION_FLAG_IS_ARRAY ≠ 0 then
    [0x0a] ++ json_indent_text (j.indent_level - 1) ++ [0x5d]
  else
    c_str j.item_start_end ++
    (if j.compact = 0 then json_indent_text (j.indent_level - 1) else []) ++ [0x7d]

/-- The context `json_print_section_footer` returns. -/
def json_footer_result (w : WriterContext) (sect : Section) : WriterContext :=
  { w with
    priv := { w.priv with indent_level := w.priv.indent_level - 1 },
    out := w.out ++ json_footer_text w.priv w.level sect }

/-- The context `writer_print_section_header` hands to the backend when it
opens the section `section_id` in `parent`. -/
def writer_header_enter (w : WriterContext) (section_id : Int) (parent : Option Section) :
    WriterContext :=
  { w with
    level := w.level + 1,
    nb_item := w.nb_item.set (w.level + 1).toNat 0,
    section_ := w.section_.set (w.level + 1).toNat (some section_id),
    nb_section_packet :=
      if section_id = SECTION_ID_PACKETS_AND_FRAMES then 0 else w.nb_section_packet,
    nb_section_frame :=
      if section_id = SECTION_ID_PACKETS_AND_FRAMES then 0 else w.nb_section_frame,
    nb_section_packet_frame :=
      if section_id = SECTION_ID_PACKETS_AND_FRAMES then 0
      else if (parent.map Section.id).getD SECTION_ID_NONE = SECTION_ID_PACKETS_AND_FRAMES then
        (if section_id = SECTION_ID_PACKET then w.nb_section_packet else w.nb_section_frame)
      else w.nb_section_packet_frame }

/-- The context `writer_print_section_footer` hands to the backend when it
closes the section `sect` opened in `parent`. -/
def writer_footer_leave (w : WriterContext) (sect : Section) (parent : Option Section) :
    WriterContext :=
  { w with
    nb_item :=
      match parent with
      | none => w.nb_item
      | some _ =>
        w.nb_item.set (w.level - 1).toNat (uint_inc (w.nb_item.getD (w.level - 1).toNat 0)),
    nb_section_packet :=
      if (parent.map Section.id).getD SECTION_ID_NONE = SECTION_ID_PACKETS_AND_FRAMES ∧
          sect.id = SECTION_ID_PACKET then uint_inc w.nb_section_packet
      else w.nb_section_packet,
    nb_section_frame :=
      if (parent.map Section.id).getD SECTION_ID_NONE = SECTION_ID_PACKETS_AND_FRAMES ∧
          sect.id ≠ SECTION_ID_PACKET then uint_inc w.nb_section_frame
      else w.nb_section_frame }

/-- An element of the `packets_and_frames` array that holds nothing of its
own: an object, at the indent level of the array, whose only member is the
field `type` with the name of the section. -/
def json_typed_object (j : JSONContext) (name : List Byte) : List Byte :=
  json_indent_text j.indent_level ++ cs "\x7b" ++ c_str j.item_start_end ++
  (if j.compact = 0 then json_indent_text (j.indent_level + 1) else []) ++
  cs "\"type\": \"" ++ c_str name ++ cs "\"" ++
  c_str j.item_start_end ++
  (if j.compact = 0 then json_indent_text j.indent_level else []) ++ cs "\x7d"

/-- The `packets_and_frames` array is open at the current level, which is
below the last one, and its counters are as given. -/
def paf_open (w : WriterContext) (nb_item nb_packet nb_frame : Nat) : Prop :=
  w.wf ∧ 0 ≤ w.level ∧ w.level < 9 ∧ w.sections = sections ∧
  w.section_.getD w.level.toNat none = some SECTION_ID_PACKETS_AND_FRAMES ∧
  w.nb_item.getD w.level.toNat 0 = nb_item ∧
  w.nb_section_packet = nb_packet ∧ w.nb_section_frame = nb_frame

/-- The lowercase hexadecimal digit of a value below 16. -/
def hex_digit (n : Nat) : Byte :=
  if n < 10 then UInt8.ofNat (0x30 + n) else UInt8.ofNat (0x61 + (n - 10))

/-- What the spec says `json_escape_str` writes for one byte: a backslash and
the same character for the double quote and the backslash; a backslash and
`b`, `f`, `n`, `r`, `t` for backspace, form feed, newline, carriage return and
tab; a backslash, `u00` and two lowercase hexadecimal digits for any other
byte below `0x20`; the byte itself otherwise. -/
def json_escape_byte_spec (c : Byte) : List Byte :=
  if c = 0x22 ∨ c = 0x5c then [0x5c, c]
  else if c = 0x08 then [0x5c, 0x62]
  else if c = 0x0c then [0x5c, 0x66]
  else if c = 0x0a then [0x5c, 0x6e]
  else if c = 0x0d then [0x5c, 0x72]
  else if c = 0x09 then [0x5c, 0x74]
  else if c < 0x20 then
    [0x5c, 0x75, 0x30, 0x30, hex_digit (c.toNat / 16), hex_digit (c.toNat % 16)]
  else [c]

/-- A byte is a hexadecimal digit. -/
def is_hex_digit (c : Byte) : Bool :=
  (0x30 ≤ c && c ≤ 0x39) || (0x61 ≤ c && c ≤ 0x66) || (0x41 ≤ c && c ≤ 0x46)

/-- One step of the recogniser of the body of a JSON string. The states are
0, between characters; 1, after a backslash; 2 to 5, in a unicode escape with
4 to 1 hexadecimal digits to come; 6, rejected: a byte below `0x20`, a double
quote outside an escape, or a backslash that starts no escape was read. -/
def json_string_step (st : Nat) (c : Byte) : Nat :=
  if st = 0 then
    if c = 0x5c then 1 else if c < 0x20 ∨ c = 0x22 then 6 else 0
  else if st = 1 then
    if c = 0x22 ∨ c = 0x5c ∨ c = 0x2f ∨ c = 0x62 ∨ c = 0x66 ∨ c = 0x6e ∨ c = 0x72 ∨ c = 0x74
    then 0
    else if c = 0x75 then 2 else 6
  else if st ≤ 5 then
    if is_hex_digit c then (if st = 5 then 0 else st + 1) else 6
  else 6

/-- The bytes may stand between the quotes of a JSON string: no byte below
`0x20`, no double quote outside an escape, and every backslash starts a
complete escape: a backslash followed by a double quote, a backslash, a slash
or one of the letters b, f, n, r, t, or by the letter u and four hexadecimal
digits. -/
def json_string_body (l : List Byte) : Bool :=
  l.foldl json_string_step 0 == 0

/-- The test of `json_print_str` and `json_print_int` for the separator, with
the reads resolved: the current level holds an item, or the section below is
the `packets_and_frames` array. -/
def json_item_sep_needed (w : WriterContext) (parent : Option Section) : Bool :=
  decide (w.nb_item.getD w.level.toNat 0 ≠ 0) ||
    decide ((parent.map Section.id).getD SECTION_ID_NONE = SECTION_ID_PACKETS_AND_FRAMES)

/-- What `json_print_str` and `json_print_int` write before the field: the
item separator when one is needed, and the indentation unless the output is
compact. -/
def json_item_prefix (w : WriterContext) (parent : Option Section) : List Byte :=
  (if json_item_sep_needed w parent then c_str w.priv.item_sep else []) ++
  (if w.priv.compact = 0 then json_indent_text w.priv.indent_level else [])

/-- The text of a string field, as `json_print_item_str` writes it. -/
def json_str_item (key value : List Byte) : List Byte :=
  cs "\"" ++ json_escape_str [] key ++ cs "\":" ++ cs " \"" ++ json_escape_str [] value ++ cs "\""

/-- The text of an integer field, as `json_print_int` writes it. -/
def json_int_item (key : List Byte) (value : Int) : List Byte :=
  cs "\"" ++ json_escape_str [] key ++ cs "\": " ++ fmt_d value

/-- The context after a visible field with the text `item` was written: the
output has grown and the item counter of the level is one higher, modulo
`2 ^ 32`. -/
def writer_field_result (w : WriterContext) (parent : Option Section) (item : List Byte) :
    WriterContext :=
  { w with
    out := w.out ++ json_item_prefix w parent ++ item,
    nb_item := w.nb_item.set w.level.toNat (uint_inc (w.nb_item.getD w.level.toNat 0)) }

/-- Modelled from the spec: the macro `AV_NOPTS_VALUE` of libavutil, not under
src/, which the spec calls the unknown sentinel: the least `int64_t`. -/
def AV_NOPTS_VALUE : Int := -9223372036854775808

/-- The C `struct AVRational`. -/
structure AVRational where
  num : Int
  den : Int
deriving DecidableEq, Repr

def writer_print_rational (wctx : WriterContext) (key : List Byte) (q : AVRational)
    (sep : Byte) : Result WriterContext := do
  let buf := fmt_d q.num ++ [sep] ++ fmt_d q.den
  let r ← writer_print_string wctx key buf 0
  pure r.2

/-- The text `value_string` leaves in its buffer for the unit
`unit_second_str`: the double `ts * av_q2d(*time_base)` as `snprintf` renders
it with `%f`, cut to the 127 characters the buffer of `writer_print_time`
holds. The report routines take the rendering as a parameter, any function of
the tick and the time base; the rendering of the program is `seconds_string`,
which is `value_string` on the text of `%f`. -/
abbrev SecondsString := Int → AVRational → List Byte

def writer_print_time (value_string : SecondsString) (wctx : WriterContext) (key : List Byte)
    (ts : Int) (time_base : AVRational) (is_duration : Int) : Result WriterContext :=
  if (is_duration = 0 ∧ ts = AV_NOPTS_VALUE) ∨ (is_duration ≠ 0 ∧ ts = 0) then do
    let r ← writer_print_string wctx key (cs "N/A") PRINT_STRING_OPT
    pure r.2
  else do
    let r ← writer_print_string wctx key (value_string ts time_base) 0
    pure r.2

def writer_print_ts (wctx : WriterContext) (key : List Byte) (ts : Int) (is_duration : Int) :
    Result WriterContext :=
  if (is_duration = 0 ∧ ts = AV_NOPTS_VALUE) ∨ (is_duration ≠ 0 ∧ ts = 0) then do
    let r ← writer_print_string wctx key (cs "N/A") PRINT_STRING_OPT
    pure r.2
  else writer_print_integer wctx key ts

/-- The `format` section open in the root section, before its first field. -/
def ctx_format : WriterContext :=
  { ctx_root with
    level := 1,
    section_ := [some SECTION_ID_ROOT, some SECTION_ID_FORMAT, none, none, none, none, none,
      none, none, none],
    priv := { ctx_root.priv with indent_level := 2 },
    out := cs "\x7b\n    \"format\": \x7b\n" }

/-- A rendering of seconds for the examples: six decimals of whole seconds for
the time base 1/1. -/
def seconds_example : SecondsString := fun ts _ => fmt_d ts ++ cs ".000000"

/-- A field call of the macros `print_str`, `print_int`, `print_q` and of
`writer_print_integers` and `writer_print_data_hash`: each ends in
`writer_print_string` without flags or in `writer_print_integer`. -/
inductive FieldCall where
  | str (key val : List Byte)
  | int (key : List Byte) (val : Int)
deriving DecidableEq, Repr

/-- The field calls of a list, one after the other. -/
def run_fields : List FieldCall → WriterContext → Result WriterContext
  | [], wctx => pure wctx
  | FieldCall.str key val :: fs, wctx => do
    let r ← writer_print_string wctx key val 0
    run_fields fs r.2
  | FieldCall.int key val :: fs, wctx => do
    let wctx ← writer_print_integer wctx key val
    run_fields fs wctx

/-- One `AVPacketSideData` record as `print_pkt_side_data` reads it: the name
`av_packet_side_data_name(sd->type)` gives for its type, `NULL` when the type
has none, and the field calls the chain of `if`s on the type makes from the
data of the record. -/
structure AVPacketSideData where
  name : Option (List Byte)
  fields : List FieldCall
deriving DecidableEq, Repr

/-- The body of the loop of `print_pkt_side_data` for one record. -/
def print_pkt_side_data_record (id_data : Int) (w : WriterContext) (sd : AVPacketSideData) :
    Result WriterContext := do
  let w ← writer_print_section_header w id_data
  let r ← writer_print_string w (cs "side_data_type") (sd.name.getD (cs "unknown")) 0
  let w ← run_fields sd.fields r.2
  writer_print_section_footer w

/-- The loop of `print_pkt_side_data` over the records. -/
def print_pkt_side_data_loop (id_data : Int) :
    List AVPacketSideData → WriterContext → Result WriterContext
  | [], w => pure w
  | sd :: side_data, w =>
    print_pkt_side_data_record id_data w sd >>= print_pkt_side_data_loop id_data side_data

def print_pkt_side_data (w : WriterContext) (side_data : List AVPacketSideData)
    (id_data_list id_data : Int) : Result WriterContext := do
  let w ← writer_print_section_header w id_data_list
  let w ← print_pkt_side_data_loop id_data side_data w
  writer_print_section_footer w

/-- The context after `show_stream` has opened the first `stream` of the
`streams` array. -/
def ctx_stream : WriterContext :=
  { ctx_stream_header with
    priv := { ctx_stream_header.priv with indent_level := 3 },
    out := cs "\x7b\n    \"streams\": [\n        \x7b\n" }

/-- A side-data record of the type `AV_PKT_DATA_DISPLAYMATRIX` with a rotation
of 90 degrees. -/
def side_data_displaymatrix : AVPacketSideData :=
  { name := some (cs "Display Matrix"),
    fields := [FieldCall.int (cs "rotation") (-90)] }

/-- The character `writer_print_data` shows for a byte in its ASCII column:
`data[i] - 32U < 95 ? data[i] : '.'`, computed in `unsigned int`. -/
def writer_print_data_char (b : Byte) : Byte :=
  if (b.toNat + 4294967296 - 32) % 4294967296 < 95 then b else 0x2e

/-- The loop of `writer_print_data`: one row for each turn, `bp` being the
print buffer. -/
def writer_print_data_loop : Nat → List Byte → Nat → List Byte → Nat → List Byte
  | 0, bp, _, _, _ => bp
  | fuel + 1, bp, offset, data, size =>
    if size = 0 then bp
    else
      let bp := bp ++ fmt_0x 8 offset ++ cs ": "
      let l := min size 16
      let bp := bp ++ (List.range l).flatMap (fun i =>
        fmt_0x 2 (data.getD i 0).toNat ++ (if i &&& 1 ≠ 0 then cs " " else []))
      let bp := bp ++ List.replicate (41 - 2 * l - l / 2) 0x20
      let bp := bp ++ (List.range l).flatMap (fun i => [writer_print_data_char (data.getD i 0)])
      let bp := bp ++ cs "\n"
      writer_print_data_loop fuel bp (offset + l) (data.drop l) (size - l)

/-- The text `writer_print_data` builds in its print buffer for `size` bytes
at `data`; every turn of the loop consumes a byte at least, so `size` turns
are enough. -/
def writer_print_data_text (data : List Byte) (size : Nat) : List Byte :=
  writer_print_data_loop size (cs "\n") 0 data size

def writer_print_data (wctx : WriterContext) (name : List Byte) (data : List Byte)
    (size : Nat) : Result WriterContext := do
  let r ← writer_print_string wctx name (writer_print_data_text data size) 0
  pure r.2

/-- The hexadecimal column of a row as the spec describes it: two lowercase
hexadecimal digits for each byte and one space after every second byte. -/
def hexdump_pairs : List Byte → List Byte
  | [] => []
  | [a] => fmt_0x 2 a.toNat
  | a :: b :: rest => fmt_0x 2 a.toNat ++ fmt_0x 2 b.toNat ++ [0x20] ++ hexdump_pairs rest

/-- The character of the ASCII column as the spec describes it: the byte
itself when it is in `0x20 .. 0x7E`, a dot otherwise. -/
def hexdump_char (b : Byte) : Byte :=
  if 0x20 ≤ b ∧ b ≤ 0x7e then b else 0x2e

/-- What precedes the ASCII column in the row of the bytes `row` at `offset`:
the offset in eight hexadecimal digits, a colon and a space, the hexadecimal
column, and blanks up to position 51. -/
def hexdump_row_head (offset : Nat) (row : List Byte) : List Byte :=
  fmt_0x 8 offset ++ cs ": " ++ hexdump_pairs row ++
    List.replicate (51 - 10 - (hexdump_pairs row).length) 0x20

/-- A row of the dump as the spec describes it. -/
def hexdump_row (offset : Nat) (row : List Byte) : List Byte :=
  hexdump_row_head offset row ++ row.map hexdump_char ++ [0x0a]

/-- The dump as the spec describes it: a newline and then, for each `k` below
`ceil(n / 16)`, the row of the bytes `16 k .. min (16 k + 16) n - 1` at the
offset `16 k`. -/
def hexdump (data : List Byte) : List Byte :=
  [0x0a] ++ (List.range ((data.length + 15) / 16)).flatMap (fun k =>
    hexdump_row (16 * k) ((data.drop (16 * k)).take 16))

/-- Modelled from the spec: the macros `AV_RN16` and `AV_RN32` of libavutil,
not under src/, which the spec calls reading a little/host-order integer, and
`*data` for one byte: the unsigned integer the first `bytes` bytes at `data`
hold in the byte order of the host, little-endian for the WebAssembly
target. -/
def av_rn (bytes : Nat) (data : List Byte) : Nat :=
  ((List.range bytes).map (fun i => (data.getD i 0).toNat * 256 ^ i)).sum

/-- The `for` loop of `writer_print_integers` over the `l` elements of a row:
the print buffer and the data pointer after it. `format` is what `av_bprintf`
writes for the caller's format string and one element. -/
def writer_print_integers_row (format : Nat → List Byte) (bytes : Nat) :
    Nat → List Byte → List Byte → List Byte × List Byte
  | 0, bp, data => (bp, data)
  | l + 1, bp, data =>
    let bp :=
      if bytes = 1 then bp ++ format (av_rn 1 data)
      else if bytes = 2 then bp ++ format (av_rn 2 data)
      else if bytes = 4 then bp ++ format (av_rn 4 data)
      else bp
    writer_print_integers_row format bytes l bp (data.drop bytes)

/-- The `while` loop of `writer_print_integers`. The `int offset` is printed
with `%08x`, that is as the `unsigned int` of the same bits. -/
def writer_print_integers_loop (format : Nat → List Byte) (columns bytes : Nat)
    (offset_add : Int) : Nat → List Byte → Int → List Byte → Nat → List Byte
  | 0, bp, _, _, _ => bp
  | fuel + 1, bp, offset, data, size =>
    if size = 0 then bp
    else
      let bp := bp ++ fmt_0x 8 (offset % 4294967296).toNat ++ cs ": "
      let l := min size columns
      let r := writer_print_integers_row format bytes l bp data
      let bp := r.1 ++ cs "\n"
      writer_print_integers_loop format columns bytes offset_add fuel bp (offset + offset_add)
        r.2 (size - l)

/-- The text `writer_print_integers` builds in its print buffer when its loop
is given `fuel` turns. -/
def writer_print_integers_text (fuel : Nat) (data : List Byte) (size : Nat)
    (format : Nat → List Byte) (columns bytes : Nat) (offset_add : Int) : List Byte :=
  writer_print_integers_loop format columns bytes offset_add fuel (cs "\n") 0 data size

def writer_print_integers (fuel : Nat) (wctx : WriterContext) (name : List Byte)
    (data : List Byte) (size : Nat) (format : Nat → List Byte) (columns bytes : Nat)
    (offset_add : Int) : Result WriterContext := do
  let r ← writer_print_string wctx name
    (writer_print_integers_text fuel data size format columns bytes offset_add) 0
  pure r.2

/-- Row `k` of the columned dump as the spec describes it: the offset label,
a colon and a space, the elements `k c .. min (k c + c) n - 1`, each of
`bytes` bytes and rendered by the format, and a newline. The label is the
eight hexadecimal digits of `k a` taken modulo `2 ^ 32`. -/
def integers_row (data : List Byte) (n : Nat) (format : Nat → List Byte) (c bytes : Nat)
    (a : Int) (k : Nat) : List Byte :=
  fmt_0x 8 ((k * a) % 4294967296).toNat ++ cs ": " ++
    (List.range (min c (n - k * c))).flatMap (fun j =>
      format (av_rn bytes (data.drop ((k * c + j) * bytes)))) ++ [0x0a]

/-- The columned dump as the spec describes it: a newline and `ceil(n / c)`
rows. -/
def integers_dump (data : List Byte) (n : Nat) (format : Nat → List Byte) (c bytes : Nat)
    (a : Int) : List Byte :=
  [0x0a] ++ (List.range ((n + c - 1) / c)).flatMap (integers_row data n format c bytes a)

/-- What `av_bprintf` writes for the format of the display matrix, a blank and
`%11d`, and an element read by `AV_RN32`: the element as an `int`, right
justified in eleven columns. -/
def fmt_displaymatrix (v : Nat) : List Byte :=
  let d := fmt_d (if v < 2147483648 then (v : Int) else (v : Int) - 4294967296)
  cs " " ++ List.replicate (11 - d.length) 0x20 ++ d

/-- A display matrix: the nine 32-bit elements of the rotation by 90 degrees
in 16.16 fixed point (the last in 2.30), little-endian. -/
def displaymatrix_example : List Byte :=
  [0, 0, 0, 0,  0, 0, 1, 0,  0, 0, 0, 0,
   0, 0, 0xff, 0xff,  0, 0, 0, 0,  0, 0, 0, 0,
   0, 0, 0, 0,  0, 0, 0, 0,  0, 0, 0, 0x40]

/-! ## Reading the output back: a JSON parser

The parser is the reference the output of the JSON backend is held against; it
is no part of `probe.c`. -/

/-- What a JSON parser is doing between two bytes. -/
inductive JMode where
  /-- a value must start: at the top, after a colon, or after a comma in an
  array -/
  | value
  /-- after an opening bracket: a value or the closing bracket -/
  | value_or_close
  /-- after an opening brace: a key or the closing brace -/
  | key_or_close
  /-- after a comma in an object: a key -/
  | key
  /-- after a key: the colon -/
  | colon
  /-- after a value in an object or an array: a comma or the closing brace or
  bracket -/
  | after_value
  /-- in a string, a key or a value, `lex` being the state of
  `json_string_step` -/
  | str (is_key : Bool) (lex : Nat)
  /-- in a number: 1 after the sign, 2 after a leading zero, 3 in the digits
  of the integer part, 4 after the point, 5 in the digits of the fraction, 6
  after the `e`, 7 after the sign of the exponent, 8 in the digits of the
  exponent -/
  | num (st : Nat)
  /-- in `true`, `false` or `null`, with the bytes still to come -/
  | lit (rest : List Byte)
  /-- the value of the document is complete -/
  | done
  /-- the bytes read are not the start of a JSON document -/
  | error
deriving DecidableEq, Repr

/-- The state of a JSON parser that keeps the nesting only: the open
containers, innermost first (`true` for an object, `false` for an array), the
mode, the deepest nesting seen so far and the number of keys read at that
depth. -/
structure JState where
  stack : List Bool
  mode : JMode
  maxdepth : Nat
  deepkeys : Nat
deriving DecidableEq, Repr

/-- JSON whitespace: space, tab, line feed, carriage return. -/
def json_ws (c : Byte) : Bool := c = 0x20 || c = 0x09 || c = 0x0a || c = 0x0d

def json_digit (c : Byte) : Bool := 0x30 ≤ c && c ≤ 0x39

/-- A value is complete: the document is, when no container is open. -/
def JState.complete (s : JState) : JState :=
  { s with mode := if s.stack = [] then JMode.done else JMode.after_value }

/-- A container opens. -/
def JState.push (s : JState) (is_obj : Bool) : JState :=
  { stack := is_obj :: s.stack,
    mode := if is_obj then JMode.key_or_close else JMode.value_or_close,
    maxdepth := max s.maxdepth (s.stack.length + 1),
    deepkeys := if s.maxdepth < s.stack.length + 1 then 0 else s.deepkeys }

/-- The innermost container closes. -/
def JState.pop (s : JState) : JState :=
  JState.complete { s with stack := s.stack.tail }

def JState.fail (s : JState) : JState := { s with mode := JMode.error }

/-- The first byte of a value. -/
def json_start_value (s : JState) (c : Byte) : JState :=
  if c = 0x7b then s.push true
  else if c = 0x5b then s.push false
  else if c = 0x22 then { s with mode := JMode.str false 0 }
  else if c = 0x2d then { s with mode := JMode.num 1 }
  else if c = 0x30 then { s with mode := JMode.num 2 }
  else if json_digit c then { s with mode := JMode.num 3 }
  else if c = 0x74 then { s with mode := JMode.lit (cs "rue") }
  else if c = 0x66 then { s with mode := JMode.lit (cs "alse") }
  else if c = 0x6e then { s with mode := JMode.lit (cs "ull") }
  else s.fail

/-- The next state of the number recogniser for a byte of a number, 0 when the
byte cannot follow. -/
def json_num_step (st : Nat) (c : Byte) : Nat :=
  if st = 1 then (if c = 0x30 then 2 else if json_digit c then 3 else 0)
  else if st = 2 then (if c = 0x2e then 4 else if c = 0x65 ∨ c = 0x45 then 6 else 0)
  else if st = 3 then
    (if json_digit c then 3 else if c = 0x2e then 4 else if c = 0x65 ∨ c = 0x45 then 6 else 0)
  else if st = 4 then (if json_digit c then 5 else 0)
  else if st = 5 then (if json_digit c then 5 else if c = 0x65 ∨ c = 0x45 then 6 else 0)
  else if st = 6 then (if c = 0x2b ∨ c = 0x2d then 7 else if json_digit c then 8 else 0)
  else if st = 7 then (if json_digit c then 8 else 0)
  else if st = 8 then (if json_digit c then 8 else 0)
  else 0

/-- A number may end in this state. -/
def json_num_final (st : Nat) : Bool := st = 2 || st = 3 || st = 5 || st = 8

/-- One byte read between tokens. -/
def json_step_token (s : JState) (c : Byte) : JState :=
  if json_ws c then s
  else match s.mode with
    | JMode.value => json_start_value s c
    | JMode.value_or_close =>
      if c = 0x5d then s.pop else json_start_value s c
    | JMode.key_or_close =>
      if c = 0x7d then s.pop
      else if c = 0x22 then { s with mode := JMode.str true 0 }
      else s.fail
    | JMode.key =>
      if c = 0x22 then { s with mode := JMode.str true 0 } else s.fail
    | JMode.colon =>
      if c = 0x3a then { s with mode := JMode.value } else s.fail
    | JMode.after_value =>
      if c = 0x2c then
        { s with mode := if s.stack.head? = some true then JMode.key else JMode.value }
      else if c = 0x7d ∧ s.stack.head? = some true then s.pop
      else if c = 0x5d ∧ s.stack.head? = some false then s.pop
      else s.fail
    | _ => s.fail

/-- One byte read by the parser. -/
def json_step (s : JState) (c : Byte) : JState :=
  match s.mode with
  | JMode.error => s
  | JMode.str is_key lex =>
    if lex = 0 ∧ c = 0x22 then
      if is_key then
        { s with mode := JMode.colon,
                 deepkeys := if s.stack.length = s.maxdepth then s.deepkeys + 1 else s.deepkeys }
      else s.complete
    else if json_string_step lex c = 6 then s.fail
    else { s with mode := JMode.str is_key (json_string_step lex c) }
  | JMode.num st =>
    if json_num_step st c ≠ 0 then { s with mode := JMode.num (json_num_step st c) }
    else if json_num_final st then json_step_token s.complete c
    else s.fail
  | JMode.lit rest =>
    match rest with
    | [] => s.fail
    | r :: rs =>
      if c = r then (if rs = [] then s.complete else { s with mode := JMode.lit rs })
      else s.fail
  | _ => json_step_token s c

/-- The parser before the first byte. -/
def json_init_state : JState := { stack := [], mode := JMode.value, maxdepth := 0, deepkeys := 0 }

/-- The parser after the bytes of a text. -/
def json_run (s : JState) (text : List Byte) : JState := text.foldl json_step s

/-- The end of the text: the document is well-formed when its value is
complete, a number at the top being complete when it may end. -/
def json_finish (s : JState) : Option (Nat × Nat) :=
  match s.mode with
  | JMode.done => some (s.maxdepth, s.deepkeys)
  | JMode.num st =>
    if json_num_final st ∧ s.stack = [] then some (s.maxdepth, s.deepkeys) else none
  | _ => none

/-- Parses a text as a JSON document (RFC 8259: one value, an object, an
array, a string, a number or a literal, with whitespace around the tokens)
and returns, when the text is well-formed, the depth of the nesting of its
objects and arrays and the number of keys of the objects at that depth. The
bytes of a string above `0x7f` are taken as they are: the encoding of the
characters is not looked into. -/
def json_parse (text : List Byte) : Option (Nat × Nat) :=
  json_finish (json_run json_init_state text)

/-- The string recogniser run over bytes inside a string: the state of
`json_string_step` after them, or nothing when one of them ends the string or
is rejected. -/
def json_str_lex : Nat → List Byte → Option Nat
  | lex, [] => some lex
  | lex, c :: rest =>
    if lex = 0 ∧ c = 0x22 then none
    else if json_string_step lex c = 6 then none
    else json_str_lex (json_string_step lex c) rest

/-- The parser after the closing quote of a key: the colon is next, and the
key counts when the object is at the deepest nesting seen. -/
def JState.after_key (s : JState) : JState :=
  { s with mode := JMode.colon,
           deepkeys := if s.stack.length = s.maxdepth then s.deepkeys + 1 else s.deepkeys }

/-- The private data of the JSON writer as `json_init` leaves it. -/
def json_priv_ok (j : JSONContext) : Prop :=
  (j.compact = 0 ∧ j.item_sep = cs ",\n" ∧ j.item_start_end = cs "\n") ∨
  (j.compact ≠ 0 ∧ j.item_sep = cs ", " ∧ j.item_start_end = cs " ")

/-- The section renders as a JSON object, not as an array. -/
def Section.is_obj (sect : Section) : Bool := sect.flags &&& SECTION_FLAG_IS_ARRAY = 0

/-- The section at a level renders as an object. -/
def WriterContext.kind_at (w : WriterContext) (i : Nat) : Bool :=
  match w.section_.getD i none with
  | some k =>
    match w.sections[k.toNat]? with
    | some sect => sect.is_obj
    | none => true
  | none => true

/-- The kinds of the sections at the levels below `n`, innermost first. -/
def WriterContext.kinds_upto (w : WriterContext) : Nat → List Bool
  | 0 => []
  | n + 1 => w.kind_at n :: WriterContext.kinds_upto w n

/-- The kinds of the open sections, innermost first: the containers a parser
of the output has open. -/
def WriterContext.kinds (w : WriterContext) : List Bool :=
  w.kinds_upto (w.level + 1).toNat

/-- The mode of the parser after the opening of a container. -/
def json_open_mode (is_obj : Bool) : JMode :=
  if is_obj then JMode.key_or_close else JMode.value_or_close

/-- The output of a writer of the catalog, set up by `json_init` and with the
root section at level 0, is read by the parser as the start of a document: the
open containers are the open sections, and the parser is in the given mode
with the given record of the nesting. -/
def json_sim (w : WriterContext) (m : JMode) (maxdepth deepkeys : Nat) : Prop :=
  w.wf ∧ w.sections = sections ∧ json_priv_ok w.priv ∧
  w.section_[0]? = some (some SECTION_ID_ROOT) ∧
  json_run json_init_state w.out =
    { stack := w.kinds, mode := m, maxdepth := maxdepth, deepkeys := deepkeys }

/-! ## Chains of nested sections -/

/-- The section `c` is listed among the children of the section `p` in the
catalog. -/
def section_child (p c : Nat) : Bool :=
  match sections[p]? with
  | some sp => decide ((c : Int) ∈ sp.children_ids)
  | none => false

/-- From `p` on, each section of the list is a child of the one before it. -/
def chain_links : Nat → List Nat → Bool
  | _, [] => true
  | p, c :: rest => section_child p c && chain_links c rest

/-- A chain of nested sections of the schema, outermost first: the root
section, and then each section a permitted child of the one before it. -/
def chain_permitted : List Nat → Bool
  | [] => false
  | r :: rest => decide ((r : Int) = SECTION_ID_ROOT) && chain_links r rest

/-- The last section of a chain that starts with `p`. -/
def chain_last : Nat → List Nat → Nat
  | p, [] => p
  | _, c :: rest => chain_last c rest

/-- Renders a chain of nested sections with string fields in the deepest one:
the headers from the outermost section in, the fields, and the footers. -/
def render_chain (w : WriterContext) (chain : List Nat)
    (fields : List (List Byte × List Byte)) : Result WriterContext := do
  let w ← run_ops (chain.map (fun (k : Nat) => SectionOp.header (k : Int))) w
  let w ← run_fields (fields.map (fun f => FieldCall.str f.1 f.2)) w
  run_ops (chain.map (fun _ => SectionOp.footer)) w

/-- The depth of each section of the catalog below the root section, by id
(1 for `packets_and_frames`, which is no child of any section). -/
def section_rank : List Nat :=
  [2, 3, 1, 1, 1, 2, 2, 1, 3, 3, 4, 5, 6, 5, 6, 7, 8, 4, 3, 2, 1, 2, 3, 1, 1, 3, 4, 2, 3, 4,
   3, 1, 5, 5, 2, 3, 4, 3, 1, 1, 0, 2, 3, 1, 3, 3, 4, 2]

/-- What the catalog grants for a section `c` listed as a child of `p`: it is
not `packets_and_frames`, it is no wrapper, it is no array when `p` is one,
and it lies deeper than `p`. -/
def section_child_ok (p c : Nat) : Bool :=
  match sections[p]?, sections[c]? with
  | some sp, some sc =>
    decide (c ≠ 24) && decide (sc.flags &&& SECTION_FLAG_IS_WRAPPER = 0) &&
      (sp.is_obj || sc.is_obj) && decide (section_rank.getD p 0 < section_rank.getD c 0)
  | _, _ => false

/-- The deepest section of a chain. -/
def chain_deepest : List Nat → Option Section
  | [] => none
  | r :: rest => sections[chain_last r rest]?

/-! ## Values with a unit -/

/-- The unit strings `unit_second_str`, `unit_hertz_str`, `unit_byte_str` and
`unit_bit_per_second_str`, which `value_string` tells apart by address. -/
inductive UnitStr where
  | unit_second_str
  | unit_hertz_str
  | unit_byte_str
  | unit_bit_per_second_str
deriving DecidableEq, Repr

/-- The C `struct unit_value`. `val` stands for the 64 bits of the union: the
member `i` is their value as a `long long int`; the member `d` is the double
with the same bits. -/
structure unit_value where
  val : Int
  unit : UnitStr
deriving DecidableEq, Repr

/-- The string `snprintf(buf, buf_size, ...)` leaves in `buf` for a text: the
text cut to `buf_size - 1` characters. -/
def snprintf (buf_size : Nat) (text : List Byte) : List Byte := text.take (buf_size - 1)

/-- Modelled from the spec: `av_strlcatf` of libavutil, not under src/, which
appends a formatted text to the string in `buf` as far as a buffer of
`buf_size` bytes holds it. -/
def av_strlcatf (buf : List Byte) (buf_size : Nat) (text : List Byte) : List Byte :=
  (buf ++ text).take (buf_size - 1)

/-- The function `value_string`: the string it leaves in `buf`. `fmt_f` is the
text `%f` gives for the double whose bits are those of a `long long int`;
in the program it is `fmt_double`. The two blocks the source guards
with a constant zero (the sexagesimal format under `&& 0` and the magnitude
prefixes under `0 &&`) are never entered, and the constant zeros of the
remaining conditions are written `False`. -/
def value_string (fmt_f : Int → List Byte) (buf_size : Nat) (uv : unit_value) : List Byte :=
  let show_float : Bool := decide (uv.unit = UnitStr.unit_second_str)
  let vali : Int := uv.val
  let prefix_string : List Byte := []
  let buf :=
    if show_float = true ∨ False then snprintf buf_size (fmt_f uv.val)
    else snprintf buf_size (fmt_d vali)
  av_strlcatf buf buf_size
    ((if prefix_string ≠ [] ∨ False then cs " " else []) ++ prefix_string ++
      (if False then cs "unit" else []))

/-- The macro `print_val`, whose buffer `val_str` has 128 bytes. -/
def print_val (fmt_f : Int → List Byte) (w : WriterContext) (k : List Byte) (v : Int)
    (u : UnitStr) : Result (Int × WriterContext) :=
  writer_print_string w k (value_string fmt_f 128 { val := v, unit := u }) 0

/-- The `format` section open in the root section, before its first field,
under the `fail` policy. -/
def ctx_format_strict : WriterContext :=
  { ctx_format with string_validation := WRITER_STRING_VALIDATION_FAIL }

/-- The ids of the open sections of a context, outermost first: the entries of
`wctx->section` up to the current level. -/
def WriterContext.open_ids (w : WriterContext) : List Nat :=
  (List.range (w.level + 1).toNat).map (fun i => ((w.section_.getD i none).getD 0).toNat)

/-! ## Reading an escaped string back -/

/-- The value of a hexadecimal digit. -/
def hex_value (c : Byte) : Nat :=
  if 0x30 ≤ c ∧ c ≤ 0x39 then c.toNat - 0x30
  else if 0x61 ≤ c ∧ c ≤ 0x66 then c.toNat - 0x61 + 10
  else c.toNat - 0x41 + 10

/-- The UTF-8 encoding of a code of at most 16 bits. -/
def utf8_encode (code : Nat) : List Byte :=
  if code < 0x80 then [UInt8.ofNat code]
  else if code < 0x800 then [UInt8.ofNat (0xc0 + code / 64), UInt8.ofNat (0x80 + code % 64)]
  else [UInt8.ofNat (0xe0 + code / 4096), UInt8.ofNat (0x80 + code / 64 % 64),
    UInt8.ofNat (0x80 + code % 64)]

/-- One step of the reading of the body of a JSON string (RFC 8259, section
7), which is no part of `probe.c`: the next state and the bytes the step
yields. The state is the mode, as in `json_string_step` (0, between
characters; 1, after a backslash; 2 to 5, in a unicode escape with 4 to 1
digits to come; 6, rejected), and the value of the digits of a unicode escape
read so far. A unicode escape yields the UTF-8 encoding of its code, each half
of a surrogate pair being taken on its own. -/
def json_unescape_step (s : Nat × Nat) (c : Byte) : (Nat × Nat) × List Byte :=
  if s.1 = 0 then
    if c = 0x5c then ((1, 0), [])
    else if c < 0x20 ∨ c = 0x22 then ((6, 0), [])
    else ((0, 0), [c])
  else if s.1 = 1 then
    if c = 0x22 ∨ c = 0x5c ∨ c = 0x2f then ((0, 0), [c])
    else if c = 0x62 then ((0, 0), [0x08])
    else if c = 0x66 then ((0, 0), [0x0c])
    else if c = 0x6e then ((0, 0), [0x0a])
    else if c = 0x72 then ((0, 0), [0x0d])
    else if c = 0x74 then ((0, 0), [0x09])
    else if c = 0x75 then ((2, 0), [])
    else ((6, 0), [])
  else if s.1 ≤ 5 then
    if is_hex_digit c then
      (if s.1 = 5 then ((0, 0), utf8_encode (s.2 * 16 + hex_value c))
       else ((s.1 + 1, s.2 * 16 + hex_value c), []))
    else ((6, 0), [])
  else ((6, 0), [])

/-- The reading of a text from a state on, with the bytes yielded so far. -/
def json_unescape_run (s : (Nat × Nat) × List Byte) (text : List Byte) :
    (Nat × Nat) × List Byte :=
  text.foldl (fun s c => ((json_unescape_step s.1 c).1, s.2 ++ (json_unescape_step s.1 c).2)) s

/-- The string a JSON string body stands for, when the body is well-formed. -/
def json_unescape (text : List Byte) : Option (List Byte) :=
  let r := json_unescape_run ((0, 0), []) text
  if r.1.1 = 0 then some r.2 else none

/-! ## The report builder -/

/-- The macro `print_int`. -/
def print_int (w : WriterContext) (k : List Byte) (v : Int) : Result WriterContext :=
  writer_print_integer w k v

/-- The macro `print_str` as a statement: the return value is dropped. -/
def print_str (w : WriterContext) (k v : List Byte) : Result WriterContext := do
  let r ← writer_print_string w k v 0
  pure r.2

/-- The macro `print_str_opt` as a statement. -/
def print_str_opt (w : WriterContext) (k v : List Byte) : Result WriterContext := do
  let r ← writer_print_string w k v PRINT_STRING_OPT
  pure r.2

/-- The macro `print_str_validate`. -/
def print_str_validate (w : WriterContext) (k v : List Byte) : Result (Int × WriterContext) :=
  writer_print_string w k v PRINT_STRING_VALIDATE

/-- The macro `print_time`. -/
def print_time (value_string : SecondsString) (w : WriterContext) (k : List Byte) (v : Int)
    (tb : AVRational) : Result WriterContext :=
  writer_print_time value_string w k v tb 0

/-- Modelled from the spec: the macro `AV_TIME_BASE_Q` of libavutil, not under
src/: the time base of the times of a format context, one microsecond. -/
def AV_TIME_BASE_Q : AVRational := { num := 1, den := 1000000 }

/-- The function a routine of the report builder calls to open a section. The
program calls `writer_print_section_header`; the routines below take the
function as their first argument, so that a proof can put a check in front of
every call. -/
abbrev HeaderFn := WriterContext → Int → Result WriterContext

/-- The loop of `show_tags` over the entries of a dictionary, with the value
of `ret`; it ends at the first entry whose field fails. Modelled from the
spec: the iteration with `av_dict_get(tags, "", tag, AV_DICT_IGNORE_SUFFIX)`
of libavutil, not under src/, visits every entry, in order. -/
def show_tags_loop : AVDictionary → Int → WriterContext → Result (Int × WriterContext)
  | [], ret, w => pure (ret, w)
  | tag :: tags, _, w => do
    let r ← print_str_validate w tag.1 tag.2
    if r.1 < 0 then pure r else show_tags_loop tags r.1 r.2

/-- The function `show_tags`; `none` is the `NULL` dictionary. -/
def show_tags (hdr : HeaderFn) (w : WriterContext) (tags : Option AVDictionary)
    (section_id : Int) : Result (Int × WriterContext) :=
  match tags with
  | none => pure (0, w)
  | some tags => do
    let w ← hdr w section_id
    let r ← show_tags_loop tags 0 w
    let w ← writer_print_section_footer r.2
    pure (r.1, w)

/-- What `show_format` reads of the `AVFormatContext` of the input file:
`iformat_name` and `iformat_long_name` are the members of `fmt_ctx->iformat`
(`none` for `NULL`), and `size` is the local variable of that name, the size
`avio_size` gives or -1. -/
structure AVFormatContext where
  url : List Byte
  nb_streams : Int
  nb_programs : Int
  iformat_name : List Byte
  iformat_long_name : Option (List Byte)
  start_time : Int
  duration : Int
  size : Int
  bit_rate : Int
  probe_score : Int
  metadata : Option AVDictionary
deriving DecidableEq, Repr

/-- The function `show_format`. `value_string` is the rendering of seconds
and `fmt_f` the rendering of `%f`, as in `writer_print_time` and in
`value_string`. -/
def show_format (hdr : HeaderFn) (value_string : SecondsString) (fmt_f : Int → List Byte)
    (w : WriterContext) (fmt_ctx : AVFormatContext) : Result (Int × WriterContext) := do
  let w ← hdr w SECTION_ID_FORMAT
  let r ← print_str_validate w (cs "filename") fmt_ctx.url
  let w ← print_int r.2 (cs "nb_streams") fmt_ctx.nb_streams
  let w ← print_int w (cs "nb_programs") fmt_ctx.nb_programs
  let w ← print_str w (cs "format_name") fmt_ctx.iformat_name
  let w ←
    (match fmt_ctx.iformat_long_name with
      | some long_name => print_str w (cs "format_long_name") long_name
      | none => print_str_opt w (cs "format_long_name") (cs "unknown"))
  let w ← print_time value_string w (cs "start_time") fmt_ctx.start_time AV_TIME_BASE_Q
  let w ← print_time value_string w (cs "duration") fmt_ctx.duration AV_TIME_BASE_Q
  let w ←
    (if fmt_ctx.size ≥ 0 then do
      let r ← print_val fmt_f w (cs "size") fmt_ctx.size UnitStr.unit_byte_str
      pure r.2
    else print_str_opt w (cs "size") (cs "N/A"))
  let w ←
    (if fmt_ctx.bit_rate > 0 then do
      let r ← print_val fmt_f w (cs "bit_rate") fmt_ctx.bit_rate UnitStr.unit_bit_per_second_str
      pure r.2
    else print_str_opt w (cs "bit_rate") (cs "N/A"))
  let w ← print_int w (cs "probe_score") fmt_ctx.probe_score
  let r ← show_tags hdr w fmt_ctx.metadata SECTION_ID_FORMAT_TAGS
  let w ← writer_print_section_footer r.2
  pure (r.1, w)

/-- The function `print_pkt_side_data` with the function that opens the
sections as an argument. -/
def print_pkt_side_data_record_via (hdr : HeaderFn) (id_data : Int) (w : WriterContext)
    (sd : AVPacketSideData) : Result WriterContext := do
  let w ← hdr w id_data
  let r ← writer_print_string w (cs "side_data_type") (sd.name.getD (cs "unknown")) 0
  let w ← run_fields sd.fields r.2
  writer_print_section_footer w

def print_pkt_side_data_loop_via (hdr : HeaderFn) (id_data : Int) :
    List AVPacketSideData → WriterContext → Result WriterContext
  | [], w => pure w
  | sd :: side_data, w =>
    print_pkt_side_data_record_via hdr id_data w sd >>=
      print_pkt_side_data_loop_via hdr id_data side_data

def print_pkt_side_data_via (hdr : HeaderFn) (w : WriterContext)
    (side_data : List AVPacketSideData) (id_data_list id_data : Int) :
    Result WriterContext := do
  let w ← hdr w id_data_list
  let w ← print_pkt_side_data_loop_via hdr id_data side_data w
  writer_print_section_footer w

/-- The names of the 17 uses of the macro `PRINT_DISPOSITION` in
`show_stream`, in order. -/
def disposition_names : List (List Byte) :=
  [cs "default", cs "dub", cs "original", cs "comment", cs "lyrics", cs "karaoke", cs "forced",
   cs "hearing_impaired", cs "visual_impaired", cs "clean_effects", cs "attached_pic",
   cs "timed_thumbnails", cs "captions", cs "descriptions", cs "metadata", cs "dependent",
   cs "still_image"]

/-- What `show_stream` reads of a stream. `fields` are the field calls between
the header of the `stream` section and the `disposition` section, from `index`
to `extradata_hash`, which depend on the codec parameters and on libavcodec:
each is `print_int`, `print_str`, `print_str_opt`, `print_q`, `print_fmt`,
`print_val`, `print_ts`, `print_time` or `writer_print_data_hash`, so each is
a call of `writer_print_integer`, or of `writer_print_string` with the flags 0
or `PRINT_STRING_OPT`, which `writer_print_string` does not read.
`disposition` gives the value `!!(stream->disposition & AV_DISPOSITION_...)`
for the name of a flag; `metadata` is `stream->metadata`; `side_data` are the
`nb_side_data` records of `stream->side_data`. -/
structure InputStream where
  fields : List FieldCall
  disposition : List Byte → Int
  metadata : Option AVDictionary
  side_data : List AVPacketSideData

/-- The function `show_stream`. -/
def show_stream (hdr : HeaderFn) (w : WriterContext) (ist : InputStream) :
    Result (Int × WriterContext) := do
  let w ← hdr w SECTION_ID_STREAM
  let w ← run_fields ist.fields w
  let w ← hdr w SECTION_ID_STREAM_DISPOSITION
  let w ← run_fields (disposition_names.map (fun name => FieldCall.int name (ist.disposition name))) w
  let w ← writer_print_section_footer w
  let r ← show_tags hdr w ist.metadata SECTION_ID_STREAM_TAGS
  let w ←
    if ist.side_data.length ≠ 0 then
      print_pkt_side_data_via hdr r.2 ist.side_data SECTION_ID_STREAM_SIDE_DATA_LIST
        SECTION_ID_STREAM_SIDE_DATA
    else pure r.2
  let w ← writer_print_section_footer w
  pure (r.1, w)

/-- The loop of `show_streams` over the streams, with the entries of
`selected_streams` for them and the value of `ret`; it ends at the first
stream for which `show_stream` fails. -/
def show_streams_loop (hdr : HeaderFn) :
    List InputStream → List Int → Int → WriterContext → Result (Int × WriterContext)
  | [], _, ret, w => pure (ret, w)
  | ist :: streams, selected_streams, ret, w =>
    if selected_streams.headD 0 ≠ 0 then do
      let r ← show_stream hdr w ist
      if r.1 < 0 then pure r
      else show_streams_loop hdr streams selected_streams.tail r.1 r.2
    else show_streams_loop hdr streams selected_streams.tail ret w

/-- The function `show_streams`. -/
def show_streams (hdr : HeaderFn) (w : WriterContext) (streams : List InputStream)
    (selected_streams : List Int) : Result (Int × WriterContext) := do
  let w ← hdr w SECTION_ID_STREAMS
  let r ← show_streams_loop hdr streams selected_streams 0 w
  let w ← writer_print_section_footer r.2
  pure (r.1, w)

/-- What the environment decides in `probe_file` and at the end of `ffprobe`:
the value `open_input_file` returns and the input file it sets up, the values
of the three calls of `av_reallocp_array`, and the value of `avio_close` in
`writer_close`. The runs in which `open_input_file` ends the process are no
runs of this model. -/
structure ProbeEnv where
  open_input_ret : Int
  fmt_ctx : AVFormatContext
  streams : List InputStream
  realloc_frames_ret : Int
  realloc_packets_ret : Int
  realloc_selected_ret : Int
  avio_close_ret : Int

/-- The function `probe_file`: the return value and the writer afterwards. -/
def probe_file (hdr : HeaderFn) (value_string : SecondsString) (fmt_f : Int → List Byte)
    (wctx : WriterContext) (env : ProbeEnv) : Result (Int × WriterContext) :=
  if env.open_input_ret < 0 then pure (env.open_input_ret, wctx)
  else if env.realloc_frames_ret < 0 then pure (env.realloc_frames_ret, wctx)
  else if env.realloc_packets_ret < 0 then pure (env.realloc_packets_ret, wctx)
  else if env.realloc_selected_ret < 0 then pure (env.realloc_selected_ret, wctx)
  else do
    let r ← show_streams hdr wctx env.streams (List.replicate env.streams.length 1)
    if r.1 < 0 then pure r
    else show_format hdr value_string fmt_f r.2 env.fmt_ctx

/-- The function `writer_close` for a context that is not `NULL` and has an
output file: the value of `avio_close`. -/
def writer_close (env : ProbeEnv) (_wctx : WriterContext) : Int := env.avio_close_ret

/-- The environment of `writer_open` in `ffprobe`, which passes no option
string and has `output_filename` set: the two allocations and `avio_open` are
what can fail. -/
def ffprobe_env (malloc_wctx malloc_priv : Bool) (avio_open_ret : Int) : WriterOpenEnv :=
  { ffprobe_open_env with
    malloc_wctx := malloc_wctx, malloc_priv := malloc_priv, avio_open_ret := avio_open_ret }

/-- The function `ffprobe`: the return value and the text written to the
output. After a `writer_open` that failed, `wctx` is `NULL`, and the call
`writer_print_section_footer(wctx)`, which is not guarded, dereferences it. -/
def ffprobe (hdr : HeaderFn) (value_string : SecondsString) (fmt_f : Int → List Byte)
    (argc : Int) (malloc_wctx malloc_priv : Bool) (avio_open_ret : Int) (env : ProbeEnv) :
    Result (Int × List Byte) :=
  if argc < 3 then pure (1, [])
  else do
    let o ← writer_open (ffprobe_env malloc_wctx malloc_priv avio_open_ret) sections
    let r : Int × Option WriterContext ←
      if o.1 ≥ 0 then
        match o.2 with
        | some wctx => do
          let wctx ← hdr wctx SECTION_ID_ROOT
          let r ← probe_file hdr value_string fmt_f wctx env
          pure (r.1, some r.2)
        | none => throw Fault.undefined
      else pure o
    let input_ret := r.1
    match r.2 with
    | none => throw Fault.undefined
    | some wctx => do
      let wctx ← writer_print_section_footer wctx
      let ret := writer_close env wctx
      let ret := min ret input_ret
      pure (if ret < 0 then 1 else 0, wctx.out)

/-- The section may be opened in the context according to the schema: it is
the root section when no section is open, and it is listed among the children
of the open section otherwise. -/
def header_permitted (w : WriterContext) (section_id : Int) : Bool :=
  if w.level = -1 then decide (section_id = SECTION_ID_ROOT)
  else
    match w.current with
    | .ok sect => decide (section_id ∈ sect.children_ids)
    | .error _ => false

/-- The call `writer_print_section_header` behind a check of the schema, which
the source does not have: the call fails when the schema does not permit the
section. -/
def header_checked (w : WriterContext) (section_id : Int) : Result WriterContext :=
  if header_permitted w section_id then writer_print_section_header w section_id
  else throw Fault.assertion

/-- What a routine that closes every section it opens keeps of a context: the
level, the catalog and the sections open up to the level, in a context that is
well-formed. -/
structure Kept (w w' : WriterContext) : Prop where
  wf : w'.wf
  level : w'.level = w.level
  sections : w'.sections = w.sections
  section_ : ∀ i : Nat, (i : Int) ≤ w.level → w'.section_[i]? = w.section_[i]?

/-- An input file for the examples: one stream with a tag and a side-data
record, and a format with a tag. -/
def probe_env_example : ProbeEnv :=
  { open_input_ret := 0,
    fmt_ctx :=
      { url := cs "a.mp4", nb_streams := 1, nb_programs := 0, iformat_name := cs "mov",
        iformat_long_name := some (cs "QuickTime / MOV"), start_time := 0, duration := 1000000,
        size := 1024, bit_rate := 8192, probe_score := 100,
        metadata := some [(cs "title", cs "t")] },
    streams :=
      [{ fields := [FieldCall.int (cs "index") 0, FieldCall.str (cs "codec_name") (cs "h264")],
         disposition := fun _ => 0,
         metadata := some [(cs "language", cs "und")],
         side_data := [side_data_displaymatrix] }],
    realloc_frames_ret := 0, realloc_packets_ret := 0, realloc_selected_ret := 0,
    avio_close_ret := 0 }

/-- The function `hdr` opens sections as `writer_print_section_header` does,
wherever the schema permits the section, when `S` holds, and everywhere, when
it does not. -/
def header_agrees (hdr : HeaderFn) (S : Prop) : Prop :=
  ∀ (w : WriterContext) (id : Int), (S → header_permitted w id = true) →
    hdr w id = writer_print_section_header w id

/-! ## Sequences of calls of the writer -/

/-- A call of the writer engine: `writer_print_section_header`,
`writer_print_section_footer`, `writer_print_string` or
`writer_print_integer`. -/
inductive WriterCall where
  | header (section_id : Int)
  | footer
  | string (key val : List Byte) (flags : Nat)
  | integer (key : List Byte) (val : Int)
deriving DecidableEq, Repr

/-- One call; the return value of `writer_print_string` is dropped. -/
def run_call (w : WriterContext) : WriterCall → Result WriterContext
  | WriterCall.header section_id => writer_print_section_header w section_id
  | WriterCall.footer => writer_print_section_footer w
  | WriterCall.string key val flags => do
    let r ← writer_print_string w key val flags
    pure r.2
  | WriterCall.integer key val => writer_print_integer w key val

/-- The calls of a sequence, one after the other. -/
def run_calls : List WriterCall → WriterContext → Result WriterContext
  | [], w => pure w
  | c :: cs, w => run_call w c >>= run_calls cs

/-- A sequence of calls, started at level `lvl`, keeps within the bounds of
the writer: a section is opened only below the last of the
`SECTION_MAX_NB_LEVELS` levels and with an id of the catalog of `nb_sections`
entries, and a section is closed and a field is printed only while a section
is open. -/
def calls_in_bounds (nb_sections : Nat) : Int → List WriterCall → Prop
  | _, [] => True
  | lvl, WriterCall.header section_id :: cs =>
    lvl + 1 < SECTION_MAX_NB_LEVELS ∧ 0 ≤ section_id ∧ section_id < nb_sections ∧
      calls_in_bounds nb_sections (lvl + 1) cs
  | lvl, WriterCall.footer :: cs => 0 ≤ lvl ∧ calls_in_bounds nb_sections (lvl - 1) cs
  | lvl, WriterCall.string _ _ _ :: cs => 0 ≤ lvl ∧ calls_in_bounds nb_sections lvl cs
  | lvl, WriterCall.integer _ _ :: cs => 0 ≤ lvl ∧ calls_in_bounds nb_sections lvl cs

/-- The level after a sequence of calls started at level `lvl`: one more for
each section opened, one less for each section closed. -/
def calls_level : Int → List WriterCall → Int
  | lvl, [] => lvl
  | lvl, WriterCall.header _ :: cs => calls_level (lvl + 1) cs
  | lvl, WriterCall.footer :: cs => calls_level (lvl - 1) cs
  | lvl, WriterCall.string _ _ _ :: cs => calls_level lvl cs
  | lvl, WriterCall.integer _ _ :: cs => calls_level lvl cs

/-- Every entry of a catalog carries its index as its id, as in the table
`sections`. -/
def catalog_ids_ok (secs : List Section) : Prop :=
  ∀ k : Nat, k < secs.length → (secs[k]?).map Section.id = some (k : Int)

/-! ## Items and separators -/

/-- The header of the section `child` of the catalog, opened in the section
`parent`, writes the pair `type` itself: the first item of an element of the
`packets_and_frames` array. -/
def item_typed (child : Int) (parent : Option Int) : Bool :=
  match sections[child.toNat]?, parent with
  | some sc, some p => json_header_typed sc (sections[p.toNat]?)
  | _, _ => false

/-- The section of the catalog shows the key. -/
def item_shown (section_id : Int) (key : List Byte) : Bool :=
  match sections[section_id.toNat]? with
  | some sect => sect.shows key
  | none => false

/-- What the spec calls the items emitted in the open sections, kept apart
from the counters of the writer: for each open section, innermost first, its
id and the number of items written in it so far. An item is a field the
section shows, a child section that has been closed, or the pair `type` the
header of an element of `packets_and_frames` writes; no item of a section is
written while a child of it is open. -/
def items_step (st : List (Int × Nat)) : WriterCall → List (Int × Nat)
  | WriterCall.header section_id =>
    (section_id, if item_typed section_id (st.head?.map Prod.fst) then 1 else 0) :: st
  | WriterCall.footer =>
    match st with
    | _ :: p :: rest => (p.1, p.2 + 1) :: rest
    | _ => []
  | WriterCall.string key _ _ =>
    match st with
    | x :: rest => if item_shown x.1 key then (x.1, x.2 + 1) :: rest else x :: rest
    | [] => []
  | WriterCall.integer key _ =>
    match st with
    | x :: rest => if item_shown x.1 key then (x.1, x.2 + 1) :: rest else x :: rest
    | [] => []

/-- The items emitted after a sequence of calls. -/
def items_run (st : List (Int × Nat)) (calls : List WriterCall) : List (Int × Nat) :=
  calls.foldl items_step st

/-- The number of items emitted so far in the open section, 0 when no section
is open. -/
def items_before (st : List (Int × Nat)) : Nat := (st.head?.map Prod.snd).getD 0

/-- A call the separator rule is stated for, with the sections open as in
`st`: a section is opened within the depth of the writer, with an id of the
catalog, and in the `packets_and_frames` array only if it is an element that
gets the pair `type`; a section is closed and a field is printed only while a
section is open; and a validated string field does not fail validation under
the options of `cfg`. -/
def call_admitted (cfg : WriterContext) (st : List (Int × Nat)) : WriterCall → Prop
  | WriterCall.header section_id =>
    st.length < 10 ∧ 0 ≤ section_id ∧ section_id < 48 ∧
      (st.head?.map Prod.fst = some SECTION_ID_PACKETS_AND_FRAMES →
        item_typed section_id (some SECTION_ID_PACKETS_AND_FRAMES) = true)
  | WriterCall.footer => st ≠ []
  | WriterCall.string key val flags =>
    st ≠ [] ∧ (flags &&& PRINT_STRING_VALIDATE ≠ 0 →
      ¬ (validate_string cfg key).1 < 0 ∧ ¬ (validate_string cfg val).1 < 0)
  | WriterCall.integer _ _ => st ≠ []

/-- Every call of a sequence is admitted where it stands. -/
def calls_admitted (cfg : WriterContext) : List (Int × Nat) → List WriterCall → Prop
  | _, [] => True
  | st, c :: cs => call_admitted cfg st c ∧ calls_admitted cfg (items_step st c) cs

/-- A call wrote an item after `before` items of the same section: the output
grew by a separator, a comma and a newline or a comma and a blank, exactly
when `before` is not 0, and by a text that is not empty and does not start
with a comma. -/
def item_emitted (w w' : WriterContext) (before : Nat) : Prop :=
  ∃ sep body, (sep = cs ",\n" ∨ sep = cs ", ") ∧
    w'.out = w.out ++ (if before ≠ 0 then sep else []) ++ body ∧
    body ≠ [] ∧ body.head? ≠ some 0x2c

/-- What a call writes, by the separator rule: an item for a header and for a
field the open section shows, nothing for a field it does not show, and a
text without a comma for a footer. -/
def call_emits (w w' : WriterContext) (st : List (Int × Nat)) : WriterCall → Prop
  | WriterCall.header _ => item_emitted w w' (items_before st)
  | WriterCall.footer => ∃ text, w'.out = w.out ++ text ∧ (0x2c : Byte) ∉ text
  | WriterCall.string key _ _ =>
    if item_shown ((st.head?.map Prod.fst).getD 0) key then item_emitted w w' (items_before st)
    else w'.out = w.out
  | WriterCall.integer key _ =>
    if item_shown ((st.head?.map Prod.fst).getD 0) key then item_emitted w w' (items_before st)
    else w'.out = w.out

/-- The counters and the section pointers of a context agree with the items
emitted, from a level down: the pointer of each level is the section, and the
counter is the number of items modulo `2 ^ 32`. -/
def items_rel (w : WriterContext) : Int → List (Int × Nat) → Prop
  | lvl, [] => lvl = -1
  | lvl, x :: rest =>
    0 ≤ lvl ∧ w.section_[lvl.toNat]? = some (some x.1) ∧
      w.nb_item.getD lvl.toNat 0 = x.2 % 4294967296 ∧ items_rel w (lvl - 1) rest

/-- The invariant of the separator rule: a well-formed context of the
catalog, set up by `json_init`, with the validation options of `cfg`, whose
counters agree with the items emitted. -/
def items_inv (cfg w : WriterContext) (st : List (Int × Nat)) : Prop :=
  w.wf ∧ w.sections = sections ∧ json_priv_ok w.priv ∧ items_rel w w.level st ∧
  w.string_validation = cfg.string_validation ∧
  w.string_validation_replacement = cfg.string_validation_replacement ∧
  w.string_validation_utf8_flags = cfg.string_validation_utf8_flags

/-- The items emitted are those of sections of the catalog, at most `b` each,
and an element of the `packets_and_frames` array has one at least. -/
def items_ok (b : Nat) : List (Int × Nat) → Prop
  | [] => True
  | x :: rest =>
    0 ≤ x.1 ∧ x.1 < 48 ∧ x.2 ≤ b ∧
      (rest.head?.map Prod.fst = some SECTION_ID_PACKETS_AND_FRAMES → 1 ≤ x.2) ∧
      items_ok b rest

/-- What a field call leaves, in the open section with the section `parent`
below it: the context is kept but for the output, the log and the counter of
the level; when the section shows the key, the output has grown by the
separator and the indentation of `json_item_prefix` and by an item that starts
with a double quote, and the counter is one higher modulo `2 ^ 32`. -/
def field_written (w w' : WriterContext) (parent : Option Section) (shown : Bool) : Prop :=
  w'.wf ∧ w'.level = w.level ∧ w'.sections = w.sections ∧ w'.section_ = w.section_ ∧
  w'.priv = w.priv ∧ w'.string_validation = w.string_validation ∧
  w'.string_validation_replacement = w.string_validation_replacement ∧
  w'.string_validation_utf8_flags = w.string_validation_utf8_flags ∧
  (if shown then
    (∃ t, w'.out = w.out ++ json_item_prefix w parent ++ (0x22 :: t)) ∧
    w'.nb_item = w.nb_item.set w.level.toNat (uint_inc (w.nb_item.getD w.level.toNat 0))
   else w'.out = w.out ∧ w'.nb_item = w.nb_item)

/-! ## Doubles and the seconds of `writer_print_time` -/

/-- The quotient `n / d` rounded to the nearest integer, a tie going to the
even one. -/
def round_half_even (n d : Nat) : Nat :=
  let q := n / d
  let r := n % d
  if d < 2 * r ∨ (2 * r = d ∧ q % 2 = 1) then q + 1 else q

/-- The text of `%f` for the double whose 64 bits are those of the
`long long int` given: one sign bit, eleven bits of exponent and 52 bits of
fraction. An infinity reads `inf` and a NaN `nan`, after `-` when the sign bit
is set. A finite value, which is the significand times a power of two, is
written with its integer part, a point and six digits, rounded to the nearest
millionth with a tie going to the even digit. -/
def fmt_double (bits : Int) : List Byte :=
  let u := (bits % 18446744073709551616).toNat
  let sign : List Byte := if 9223372036854775808 ≤ u then [0x2d] else []
  let e := (u / 4503599627370496) % 2048
  let f := u % 4503599627370496
  if e = 2047 then sign ++ (if f = 0 then cs "inf" else cs "nan")
  else
    let m := if e = 0 then f else 4503599627370496 + f
    let x := if e = 0 then 1 else e
    let q :=
      if 1075 ≤ x then m * 2 ^ (x - 1075) * 1000000
      else round_half_even (m * 1000000) (2 ^ (1075 - x))
    let frac := fmt_digits 10 (q % 1000000)
    sign ++ fmt_digits 10 (q / 1000000) ++ [0x2e] ++
      List.replicate (6 - frac.length) 0x30 ++ frac

/-- The string `writer_print_time` prints when the tick is known: the double
`d = ts * av_q2d(*time_base)` goes into the member `d` of a `unit_value` with
the unit `unit_second_str`, and `value_string` renders it into the 128 bytes
of `buf`. The floating-point product is not computed here. It is the
parameter `seconds`, which gives the 64 bits of `d` for a tick and a time
base, and what is proved holds for every such function. -/
def seconds_string (seconds : Int → AVRational → Int) : SecondsString :=
  fun ts time_base =>
    value_string fmt_double 128 { val := seconds ts time_base, unit := UnitStr.unit_second_str }

/-- An example of the seconds: the bits of the double 1.0 for the tick 90000
in the time base 1/90000, which is what the product gives in IEEE arithmetic,
and the bits of 0.0 for every other tick and time base. -/
def seconds_bits_example : Int → AVRational → Int :=
  fun ts time_base =>
    if ts = 90000 ∧ time_base = ⟨1, 90000⟩ then 4607182418800017408 else 0

/-- The root section open under the `fail` policy. The entry of the root
section in the table has `show_all_entries` 0 and no allow-list, so no key is
shown in it. -/
def ctx_root_strict : WriterContext :=
  { ctx_root with string_validation := WRITER_STRING_VALIDATION_FAIL }

/-! ## Arrays and frames -/

theorem arr_get_ok {α : Type} (a : List α) (n : Nat) (x : α) (h : a[n]? = some x) :
    arr_get a (n : Int) = .ok x := by
  simp [arr_get, h]

theorem arr_set_ok {α : Type} (a : List α) (n : Nat) (x : α) (h : n < a.length) :
    arr_set a (n : Int) x = .ok (a.set n x) := by
  simp [arr_set, h]

theorem arr_get_neg {α : Type} (a : List α) (i : Int) (h : i < 0) :
    arr_get a i = .error .undefined := by
  simp [arr_get, h]

theorem Frame.refl (w : WriterContext) : Frame w w := by
  constructor <;> intros <;> rfl

theorem Frame.trans {a b c : WriterContext} (h1 : Frame a b) (h2 : Frame b c) : Frame a c := by
  constructor
  · rw [h2.level, h1.level]
  · rw [h2.sections, h1.sections]
  · rw [h2.section_, h1.section_]
  · rw [h2.nb_len, h1.nb_len]
  · intro i hi
    rw [h2.nb_item i (by rw [h1.level]; exact hi), h1.nb_item i hi]
  · rw [h2.nb_section_packet, h1.nb_section_packet]
  · rw [h2.nb_section_frame, h1.nb_section_frame]
  · rw [h2.nb_section_packet_frame, h1.nb_section_packet_frame]
  · rw [h2.string_validation, h1.string_validation]
  · rw [h2.replacement, h1.replacement]
  · rw [h2.utf8_flags, h1.utf8_flags]

theorem frame_out (w : WriterContext) (p : JSONContext) (o : List Byte) (g : List LogEvent) :
    Frame w { w with priv := p, out := o, log := g } := by
  constructor <;> intros <;> rfl

theorem frame_out_nb (w : WriterContext) (p : JSONContext) (o : List Byte) (g : List LogEvent)
    (m x : Nat) (hl : w.level = m) :
    Frame w { w with priv := p, out := o, log := g, nb_item := w.nb_item.set m x } := by
  constructor <;> intros <;> try rfl
  · simp
  · rename_i i hi
    have : m ≠ i := by intro h; apply hi; rw [hl, h]
    simp [List.getElem?_set_ne this]

/-- In a well-formed context every level up to the current one points to a
catalog entry, which carries its index as id. -/
theorem wf_section (w : WriterContext) (hwf : w.wf) (i : Nat) (hi : (i : Int) ≤ w.level) :
    ∃ k : Nat, ∃ sect, w.section_[i]? = some (some (k : Int)) ∧ w.sections[k]? = some sect ∧
      sect.id = k ∧ k < w.sections.length := by
  obtain ⟨_, h9, _, _, hsec, hcat⟩ := hwf
  have hi10 : i < 10 := by simp only [SECTION_MAX_NB_LEVELS] at h9; omega
  obtain ⟨k, hk, hp⟩ := hsec i hi10 hi
  have := hcat k hk
  refine ⟨k, w.sections[k], hp, by simp, ?_, hk⟩
  simpa [List.getElem?_eq_getElem hk] using this

theorem json_print_section_header_ok (w : WriterContext) (m k : Nat) (sect : Section)
    (hl : w.level = m) (hp : w.section_[m]? = some (some (k : Int)))
    (hs : w.sections[k]? = some sect) (hn : m < w.nb_item.length)
    (hpar : ∀ l, m = l + 1 → ∃ kp : Nat, ∃ sp, w.section_[l]? = some (some (kp : Int)) ∧
      w.sections[kp]? = some sp) :
    ∃ w', json_print_section_header w = .ok w' ∧ Frame w w' ∧ w'.log = w.log := by
  have hA : arr_get w.section_ w.level = .ok (some (k : Int)) := by
    rw [hl]; exact arr_get_ok _ _ _ hp
  have hD : arr_get w.sections (k : Int) = .ok sect := arr_get_ok _ _ _ hs
  obtain ⟨n', hnm⟩ : ∃ n, w.nb_item[m]? = some n := ⟨w.nb_item[m], by simp⟩
  have hE : arr_get w.nb_item w.level = .ok n' := by
    rw [hl]; exact arr_get_ok _ _ _ hnm
  have hF : ∀ x, arr_set w.nb_item w.level x = .ok (w.nb_item.set m x) := by
    intro x; rw [hl]; exact arr_set_ok _ _ _ hn
  cases m with
  | zero =>
    simp only [Nat.cast_zero] at hl
    rw [hl] at hA
    simp only [json_print_section_header, hl, ne_eq, not_true_eq_false, if_false,
      bind, Except.bind, pure, Except.pure, WriterContext.deref, hA, hD]
    simp only [writer_put_str, json_indent_add, JSON_INDENT]
    split_ifs <;> exact ⟨_, rfl, frame_out _ _ _ _, rfl⟩
  | succ l =>
    obtain ⟨kp, sp, hpp, hsp⟩ := hpar l rfl
    have hl0 : w.level ≠ 0 := by omega
    have hl1 : w.level - 1 = (l : Int) := by omega
    obtain ⟨n, hnl⟩ : ∃ n, w.nb_item[l]? = some n := ⟨w.nb_item[l], by simp⟩
    have hB : arr_get w.section_ (w.level - 1) = .ok (some (kp : Int)) := by
      rw [hl1]; exact arr_get_ok _ _ _ hpp
    have hC : arr_get w.nb_item (w.level - 1) = .ok n := by
      rw [hl1]; exact arr_get_ok _ _ _ hnl
    have hG : arr_get w.sections (kp : Int) = .ok sp := arr_get_ok _ _ _ hsp
    simp only [json_print_section_header, hl0, ne_eq, not_false_eq_true, if_true,
      bind, Except.bind, pure, Except.pure, WriterContext.deref, hA, hB, hC]
    by_cases hn0 : n = 0 <;> by_cases hc : w.priv.compact = 0 <;>
      simp only [hn0, hc, if_true, if_false, not_true_eq_false, not_false_eq_true,
        writer_put_str, json_indent_add, JSON_INDENT, hD, hG, hE, hF] <;>
      split_ifs <;>
      first
        | exact ⟨_, rfl, frame_out _ _ _ _, rfl⟩
        | exact ⟨_, rfl, frame_out_nb _ _ _ _ _ _ hl, rfl⟩

theorem json_print_section_footer_ok (w : WriterContext) (m k : Nat) (sect : Section)
    (hl : w.level = m) (hp : w.section_[m]? = some (some (k : Int)))
    (hs : w.sections[k]? = some sect) :
    ∃ w', json_print_section_footer w = .ok w' ∧ Frame w w' ∧ w'.log = w.log ∧
      w'.nb_item = w.nb_item := by
  have hA : arr_get w.section_ w.level = .ok (some (k : Int)) := by
    rw [hl]; exact arr_get_ok _ _ _ hp
  have hD : arr_get w.sections (k : Int) = .ok sect := arr_get_ok _ _ _ hs
  simp only [json_print_section_footer, bind, Except.bind, pure, Except.pure,
    WriterContext.deref, hA, hD, writer_put_str, writer_w8, json_indent_add, JSON_INDENT]
  by_cases hc : w.priv.compact = 0 <;>
    simp only [hc, if_true, if_false] <;>
    split_ifs <;> exact ⟨_, rfl, frame_out _ _ _ _, rfl, rfl⟩

theorem json_item_needs_sep_ok (w : WriterContext) (m : Nat)
    (hl : w.level = m) (hn : m < w.nb_item.length)
    (hpar : ∀ l, m = l + 1 → ∃ kp : Nat, ∃ sp, w.section_[l]? = some (some (kp : Int)) ∧
      w.sections[kp]? = some sp) :
    ∃ b, json_item_needs_sep w = .ok b := by
  obtain ⟨n', hnm⟩ : ∃ n, w.nb_item[m]? = some n := ⟨w.nb_item[m], by simp⟩
  have hE : arr_get w.nb_item w.level = .ok n' := by
    rw [hl]; exact arr_get_ok _ _ _ hnm
  cases m with
  | zero =>
    simp only [Nat.cast_zero] at hl
    rw [hl] at hE
    simp only [json_item_needs_sep, hl, ne_eq, not_true_eq_false, if_false,
      bind, Except.bind, pure, Except.pure, hE]
    split_ifs <;> exact ⟨_, rfl⟩
  | succ l =>
    obtain ⟨kp, sp, hpp, hsp⟩ := hpar l rfl
    have hl0 : w.level ≠ 0 := by omega
    have hl1 : w.level - 1 = (l : Int) := by omega
    have hB : arr_get w.section_ (w.level - 1) = .ok (some (kp : Int)) := by
      rw [hl1]; exact arr_get_ok _ _ _ hpp
    have hG : arr_get w.sections (kp : Int) = .ok sp := arr_get_ok _ _ _ hsp
    simp only [json_item_needs_sep, hl0, ne_eq, not_false_eq_true, if_true,
      bind, Except.bind, pure, Except.pure, WriterContext.deref, hB, hE, hG]
    split_ifs <;> exact ⟨_, rfl⟩

theorem json_print_str_ok (w : WriterContext) (key value : List Byte) (b : Bool)
    (h : json_item_needs_sep w = .ok b) :
    ∃ o, json_print_str w key value = .ok { w with out := o } := by
  by_cases hc : w.priv.compact = 0 <;> cases b <;>
    simp only [json_print_str, h, bind, Except.bind, pure, Except.pure, json_print_item_str,
      writer_put_str, JSON_INDENT, hc, if_true, if_false, Bool.false_eq_true] <;>
    exact ⟨_, rfl⟩

theorem json_print_int_ok (w : WriterContext) (key : List Byte) (value : Int) (b : Bool)
    (h : json_item_needs_sep w = .ok b) :
    ∃ o, json_print_int w key value = .ok { w with out := o } := by
  by_cases hc : w.priv.compact = 0 <;> cases b <;>
    simp only [json_print_int, h, bind, Except.bind, pure, Except.pure,
      writer_put_str, JSON_INDENT, hc, if_true, if_false, Bool.false_eq_true] <;>
    exact ⟨_, rfl⟩

/-- The context `writer_print_section_header` hands to the backend is
well-formed after the backend call, and so is what the backend returns. -/
theorem header_finish (w w1 : WriterContext) (m k : Nat) (hwf : w.wf) (hm : w.level + 1 = m)
    (h9 : w.level < 9) (hk : k < w.sections.length)
    (h1l : w1.level = m) (h1s : w1.sections = w.sections)
    (h1p : w1.section_ = w.section_.set m (some (k : Int)))
    (h1n : w1.nb_item = w.nb_item.set m 0) :
    ∃ w', json_print_section_header w1 = .ok w' ∧ w'.wf ∧ w'.level = w.level + 1 ∧
      w'.sections = w.sections ∧ w'.section_ = w.section_.set m (some (k : Int)) ∧
      (∀ i : Nat, (i : Int) ≤ w.level → w'.nb_item[i]? = w.nb_item[i]?) ∧
      w'.log = w1.log ∧ Frame w1 w' := by
  obtain ⟨hlo, _, hnl, hsl, hsec, hcat⟩ := hwf
  have hm10 : m < 10 := by omega
  have hp : w1.section_[m]? = some (some (k : Int)) := by
    rw [h1p, List.getElem?_set_self (by omega)]
  have hs : w1.sections[k]? = some w.sections[k] := by
    rw [h1s]; exact List.getElem?_eq_getElem hk
  have hn : m < w1.nb_item.length := by rw [h1n]; simp; omega
  have hpar : ∀ l, m = l + 1 → ∃ kp : Nat, ∃ sp, w1.section_[l]? = some (some (kp : Int)) ∧
      w1.sections[kp]? = some sp := by
    intro l hl
    obtain ⟨kp, hkp, hpp⟩ := hsec l (by omega) (by omega)
    refine ⟨kp, w.sections[kp], ?_, ?_⟩
    · rw [h1p, List.getElem?_set_ne (by omega)]; exact hpp
    · rw [h1s]; exact List.getElem?_eq_getElem hkp
  obtain ⟨w', hw', hfr, hlog⟩ := json_print_section_header_ok w1 m k _ h1l hp hs hn hpar
  refine ⟨w', hw', ?_, ?_, ?_, ?_, ?_, hlog, hfr⟩
  · refine ⟨?_, ?_, ?_, ?_, ?_, ?_⟩
    · rw [hfr.level, h1l]; omega
    · rw [hfr.level, h1l]; simp only [SECTION_MAX_NB_LEVELS]; omega
    · rw [hfr.nb_len, h1n]; simpa using hnl
    · rw [hfr.section_, h1p]; simpa using hsl
    · intro i hi10 hi
      rw [hfr.level, h1l] at hi
      rw [hfr.sections, h1s, hfr.section_, h1p]
      by_cases him : i = m
      · subst him
        exact ⟨k, hk, by rw [List.getElem?_set_self (by omega)]⟩
      · obtain ⟨kp, hkp, hpp⟩ := hsec i hi10 (by omega)
        exact ⟨kp, hkp, by rw [List.getElem?_set_ne (by omega)]; exact hpp⟩
    · rw [hfr.sections, h1s]; exact hcat
  · rw [hfr.level, h1l]; omega
  · rw [hfr.sections, h1s]
  · rw [hfr.section_, h1p]
  · intro i hi
    rw [hfr.nb_item i (by rw [h1l]; omega), h1n, List.getElem?_set_ne (by omega)]

theorem writer_print_section_header_ok (w : WriterContext) (k : Nat) (hwf : w.wf)
    (h9 : w.level < 9) (hk : k < w.sections.length) :
    ∃ w', writer_print_section_header w k = .ok w' ∧ w'.wf ∧ w'.level = w.level + 1 ∧
      w'.sections = w.sections ∧
      w'.section_ = w.section_.set (w.level + 1).toNat (some (k : Int)) ∧
      (∀ i : Nat, (i : Int) ≤ w.level → w'.nb_item[i]? = w.nb_item[i]?) ∧
      w'.log = w.log ∧ w'.string_validation = w.string_validation ∧
      w'.string_validation_replacement = w.string_validation_replacement ∧
      w'.string_validation_utf8_flags = w.string_validation_utf8_flags := by
  have hlo := hwf.1
  have hnl := hwf.2.2.1
  have hsl := hwf.2.2.2.1
  obtain ⟨m, hm⟩ : ∃ m : Nat, w.level + 1 = m := ⟨(w.level + 1).toNat, by omega⟩
  have hmt : (w.level + 1).toNat = m := by omega
  have hlt : w.level + 1 < SECTION_MAX_NB_LEVELS := by simp only [SECTION_MAX_NB_LEVELS]; omega
  have hS1 : ∀ x, arr_set w.nb_item (w.level + 1) x = .ok (w.nb_item.set m x) := by
    intro x; rw [hm]; exact arr_set_ok _ _ _ (by omega)
  have hS2 : ∀ x, arr_set w.section_ (w.level + 1) x = .ok (w.section_.set m x) := by
    intro x; rw [hm]; exact arr_set_ok _ _ _ (by omega)
  have key : ∀ w1 : WriterContext, w1.level = m → w1.sections = w.sections →
      w1.section_ = w.section_.set m (some (k : Int)) → w1.nb_item = w.nb_item.set m 0 →
      w1.log = w.log → w1.string_validation = w.string_validation →
      w1.string_validation_replacement = w.string_validation_replacement →
      w1.string_validation_utf8_flags = w.string_validation_utf8_flags →
      ∃ w', json_print_section_header w1 = .ok w' ∧ w'.wf ∧ w'.level = w.level + 1 ∧
        w'.sections = w.sections ∧
        w'.section_ = w.section_.set m (some (k : Int)) ∧
        (∀ i : Nat, (i : Int) ≤ w.level → w'.nb_item[i]? = w.nb_item[i]?) ∧
        w'.log = w.log ∧ w'.string_validation = w.string_validation ∧
        w'.string_validation_replacement = w.string_validation_replacement ∧
        w'.string_validation_utf8_flags = w.string_validation_utf8_flags := by
    intro w1 e1 e2 e3 e4 e5 e6 e7 e8
    obtain ⟨w', h, hw1, hw2, hw3, hw4, hw5, hw6, hfr⟩ :=
      header_finish w w1 m k hwf hm h9 hk e1 e2 e3 e4
    exact ⟨w', h, hw1, hw2, hw3, hw4, hw5, by rw [hw6, e5],
      by rw [hfr.string_validation, e6], by rw [hfr.replacement, e7],
      by rw [hfr.utf8_flags, e8]⟩
  rw [hmt]
  by_cases h0 : w.level + 1 = 0
  · simp only [writer_print_section_header, hlt, not_true_eq_false, if_false,
      if_neg (not_not.mpr h0), bind, Except.bind, pure, Except.pure, hS1, hS2]
    split_ifs <;> exact key _ hm rfl rfl rfl rfl rfl rfl rfl
  · obtain ⟨l, hl⟩ : ∃ l : Nat, w.level = l := ⟨w.level.toNat, by omega⟩
    obtain ⟨kp, sp, hpp, hsp, _, _⟩ := wf_section w hwf l (by omega)
    have hB : arr_get w.section_ (w.level + 1 - 1) = .ok (some (kp : Int)) := by
      rw [show w.level + 1 - 1 = (l : Int) by omega]; exact arr_get_ok _ _ _ hpp
    have hG : arr_get w.sections (kp : Int) = .ok sp := arr_get_ok _ _ _ hsp
    simp only [writer_print_section_header, hlt, not_true_eq_false, if_false, if_pos h0,
      bind, Except.bind, pure, Except.pure, hB, WriterContext.deref, hG, hS1, hS2]
    split_ifs <;> exact key _ hm rfl rfl rfl rfl rfl rfl rfl

theorem writer_print_section_footer_ok (w : WriterContext) (hwf : w.wf) (h0 : 0 ≤ w.level) :
    ∃ w', writer_print_section_footer w = .ok w' ∧ w'.wf ∧ w'.level = w.level - 1 ∧
      w'.sections = w.sections ∧ w'.section_ = w.section_ ∧
      w'.nb_item = (if w.level = 0 then w.nb_item
        else w.nb_item.set (w.level - 1).toNat (uint_inc (w.nb_item.getD (w.level - 1).toNat 0))) ∧
      w'.log = w.log ∧ w'.string_validation = w.string_validation ∧
      w'.string_validation_replacement = w.string_validation_replacement ∧
      w'.string_validation_utf8_flags = w.string_validation_utf8_flags := by
  obtain ⟨hlo, h9, hnl, hsl, hsec, hcat⟩ := hwf
  have hwf : w.wf := ⟨hlo, h9, hnl, hsl, hsec, hcat⟩
  simp only [SECTION_MAX_NB_LEVELS] at h9
  obtain ⟨m, hm⟩ : ∃ m : Nat, w.level = m := ⟨w.level.toNat, by omega⟩
  obtain ⟨k, sect, hp, hs, hid, hk⟩ := wf_section w hwf m (by omega)
  have hA : arr_get w.section_ w.level = .ok (some (k : Int)) := by
    rw [hm]; exact arr_get_ok _ _ _ hp
  have hD : arr_get w.sections (k : Int) = .ok sect := arr_get_ok _ _ _ hs
  have key_err : ∀ (w1 : WriterContext) (err : Fault),
      json_print_section_footer w1 = .error err → w1.level = m → w1.sections = w.sections →
      w1.section_ = w.section_ → False := by
    intro w1 err he e1 e2 e3
    obtain ⟨w', h, _⟩ := json_print_section_footer_ok w1 m k sect e1
      (by rw [e3]; exact hp) (by rw [e2]; exact hs)
    rw [h] at he
    cases he
  have key : ∀ (w1 w' : WriterContext) (a : List Nat),
      json_print_section_footer w1 = .ok w' → w1.level = m → w1.sections = w.sections →
      w1.section_ = w.section_ → w1.nb_item = a → a.length = 10 →
      w1.log = w.log → w1.string_validation = w.string_validation →
      w1.string_validation_replacement = w.string_validation_replacement →
      w1.string_validation_utf8_flags = w.string_validation_utf8_flags →
      ∃ w'', Except.ok { w' with level := w'.level - 1 } = Except.ok (ε := Fault) w'' ∧
        w''.wf ∧ w''.level = w.level - 1 ∧
        w''.sections = w.sections ∧ w''.section_ = w.section_ ∧ w''.nb_item = a ∧
        w''.log = w.log ∧ w''.string_validation = w.string_validation ∧
        w''.string_validation_replacement = w.string_validation_replacement ∧
        w''.string_validation_utf8_flags = w.string_validation_utf8_flags := by
    intro w1 w' a h e1 e2 e3 e4 ea e5 e6 e7 e8
    obtain ⟨w2, h2, hfr, hlog, hnb⟩ := json_print_section_footer_ok w1 m k sect e1
      (by rw [e3]; exact hp) (by rw [e2]; exact hs)
    rw [h] at h2
    cases h2
    refine ⟨_, rfl, ?_, ?_, ?_, ?_, ?_, ?_, ?_, ?_, ?_⟩
    · refine ⟨?_, ?_, ?_, ?_, ?_, ?_⟩
      · show -1 ≤ w'.level - 1
        rw [hfr.level, e1]; omega
      · show w'.level - 1 < SECTION_MAX_NB_LEVELS
        rw [hfr.level, e1]; simp only [SECTION_MAX_NB_LEVELS]; omega
      · show w'.nb_item.length = 10
        rw [hnb, e4, ea]
      · show w'.section_.length = 10
        rw [hfr.section_, e3, hsl]
      · intro i hi10 hi
        show ∃ k : Nat, k < w'.sections.length ∧ w'.section_[i]? = some (some (k : Int))
        rw [hfr.sections, e2, hfr.section_, e3]
        have hi' : (i : Int) ≤ w'.level - 1 := hi
        rw [hfr.level, e1] at hi'
        exact hsec i hi10 (by omega)
      · show ∀ k : Nat, k < w'.sections.length → _
        rw [hfr.sections, e2]; exact hcat
    · show w'.level - 1 = w.level - 1
      rw [hfr.level, e1, hm]
    · show w'.sections = w.sections
      rw [hfr.sections, e2]
    · show w'.section_ = w.section_
      rw [hfr.section_, e3]
    · show w'.nb_item = a
      rw [hnb, e4]
    · show w'.log = w.log
      rw [hlog, e5]
    · show w'.string_validation = w.string_validation
      rw [hfr.string_validation, e6]
    · show w'.string_validation_replacement = w.string_validation_replacement
      rw [hfr.replacement, e7]
    · show w'.string_validation_utf8_flags = w.string_validation_utf8_flags
      rw [hfr.utf8_flags, e8]
  by_cases hz : w.level = 0
  · have hne : SECTION_ID_NONE ≠ SECTION_ID_PACKETS_AND_FRAMES := by decide
    simp only [writer_print_section_footer, hA, hD, WriterContext.deref, if_neg (not_not.mpr hz),
      bind, Except.bind, pure, Except.pure, if_pos hz, ne_eq, not_true_eq_false, if_false,
      if_neg hne]
    split
    · rename_i err he
      exact (key_err _ _ he hm rfl rfl).elim
    · rename_i v hv
      exact key _ _ _ hv hm rfl rfl rfl hnl rfl rfl rfl rfl
  · obtain ⟨l, hl⟩ : ∃ l : Nat, w.level - 1 = l := ⟨(w.level - 1).toNat, by omega⟩
    have hlt : (w.level - 1).toNat = l := by omega
    obtain ⟨kp, sp, hpp, hsp, hpid, _⟩ := wf_section w hwf l (by omega)
    have hB : arr_get w.section_ (w.level - 1) = .ok (some (kp : Int)) := by
      rw [hl]; exact arr_get_ok _ _ _ hpp
    have hG : arr_get w.sections (kp : Int) = .ok sp := arr_get_ok _ _ _ hsp
    have hll : l < w.nb_item.length := by omega
    have hC : arr_get w.nb_item (w.level - 1) = .ok (w.nb_item.getD l 0) := by
      rw [hl]; apply arr_get_ok; simp [List.getD, hll]
    have hS : ∀ x, arr_set w.nb_item (w.level - 1) x = .ok (w.nb_item.set l x) := by
      intro x; rw [hl]; exact arr_set_ok _ _ _ hll
    have hnn : sp.id ≠ SECTION_ID_NONE := by
      rw [hpid]; simp only [SECTION_ID_NONE]; omega
    simp only [writer_print_section_footer, hA, hD, WriterContext.deref, if_pos hz,
      bind, Except.bind, pure, Except.pure, hB, hG, if_pos hnn, hC, hS, if_neg hz, hlt]
    split_ifs <;> split <;> rename_i x hx <;>
      first
        | exact (key_err _ _ hx hm rfl rfl).elim
        | exact key _ _ _ hx hm rfl rfl rfl (by simp [hnl]) rfl rfl rfl rfl

/-! ## Reachability of the concrete contexts -/

theorem writer_open_ctx_open : writer_open ffprobe_open_env sections = .ok (0, some ctx_open) := by
  decide

theorem ctx_root_reached : writer_print_section_header ctx_open SECTION_ID_ROOT = .ok ctx_root := by
  decide

theorem ctx_streams_reached :
    writer_print_section_header ctx_root SECTION_ID_STREAMS = .ok ctx_streams := by
  decide

/-! ## Sections: the claims -/

/-- C1 (counterexample). With only the root section open, opening `tags` of
`format` (`SECTION_ID_FORMAT_TAGS`), which is not among the children of the
root in the schema, does not fail: the call returns a context one level
deeper with that section recorded and more output emitted. -/
theorem C1_counterexample :
    ctx_root.current.map Section.children_ids =
      .ok [SECTION_ID_CHAPTERS, SECTION_ID_FORMAT, SECTION_ID_FRAMES, SECTION_ID_PROGRAMS,
        SECTION_ID_STREAMS, SECTION_ID_PACKETS, SECTION_ID_ERROR, SECTION_ID_PROGRAM_VERSION,
        SECTION_ID_LIBRARY_VERSIONS, SECTION_ID_PIXEL_FORMATS] ∧
    SECTION_ID_FORMAT_TAGS ∉ [SECTION_ID_CHAPTERS, SECTION_ID_FORMAT, SECTION_ID_FRAMES,
        SECTION_ID_PROGRAMS, SECTION_ID_STREAMS, SECTION_ID_PACKETS, SECTION_ID_ERROR,
        SECTION_ID_PROGRAM_VERSION, SECTION_ID_LIBRARY_VERSIONS, SECTION_ID_PIXEL_FORMATS] ∧
    (writer_print_section_header ctx_root SECTION_ID_FORMAT_TAGS).map
        (fun w => (w.level, w.section_[1]?, w.out)) =
      .ok (1, some (some SECTION_ID_FORMAT_TAGS), cs "\x7b\n    \"tags\": \x7b\n") ∧
    ctx_root.level = 0 ∧ ctx_root.section_[1]? = some none ∧ ctx_root.out = cs "\x7b\n" := by
  decide

/-- C1 (amended). `writer_print_section_header` has no check of the child
list and no `InvalidChild` failure: for every well-formed context with an open
section at a level below 9 and every section of the catalog, listed among the
children of the open section or not, the call succeeds, the level is one
higher, the section is recorded at the new level and the context stays
well-formed. -/
theorem C1_open_section_has_no_child_check (w : WriterContext) (k : Nat) (hwf : w.wf)
    (h0 : 0 ≤ w.level) (h9 : w.level < 9) (hk : k < w.sections.length) :
    ∃ w', writer_print_section_header w k = .ok w' ∧ w'.level = w.level + 1 ∧
      arr_get w'.section_ w'.level = .ok (some (k : Int)) ∧ w'.wf := by
  obtain ⟨w', h, hwf', hl, _, hs, _⟩ := writer_print_section_header_ok w k hwf h9 hk
  refine ⟨w', h, hl, ?_, hwf'⟩
  have hsl := hwf.2.2.2.1
  obtain ⟨m, hm⟩ : ∃ m : Nat, w.level + 1 = m := ⟨(w.level + 1).toNat, by omega⟩
  rw [hl, hm]
  apply arr_get_ok
  rw [hs, show (w.level + 1).toNat = m by omega, List.getElem?_set_self (by omega)]

theorem C1_open_section_has_no_child_check_witness :
    ∃ w', writer_print_section_header ctx_root (5 : Nat) = .ok w' ∧ w'.level = ctx_root.level + 1 ∧
      arr_get w'.section_ w'.level = .ok (some ((5 : Nat) : Int)) ∧ w'.wf :=
  C1_open_section_has_no_child_check ctx_root 5 (by decide) (by decide) (by decide) (by decide)

/-- C2 (counterexample). With the `streams` array still open in the root
section (depth 1), the root-closing call of `ffprobe`, which is
`writer_print_section_footer`, does not fail: it emits the footer of the array
and returns a context at depth 0. -/
theorem C2_counterexample :
    ctx_streams.level = 1 ∧
    (writer_print_section_footer ctx_streams).map (fun w => (w.level, w.out)) =
      .ok (0, cs "\x7b\n    \"streams\": [\n\n    ]") := by
  decide

/-- C3 (counterexample). On the context `writer_open` leaves (level `-1`)
`writer_print_section_footer` has no `EmptyStack` check to run into: its first
statement reads `wctx->section[-1]`, outside the array, so the call is
undefined behaviour and not a failure that leaves the writer as it was. -/
theorem C3_counterexample :
    ctx_open.level = -1 ∧
    arr_get ctx_open.section_ ctx_open.level = .error Fault.undefined ∧
    writer_print_section_footer ctx_open = .error Fault.undefined := by
  decide

/-- C3 (amended). `writer_print_section_footer` has no empty-stack check: on
every context without an open section (negative level) it indexes the
per-level array of sections below its first entry, which is undefined
behaviour. -/
theorem C3_close_section_without_open_section (w : WriterContext) (h : w.level < 0) :
    writer_print_section_footer w = .error Fault.undefined := by
  simp [writer_print_section_footer, arr_get_neg _ _ h, bind, Except.bind]

theorem C3_close_section_without_open_section_witness :
    writer_print_section_footer ctx_open = .error Fault.undefined :=
  C3_close_section_without_open_section ctx_open (by decide)

/-- C4. `writer_print_section_header` fails on its depth assertion (the
spec's `DepthExceeded`) exactly when `SECTION_MAX_NB_LEVELS` sections are
already open: at level 9 every call aborts on `av_assert0`, whatever the
section id, and in every well-formed context at a level below 9 the call
succeeds for every section of the catalog, with the level one higher and the
section recorded at the new level. -/
theorem C4_depth_exceeded_iff (w : WriterContext) (k : Nat) (hwf : w.wf)
    (hk : k < w.sections.length) :
    (writer_print_section_header w k = .error Fault.assertion ↔ w.level = 9) ∧
    (w.level = 9 → ∀ section_id : Int,
      writer_print_section_header w section_id = .error Fault.assertion) ∧
    (w.level < 9 → ∃ w', writer_print_section_header w k = .ok w' ∧
      w'.level = w.level + 1 ∧ arr_get w'.section_ w'.level = .ok (some (k : Int))) := by
  have hfail : w.level = 9 → ∀ section_id : Int,
      writer_print_section_header w section_id = .error Fault.assertion := by
    intro h section_id
    simp [writer_print_section_header, h, SECTION_MAX_NB_LEVELS, bind, Except.bind, throw,
      throwThe, MonadExceptOf.throw]
  have hok : w.level < 9 → ∃ w', writer_print_section_header w k = .ok w' ∧
      w'.level = w.level + 1 ∧ arr_get w'.section_ w'.level = .ok (some (k : Int)) := by
    intro h9
    obtain ⟨w', h, _, hl, _, hs, _⟩ := writer_print_section_header_ok w k hwf h9 hk
    refine ⟨w', h, hl, ?_⟩
    have hsl := hwf.2.2.2.1
    have hlo := hwf.1
    obtain ⟨m, hm⟩ : ∃ m : Nat, w.level + 1 = m := ⟨(w.level + 1).toNat, by omega⟩
    rw [hl, hm]
    apply arr_get_ok
    rw [hs, show (w.level + 1).toNat = m by omega, List.getElem?_set_self (by omega)]
  refine ⟨⟨?_, fun h => hfail h k⟩, hfail, hok⟩
  intro he
  by_contra hne
  have h9 : w.level < 9 := by
    have := hwf.2.1
    simp only [SECTION_MAX_NB_LEVELS] at this
    omega
  obtain ⟨w', h, _⟩ := hok h9
  rw [h] at he
  cases he

theorem C4_depth_exceeded_iff_witness :
    (writer_print_section_header ctx_full (16 : Nat) = .error Fault.assertion ↔
      ctx_full.level = 9) ∧
    (ctx_full.level = 9 → ∀ section_id : Int,
      writer_print_section_header ctx_full section_id = .error Fault.assertion) ∧
    (ctx_full.level < 9 → ∃ w', writer_print_section_header ctx_full (16 : Nat) = .ok w' ∧
      w'.level = ctx_full.level + 1 ∧
      arr_get w'.section_ w'.level = .ok (some ((16 : Nat) : Int))) :=
  C4_depth_exceeded_iff ctx_full 16 (by decide) (by decide)

/-- A balanced sequence of section calls runs to the end and comes back to
the level it is balanced above. -/
theorem run_ops_balanced (ops : List SectionOp) :
    ∀ (w : WriterContext) (lo : Int), w.wf → -1 ≤ lo → lo ≤ w.level →
      balanced w.sections.length lo w.level ops →
      ∃ w', run_ops ops w = .ok w' ∧ w'.wf ∧ w'.level = lo ∧ w'.sections = w.sections := by
  induction ops with
  | nil =>
    intro w lo hwf _ _ hb
    exact ⟨w, rfl, hwf, hb, rfl⟩
  | cons op ops ih =>
    intro w lo hwf hlo hle hb
    cases op with
    | header section_id =>
      obtain ⟨h10, hk0, hk, hb'⟩ := hb
      simp only [SECTION_MAX_NB_LEVELS] at h10
      obtain ⟨k, rfl⟩ : ∃ k : Nat, section_id = k := ⟨section_id.toNat, by omega⟩
      obtain ⟨w1, h1, hwf1, hl1, hs1, _⟩ :=
        writer_print_section_header_ok w k hwf (by omega) (by omega)
      obtain ⟨w', h', hwf', hl', hs'⟩ :=
        ih w1 lo hwf1 hlo (by omega) (by rw [hs1, hl1]; exact hb')
      refine ⟨w', ?_, hwf', hl', by rw [hs', hs1]⟩
      simp only [run_ops, h1, bind, Except.bind]
      exact h'
    | footer =>
      obtain ⟨hlt, hb'⟩ := hb
      obtain ⟨w1, h1, hwf1, hl1, hs1, _⟩ := writer_print_section_footer_ok w hwf (by omega)
      obtain ⟨w', h', hwf', hl', hs'⟩ :=
        ih w1 lo hwf1 hlo (by omega) (by rw [hs1, hl1]; exact hb')
      refine ⟨w', ?_, hwf', hl', by rw [hs', hs1]⟩
      simp only [run_ops, h1, bind, Except.bind]
      exact h'

/-- C5 (counterexample). With the root section open and its item counter at
4294967295, opening the `streams` array and closing it at once leaves the
counter of the root at 0, which is not one higher. -/
theorem C5_counterexample :
    ctx_root_max.nb_item[0]? = some 4294967295 ∧
    (writer_print_section_header ctx_root_max SECTION_ID_STREAMS >>=
        writer_print_section_footer).map (fun w => (w.level, w.nb_item[0]?)) =
      .ok (0, some 0) := by
  decide

/-- C5 (amended). For every well-formed context with an open section at a
level `L < 9` and every section of the catalog, `writer_print_section_header`
followed at once by `writer_print_section_footer` succeeds and restores the
level to `L` and the section recorded at every level up to `L`; of the item
counters at the levels up to `L` only the one at level `L` changes, and it is
one higher modulo `2 ^ 32` (the counters are `unsigned int` and wrap from
4294967295 to 0). Hence every balanced sequence of section calls that stays
within the maximum depth runs to its end and returns the level to its starting
value. -/
theorem C5_open_close_restores_level (w : WriterContext) (k : Nat) (hwf : w.wf)
    (h0 : 0 ≤ w.level) (h9 : w.level < 9) (hk : k < w.sections.length) :
    (∃ w1 w2, writer_print_section_header w k = .ok w1 ∧
      writer_print_section_footer w1 = .ok w2 ∧ w2.level = w.level ∧
      (∀ i : Nat, (i : Int) ≤ w.level → w2.section_[i]? = w.section_[i]?) ∧
      (∀ i : Nat, (i : Int) < w.level → w2.nb_item[i]? = w.nb_item[i]?) ∧
      w2.nb_item[w.level.toNat]? = some ((w.nb_item.getD w.level.toNat 0 + 1) % 2 ^ 32)) ∧
    (∀ ops : List SectionOp, balanced w.sections.length w.level w.level ops →
      ∃ w', run_ops ops w = .ok w' ∧ w'.level = w.level) := by
  constructor
  · obtain ⟨w1, h1, hwf1, hl1, _, hs1, hn1, _⟩ := writer_print_section_header_ok w k hwf h9 hk
    obtain ⟨w2, h2, _, hl2, _, hs2, hn2, _⟩ := writer_print_section_footer_ok w1 hwf1 (by omega)
    have hnl := hwf.2.2.1
    have hnl1 := hwf1.2.2.1
    obtain ⟨m, hm⟩ : ∃ m : Nat, w.level = m := ⟨w.level.toNat, by omega⟩
    have e1 : (w.level + 1).toNat = m + 1 := by omega
    have e2 : (w1.level - 1).toNat = m := by omega
    have e3 : w.level.toNat = m := by omega
    have hz : ¬ w1.level = 0 := by omega
    rw [if_neg hz, e2] at hn2
    have hget : w1.nb_item.getD m 0 = w.nb_item.getD m 0 := by
      have := hn1 m (by omega)
      simp only [List.getD, List.get?_eq_getElem?, this]
    refine ⟨w1, w2, h1, h2, by omega, ?_, ?_, ?_⟩
    · intro i hi
      rw [hs2, hs1, e1, List.getElem?_set_ne (by omega)]
    · intro i hi
      rw [hn2, List.getElem?_set_ne (by omega)]
      exact hn1 i (by omega)
    · rw [hn2, e3, List.getElem?_set_self (by omega), hget]
      rfl
  · intro ops hb
    obtain ⟨w', h, _, hl, _⟩ := run_ops_balanced ops w w.level hwf hwf.1 (le_refl _) hb
    exact ⟨w', h, hl⟩

theorem C5_open_close_restores_level_witness :
    (∃ w1 w2, writer_print_section_header ctx_root_max (43 : Nat) = .ok w1 ∧
      writer_print_section_footer w1 = .ok w2 ∧ w2.level = ctx_root_max.level ∧
      (∀ i : Nat, (i : Int) ≤ ctx_root_max.level → w2.section_[i]? = ctx_root_max.section_[i]?) ∧
      (∀ i : Nat, (i : Int) < ctx_root_max.level → w2.nb_item[i]? = ctx_root_max.nb_item[i]?) ∧
      w2.nb_item[ctx_root_max.level.toNat]? =
        some ((ctx_root_max.nb_item.getD ctx_root_max.level.toNat 0 + 1) % 2 ^ 32)) ∧
    (∀ ops : List SectionOp,
      balanced ctx_root_max.sections.length ctx_root_max.level ctx_root_max.level ops →
      ∃ w', run_ops ops ctx_root_max = .ok w' ∧ w'.level = ctx_root_max.level) :=
  C5_open_close_restores_level ctx_root_max 43 (by decide) (by decide) (by decide) (by decide)

/-! ## Fields -/

theorem nb_item_inc_ok (w : WriterContext) (m : Nat) (hl : w.level = m)
    (hn : m < w.nb_item.length) :
    nb_item_inc w =
      .ok { w with nb_item := w.nb_item.set m ((w.nb_item.getD m 0 + 1) % 2 ^ 32) } := by
  have hC : arr_get w.nb_item w.level = .ok (w.nb_item.getD m 0) := by
    rw [hl]; apply arr_get_ok; simp [List.getD, hn]
  have hS : ∀ x, arr_set w.nb_item w.level x = .ok (w.nb_item.set m x) := by
    intro x; rw [hl]; exact arr_set_ok _ _ _ hn
  simp only [nb_item_inc, hC, hS, bind, Except.bind, pure, Except.pure, uint_inc]
  rfl

/-- What is known of an open section in a well-formed context, in the form
the field functions use it. -/
theorem wf_current (w : WriterContext) (hwf : w.wf) (h0 : 0 ≤ w.level) :
    ∃ (m : Nat) (sect : Section), w.level = m ∧ m < w.nb_item.length ∧
      w.current = .ok sect ∧
      (∀ g : List LogEvent, ∃ b, json_item_needs_sep { w with log := g } = .ok b) := by
  obtain ⟨m, hm⟩ : ∃ m : Nat, w.level = m := ⟨w.level.toNat, by omega⟩
  obtain ⟨k, sect, hp, hs, _, _⟩ := wf_section w hwf m (by omega)
  have h9 := hwf.2.1
  simp only [SECTION_MAX_NB_LEVELS] at h9
  have hnl := hwf.2.2.1
  refine ⟨m, sect, hm, by omega, ?_, ?_⟩
  · simp only [WriterContext.current, bind, Except.bind, hm, arr_get_ok _ _ _ hp,
      WriterContext.deref, arr_get_ok _ _ _ hs]
  · intro g
    apply json_item_needs_sep_ok _ m hm (by show m < w.nb_item.length; omega)
    intro l hl
    obtain ⟨kp, sp, hpp, hsp, _, _⟩ := wf_section w hwf l (by omega)
    exact ⟨kp, sp, hpp, hsp⟩

theorem current_ok (w : WriterContext) (sect : Section) (h : w.current = .ok sect) :
    ∃ p, arr_get w.section_ w.level = .ok p ∧ w.deref p = .ok sect := by
  simp only [WriterContext.current, bind, Except.bind] at h
  split at h
  · cases h
  · rename_i p hp
    exact ⟨p, hp, h⟩

/-- The sanitizer reads the validation options of the context and nothing
else. -/
theorem validate_string_loop_congr (w w' : WriterContext) (src : List Byte)
    (h1 : w'.string_validation = w.string_validation)
    (h2 : w'.string_validation_replacement = w.string_validation_replacement)
    (h3 : w'.string_validation_utf8_flags = w.string_validation_utf8_flags) (fuel : Nat) :
    ∀ p dstbuf n log, validate_string_loop w' src fuel p dstbuf n log =
      validate_string_loop w src fuel p dstbuf n log := by
  induction fuel with
  | zero => intros; rfl
  | succ fuel ih =>
    intro p dstbuf n log
    simp only [validate_string_loop, h1, h2, h3, ih]

theorem validate_string_congr (w w' : WriterContext) (src : List Byte)
    (h1 : w'.string_validation = w.string_validation)
    (h2 : w'.string_validation_replacement = w.string_validation_replacement)
    (h3 : w'.string_validation_utf8_flags = w.string_validation_utf8_flags) :
    validate_string w' src = validate_string w src := by
  simp only [validate_string, validate_string_loop_congr w w' _ h1 h2 h3, h1, h2]

theorem writer_print_string_validate_ok (w : WriterContext) (sect : Section)
    (key val : List Byte)
    (hsep : ∀ g : List LogEvent, ∃ b, json_item_needs_sep { w with log := g } = .ok b) :
    ∃ ret o g, writer_print_string_validate w sect key val =
        .ok (ret, { w with out := o, log := g }) ∧
      (ret < 0 ↔ (validate_string w key).1 < 0 ∨ (validate_string w val).1 < 0) ∧
      (ret < 0 → o = w.out) := by
  simp only [writer_print_string_validate]
  by_cases hk : (validate_string w key).1 < 0
  · simp only [hk, if_true, pure, Except.pure]
    exact ⟨_, _, _, rfl, by simp [hk], fun _ => rfl⟩
  · simp only [hk, if_false]
    have hv : validate_string { w with log := w.log ++ (validate_string w key).2.2 } val =
        validate_string w val := validate_string_congr _ _ _ rfl rfl rfl
    simp only [hv]
    by_cases hv' : (validate_string w val).1 < 0
    · simp only [hv', if_true, pure, Except.pure]
      exact ⟨_, _, _, rfl, by simp [hv'], fun _ => rfl⟩
    · simp only [hv', if_false]
      obtain ⟨b, hb⟩ := hsep (w.log ++ (validate_string w key).2.2 ++ (validate_string w val).2.2)
      obtain ⟨o, ho⟩ := json_print_str_ok _ (validate_string w key).2.1
        (validate_string w val).2.1 b hb
      simp only [ho, bind, Except.bind, pure, Except.pure]
      exact ⟨_, _, _, rfl, by simp [hk, hv'], fun h => absurd h hv'⟩

theorem writer_print_string_ok (w : WriterContext) (sect : Section) (m : Nat)
    (hl : w.level = m) (hn : m < w.nb_item.length) (hcur : w.current = .ok sect)
    (hsep : ∀ g : List LogEvent, ∃ b, json_item_needs_sep { w with log := g } = .ok b)
    (key val : List Byte) (flags : Nat) :
    (sect.shows key = true → ∃ ret o g,
      writer_print_string w key val flags = .ok (ret,
        { w with nb_item := w.nb_item.set m ((w.nb_item.getD m 0 + 1) % 2 ^ 32),
                 out := o, log := g }) ∧
      (ret < 0 ↔ flags &&& PRINT_STRING_VALIDATE ≠ 0 ∧
        ((validate_string w key).1 < 0 ∨ (validate_string w val).1 < 0)) ∧
      (ret < 0 → o = w.out)) ∧
    (sect.shows key = false → writer_print_string w key val flags = .ok (0, w)) := by
  obtain ⟨p, hp, hd⟩ := current_ok w sect hcur
  constructor
  · intro hshow
    by_cases hf : flags &&& PRINT_STRING_VALIDATE ≠ 0
    · obtain ⟨ret, o, g, h, hret, hout⟩ := writer_print_string_validate_ok w sect key val hsep
      refine ⟨ret, o, g, ?_, by simp [hret, hf], hout⟩
      simp only [writer_print_string, hp, hd, hshow, if_true, if_pos hf, h, bind, Except.bind,
        pure, Except.pure]
      rw [nb_item_inc_ok { w with out := o, log := g } m hl hn]
    · obtain ⟨b, hb⟩ := hsep w.log
      have hb' : json_item_needs_sep w = .ok b := hb
      obtain ⟨o, ho⟩ := json_print_str_ok w key val b hb'
      refine ⟨0, o, w.log, ?_, by simp [hf], fun h => absurd h (by decide)⟩
      simp only [writer_print_string, hp, hd, hshow, if_true, if_neg hf, ho, bind, Except.bind,
        pure, Except.pure]
      rw [nb_item_inc_ok { w with out := o } m hl hn]
  · intro hshow
    simp [writer_print_string, hp, hd, hshow, bind, Except.bind, pure, Except.pure]

theorem writer_print_integer_ok (w : WriterContext) (sect : Section) (m : Nat)
    (hl : w.level = m) (hn : m < w.nb_item.length) (hcur : w.current = .ok sect)
    (hsep : ∀ g : List LogEvent, ∃ b, json_item_needs_sep { w with log := g } = .ok b)
    (key : List Byte) (val : Int) :
    (sect.shows key = true → ∃ o,
      writer_print_integer w key val =
        .ok { w with nb_item := w.nb_item.set m ((w.nb_item.getD m 0 + 1) % 2 ^ 32),
                     out := o }) ∧
    (sect.shows key = false → writer_print_integer w key val = .ok w) := by
  obtain ⟨p, hp, hd⟩ := current_ok w sect hcur
  constructor
  · intro hshow
    obtain ⟨b, hb⟩ := hsep w.log
    have hb' : json_item_needs_sep w = .ok b := hb
    obtain ⟨o, ho⟩ := json_print_int_ok w key val b hb'
    refine ⟨o, ?_⟩
    simp only [writer_print_integer, hp, hd, hshow, if_true, ho, bind, Except.bind]
    rw [nb_item_inc_ok { w with out := o } m hl hn]
  · intro hshow
    simp [writer_print_integer, hp, hd, hshow, bind, Except.bind, pure, Except.pure]

/-! ## The decoder -/

theorem utf8_tail_nil (c t n : Nat) :
    utf8_tail c t n [] = if c &&& t = 0 then some (c, t, n) else none := by
  unfold utf8_tail
  rfl

theorem utf8_tail_cons (c t n : Nat) (b : Byte) (p : List Byte) :
    utf8_tail c t n (b :: p) =
      if c &&& t = 0 then some (c, t, n)
      else if ((b.toNat : Int) - 128) >>> 6 ≠ 0 then none
      else utf8_tail ((c <<< 6) + ((b.toNat : Int) - 128).toNat) ((t <<< 5) % 4294967296)
        (n + 1) p := by
  rw [utf8_tail]

theorem utf8_tail_len (p : List Byte) : ∀ (c t n : Nat) (r : Nat × Nat × Nat),
    utf8_tail c t n p = some r → n ≤ r.2.2 ∧ r.2.2 - n ≤ p.length := by
  induction p with
  | nil =>
    intro c t n r h
    rw [utf8_tail_nil] at h
    split_ifs at h
    · cases h; simp
  | cons b p ih =>
    intro c t n r h
    rw [utf8_tail_cons] at h
    split_ifs at h
    · cases h; simp
    · have := ih _ _ _ _ h
      simp only [List.length_cons]
      omega

theorem utf8_tail_local (p : List Byte) : ∀ (c t n : Nat) (r : Nat × Nat × Nat),
    utf8_tail c t n p = some r →
    ∀ q : List Byte, q.take (r.2.2 - n) = p.take (r.2.2 - n) → utf8_tail c t n q = some r := by
  induction p with
  | nil =>
    intro c t n r h q _
    rw [utf8_tail_nil] at h
    split_ifs at h with h0
    · cases h
      cases q with
      | nil => rw [utf8_tail_nil, if_pos h0]
      | cons b' q' => rw [utf8_tail_cons, if_pos h0]
  | cons b p ih =>
    intro c t n r h q hq
    rw [utf8_tail_cons] at h
    split_ifs at h with h0 h1
    · cases h
      cases q with
      | nil => rw [utf8_tail_nil, if_pos h0]
      | cons b' q' => rw [utf8_tail_cons, if_pos h0]
    · have hlen := utf8_tail_len _ _ _ _ _ h
      have e : r.2.2 - n = (r.2.2 - (n + 1)) + 1 := by omega
      rw [e, List.take_succ_cons] at hq
      cases q with
      | nil => simp at hq
      | cons b' q' =>
        rw [List.take_succ_cons] at hq
        injection hq with hb hq'
        subst hb
        rw [utf8_tail_cons, if_neg h0, if_neg h1]
        exact ih _ _ _ _ h q' hq'

theorem av_utf8_decode_pos (b : Byte) (p : List Byte) (flags : Nat) :
    1 ≤ (av_utf8_decode (b :: p) flags).2 := by
  simp only [av_utf8_decode]
  split_ifs
  · simp
  · split <;> simp

theorem av_utf8_decode_le (b : Byte) (p : List Byte) (flags : Nat) :
    (av_utf8_decode (b :: p) flags).2 ≤ (b :: p).length := by
  simp only [av_utf8_decode]
  split_ifs
  · simp
  · split
    · simp
    · rename_i r h
      have := utf8_tail_len _ _ _ _ _ h
      simp only [List.length_cons]
      omega

/-- A sequence that decodes is decoded from its own bytes alone: any buffer
that starts with the same bytes decodes to the same result. -/
theorem av_utf8_decode_local (a : List Byte) (flags : Nat) (ha : a ≠ [])
    (hv : ¬ (av_utf8_decode a flags).1 < 0) (q : List Byte)
    (hq : q.take (av_utf8_decode a flags).2 = a.take (av_utf8_decode a flags).2) :
    av_utf8_decode q flags = av_utf8_decode a flags := by
  cases a with
  | nil => exact absurd rfl ha
  | cons b p =>
    have hpos := av_utf8_decode_pos b p flags
    have hne : ¬ AVERROR_EILSEQ ≥ 0 := by decide
    simp only [av_utf8_decode] at hv hq hpos ⊢
    split_ifs at hv hq hpos ⊢ with h0
    · exact absurd hv (by simp [AVERROR_EILSEQ])
    · split at hv
      · exact absurd hv (by simp [AVERROR_EILSEQ])
      · rename_i r h
        have h' : utf8_tail b.toNat ((b.toNat &&& 128) >>> 1) 0 p = some r := h
        simp only [h'] at hq ⊢
        rw [show 1 + r.2.2 = r.2.2 + 1 by omega, List.take_succ_cons] at hq
        cases q with
        | nil => simp at hq
        | cons b' q' =>
          rw [List.take_succ_cons] at hq
          injection hq with hb hq'
          subst hb
          simp only [if_neg h0]
          rw [utf8_tail_local p _ _ _ r h' q' (by simpa using hq')]

/-! ## The sanitizer -/

theorem utf8_sequences_nil (flags fuel : Nat) : utf8_sequences flags fuel [] = [] := by
  cases fuel <;> simp [utf8_sequences]

theorem utf8_sequences_succ (flags fuel : Nat) (p : List Byte) (hp : p ≠ []) :
    utf8_sequences flags (fuel + 1) p =
      (decide (¬ (av_utf8_decode p flags).1 < 0), p.take (av_utf8_decode p flags).2) ::
        utf8_sequences flags fuel (p.drop (av_utf8_decode p flags).2) := by
  simp [utf8_sequences, hp]

theorem decode_pos (p : List Byte) (flags : Nat) (hp : p ≠ []) :
    1 ≤ (av_utf8_decode p flags).2 ∧ (av_utf8_decode p flags).2 ≤ p.length := by
  cases p with
  | nil => exact absurd rfl hp
  | cons b p => exact ⟨av_utf8_decode_pos b p flags, av_utf8_decode_le b p flags⟩

/-- Under a policy other than `fail` the loop of `validate_string` returns 0,
appends the rendering of every sequence, counts the invalid ones and logs
them. -/
theorem validate_string_loop_nonfail (w : WriterContext) (src : List Byte)
    (hsv : w.string_validation ≠ WRITER_STRING_VALIDATION_FAIL) (fuel : Nat) :
    ∀ p dstbuf n log, validate_string_loop w src fuel p dstbuf n log =
      (0, dstbuf ++ (utf8_sequences w.string_validation_utf8_flags fuel p).flatMap
            (validate_render w),
        n + ((utf8_sequences w.string_validation_utf8_flags fuel p).filter
            (fun q => !q.1)).length,
        log ++ validate_events src (utf8_sequences w.string_validation_utf8_flags fuel p)) := by
  induction fuel with
  | zero =>
    intro p dstbuf n log
    simp [validate_string_loop, utf8_sequences, validate_events]
  | succ fuel ih =>
    intro p dstbuf n log
    by_cases hp : p = []
    · subst hp
      simp [validate_string_loop, utf8_sequences, validate_events]
    · rw [utf8_sequences_succ _ _ _ hp]
      simp only [validate_string_loop, hp, if_false]
      by_cases hv : (av_utf8_decode p w.string_validation_utf8_flags).1 < 0
      · simp only [hv, if_true, if_neg hsv, ih, not_true_eq_false, decide_False,
          List.flatMap_cons, validate_render, Bool.false_eq_true, if_false, validate_events,
          List.filter_cons, Bool.not_false, List.map_cons, List.length_cons]
        refine Prod.ext rfl (Prod.ext ?_ (Prod.ext ?_ ?_))
        · by_cases h1 : w.string_validation = WRITER_STRING_VALIDATION_REPLACE
          · have h2 : ¬ w.string_validation = WRITER_STRING_VALIDATION_IGNORE := by
              rw [h1]; decide
            simp only [if_pos h1, if_neg h2, List.append_nil, List.append_assoc]
          · by_cases h2 : w.string_validation = WRITER_STRING_VALIDATION_IGNORE
            · simp only [if_neg h1, if_pos h2, List.nil_append, List.append_assoc]
            · simp only [if_neg h1, if_neg h2, List.nil_append, List.append_nil]
        · simp only; omega
        · simp
      · simp only [hv, if_false, ih, not_false_eq_true, decide_True, List.flatMap_cons,
          validate_render, if_true, validate_events, List.filter_cons, Bool.not_true,
          Bool.false_eq_true]
        simp

/-- The return value of the loop of `validate_string` is negative exactly
under the `fail` policy when some sequence is invalid, and then it is
`AVERROR_INVALIDDATA` and nothing was appended after the first invalid
sequence. -/
theorem validate_string_loop_ret (w : WriterContext) (src : List Byte) (fuel : Nat) :
    ∀ p dstbuf n log,
      ((validate_string_loop w src fuel p dstbuf n log).1 < 0 ↔
        w.string_validation = WRITER_STRING_VALIDATION_FAIL ∧
        ∃ q ∈ utf8_sequences w.string_validation_utf8_flags fuel p, q.1 = false) ∧
      ((validate_string_loop w src fuel p dstbuf n log).1 < 0 →
        (validate_string_loop w src fuel p dstbuf n log).1 = AVERROR_INVALIDDATA) := by
  induction fuel with
  | zero =>
    intro p dstbuf n log
    simp [validate_string_loop, utf8_sequences]
  | succ fuel ih =>
    intro p dstbuf n log
    by_cases hp : p = []
    · subst hp
      simp [validate_string_loop, utf8_sequences]
    · rw [utf8_sequences_succ _ _ _ hp]
      simp only [validate_string_loop, hp, if_false]
      by_cases hv : (av_utf8_decode p w.string_validation_utf8_flags).1 < 0
      · by_cases hsv : w.string_validation = WRITER_STRING_VALIDATION_FAIL
        · simp [hv, hsv, AVERROR_INVALIDDATA]
        · simp only [hv, if_true, if_neg hsv]
          have := ih (p.drop (av_utf8_decode p w.string_validation_utf8_flags).2)
          constructor
          · rw [(this _ _ _).1]
            simp [hsv]
          · exact (this _ _ _).2
      · simp only [hv, if_false]
        have := ih (p.drop (av_utf8_decode p w.string_validation_utf8_flags).2)
        constructor
        · rw [(this _ _ _).1]
          simp [hv]
        · exact (this _ _ _).2

theorem utf8_sequences_fuel (flags : Nat) (fuel1 : Nat) :
    ∀ (fuel2 : Nat) (p : List Byte), p.length ≤ fuel1 → p.length ≤ fuel2 →
      utf8_sequences flags fuel1 p = utf8_sequences flags fuel2 p := by
  induction fuel1 with
  | zero =>
    intro fuel2 p h1 _
    have : p = [] := List.length_eq_zero.mp (by omega)
    subst this
    rw [utf8_sequences_nil, utf8_sequences_nil]
  | succ fuel1 ih =>
    intro fuel2 p h1 h2
    by_cases hp : p = []
    · subst hp
      rw [utf8_sequences_nil, utf8_sequences_nil]
    · have hlen : 0 < p.length := List.length_pos.mpr hp
      obtain ⟨f2, rfl⟩ : ∃ f2, fuel2 = f2 + 1 := ⟨fuel2 - 1, by omega⟩
      have hk := decode_pos p flags hp
      rw [utf8_sequences_succ _ _ _ hp, utf8_sequences_succ _ _ _ hp,
        ih f2 _ (by rw [List.length_drop]; omega) (by rw [List.length_drop]; omega)]

theorem utf8_seqs_eq (flags fuel : Nat) (p : List Byte) (h : p.length ≤ fuel) :
    utf8_sequences flags fuel p = utf8_seqs flags p :=
  utf8_sequences_fuel flags fuel p.length p h (le_refl _)

/-- The sequences of a string, put end to end, are the string. -/
theorem utf8_sequences_flatten (flags fuel : Nat) :
    ∀ p : List Byte, p.length ≤ fuel →
      (utf8_sequences flags fuel p).flatMap (fun q => q.2) = p := by
  induction fuel with
  | zero =>
    intro p h
    have : p = [] := List.length_eq_zero.mp (by omega)
    subst this
    simp [utf8_sequences]
  | succ fuel ih =>
    intro p h
    by_cases hp : p = []
    · subst hp
      simp [utf8_sequences]
    · have hk := decode_pos p flags hp
      rw [utf8_sequences_succ _ _ _ hp, List.flatMap_cons,
        ih _ (by rw [List.length_drop]; omega)]
      exact List.take_append_drop _ _

theorem utf8_sequences_mem (flags fuel : Nat) :
    ∀ (p : List Byte) (q : Bool × List Byte), q ∈ utf8_sequences flags fuel p →
      ∀ b ∈ q.2, b ∈ p := by
  induction fuel with
  | zero =>
    intro p q h
    simp [utf8_sequences] at h
  | succ fuel ih =>
    intro p q h b hb
    by_cases hp : p = []
    · subst hp
      simp [utf8_sequences] at h
    · rw [utf8_sequences_succ _ _ _ hp, List.mem_cons] at h
      rcases h with h | h
      · subst h
        exact List.mem_of_mem_take hb
      · exact List.mem_of_mem_drop (ih _ q h b hb)

theorem c_str_ne_zero (s : List Byte) : ∀ b ∈ c_str s, b ≠ 0 := by
  intro b hb
  have := List.mem_takeWhile_imp hb
  simpa using this

theorem c_str_of_ne_zero (s : List Byte) (h : ∀ b ∈ s, b ≠ 0) : c_str s = s := by
  rw [c_str, List.takeWhile_eq_self_iff]
  intro b hb
  simpa using h b hb

/-- A string without invalid sequence keeps its sequences when more bytes
follow it. -/
theorem utf8_seqs_append (flags : Nat) (t : List Byte) (fuel : Nat) :
    ∀ a : List Byte, a.length ≤ fuel → (∀ q ∈ utf8_sequences flags fuel a, q.1 = true) →
      utf8_seqs flags (a ++ t) = utf8_sequences flags fuel a ++ utf8_seqs flags t := by
  induction fuel with
  | zero =>
    intro a h _
    have : a = [] := List.length_eq_zero.mp (by omega)
    subst this
    simp [utf8_sequences]
  | succ fuel ih =>
    intro a h hv
    by_cases ha : a = []
    · subst ha
      simp [utf8_sequences]
    · have hk := decode_pos a flags ha
      rw [utf8_sequences_succ _ _ _ ha] at hv ⊢
      have hvalid : ¬ (av_utf8_decode a flags).1 < 0 := by
        have := hv _ (List.mem_cons_self _ _)
        simpa using this
      have hat : a ++ t ≠ [] := by simp [ha]
      have hloc : av_utf8_decode (a ++ t) flags = av_utf8_decode a flags :=
        av_utf8_decode_local a flags ha hvalid (a ++ t)
          (by rw [List.take_append_of_le_length hk.2])
      have hlen : 0 < a.length := List.length_pos.mpr ha
      rw [utf8_seqs, show (a ++ t).length = (a.length + t.length - 1) + 1 by
        rw [List.length_append]; omega, utf8_sequences_succ _ _ _ hat, hloc,
        List.take_append_of_le_length hk.2, List.drop_append_of_le_length hk.2,
        utf8_seqs_eq _ _ _ (by simp only [List.length_append, List.length_drop]; omega),
        ih _ (by rw [List.length_drop]; omega)
          (fun q hq => hv q (List.mem_cons_of_mem _ hq))]
      rfl

theorem utf8_valid_nil (flags : Nat) : utf8_valid flags [] := by
  intro q hq
  simp [utf8_seqs, utf8_sequences] at hq

theorem utf8_valid_append (flags : Nat) (a t : List Byte) (ha : utf8_valid flags a)
    (ht : utf8_valid flags t) : utf8_valid flags (a ++ t) := by
  intro q hq
  rw [utf8_seqs_append flags t a.length a (le_refl _) ha, List.mem_append] at hq
  rcases hq with hq | hq
  · exact ha q hq
  · exact ht q hq

/-- A sequence that decodes is, on its own, a string without invalid
sequence. -/
theorem utf8_valid_take (flags : Nat) (a : List Byte) (ha : a ≠ [])
    (hv : ¬ (av_utf8_decode a flags).1 < 0) :
    utf8_valid flags (a.take (av_utf8_decode a flags).2) := by
  have hk := decode_pos a flags ha
  have hlen : (a.take (av_utf8_decode a flags).2).length = (av_utf8_decode a flags).2 := by
    rw [List.length_take]; omega
  have hne : a.take (av_utf8_decode a flags).2 ≠ [] := by
    intro h
    rw [h] at hlen
    simp at hlen
    omega
  have hloc : av_utf8_decode (a.take (av_utf8_decode a flags).2) flags = av_utf8_decode a flags :=
    av_utf8_decode_local a flags ha hv _ (by rw [List.take_take, min_self])
  obtain ⟨k, hk'⟩ : ∃ k, (av_utf8_decode a flags).2 = k + 1 :=
    ⟨(av_utf8_decode a flags).2 - 1, by omega⟩
  intro q hq
  rw [utf8_seqs, hlen] at hq
  rw [hk'] at hq hne hloc
  rw [utf8_sequences_succ _ _ _ hne, hloc, hk', List.drop_take, Nat.sub_self, List.take_zero,
    utf8_sequences_nil, List.take_take, min_self] at hq
  simp only [List.mem_singleton] at hq
  rw [hq]
  simpa using hv

/-- One pass under the `replace` policy with a valid replacement leaves a
string without invalid sequence. -/
theorem utf8_valid_render (w : WriterContext)
    (hsv : w.string_validation = WRITER_STRING_VALIDATION_REPLACE)
    (hr : utf8_valid w.string_validation_utf8_flags (c_str w.string_validation_replacement))
    (fuel : Nat) :
    ∀ p : List Byte, utf8_valid w.string_validation_utf8_flags
      ((utf8_sequences w.string_validation_utf8_flags fuel p).flatMap (validate_render w)) := by
  induction fuel with
  | zero =>
    intro p
    simpa [utf8_sequences] using utf8_valid_nil _
  | succ fuel ih =>
    intro p
    by_cases hp : p = []
    · subst hp
      simpa [utf8_sequences] using utf8_valid_nil _
    · rw [utf8_sequences_succ _ _ _ hp, List.flatMap_cons]
      apply utf8_valid_append _ _ _ _ (ih _)
      by_cases hv : (av_utf8_decode p w.string_validation_utf8_flags).1 < 0
      · have h2 : ¬ w.string_validation = WRITER_STRING_VALIDATION_IGNORE := by
          rw [hsv]; decide
        have h3 : ¬ WRITER_STRING_VALIDATION_REPLACE = WRITER_STRING_VALIDATION_IGNORE := by
          decide
        simpa [validate_render, hv, hsv, h3] using hr
      · simpa [validate_render, hv] using utf8_valid_take _ p hp hv

theorem validate_string_nonfail (w : WriterContext) (s : List Byte)
    (hsv : w.string_validation ≠ WRITER_STRING_VALIDATION_FAIL) :
    (validate_string w s).1 = 0 ∧
    (validate_string w s).2.1 =
      (utf8_seqs w.string_validation_utf8_flags (c_str s)).flatMap (validate_render w) ∧
    (validate_string w s).2.2 =
      validate_events (c_str s) (utf8_seqs w.string_validation_utf8_flags (c_str s)) ++
        (if utf8_invalid_count w.string_validation_utf8_flags (c_str s) ≠ 0 ∧
            w.string_validation = WRITER_STRING_VALIDATION_REPLACE then
          [LogEvent.replaced (utf8_invalid_count w.string_validation_utf8_flags (c_str s))
            (c_str s) (c_str w.string_validation_replacement)]
        else []) := by
  simp only [validate_string, validate_string_loop_nonfail w _ hsv, lt_self_iff_false, if_false,
    List.nil_append, Nat.zero_add, utf8_seqs, utf8_invalid_count]
  split_ifs <;> simp

theorem validate_string_ret (w : WriterContext) (s : List Byte) :
    ((validate_string w s).1 < 0 ↔
      w.string_validation = WRITER_STRING_VALIDATION_FAIL ∧
      ¬ utf8_valid w.string_validation_utf8_flags (c_str s)) ∧
    ((validate_string w s).1 < 0 → (validate_string w s).1 = AVERROR_INVALIDDATA) := by
  have h := validate_string_loop_ret w (c_str s) (c_str s).length (c_str s) [] 0 []
  have e : (validate_string w s).1 =
      (validate_string_loop w (c_str s) (c_str s).length (c_str s) [] 0 []).1 := by
    simp only [validate_string]
    split_ifs <;> rfl
  rw [e]
  refine ⟨?_, h.2⟩
  rw [h.1]
  simp [utf8_valid, utf8_seqs]

theorem flatMap_render_of_valid (w : WriterContext) (qs : List (Bool × List Byte))
    (h : ∀ q ∈ qs, q.1 = true) :
    qs.flatMap (validate_render w) = qs.flatMap (fun q => q.2) := by
  induction qs with
  | nil => rfl
  | cons q qs ih =>
    rw [List.flatMap_cons, List.flatMap_cons, ih (fun q' hq' => h q' (List.mem_cons_of_mem _ hq'))]
    simp [validate_render, h q (List.mem_cons_self _ _)]

/-- C6 (counterexample). In the `format` section, which shows all entries,
with the item counter of its level at 4294967295, emitting an integer field or
a string field leaves that counter at 0, which is not one higher. -/
theorem C6_counterexample :
    ctx_format_max.current.map (fun sect => sect.shows (cs "nb_streams")) = .ok true ∧
    ctx_format_max.nb_item[1]? = some 4294967295 ∧
    (writer_print_integer ctx_format_max (cs "nb_streams") 2).map (fun w => w.nb_item[1]?) =
      .ok (some 0) ∧
    (writer_print_string ctx_format_max (cs "nb_streams") (cs "2") 0).map
      (fun r => r.2.nb_item[1]?) = .ok (some 0) := by
  decide

/-- C7. Sanitizer idempotence: under the `replace` policy with a replacement
string that has no invalid sequence, sanitizing the output of `validate_string`
again succeeds and returns that output unchanged, for every string; the output
of one pass contains no invalid sequence. -/
theorem C7_replace_is_idempotent (w : WriterContext) (s : List Byte)
    (hsv : w.string_validation = WRITER_STRING_VALIDATION_REPLACE)
    (hr : utf8_valid w.string_validation_utf8_flags (c_str w.string_validation_replacement)) :
    (validate_string w (validate_string w s).2.1).1 = 0 ∧
    (validate_string w (validate_string w s).2.1).2.1 = (validate_string w s).2.1 ∧
    utf8_invalid_count w.string_validation_utf8_flags (validate_string w s).2.1 = 0 := by
  have hnf : w.string_validation ≠ WRITER_STRING_VALIDATION_FAIL := by rw [hsv]; decide
  have h1 := validate_string_nonfail w s hnf
  have hvalid : utf8_valid w.string_validation_utf8_flags (validate_string w s).2.1 := by
    rw [h1.2.1]
    exact utf8_valid_render w hsv hr _ _
  have hnz : ∀ b ∈ (validate_string w s).2.1, b ≠ 0 := by
    rw [h1.2.1]
    intro b hb
    rw [List.mem_flatMap] at hb
    obtain ⟨q, hq, hbq⟩ := hb
    have h2 : ¬ WRITER_STRING_VALIDATION_REPLACE = WRITER_STRING_VALIDATION_IGNORE := by decide
    simp only [validate_render, hsv, h2, if_true, if_false, List.append_nil] at hbq
    split_ifs at hbq
    · exact c_str_ne_zero s b (utf8_sequences_mem _ _ _ q hq b hbq)
    · exact c_str_ne_zero _ b hbq
  have h2 := validate_string_nonfail w (validate_string w s).2.1 hnf
  rw [c_str_of_ne_zero _ hnz] at h2
  refine ⟨h2.1, ?_, ?_⟩
  · rw [h2.2.1, flatMap_render_of_valid w _ hvalid]
    exact utf8_sequences_flatten _ _ _ (le_refl _)
  · rw [utf8_invalid_count, List.length_eq_zero, List.filter_eq_nil_iff]
    intro q hq
    simp [hvalid q hq]

theorem C7_replace_is_idempotent_witness :
    (validate_string (ctx_replace_qmark 1)
      (validate_string (ctx_replace_qmark 1) (cs "desc" ++ [0xff])).2.1).1 = 0 ∧
    (validate_string (ctx_replace_qmark 1)
      (validate_string (ctx_replace_qmark 1) (cs "desc" ++ [0xff])).2.1).2.1 =
      (validate_string (ctx_replace_qmark 1) (cs "desc" ++ [0xff])).2.1 ∧
    utf8_invalid_count (ctx_replace_qmark 1).string_validation_utf8_flags
      (validate_string (ctx_replace_qmark 1) (cs "desc" ++ [0xff])).2.1 = 0 :=
  C7_replace_is_idempotent (ctx_replace_qmark 1) (cs "desc" ++ [0xff]) (by decide) (by decide)

/-- C8 (counterexample). Under the `ignore` policy the string `a\xFFb`, whose
middle byte is an invalid sequence, comes out of `validate_string` unchanged,
with the invalid byte still in place, whereas the string with its invalid
sequences removed is `ab`. -/
theorem C8_counterexample :
    validate_string (ctx_replace_qmark WRITER_STRING_VALIDATION_IGNORE) [0x61, 0xff, 0x62] =
      (0, [0x61, 0xff, 0x62], [LogEvent.invalid_sequence [0xff] [0x61, 0xff, 0x62]]) ∧
    utf8_drop_invalid 0 [0x61, 0xff, 0x62] = [0x61, 0x62] ∧
    utf8_invalid_count 0 [0x61, 0xff, 0x62] = 1 := by
  decide

/-- C8 (amended). Under the `ignore` policy `validate_string` succeeds for
every input string and its output equals the input byte for byte: the bytes of
an invalid sequence are copied to the output like those of a valid one, not
removed (so the output keeps every invalid sequence of the input). -/
theorem C8_ignore_copies_input (w : WriterContext) (s : List Byte)
    (hsv : w.string_validation = WRITER_STRING_VALIDATION_IGNORE) :
    (validate_string w s).1 = 0 ∧ (validate_string w s).2.1 = c_str s ∧
    ((∀ b ∈ s, b ≠ 0) → (validate_string w s).2.1 = s) := by
  have hnf : w.string_validation ≠ WRITER_STRING_VALIDATION_FAIL := by rw [hsv]; decide
  have h1 := validate_string_nonfail w s hnf
  have hren : ∀ q : Bool × List Byte, validate_render w q = q.2 := by
    intro q
    have h2 : ¬ WRITER_STRING_VALIDATION_IGNORE = WRITER_STRING_VALIDATION_REPLACE := by decide
    simp only [validate_render, hsv, h2, if_true, if_false, List.nil_append]
    split_ifs <;> rfl
  have hd : (validate_string w s).2.1 = c_str s := by
    rw [h1.2.1, show validate_render w = fun q => q.2 from funext hren]
    exact utf8_sequences_flatten _ _ _ (le_refl _)
  refine ⟨h1.1, hd, fun hz => ?_⟩
  rw [hd, c_str_of_ne_zero s hz]

theorem C8_ignore_copies_input_witness :
    (validate_string (ctx_replace_qmark 2) [0x61, 0xff, 0x62]).1 = 0 ∧
    (validate_string (ctx_replace_qmark 2) [0x61, 0xff, 0x62]).2.1 = c_str [0x61, 0xff, 0x62] ∧
    ((∀ b ∈ ([0x61, 0xff, 0x62] : List Byte), b ≠ 0) →
      (validate_string (ctx_replace_qmark 2) [0x61, 0xff, 0x62]).2.1 = [0x61, 0xff, 0x62]) :=
  C8_ignore_copies_input (ctx_replace_qmark 2) [0x61, 0xff, 0x62] (by decide)

/-- C10. Under the `replace` policy `validate_string` succeeds for every
input string, its output is the input with each invalid sequence replaced by
exactly one copy of the replacement string and every valid sequence kept in
place, and it logs one warning carrying the number of invalid sequences when
there is at least one and no warning otherwise. In particular the key
`desc\xFF` with the replacement `?` yields `desc?` and a warning with the
count one. -/
theorem C10_replace_output_and_count (w : WriterContext) (s : List Byte)
    (hsv : w.string_validation = WRITER_STRING_VALIDATION_REPLACE) :
    (validate_string w s).1 = 0 ∧
    (validate_string w s).2.1 =
      utf8_replace_invalid w.string_validation_utf8_flags
        (c_str w.string_validation_replacement) (c_str s) ∧
    replaced_warnings (validate_string w s).2.2 =
      (if utf8_invalid_count w.string_validation_utf8_flags (c_str s) = 0 then []
       else [LogEvent.replaced (utf8_invalid_count w.string_validation_utf8_flags (c_str s))
         (c_str s) (c_str w.string_validation_replacement)]) ∧
    validate_string (ctx_replace_qmark WRITER_STRING_VALIDATION_REPLACE) (cs "desc" ++ [0xff]) =
      (0, cs "desc?",
        [LogEvent.invalid_sequence [0xff] (cs "desc" ++ [0xff]),
         LogEvent.replaced 1 (cs "desc" ++ [0xff]) (cs "?")]) := by
  have hnf : w.string_validation ≠ WRITER_STRING_VALIDATION_FAIL := by rw [hsv]; decide
  have h1 := validate_string_nonfail w s hnf
  refine ⟨h1.1, ?_, ?_, by decide⟩
  · rw [h1.2.1, utf8_replace_invalid]
    congr 1
    funext q
    have h2 : ¬ WRITER_STRING_VALIDATION_REPLACE = WRITER_STRING_VALIDATION_IGNORE := by decide
    simp only [validate_render, hsv, h2, if_true, if_false, List.append_nil]
  · rw [h1.2.2]
    have hev : ∀ qs : List (Bool × List Byte),
        replaced_warnings (validate_events (c_str s) qs) = [] := by
      intro qs
      simp [replaced_warnings, validate_events, List.filter_eq_nil_iff]
    simp only [replaced_warnings, List.filter_append] at hev ⊢
    rw [hev]
    by_cases hc : utf8_invalid_count w.string_validation_utf8_flags (c_str s) = 0
    · simp [hc]
    · simp [hc, hsv]

theorem C10_replace_output_and_count_witness :
    (validate_string (ctx_replace_qmark 1) (cs "desc" ++ [0xff])).1 = 0 ∧
    (validate_string (ctx_replace_qmark 1) (cs "desc" ++ [0xff])).2.1 =
      utf8_replace_invalid (ctx_replace_qmark 1).string_validation_utf8_flags
        (c_str (ctx_replace_qmark 1).string_validation_replacement)
        (c_str (cs "desc" ++ [0xff])) ∧
    replaced_warnings (validate_string (ctx_replace_qmark 1) (cs "desc" ++ [0xff])).2.2 =
      (if utf8_invalid_count (ctx_replace_qmark 1).string_validation_utf8_flags
          (c_str (cs "desc" ++ [0xff])) = 0 then []
       else [LogEvent.replaced
         (utf8_invalid_count (ctx_replace_qmark 1).string_validation_utf8_flags
           (c_str (cs "desc" ++ [0xff])))
         (c_str (cs "desc" ++ [0xff]))
         (c_str (ctx_replace_qmark 1).string_validation_replacement)]) ∧
    validate_string (ctx_replace_qmark WRITER_STRING_VALIDATION_REPLACE) (cs "desc" ++ [0xff]) =
      (0, cs "desc?",
        [LogEvent.invalid_sequence [0xff] (cs "desc" ++ [0xff]),
         LogEvent.replaced 1 (cs "desc" ++ [0xff]) (cs "?")]) :=
  C10_replace_output_and_count (ctx_replace_qmark 1) (cs "desc" ++ [0xff]) (by decide)

/-! ## Valid strings -/

/-- On a string without invalid sequence the loop of `validate_string` copies
every sequence, counts nothing and logs nothing, whatever the policy. -/
theorem validate_string_loop_valid (w : WriterContext) (src : List Byte) (fuel : Nat) :
    ∀ p dstbuf n log,
      (∀ q ∈ utf8_sequences w.string_validation_utf8_flags fuel p, q.1 = true) →
      validate_string_loop w src fuel p dstbuf n log =
        (0, dstbuf ++ (utf8_sequences w.string_validation_utf8_flags fuel p).flatMap
          (fun q => q.2), n, log) := by
  induction fuel with
  | zero =>
    intro p dstbuf n log _
    simp [validate_string_loop, utf8_sequences]
  | succ fuel ih =>
    intro p dstbuf n log hv
    by_cases hp : p = []
    · subst hp
      simp [validate_string_loop, utf8_sequences]
    · rw [utf8_sequences_succ _ _ _ hp] at hv ⊢
      have hvalid : ¬ (av_utf8_decode p w.string_validation_utf8_flags).1 < 0 := by
        have := hv _ (List.mem_cons_self _ _)
        simpa using this
      simp only [validate_string_loop, hp, if_false, hvalid]
      rw [ih _ _ _ _ (fun q hq => hv q (List.mem_cons_of_mem _ hq))]
      simp

/-- C11. For every string that consists only of validly decoding sequences,
`validate_string` succeeds and returns the string byte for byte, under each
policy (`fail`, `replace`, `ignore`) and whatever the replacement string
is. -/
theorem C11_valid_string_unchanged (w : WriterContext) (s : List Byte)
    (hs : utf8_valid w.string_validation_utf8_flags (c_str s)) :
    (validate_string w s).1 = 0 ∧ (validate_string w s).2.1 = c_str s ∧
    ((∀ b ∈ s, b ≠ 0) → (validate_string w s).2.1 = s) := by
  have h := validate_string_loop_valid w (c_str s) (c_str s).length (c_str s) [] 0 [] hs
  have hflat := utf8_sequences_flatten w.string_validation_utf8_flags (c_str s).length (c_str s)
    (le_refl _)
  have h1 : (validate_string w s).1 = 0 ∧ (validate_string w s).2.1 = c_str s := by
    simp [validate_string, h, hflat]
  refine ⟨h1.1, h1.2, fun hz => ?_⟩
  rw [h1.2, c_str_of_ne_zero s hz]

theorem C11_valid_string_unchanged_witness :
    (validate_string ctx_format_fail [0x64, 0xc3, 0xa9, 0x73]).1 = 0 ∧
    (validate_string ctx_format_fail [0x64, 0xc3, 0xa9, 0x73]).2.1 =
      c_str [0x64, 0xc3, 0xa9, 0x73] ∧
    ((∀ b ∈ ([0x64, 0xc3, 0xa9, 0x73] : List Byte), b ≠ 0) →
      (validate_string ctx_format_fail [0x64, 0xc3, 0xa9, 0x73]).2.1 =
        [0x64, 0xc3, 0xa9, 0x73]) :=
  C11_valid_string_unchanged ctx_format_fail [0x64, 0xc3, 0xa9, 0x73] (by decide)

/-! ## Fields: return values and visibility -/

/-- The return value of `validate_string` is 0 or `AVERROR_INVALIDDATA`. -/
theorem validate_string_ret_cases (w : WriterContext) (s : List Byte) :
    (validate_string w s).1 = 0 ∨ (validate_string w s).1 = AVERROR_INVALIDDATA := by
  by_cases hneg : (validate_string w s).1 < 0
  · exact Or.inr ((validate_string_ret w s).2 hneg)
  · left
    by_cases hsv : w.string_validation = WRITER_STRING_VALIDATION_FAIL
    · have hv : utf8_valid w.string_validation_utf8_flags (c_str s) := by
        by_contra hv
        exact hneg ((validate_string_ret w s).1.mpr ⟨hsv, hv⟩)
      have h := validate_string_loop_valid w (c_str s) (c_str s).length (c_str s) [] 0 [] hv
      simp [validate_string, h]
    · exact (validate_string_nonfail w s hsv).1

/-- The return value of `writer_print_string` is 0 or `AVERROR_INVALIDDATA`. -/
theorem writer_print_string_ret (w : WriterContext) (key val : List Byte) (flags : Nat)
    (ret : Int) (w' : WriterContext)
    (h : writer_print_string w key val flags = .ok (ret, w')) :
    ret = 0 ∨ ret = AVERROR_INVALIDDATA := by
  simp only [writer_print_string, bind, Except.bind] at h
  split at h
  · cases h
  · split at h
    · cases h
    · rename_i sect _
      by_cases hshow : sect.shows key = true
      · simp only [hshow, if_true] at h
        by_cases hf : flags &&& PRINT_STRING_VALIDATE ≠ 0
        · simp only [if_pos hf] at h
          split at h
          · cases h
          · rename_i r hr
            split at h
            · cases h
            · simp only [pure, Except.pure] at h
              injection h with h
              injection h with h1 h2
              subst h1
              simp only [writer_print_string_validate] at hr
              have hk := validate_string_ret_cases w key
              have hv := validate_string_ret_cases
                { w with log := w.log ++ (validate_string w key).2.2 } val
              split_ifs at hr with h1 h2
              · simp only [pure, Except.pure] at hr
                injection hr with hr
                rw [← hr]
                exact hk
              · simp only [pure, Except.pure] at hr
                injection hr with hr
                rw [← hr]
                exact hv
              · simp only [bind, Except.bind] at hr
                split at hr
                · cases hr
                · simp only [pure, Except.pure] at hr
                  injection hr with hr
                  rw [← hr]
                  exact hv
        · simp only [if_neg hf, bind, Except.bind, pure, Except.pure] at h
          split at h
          · cases h
          · split at h
            · cases h
            · injection h with h
              injection h with h1 _
              exact Or.inl h1.symm
      · simp only [hshow, pure, Except.pure] at h
        injection h with h
        injection h with h1 _
        exact Or.inl h1.symm

/-- C6 (amended). For every well-formed context with an open section `sect`
and every key, `writer_print_string` and `writer_print_integer` behave by
visibility. If the section shows all entries or the key is in its allow-list,
`writer_print_integer`, and `writer_print_string` whenever it does not fail
(it returns 0 then, and without `PRINT_STRING_VALIDATE` it always does), leave
the item counter of the current level one higher modulo `2 ^ 32` (it is an
`unsigned int` and wraps from 4294967295 to 0), and nothing else of the context
changes but the output and, for a validated string, the log. Otherwise the
call returns the context as it was. What a failed call leaves in the counter
is not stated here. -/
theorem C6_emit_field_by_visibility (w : WriterContext) (sect : Section) (hwf : w.wf)
    (h0 : 0 ≤ w.level) (hcur : w.current = .ok sect) (key val : List Byte) (flags : Nat)
    (ival : Int) :
    (sect.shows key = true →
      (∃ ret o g n, writer_print_string w key val flags = .ok (ret,
          { w with nb_item := w.nb_item.set w.level.toNat n, out := o, log := g }) ∧
        (flags &&& PRINT_STRING_VALIDATE = 0 → ret = 0) ∧
        (¬ ret < 0 → ret = 0 ∧ n = (w.nb_item.getD w.level.toNat 0 + 1) % 2 ^ 32)) ∧
      (∃ o, writer_print_integer w key ival =
        .ok { w with nb_item := w.nb_item.set w.level.toNat
                       ((w.nb_item.getD w.level.toNat 0 + 1) % 2 ^ 32),
                     out := o })) ∧
    (sect.shows key = false →
      writer_print_string w key val flags = .ok (0, w) ∧
      writer_print_integer w key ival = .ok w) := by
  obtain ⟨m, sect', hl, hn, hcur', hsep⟩ := wf_current w hwf h0
  have hs : sect' = sect := by
    rw [hcur'] at hcur
    injection hcur
  subst hs
  have hm : w.level.toNat = m := by omega
  rw [hm]
  have hS := writer_print_string_ok w sect' m hl hn hcur' hsep key val flags
  have hI := writer_print_integer_ok w sect' m hl hn hcur' hsep key ival
  constructor
  · intro hshow
    obtain ⟨ret, o, g, h, hret, _⟩ := hS.1 hshow
    have hcases := writer_print_string_ret w key val flags ret _ h
    refine ⟨⟨ret, o, g, _, h, fun hf => ?_, fun hge => ⟨?_, rfl⟩⟩, hI.1 hshow⟩
    · rcases hcases with hc | hc
      · exact hc
      · have hneg : ret < 0 := by rw [hc]; decide
        exact absurd hf (hret.mp hneg).1
    · rcases hcases with hc | hc
      · exact hc
      · exact absurd (by rw [hc]; decide) hge
  · intro hshow
    exact ⟨hS.2 hshow, hI.2 hshow⟩

theorem C6_emit_field_by_visibility_witness :
    (∃ ret o g n, writer_print_string ctx_format_max (cs "nb_streams") (cs "2") 0 = .ok (ret,
        { ctx_format_max with
            nb_item := ctx_format_max.nb_item.set ctx_format_max.level.toNat n,
            out := o, log := g }) ∧
      ((0 : Nat) &&& PRINT_STRING_VALIDATE = 0 → ret = 0) ∧
      (¬ ret < 0 → ret = 0 ∧
        n = (ctx_format_max.nb_item.getD ctx_format_max.level.toNat 0 + 1) % 2 ^ 32)) ∧
    (∃ o, writer_print_integer ctx_format_max (cs "nb_streams") 2 =
      .ok { ctx_format_max with
          nb_item := ctx_format_max.nb_item.set ctx_format_max.level.toNat
            ((ctx_format_max.nb_item.getD ctx_format_max.level.toNat 0 + 1) % 2 ^ 32),
          out := o }) :=
  (C6_emit_field_by_visibility ctx_format_max
    (Section.mk0 SECTION_ID_FORMAT "format" 0 [SECTION_ID_FORMAT_TAGS] none none 1)
    (by decide) (by decide) (by decide) (cs "nb_streams") (cs "2") 0 2).1 (by decide)

/-- C9 (counterexample). Under the `fail` policy, a validated
`writer_print_string` whose value is the invalid byte `0xff` returns 0 when
the open section does not show the key: the validation stands inside the
visibility test and is not run. -/
theorem C9_counterexample :
    ctx_root_strict.string_validation = WRITER_STRING_VALIDATION_FAIL ∧
    ¬ utf8_valid ctx_root_strict.string_validation_utf8_flags (c_str [0xff]) ∧
    PRINT_STRING_VALIDATE &&& PRINT_STRING_VALIDATE ≠ 0 ∧
    ctx_root_strict.current.map (fun sect => sect.shows (cs "comment")) = .ok false ∧
    writer_print_string ctx_root_strict (cs "comment") [0xff] PRINT_STRING_VALIDATE =
      .ok (0, ctx_root_strict) := by
  decide

/-- C9 (amended). `validate_string` returns a negative value, which is
`AVERROR_INVALIDDATA` (the spec's `InvalidEncoding`), iff the policy is `fail`
and the string contains an invalid sequence; under `replace` and `ignore` it
returns 0 for every input. A validated `writer_print_string` in a well-formed
context with an open section returns a negative value, again
`AVERROR_INVALIDDATA`, iff the policy is `fail`, the section shows the key and
the key or the value contains an invalid sequence, and then nothing is written
to the output for that field; for a key the section does not show nothing is
validated and the call returns 0 with the context unchanged; under `replace`
and `ignore` it returns 0 for every input. -/
theorem C9_invalid_encoding_iff_fail (w : WriterContext) (key val : List Byte) (flags : Nat) :
    (∀ s : List Byte,
      ((validate_string w s).1 < 0 ↔
        w.string_validation = WRITER_STRING_VALIDATION_FAIL ∧
        ¬ utf8_valid w.string_validation_utf8_flags (c_str s)) ∧
      ((validate_string w s).1 < 0 → (validate_string w s).1 = AVERROR_INVALIDDATA) ∧
      (w.string_validation = WRITER_STRING_VALIDATION_REPLACE ∨
        w.string_validation = WRITER_STRING_VALIDATION_IGNORE → (validate_string w s).1 = 0)) ∧
    (w.wf → 0 ≤ w.level → flags &&& PRINT_STRING_VALIDATE ≠ 0 →
      ∃ sect ret w', w.current = .ok sect ∧
        writer_print_string w key val flags = .ok (ret, w') ∧
        (ret < 0 ↔ w.string_validation = WRITER_STRING_VALIDATION_FAIL ∧
          sect.shows key = true ∧
          (¬ utf8_valid w.string_validation_utf8_flags (c_str key) ∨
            ¬ utf8_valid w.string_validation_utf8_flags (c_str val))) ∧
        (ret < 0 → ret = AVERROR_INVALIDDATA ∧ w'.out = w.out) ∧
        (sect.shows key = false → ret = 0 ∧ w' = w) ∧
        (w.string_validation = WRITER_STRING_VALIDATION_REPLACE ∨
          w.string_validation = WRITER_STRING_VALIDATION_IGNORE → ret = 0)) := by
  constructor
  · intro s
    refine ⟨(validate_string_ret w s).1, (validate_string_ret w s).2, fun h => ?_⟩
    apply (validate_string_nonfail w s _).1
    rcases h with h | h <;> rw [h] <;> decide
  · intro hwf h0 hflags
    obtain ⟨m, sect, hl, hn, hcur, hsep⟩ := wf_current w hwf h0
    have hboth := writer_print_string_ok w sect m hl hn hcur hsep key val flags
    have hnotneg : ∀ r : Int, r = 0 ∨ r = AVERROR_INVALIDDATA → ¬ r < 0 → r = 0 := by
      intro r hr hge
      rcases hr with hr | hr
      · exact hr
      · exact absurd (by rw [hr]; decide) hge
    by_cases hshow : sect.shows key = true
    · obtain ⟨ret, o, g, h, hret, hout⟩ := hboth.1 hshow
      have hcases := writer_print_string_ret w key val flags ret _ h
      have hiff : ret < 0 ↔ w.string_validation = WRITER_STRING_VALIDATION_FAIL ∧
          sect.shows key = true ∧
          (¬ utf8_valid w.string_validation_utf8_flags (c_str key) ∨
            ¬ utf8_valid w.string_validation_utf8_flags (c_str val)) := by
        rw [hret, (validate_string_ret w key).1, (validate_string_ret w val).1]
        constructor
        · rintro ⟨_, ⟨h1, h2⟩ | ⟨h1, h2⟩⟩
          · exact ⟨h1, hshow, Or.inl h2⟩
          · exact ⟨h1, hshow, Or.inr h2⟩
        · rintro ⟨h1, _, h2 | h2⟩
          · exact ⟨hflags, Or.inl ⟨h1, h2⟩⟩
          · exact ⟨hflags, Or.inr ⟨h1, h2⟩⟩
      refine ⟨sect, ret, _, hcur, h, hiff, fun hneg => ⟨?_, hout hneg⟩, fun hf => ?_,
        fun hp => ?_⟩
      · rcases hcases with hc | hc
        · omega
        · exact hc
      · rw [hshow] at hf
        cases hf
      · apply hnotneg ret hcases
        intro hneg
        have := (hiff.mp hneg).1
        rcases hp with hp | hp <;> rw [hp] at this <;> exact absurd this (by decide)
    · have hshow' : sect.shows key = false := by simpa using hshow
      refine ⟨sect, 0, w, hcur, hboth.2 hshow', ?_, fun hneg => absurd hneg (by decide),
        fun _ => ⟨rfl, rfl⟩, fun _ => rfl⟩
      constructor
      · intro hneg
        exact absurd hneg (by decide)
      · rintro ⟨_, h2, _⟩
        exact absurd h2 hshow

theorem C9_invalid_encoding_iff_fail_witness :
    ∃ sect ret w', ctx_format_fail.current = .ok sect ∧
      writer_print_string ctx_format_fail (cs "filename") [0xff] 2 = .ok (ret, w') ∧
      (ret < 0 ↔ ctx_format_fail.string_validation = WRITER_STRING_VALIDATION_FAIL ∧
        sect.shows (cs "filename") = true ∧
        (¬ utf8_valid ctx_format_fail.string_validation_utf8_flags (c_str (cs "filename")) ∨
          ¬ utf8_valid ctx_format_fail.string_validation_utf8_flags (c_str [0xff]))) ∧
      (ret < 0 → ret = AVERROR_INVALIDDATA ∧ w'.out = ctx_format_fail.out) ∧
      (sect.shows (cs "filename") = false → ret = 0 ∧ w' = ctx_format_fail) ∧
      (ctx_format_fail.string_validation = WRITER_STRING_VALIDATION_REPLACE ∨
        ctx_format_fail.string_validation = WRITER_STRING_VALIDATION_IGNORE → ret = 0) :=
  (C9_invalid_encoding_iff_fail ctx_format_fail (cs "filename") [0xff] 2).2
    (by decide) (by decide) (by decide)

theorem json_print_section_header_exact (w : WriterContext) (m k : Nat) (sect : Section)
    (parent : Option Section)
    (hl : w.level = m) (hp : w.section_[m]? = some (some (k : Int)))
    (hs : w.sections[k]? = some sect) (hn : m < w.nb_item.length)
    (hp0 : m = 0 → parent = none)
    (hpar : ∀ l, m = l + 1 → ∃ kp : Nat, ∃ sp, w.section_[l]? = some (some (kp : Int)) ∧
      w.sections[kp]? = some sp ∧ parent = some sp) :
    json_print_section_header w = .ok (json_header_result w sect parent) := by
  have hA : arr_get w.section_ w.level = .ok (some (k : Int)) := by
    rw [hl]; exact arr_get_ok _ _ _ hp
  have hD : arr_get w.sections (k : Int) = .ok sect := arr_get_ok _ _ _ hs
  have hnm : w.nb_item[m]? = some (w.nb_item.getD m 0) := by
    simp [List.getD, List.get?_eq_getElem?, hn]
  have hE : arr_get w.nb_item w.level = .ok (w.nb_item.getD m 0) := by
    rw [hl]; exact arr_get_ok _ _ _ hnm
  have hF : ∀ x, arr_set w.nb_item w.level x = .ok (w.nb_item.set m x) := by
    intro x; rw [hl]; exact arr_set_ok _ _ _ hn
  have hmt : w.level.toNat = m := by omega
  by_cases hw : sect.flags &&& SECTION_FLAG_IS_WRAPPER = 0 <;>
  by_cases ha : sect.flags &&& SECTION_FLAG_IS_ARRAY = 0 <;>
  by_cases hc : w.priv.compact = 0
  all_goals
    cases m with
    | zero =>
      simp only [Nat.cast_zero] at hl
      rw [hl] at hA
      rw [hp0 rfl]
      simp only [json_print_section_header, hl, ne_eq, not_true_eq_false, if_false,
        bind, Except.bind, pure, Except.pure, WriterContext.deref, hA, hD]
      simp [writer_put_str, json_indent_add, JSON_INDENT, json_header_result, json_header_sep,
        json_header_text, json_header_typed, json_indent_text, hl, hw, ha, hc]
    | succ l =>
      obtain ⟨kp, sp, hpp, hsp, hpe⟩ := hpar l rfl
      subst hpe
      have hl0 : w.level ≠ 0 := by omega
      have hl1 : w.level - 1 = (l : Int) := by omega
      have hl1t : (w.level - 1).toNat = l := by omega
      have hll : l < w.nb_item.length := by omega
      have hnl : w.nb_item[l]? = some (w.nb_item.getD l 0) := by
        simp [List.getD, List.get?_eq_getElem?, hll]
      have hB : arr_get w.section_ (w.level - 1) = .ok (some (kp : Int)) := by
        rw [hl1]; exact arr_get_ok _ _ _ hpp
      have hC : arr_get w.nb_item (w.level - 1) = .ok (w.nb_item.getD l 0) := by
        rw [hl1]; exact arr_get_ok _ _ _ hnl
      have hG : arr_get w.sections (kp : Int) = .ok sp := arr_get_ok _ _ _ hsp
      simp only [json_print_section_header, hl0, ne_eq, not_false_eq_true, if_true,
        bind, Except.bind, pure, Except.pure, WriterContext.deref, hA, hB, hC]
      by_cases hn0 : w.nb_item.getD l 0 = 0 <;>
      by_cases hpa : sp.flags &&& SECTION_FLAG_IS_ARRAY = 0 <;>
      by_cases hpid : sp.id = SECTION_ID_PACKETS_AND_FRAMES <;>
        simp only [hn0, hc, hw, ha, hpa, hpid, if_true, if_false, not_true_eq_false,
          not_false_eq_true, writer_put_str, json_indent_add, JSON_INDENT, hD, hG, hE, hF,
          json_header_result, json_header_sep, json_header_text, json_header_typed,
          json_indent_text, hl1t, hmt, hl0, ne_eq, true_and, and_true, and_false, false_and,
          and_self, decide_True, decide_False, Bool.false_eq_true, List.append_nil, List.nil_append,
          List.append_assoc, bind, Except.bind, pure, Except.pure]

/-! ## The JSON backend: what a header writes -/

/-- In a well-formed context with an open section the reads of the backend
succeed: the open section and the one below it, if any, are catalog entries. -/
theorem wf_parent (w : WriterContext) (hwf : w.wf) (h0 : 0 ≤ w.level) :
    ∃ (m k : Nat) (sect : Section) (parent : Option Section),
      w.level = m ∧ w.section_[m]? = some (some (k : Int)) ∧ w.sections[k]? = some sect ∧
      sect.id = k ∧ m < w.nb_item.length ∧ w.current = .ok sect ∧ w.parent = .ok parent ∧
      (m = 0 → parent = none) ∧
      (∀ l, m = l + 1 → ∃ kp : Nat, ∃ sp, w.section_[l]? = some (some (kp : Int)) ∧
        w.sections[kp]? = some sp ∧ sp.id = kp ∧ parent = some sp) := by
  have h9 := hwf.2.1
  have hnl := hwf.2.2.1
  simp only [SECTION_MAX_NB_LEVELS] at h9
  obtain ⟨m, hm⟩ : ∃ m : Nat, w.level = m := ⟨w.level.toNat, by omega⟩
  obtain ⟨k, sect, hp, hs, hid, _⟩ := wf_section w hwf m (by omega)
  have hcur : w.current = .ok sect := by
    simp only [WriterContext.current, bind, Except.bind, WriterContext.deref, hm,
      arr_get_ok _ _ _ hp, arr_get_ok _ _ _ hs]
  cases m with
  | zero =>
    refine ⟨0, k, sect, none, hm, hp, hs, hid, by omega, hcur, ?_, fun _ => rfl, ?_⟩
    · simp only [Nat.cast_zero] at hm
      simp [WriterContext.parent, hm, pure, Except.pure]
    · intro l hl
      omega
  | succ l =>
    obtain ⟨kp, sp, hpp, hsp, hpid, _⟩ := wf_section w hwf l (by omega)
    refine ⟨l + 1, k, sect, some sp, hm, hp, hs, hid, by omega, hcur, ?_, fun h => by omega, ?_⟩
    · have hl0 : w.level ≠ 0 := by omega
      have hl1 : w.level - 1 = (l : Int) := by omega
      simp only [WriterContext.parent, hl0, ne_eq, not_false_eq_true, if_true, hl1,
        bind, Except.bind, WriterContext.deref, arr_get_ok _ _ _ hpp, arr_get_ok _ _ _ hsp,
        pure, Except.pure]
    · intro l' hl'
      have : l' = l := by omega
      subst this
      exact ⟨kp, sp, hpp, hsp, hpid, rfl⟩

/-- C15. In a well-formed context with an open section `sect`,
`json_print_section_header` succeeds and, after the separating comma it
writes when the section below already holds an item, renders the section by
its flags and its parent: a wrapper section is an opening brace without key;
an array section is the indentation, its escaped name as a key and an opening
bracket; a section that is neither, in a parent that is not an array, is the
indentation, its escaped name as a key and an opening brace; and a section
that is neither, in a parent that is an array, is the indentation and an
opening brace without key (followed by the `type` field when the parent is the
`packets_and_frames` array). -/
theorem C15_section_header_by_flags_and_parent (w : WriterContext) (sect : Section)
    (hwf : w.wf) (h0 : 0 ≤ w.level) (hcur : w.current = .ok sect) :
    ∃ w', json_print_section_header w = .ok w' ∧
      (sect.flags &&& SECTION_FLAG_IS_WRAPPER ≠ 0 →
        w'.out = w.out ++ json_header_sep w ++ cs "\x7b\n") ∧
      (sect.flags &&& SECTION_FLAG_IS_WRAPPER = 0 → sect.flags &&& SECTION_FLAG_IS_ARRAY ≠ 0 →
        w'.out = w.out ++ json_header_sep w ++ json_indent_text w.priv.indent_level ++
          cs "\"" ++ json_escape_str [] sect.name ++ cs "\": [\n") ∧
      (sect.flags &&& SECTION_FLAG_IS_WRAPPER = 0 → sect.flags &&& SECTION_FLAG_IS_ARRAY = 0 →
        ∀ parent, w.parent = .ok (some parent) → parent.flags &&& SECTION_FLAG_IS_ARRAY = 0 →
        w'.out = w.out ++ json_header_sep w ++ json_indent_text w.priv.indent_level ++
          cs "\"" ++ json_escape_str [] sect.name ++ cs "\": \x7b" ++
          c_str w.priv.item_start_end) ∧
      (sect.flags &&& SECTION_FLAG_IS_WRAPPER = 0 → sect.flags &&& SECTION_FLAG_IS_ARRAY = 0 →
        ∀ parent, w.parent = .ok (some parent) → parent.flags &&& SECTION_FLAG_IS_ARRAY ≠ 0 →
        w'.out = w.out ++ json_header_sep w ++ json_indent_text w.priv.indent_level ++
          cs "\x7b" ++ c_str w.priv.item_start_end ++
          (if parent.id = SECTION_ID_PACKETS_AND_FRAMES then
            (if w.priv.compact = 0 then json_indent_text (w.priv.indent_level + 1) else []) ++
              cs "\"type\": \"" ++ c_str sect.name ++ cs "\""
           else [])) := by
  obtain ⟨m, k, sect', parent', hl, hp, hs, _, hn, hcur', hpar', hp0, hpar⟩ := wf_parent w hwf h0
  have hse : sect' = sect := by
    rw [hcur'] at hcur
    injection hcur
  subst hse
  have hex := json_print_section_header_exact w m k sect' parent' hl hp hs hn hp0
    (fun l hl' => by
      obtain ⟨kp, sp, h1, h2, _, h3⟩ := hpar l hl'
      exact ⟨kp, sp, h1, h2, h3⟩)
  refine ⟨_, hex, ?_, ?_, ?_, ?_⟩
  · intro hw
    simp [json_header_result, json_header_text, hw]
  · intro hw ha
    simp [json_header_result, json_header_text, hw, ha]
  · intro hw ha parent hpe hpa
    rw [hpar'] at hpe
    injection hpe with hpe
    subst hpe
    simp [json_header_result, json_header_text, hw, ha, hpa]
  · intro hw ha parent hpe hpa
    rw [hpar'] at hpe
    injection hpe with hpe
    subst hpe
    simp only [json_header_result, json_header_text, hw, ha, hpa, ne_eq, not_true_eq_false,
      if_false]
    split_ifs <;> simp

theorem ctx_stream_header_reached :
    writer_print_section_header ctx_streams SECTION_ID_STREAM =
      json_print_section_header ctx_stream_header := by
  decide

theorem C15_section_header_by_flags_and_parent_witness :
    ∃ w', json_print_section_header ctx_stream_header = .ok w' ∧
      w'.out = cs "\x7b\n    \"streams\": [\n        \x7b\n" := by
  obtain ⟨w', h, _, _, _, h4⟩ := C15_section_header_by_flags_and_parent ctx_stream_header
    (Section.mk0 SECTION_ID_STREAM "stream" 0
      [SECTION_ID_STREAM_DISPOSITION, SECTION_ID_STREAM_TAGS, SECTION_ID_STREAM_SIDE_DATA_LIST]
      none none 1) (by decide) (by decide) (by decide)
  refine ⟨w', h, ?_⟩
  rw [h4 (by decide) (by decide)
    (Section.mk0 SECTION_ID_STREAMS "streams" SECTION_FLAG_IS_ARRAY [SECTION_ID_STREAM] none none 1)
    (by decide) (by decide)]
  decide

/-! ## The section engine: what a call returns -/

theorem json_print_section_footer_exact (w : WriterContext) (m k : Nat) (sect : Section)
    (hl : w.level = m) (hp : w.section_[m]? = some (some (k : Int)))
    (hs : w.sections[k]? = some sect) :
    json_print_section_footer w = .ok (json_footer_result w sect) := by
  have hA : arr_get w.section_ w.level = .ok (some (k : Int)) := by
    rw [hl]; exact arr_get_ok _ _ _ hp
  have hD : arr_get w.sections (k : Int) = .ok sect := arr_get_ok _ _ _ hs
  simp only [json_print_section_footer, bind, Except.bind, pure, Except.pure,
    WriterContext.deref, hA, hD, writer_put_str, writer_w8, json_indent_add, JSON_INDENT]
  by_cases hc : w.priv.compact = 0 <;> by_cases hz : w.level = 0 <;>
  by_cases ha : sect.flags &&& SECTION_FLAG_IS_ARRAY = 0 <;>
    simp [hc, hz, ha, json_footer_result, json_footer_text, json_indent_text, hD, ← sub_eq_add_neg]

theorem writer_print_section_header_exact (w : WriterContext) (k : Nat) (sect : Section)
    (hwf : w.wf) (h9 : w.level < 9) (hs : w.sections[k]? = some sect)
    (parent : Option Section) (hpar : { w with level := w.level + 1 }.parent = .ok parent) :
    writer_print_section_header w k =
      .ok (json_header_result (writer_header_enter w k parent) sect parent) := by
  have hlo := hwf.1
  have hnl := hwf.2.2.1
  have hsl := hwf.2.2.2.1
  obtain ⟨m, hm⟩ : ∃ m : Nat, w.level + 1 = m := ⟨(w.level + 1).toNat, by omega⟩
  have hmt : (w.level + 1).toNat = m := by omega
  have hlt : w.level + 1 < SECTION_MAX_NB_LEVELS := by simp only [SECTION_MAX_NB_LEVELS]; omega
  have hS1 : ∀ x, arr_set w.nb_item (w.level + 1) x = .ok (w.nb_item.set m x) := by
    intro x; rw [hm]; exact arr_set_ok _ _ _ (by omega)
  have hS2 : ∀ x, arr_set w.section_ (w.level + 1) x = .ok (w.section_.set m x) := by
    intro x; rw [hm]; exact arr_set_ok _ _ _ (by omega)
  have key : ∀ w1 : WriterContext, w1 = writer_header_enter w k parent →
      json_print_section_header w1 = .ok (json_header_result (writer_header_enter w k parent)
        sect parent) := by
    intro w1 e
    subst e
    apply json_print_section_header_exact _ m k sect parent
    · exact hm
    · simp only [writer_header_enter, hmt]
      rw [List.getElem?_set_self (by omega)]
    · exact hs
    · simp only [writer_header_enter, hmt]
      simp; omega
    · intro h0
      have h0' : w.level + 1 = 0 := by omega
      simp only [WriterContext.parent, h0', ne_eq, not_true_eq_false, if_false, pure,
        Except.pure] at hpar
      injection hpar with hpar
      exact hpar.symm
    · intro l hl
      obtain ⟨kp, sp, hpp, hsp, _, _⟩ := wf_section w hwf l (by omega)
      have hl0 : w.level + 1 ≠ 0 := by omega
      have hl1 : w.level + 1 - 1 = (l : Int) := by omega
      simp only [WriterContext.parent, hl0, ne_eq, not_false_eq_true, if_true, hl1,
        bind, Except.bind, WriterContext.deref, arr_get_ok _ _ _ hpp, arr_get_ok _ _ _ hsp,
        pure, Except.pure] at hpar
      injection hpar with hpar
      refine ⟨kp, sp, ?_, hsp, hpar.symm⟩
      simp only [writer_header_enter, hmt]
      rw [List.getElem?_set_ne (by omega)]
      exact hpp
  by_cases h0 : w.level + 1 = 0
  · have hpn : parent = none := by
      simp only [WriterContext.parent, h0, ne_eq, not_true_eq_false, if_false, pure,
        Except.pure] at hpar
      injection hpar with hpar
      exact hpar.symm
    subst hpn
    have hne : ¬ SECTION_ID_NONE = SECTION_ID_PACKETS_AND_FRAMES := by decide
    simp only [writer_print_section_header, hlt, not_true_eq_false, if_false,
      if_neg (not_not.mpr h0), bind, Except.bind, pure, Except.pure, hS1, hS2, if_neg hne]
    clear hpar hm hS1 hS2 hlt
    subst hmt
    split_ifs <;> apply key <;> clear h0 <;> simp [writer_header_enter, hne, *]
  · obtain ⟨l, hl⟩ : ∃ l : Nat, w.level = l := ⟨w.level.toNat, by omega⟩
    obtain ⟨kp, sp, hpp, hsp, hid, hlen⟩ := wf_section w hwf l (by omega)
    have hpk : ¬ SECTION_ID_PACKET = SECTION_ID_PACKETS_AND_FRAMES := by decide
    have hB : arr_get w.section_ (w.level + 1 - 1) = .ok (some (kp : Int)) := by
      rw [show w.level + 1 - 1 = (l : Int) by omega]; exact arr_get_ok _ _ _ hpp
    have hG : arr_get w.sections (kp : Int) = .ok sp := arr_get_ok _ _ _ hsp
    have hps : parent = some sp := by
      simp only [WriterContext.parent, h0, ne_eq, not_false_eq_true, if_true,
        bind, Except.bind, WriterContext.deref, hB, hG, pure, Except.pure] at hpar
      injection hpar with hpar
      exact hpar.symm
    subst hps
    simp only [writer_print_section_header, hlt, not_true_eq_false, if_false, if_pos h0,
      bind, Except.bind, pure, Except.pure, hB, WriterContext.deref, hG, hS1, hS2]
    clear hpar hl hm hB hS1 hS2 hlt hid hlen
    subst hmt
    split_ifs <;> apply key <;> simp [writer_header_enter, *]
theorem writer_print_section_footer_exact (w : WriterContext) (sect : Section)
    (parent : Option Section) (hwf : w.wf) (h0 : 0 ≤ w.level)
    (hcur : w.current = .ok sect) (hpar : w.parent = .ok parent) :
    writer_print_section_footer w =
      .ok { json_footer_result (writer_footer_leave w sect parent) sect with
            level := w.level - 1 } := by
  obtain ⟨m, k, sect', parent', hl, hp, hs, hid, hn, hcur', hpar', hp0, hparent⟩ :=
    wf_parent w hwf h0
  have e1 : sect' = sect := by
    rw [hcur'] at hcur
    injection hcur
  have e2 : parent' = parent := by
    rw [hpar'] at hpar
    injection hpar
  subst e1 e2
  have hA : arr_get w.section_ w.level = .ok (some (k : Int)) := by
    rw [hl]; exact arr_get_ok _ _ _ hp
  have hD : arr_get w.sections (k : Int) = .ok sect' := arr_get_ok _ _ _ hs
  have key : ∀ w1 : WriterContext, w1.level = w.level → w1.section_ = w.section_ →
      w1.sections = w.sections →
      json_print_section_footer w1 = .ok (json_footer_result w1 sect') := by
    intro w1 a1 a2 a3
    exact json_print_section_footer_exact w1 m k sect' (by rw [a1, hl]) (by rw [a2]; exact hp)
      (by rw [a3]; exact hs)
  have hne : ¬ SECTION_ID_NONE = SECTION_ID_PACKETS_AND_FRAMES := by decide
  cases m with
  | zero =>
    have hz : w.level = 0 := by simpa using hl
    have hpn := hp0 rfl
    subst hpn
    simp only [writer_print_section_footer, hA, hD, WriterContext.deref, if_neg (not_not.mpr hz),
      bind, Except.bind, pure, Except.pure, if_pos hz, ne_eq, not_true_eq_false, if_false,
      if_neg hne]
    rw [key]
    all_goals simp [writer_footer_leave, json_footer_result, hz, hne]
  | succ l =>
    obtain ⟨kp, sp, hpp, hsp, hpid, hps⟩ := hparent l rfl
    subst hps
    have hz : ¬ w.level = 0 := by omega
    have hl1 : w.level - 1 = (l : Int) := by omega
    have hlt : (w.level - 1).toNat = l := by omega
    have hB : arr_get w.section_ (w.level - 1) = .ok (some (kp : Int)) := by
      rw [hl1]; exact arr_get_ok _ _ _ hpp
    have hG : arr_get w.sections (kp : Int) = .ok sp := arr_get_ok _ _ _ hsp
    have hll : l < w.nb_item.length := by omega
    have hC : arr_get w.nb_item (w.level - 1) = .ok (w.nb_item.getD l 0) := by
      rw [hl1]; apply arr_get_ok; simp [List.getD, hll]
    have hS : ∀ x, arr_set w.nb_item (w.level - 1) x = .ok (w.nb_item.set l x) := by
      intro x; rw [hl1]; exact arr_set_ok _ _ _ hll
    have hnn : sp.id ≠ SECTION_ID_NONE := by
      rw [hpid]; simp only [SECTION_ID_NONE]; omega
    simp only [writer_print_section_footer, hA, hD, WriterContext.deref, if_pos hz,
      bind, Except.bind, pure, Except.pure, hB, hG, if_pos hnn, hC, hS, if_neg hz, hlt]
    clear hpid hl hl1 hA hB hC hS hid
    split_ifs <;> rw [key] <;>
      simp [writer_footer_leave, json_footer_result, hlt, *]

/-- C2 (amended). The root-closing step of `ffprobe` is an unconditional
`writer_print_section_footer`, without a depth check or an
`UnbalancedSections` failure: for every well-formed context with a section
open it succeeds, appends the footer text of that section (which is never
empty) to the output and leaves the level one lower, so no section is left
open exactly when the depth was 0 beforehand. -/
theorem C2_end_report_pops_one_level (w : WriterContext) (hwf : w.wf) (h0 : 0 ≤ w.level) :
    ∃ w' sect, w.current = .ok sect ∧ writer_print_section_footer w = .ok w' ∧
      w'.out = w.out ++ json_footer_text w.priv w.level sect ∧
      json_footer_text w.priv w.level sect ≠ [] ∧
      w'.level = w.level - 1 ∧ w'.wf ∧ (w'.level = -1 ↔ w.level = 0) := by
  obtain ⟨w', h, hwf', hl, _⟩ := writer_print_section_footer_ok w hwf h0
  obtain ⟨m, k, sect, parent, _, _, _, _, _, hcur, hpar, _, _⟩ := wf_parent w hwf h0
  have hex := writer_print_section_footer_exact w sect parent hwf h0 hcur hpar
  rw [h] at hex
  injection hex with hex
  refine ⟨w', sect, hcur, h, ?_, ?_, hl, hwf', by rw [hl]; omega⟩
  · rw [hex]
    rfl
  · intro hnil
    have hlen := congrArg List.length hnil
    unfold json_footer_text at hlen
    split_ifs at hlen
    · exact absurd hlen (by decide)
    all_goals
      simp only [List.length_append, List.length_singleton, List.length_nil] at hlen
      omega

theorem C2_end_report_pops_one_level_witness :
    ∃ w' sect, ctx_streams.current = .ok sect ∧
      writer_print_section_footer ctx_streams = .ok w' ∧
      w'.out = ctx_streams.out ++ json_footer_text ctx_streams.priv ctx_streams.level sect ∧
      json_footer_text ctx_streams.priv ctx_streams.level sect ≠ [] ∧
      w'.level = ctx_streams.level - 1 ∧ w'.wf ∧ (w'.level = -1 ↔ ctx_streams.level = 0) :=
  C2_end_report_pops_one_level ctx_streams (by decide) (by decide)

/-! ## Interleaved packets and frames -/

theorem paf_child (w : WriterContext) (k : Nat) (sect : Section) (n np nf : Nat)
    (hopen : paf_open w n np nf) (hs : sections[k]? = some sect)
    (hfw : sect.flags &&& SECTION_FLAG_IS_WRAPPER = 0)
    (hfa : sect.flags &&& SECTION_FLAG_IS_ARRAY = 0) :
    ∃ w', (writer_print_section_header w k >>= writer_print_section_footer) = .ok w' ∧
      paf_open w' (uint_inc n) (if k = 21 then uint_inc np else np)
        (if k = 21 then nf else uint_inc nf) ∧
      w'.level = w.level ∧ w'.priv = w.priv ∧
      w'.out = w.out ++ (if n ≠ 0 then cs ",\n" else []) ++ json_typed_object w.priv sect.name := by
  obtain ⟨hwf, h0, h9, hcat, hsec, hn, hnp, hnf⟩ := hopen
  obtain ⟨m, kp, sp, parent, hl, hp, hsp, hspid, hnlen, hcur, hpar, _, _⟩ := wf_parent w hwf h0
  have hmt : w.level.toNat = m := by omega
  have hkp : (kp : Int) = SECTION_ID_PACKETS_AND_FRAMES := by
    rw [hmt] at hsec
    simp only [List.getD, List.get?_eq_getElem?, hp, Option.getD_some] at hsec
    injection hsec
  have hkp' : kp = 24 := by
    simp only [SECTION_ID_PACKETS_AND_FRAMES] at hkp
    omega
  subst hkp'
  have hsp' : sp = Section.mk0 SECTION_ID_PACKETS_AND_FRAMES "packets_and_frames"
      SECTION_FLAG_IS_ARRAY [SECTION_ID_PACKET] none none 0 := by
    rw [hcat] at hsp
    have : sections[24]? = some (Section.mk0 SECTION_ID_PACKETS_AND_FRAMES "packets_and_frames"
      SECTION_FLAG_IS_ARRAY [SECTION_ID_PACKET] none none 0) := by decide
    rw [this] at hsp
    injection hsp with hsp
    exact hsp.symm
  have hklen : k < w.sections.length := by
    rw [hcat]
    by_contra hc
    rw [List.getElem?_eq_none (by omega)] at hs
    cases hs
  have hs' : w.sections[k]? = some sect := by rw [hcat]; exact hs
  have hid : sect.id = k := by
    have := hwf.2.2.2.2.2 k hklen
    rw [hs'] at this
    simpa using this
  have hparent1 : { w with level := w.level + 1 }.parent = .ok (some sp) := by
    have hl0 : w.level + 1 ≠ 0 := by omega
    have hl1 : w.level + 1 - 1 = (m : Int) := by omega
    simp only [WriterContext.parent, hl0, ne_eq, not_false_eq_true, if_true, hl1,
      bind, Except.bind, WriterContext.deref, arr_get_ok _ _ _ hp, arr_get_ok _ _ _ hsp,
      pure, Except.pure]
  have hH := writer_print_section_header_exact w k sect hwf h9 hs' (some sp) hparent1
  obtain ⟨w1, hH', hwf1, hl1, hcat1, hsec1, hnb1, _⟩ :=
    writer_print_section_header_ok w k hwf h9 hklen
  have hw1 : w1 = json_header_result (writer_header_enter w k (some sp)) sect (some sp) := by
    rw [hH] at hH'
    injection hH' with hH'
    exact hH'.symm
  have hm1 : (w.level + 1).toNat = m + 1 := by omega
  have hcur1 : w1.current = .ok sect := by
    have e1 : w1.section_[m + 1]? = some (some (k : Int)) := by
      rw [hsec1, hm1, List.getElem?_set_self (by have := hwf.2.2.2.1; omega)]
    have e2 : w1.level = ((m + 1 : Nat) : Int) := by rw [hl1, hl]; simp
    simp only [WriterContext.current, bind, Except.bind, WriterContext.deref, e2,
      arr_get_ok _ _ _ e1, hcat1, arr_get_ok _ _ _ hs']
  have hpar1 : w1.parent = .ok (some sp) := by
    have e1 : w1.section_[m]? = some (some ((24 : Nat) : Int)) := by
      rw [hsec1, hm1, List.getElem?_set_ne (by omega)]
      exact hp
    have e2 : w1.level ≠ 0 := by rw [hl1]; omega
    have e3 : w1.level - 1 = (m : Int) := by rw [hl1]; omega
    simp only [WriterContext.parent, e2, ne_eq, not_false_eq_true, if_true, e3,
      bind, Except.bind, WriterContext.deref, arr_get_ok _ _ _ e1, hcat1, arr_get_ok _ _ _ hsp,
      pure, Except.pure]
  have hF := writer_print_section_footer_exact w1 sect (some sp) hwf1 (by rw [hl1]; omega)
    hcur1 hpar1
  obtain ⟨w2, hF', hwf2, hl2, hcat2, hsec2, hnb2, _⟩ :=
    writer_print_section_footer_ok w1 hwf1 (by rw [hl1]; omega)
  have hw2 : w2 = { json_footer_result (writer_footer_leave w1 sect (some sp)) sect with
      level := w1.level - 1 } := by
    rw [hF] at hF'
    injection hF' with hF'
    exact hF'.symm
  have hk24 : (k : Int) ≠ SECTION_ID_PACKETS_AND_FRAMES := by
    intro hk
    have hk' : k = 24 := by
      simp only [SECTION_ID_PACKETS_AND_FRAMES] at hk
      omega
    subst hk'
    rw [hcat, hs] at hsp
    injection hsp with hsp
    rw [hsp, hsp'] at hfa
    revert hfa
    decide
  have hpid : sp.id = SECTION_ID_PACKETS_AND_FRAMES := by rw [hsp']; rfl
  have hpa : sp.flags &&& SECTION_FLAG_IS_ARRAY ≠ 0 := by rw [hsp']; decide
  have hk21 : sect.id = SECTION_ID_PACKET ↔ k = 21 := by
    rw [hid]
    simp only [SECTION_ID_PACKET]
    omega
  have hwl : w2.level = w.level := by rw [hl2, hl1]; omega
  have hnlen' : w.nb_item.length = 10 := hwf.2.2.1
  have hslen' : w.section_.length = 10 := hwf.2.2.2.1
  refine ⟨w2, ?_, ⟨hwf2, ?_, ?_, ?_, ?_, ?_, ?_, ?_⟩, hwl, ?_, ?_⟩
  · simp only [bind, Except.bind, hH, ← hw1, hF']
  · rw [hwl]; exact h0
  · rw [hwl]; exact h9
  · rw [hcat2, hcat1, hcat]
  · rw [hwl, hsec2, hsec1, hm1, hmt]
    simp only [List.getD, List.get?_eq_getElem?]
    rw [List.getElem?_set_ne (by omega), hp]
    rfl
  · have e0 : ¬ w1.level = 0 := by rw [hl1]; omega
    have e1 : (w1.level - 1).toNat = m := by rw [hl1]; omega
    have e2 : w1.nb_item[m]? = w.nb_item[m]? := hnb1 m (by omega)
    rw [hwl, hnb2, if_neg e0, e1, hmt]
    rw [hmt] at hn
    have e3 : m < w1.nb_item.length := by
      have := hwf1.2.2.1
      omega
    simp only [List.getD, List.get?_eq_getElem?] at hn ⊢
    rw [List.getElem?_set_self e3, e2, hn]
    rfl
  · rw [hw2, hw1]
    simp only [json_footer_result, writer_footer_leave, json_header_result, writer_header_enter,
      Option.map_some', Option.getD_some, hpid, true_and, if_neg hk24, hk21, hnp]
  · rw [hw2, hw1]
    simp only [json_footer_result, writer_footer_leave, json_header_result, writer_header_enter,
      Option.map_some', Option.getD_some, hpid, true_and, if_neg hk24, hk21, hnf, ne_eq,
      ite_not]
  · rw [hw2, hw1]
    simp only [json_footer_result, writer_footer_leave, json_header_result, writer_header_enter]
    simp
  · have e0 : ¬ w.level + 1 = 0 := by omega
    have e1 : (w.level + 1 - 1).toNat = m := by omega
    have e2 : ¬ w.level + 1 - 1 + 1 = 0 := by omega
    have e3 : ((w.nb_item.set (m + 1) 0).getD m 0) = n := by
      rw [hmt] at hn
      simp only [List.getD, List.get?_eq_getElem?] at hn ⊢
      rw [List.getElem?_set_ne (by omega)]
      exact hn
    rw [hw2, hw1]
    simp only [json_footer_result, writer_footer_leave, json_header_result, writer_header_enter,
      json_header_sep, json_header_text, json_footer_text, json_typed_object, hfw, hfa, hpa, hpid,
      e0, e1, hm1, e3, ne_eq, not_true_eq_false, not_false_eq_true, if_true, if_false, true_and,
      List.append_assoc, add_sub_cancel_right]
    have e4 : (w.nb_item.set (m + 1) 0)[w.level.toNat]?.getD 0 = n := by
      rw [hmt, List.getElem?_set_ne (by omega)]
      rw [hmt] at hn
      simpa [List.getD, List.get?_eq_getElem?] using hn
    have e5 : cs "\x7d" = [125] := by decide
    by_cases hn0 : n = 0 <;> by_cases hc : w.priv.compact = 0 <;>
      simp [hn0, hc, e4, e5]
theorem wf_parent_next (w : WriterContext) (hwf : w.wf) :
    ∃ parent, { w with level := w.level + 1 }.parent = .ok parent := by
  by_cases h0 : w.level + 1 = 0
  · exact ⟨none, by simp [WriterContext.parent, h0, pure, Except.pure]⟩
  · have hlo := hwf.1
    obtain ⟨l, hl⟩ : ∃ l : Nat, w.level = l := ⟨w.level.toNat, by omega⟩
    obtain ⟨kp, sp, hpp, hsp, _, _⟩ := wf_section w hwf l (by omega)
    have hl1 : w.level + 1 - 1 = (l : Int) := by omega
    refine ⟨some sp, ?_⟩
    simp only [WriterContext.parent, h0, ne_eq, not_false_eq_true, if_true, hl1,
      bind, Except.bind, WriterContext.deref, arr_get_ok _ _ _ hpp, arr_get_ok _ _ _ hsp,
      pure, Except.pure]

theorem run_ops_cycle (k : Int) (ops : List SectionOp) (w : WriterContext) :
    run_ops (SectionOp.header k :: SectionOp.footer :: ops) w =
      (writer_print_section_header w k >>= writer_print_section_footer) >>= run_ops ops := by
  simp only [run_ops, bind, Except.bind]
  cases writer_print_section_header w k <;> rfl

/-- Opening the `packets_and_frames` array gives a context in which it is
open with all its counters at zero. -/
theorem paf_header (w : WriterContext) (hwf : w.wf) (h8 : w.level < 8)
    (hcat : w.sections = sections) :
    ∃ w1, writer_print_section_header w SECTION_ID_PACKETS_AND_FRAMES = .ok w1 ∧
      paf_open w1 0 0 0 := by
  have hlo := hwf.1
  have hnlen := hwf.2.2.1
  have hslen := hwf.2.2.2.1
  obtain ⟨sect, hs, hfa⟩ : ∃ sect, w.sections[24]? = some sect ∧
      sect.flags &&& SECTION_FLAG_IS_ARRAY ≠ 0 :=
    ⟨Section.mk0 SECTION_ID_PACKETS_AND_FRAMES "packets_and_frames" SECTION_FLAG_IS_ARRAY
      [SECTION_ID_PACKET] none none 0, by rw [hcat]; decide, by decide⟩
  have hklen : 24 < w.sections.length := by rw [hcat]; decide
  obtain ⟨parent, hpar⟩ := wf_parent_next w hwf
  have hH := writer_print_section_header_exact w 24 _ hwf (by omega) hs parent hpar
  obtain ⟨w1, hH', hwf1, hl1, hcat1, hsec1, _, _⟩ :=
    writer_print_section_header_ok w 24 hwf (by omega) hklen
  have hw1 : w1 = json_header_result (writer_header_enter w ((24 : Nat) : Int) parent)
      sect parent := by
    rw [hH] at hH'
    injection hH' with hH'
    exact hH'.symm
  have hty : json_header_typed sect parent = false := by
    cases parent with
    | none => rfl
    | some p => simp [json_header_typed, hfa]
  have hm : w1.level.toNat = (w.level + 1).toNat := by rw [hl1]
  have h24 : ((24 : Nat) : Int) = SECTION_ID_PACKETS_AND_FRAMES := by decide
  refine ⟨w1, hH', hwf1, by rw [hl1]; omega, by rw [hl1]; omega, by rw [hcat1, hcat],
    ?_, ?_, ?_, ?_⟩
  · rw [hm, hsec1]
    simp only [List.getD, List.get?_eq_getElem?]
    rw [List.getElem?_set_self (by omega), h24]
    rfl
  · rw [hm, hw1]
    simp only [json_header_result, hty, Bool.false_eq_true, if_false, writer_header_enter]
    simp only [List.getD, List.get?_eq_getElem?]
    rw [List.getElem?_set_self (by omega)]
    rfl
  · rw [hw1]
    simp only [json_header_result, writer_header_enter, h24, if_true]
  · rw [hw1]
    simp only [json_header_result, writer_header_enter, h24, if_true]

/-- C12 (amended). Interleaving: from every well-formed context of the catalog
with room for two more levels, opening the `packets_and_frames` array and then
opening and closing children `packet`, `frame`, `packet`, `packet` succeeds;
the output gains, after the header of the array, four objects separated by
commas, each holding the field `type` with the name of its own section; and
afterwards the packet counter is 3, one for each of the three packets, and the
frame counter is 1. -/
theorem C12_interleaved_packets_and_frames (w : WriterContext) (hwf : w.wf)
    (h8 : w.level < 8) (hcat : w.sections = sections) :
    ∃ w1 w9, writer_print_section_header w SECTION_ID_PACKETS_AND_FRAMES = .ok w1 ∧
      run_ops [SectionOp.header SECTION_ID_PACKET, SectionOp.footer,
        SectionOp.header SECTION_ID_FRAME, SectionOp.footer,
        SectionOp.header SECTION_ID_PACKET, SectionOp.footer,
        SectionOp.header SECTION_ID_PACKET, SectionOp.footer] w1 = .ok w9 ∧
      w9.nb_section_packet = 3 ∧ w9.nb_section_frame = 1 ∧
      w9.out = w1.out ++ json_typed_object w1.priv (cs "packet") ++ cs ",\n" ++
        json_typed_object w1.priv (cs "frame") ++ cs ",\n" ++
        json_typed_object w1.priv (cs "packet") ++ cs ",\n" ++
        json_typed_object w1.priv (cs "packet") := by
  obtain ⟨w1, hH, hopen1⟩ := paf_header w hwf h8 hcat
  have hP : sections[21]? = some (Section.mk0 SECTION_ID_PACKET "packet" 0
      [SECTION_ID_PACKET_TAGS, SECTION_ID_PACKET_SIDE_DATA_LIST] none none 0) := by decide
  have hFr : sections[6]? = some (Section.mk0 SECTION_ID_FRAME "frame" 0
      [SECTION_ID_FRAME_TAGS, SECTION_ID_FRAME_SIDE_DATA_LIST, SECTION_ID_FRAME_LOGS]
      none none 0) := by decide
  have hu0 : uint_inc 0 = 1 := by decide
  have hu1 : uint_inc 1 = 2 := by decide
  have hu2 : uint_inc 2 = 3 := by decide
  have hu3 : uint_inc 3 = 4 := by decide
  have h621 : ¬ (6 : Nat) = 21 := by decide
  obtain ⟨w3, h3, hopen3, _, hp3, ho3⟩ := paf_child w1 21 _ 0 0 0 hopen1 hP (by decide) (by decide)
  simp only [hu0, if_true] at hopen3
  obtain ⟨w5, h5, hopen5, _, hp5, ho5⟩ := paf_child w3 6 _ 1 1 0 hopen3 hFr (by decide) (by decide)
  simp only [hu0, hu1, h621, if_false] at hopen5
  obtain ⟨w7, h7, hopen7, _, hp7, ho7⟩ := paf_child w5 21 _ 2 1 1 hopen5 hP (by decide) (by decide)
  simp only [hu1, hu2, if_true] at hopen7
  obtain ⟨w9, h9, hopen9, _, hp9, ho9⟩ := paf_child w7 21 _ 3 2 1 hopen7 hP (by decide) (by decide)
  simp only [hu2, hu3, if_true] at hopen9
  have e21 : SECTION_ID_PACKET = ((21 : Nat) : Int) := by decide
  have e6 : SECTION_ID_FRAME = ((6 : Nat) : Int) := by decide
  have hn1 : (Section.mk0 SECTION_ID_PACKET "packet" 0
      [SECTION_ID_PACKET_TAGS, SECTION_ID_PACKET_SIDE_DATA_LIST] none none 0).name = cs "packet" :=
    rfl
  have hn2 : (Section.mk0 SECTION_ID_FRAME "frame" 0
      [SECTION_ID_FRAME_TAGS, SECTION_ID_FRAME_SIDE_DATA_LIST, SECTION_ID_FRAME_LOGS]
      none none 0).name = cs "frame" := rfl
  refine ⟨w1, w9, hH, ?_, hopen9.2.2.2.2.2.2.1, hopen9.2.2.2.2.2.2.2, ?_⟩
  · rw [e21, e6, run_ops_cycle, h3]
    show run_ops _ w3 = _
    rw [run_ops_cycle, h5]
    show run_ops _ w5 = _
    rw [run_ops_cycle, h7]
    show run_ops _ w7 = _
    rw [run_ops_cycle, h9]
    rfl
  · rw [ho9, ho7, ho5, ho3, hp7, hp5, hp3, hn1, hn2]
    simp

theorem C12_interleaved_packets_and_frames_witness :
    ∃ w1 w9, writer_print_section_header ctx_root SECTION_ID_PACKETS_AND_FRAMES = .ok w1 ∧
      run_ops [SectionOp.header SECTION_ID_PACKET, SectionOp.footer,
        SectionOp.header SECTION_ID_FRAME, SectionOp.footer,
        SectionOp.header SECTION_ID_PACKET, SectionOp.footer,
        SectionOp.header SECTION_ID_PACKET, SectionOp.footer] w1 = .ok w9 ∧
      w9.nb_section_packet = 3 ∧ w9.nb_section_frame = 1 ∧
      w9.out = w1.out ++ json_typed_object w1.priv (cs "packet") ++ cs ",\n" ++
        json_typed_object w1.priv (cs "frame") ++ cs ",\n" ++
        json_typed_object w1.priv (cs "packet") ++ cs ",\n" ++
        json_typed_object w1.priv (cs "packet") :=
  C12_interleaved_packets_and_frames ctx_root (by decide) (by decide) rfl

set_option maxRecDepth 8000 in
/-- C12 (counterexample). With the root section open, opening the
`packets_and_frames` array and then opening and closing children `packet`,
`frame`, `packet`, `packet` leaves the packet counter at 3, not 2; the frame
counter is 1, and the output holds the four objects with their `type`
fields. -/
theorem C12_counterexample :
    (run_ops [SectionOp.header SECTION_ID_PACKETS_AND_FRAMES,
        SectionOp.header SECTION_ID_PACKET, SectionOp.footer,
        SectionOp.header SECTION_ID_FRAME, SectionOp.footer,
        SectionOp.header SECTION_ID_PACKET, SectionOp.footer,
        SectionOp.header SECTION_ID_PACKET, SectionOp.footer] ctx_root).map
      (fun w => (w.nb_section_packet, w.nb_section_frame, w.out)) =
    .ok (3, 1, cs ("\x7b\n    \"packets_and_frames\": [\n" ++
      "        \x7b\n            \"type\": \"packet\"\n        \x7d,\n" ++
      "        \x7b\n            \"type\": \"frame\"\n        \x7d,\n" ++
      "        \x7b\n            \"type\": \"packet\"\n        \x7d,\n" ++
      "        \x7b\n            \"type\": \"packet\"\n        \x7d")) := by
  decide

/-! ## Escaping -/

set_option maxRecDepth 100000 in
theorem json_escape_char_ofNat :
    ∀ n : Nat, n < 256 →
      json_escape_char (UInt8.ofNat n) = json_escape_byte_spec (UInt8.ofNat n) := by
  decide

theorem byte_ofNat_toNat (c : Byte) : UInt8.ofNat c.toNat = c := by
  cases c with
  | mk v =>
    apply UInt8.eq_of_val_eq
    apply Fin.ext
    simp [UInt8.ofNat, UInt8.toNat, Fin.ofNat, Nat.mod_eq_of_lt v.isLt]

theorem json_escape_char_eq (c : Byte) : json_escape_char c = json_escape_byte_spec c := by
  have h := json_escape_char_ofNat c.toNat c.val.isLt
  rwa [byte_ofNat_toNat] at h

set_option maxRecDepth 100000 in
theorem json_string_step_escape_ofNat :
    ∀ n : Nat, n < 256 →
      (json_escape_byte_spec (UInt8.ofNat n)).foldl json_string_step 0 = 0 := by
  decide

theorem json_string_body_flatMap (l : List Byte) :
    json_string_body (l.flatMap json_escape_byte_spec) = true := by
  have h : ∀ l : List Byte, (l.flatMap json_escape_byte_spec).foldl json_string_step 0 = 0 := by
    intro l
    induction l with
    | nil => rfl
    | cons c l ih =>
      have hc := json_string_step_escape_ofNat c.toNat c.val.isLt
      rw [byte_ofNat_toNat] at hc
      rw [List.flatMap_cons, List.foldl_append, hc, ih]
  simp [json_string_body, h]

set_option maxRecDepth 100000 in
theorem json_escape_byte_spec_ofNat :
    ∀ n : Nat, n < 256 → ∀ b ∈ json_escape_byte_spec (UInt8.ofNat n), (0x20 : Byte) ≤ b := by
  decide

/-- C16. For every C string `json_escape_str` appends to its buffer, byte by
byte and each byte on its own, what the spec says: a backslash and the same
character for the double quote and the backslash; a backslash and `b`, `f`,
`n`, `r`, `t` for the five control characters; a backslash, `u00` and two
lowercase hexadecimal digits for any other byte below `0x20`; and the byte
itself otherwise. So the escaped text holds no byte below `0x20` and is the
body of a JSON string: no double quote outside an escape and no backslash that
does not start one. -/
theorem C16_json_escape_str_bytewise (dst s : List Byte) :
    json_escape_str dst s = dst ++ (c_str s).flatMap json_escape_byte_spec ∧
    (∀ b ∈ json_escape_str [] s, (0x20 : Byte) ≤ b) ∧
    json_string_body (json_escape_str [] s) = true := by
  have hfun : json_escape_char = json_escape_byte_spec := funext json_escape_char_eq
  refine ⟨by rw [json_escape_str, hfun], ?_, ?_⟩
  · intro b hb
    rw [json_escape_str, hfun, List.nil_append, List.mem_flatMap] at hb
    obtain ⟨c, _, hc⟩ := hb
    have h := json_escape_byte_spec_ofNat c.toNat c.val.isLt
    rw [byte_ofNat_toNat] at h
    exact h b hc
  · rw [json_escape_str, hfun, List.nil_append]
    exact json_string_body_flatMap _

/-! ## Fields: what a call returns -/

theorem json_item_needs_sep_exact (w : WriterContext) (parent : Option Section) (hwf : w.wf)
    (h0 : 0 ≤ w.level) (hpar : w.parent = .ok parent) :
    json_item_needs_sep w = .ok (json_item_sep_needed w parent) := by
  obtain ⟨m, k, sect, parent', hl, hp, hs, hid, hn, hcur, hpar', hp0, hparent⟩ :=
    wf_parent w hwf h0
  have e2 : parent' = parent := by
    rw [hpar'] at hpar
    injection hpar
  subst e2
  have hmt : w.level.toNat = m := by omega
  have hE : arr_get w.nb_item w.level = .ok (w.nb_item.getD m 0) := by
    rw [hl]; apply arr_get_ok; simp [List.getD, hn]
  have hne : ¬ SECTION_ID_NONE = SECTION_ID_PACKETS_AND_FRAMES := by decide
  unfold json_item_sep_needed
  rw [hmt]
  generalize w.nb_item.getD m 0 = n at hE ⊢
  cases m with
  | zero =>
    have hz : w.level = 0 := by simpa using hl
    have hpn := hp0 rfl
    subst hpn
    rw [hz] at hE
    simp only [json_item_needs_sep, hz, ne_eq, not_true_eq_false, if_false,
      bind, Except.bind, pure, Except.pure, hE]
    by_cases hn0 : n = 0 <;> simp [hn0, hne]
  | succ l =>
    obtain ⟨kp, sp, hpp, hsp, hpid, hps⟩ := hparent l rfl
    subst hps
    have hl0 : w.level ≠ 0 := by omega
    have hl1 : w.level - 1 = (l : Int) := by omega
    have hB : arr_get w.section_ (w.level - 1) = .ok (some (kp : Int)) := by
      rw [hl1]; exact arr_get_ok _ _ _ hpp
    have hG : arr_get w.sections (kp : Int) = .ok sp := arr_get_ok _ _ _ hsp
    simp only [json_item_needs_sep, hl0, ne_eq, not_false_eq_true, if_true,
      bind, Except.bind, pure, Except.pure, WriterContext.deref, hB, hE, hG]
    by_cases hn0 : n = 0 <;> simp [hn0]

theorem json_print_str_exact (w : WriterContext) (parent : Option Section) (hwf : w.wf)
    (h0 : 0 ≤ w.level) (hpar : w.parent = .ok parent) (key value : List Byte) :
    json_print_str w key value =
      .ok { w with out := w.out ++ json_item_prefix w parent ++ json_str_item key value } := by
  have h := json_item_needs_sep_exact w parent hwf h0 hpar
  by_cases hc : w.priv.compact = 0 <;> by_cases hb : json_item_sep_needed w parent = true <;>
    simp [json_print_str, h, bind, Except.bind, pure, Except.pure, json_print_item_str,
      writer_put_str, JSON_INDENT, hc, hb, json_item_prefix, json_str_item, json_indent_text]

theorem json_print_int_exact (w : WriterContext) (parent : Option Section) (hwf : w.wf)
    (h0 : 0 ≤ w.level) (hpar : w.parent = .ok parent) (key : List Byte) (value : Int) :
    json_print_int w key value =
      .ok { w with out := w.out ++ json_item_prefix w parent ++ json_int_item key value } := by
  have h := json_item_needs_sep_exact w parent hwf h0 hpar
  by_cases hc : w.priv.compact = 0 <;> by_cases hb : json_item_sep_needed w parent = true <;>
    simp [json_print_int, h, bind, Except.bind, pure, Except.pure,
      writer_put_str, JSON_INDENT, hc, hb, json_item_prefix, json_int_item, json_indent_text]

/-- A string field without validation: written as it is when the section shows
the key, skipped otherwise. -/
theorem writer_print_string_exact (w : WriterContext) (sect : Section)
    (parent : Option Section) (hwf : w.wf) (h0 : 0 ≤ w.level) (hcur : w.current = .ok sect)
    (hpar : w.parent = .ok parent) (key val : List Byte) (flags : Nat)
    (hf : flags &&& PRINT_STRING_VALIDATE = 0) :
    writer_print_string w key val flags =
      .ok (0, if sect.shows key then writer_field_result w parent (json_str_item key val)
              else w) := by
  obtain ⟨p, hp, hd⟩ := current_ok w sect hcur
  have hnl := hwf.2.2.1
  have h9 := hwf.2.1
  simp only [SECTION_MAX_NB_LEVELS] at h9
  obtain ⟨m, hm⟩ : ∃ m : Nat, w.level = m := ⟨w.level.toNat, by omega⟩
  have hmt : w.level.toNat = m := by omega
  by_cases hshow : sect.shows key = true
  · have hj := json_print_str_exact w parent hwf h0 hpar key val
    simp only [writer_print_string, hp, hd, hshow, if_true, hf, ne_eq, not_true_eq_false,
      if_false, hj, bind, Except.bind, pure, Except.pure]
    rw [nb_item_inc_ok _ m]
    · simp [writer_field_result, hmt, uint_inc]
    · exact hm
    · show m < w.nb_item.length
      omega
  · simp [writer_print_string, hp, hd, hshow, bind, Except.bind, pure, Except.pure]

theorem writer_print_integer_exact (w : WriterContext) (sect : Section)
    (parent : Option Section) (hwf : w.wf) (h0 : 0 ≤ w.level) (hcur : w.current = .ok sect)
    (hpar : w.parent = .ok parent) (key : List Byte) (val : Int) :
    writer_print_integer w key val =
      .ok (if sect.shows key then writer_field_result w parent (json_int_item key val)
           else w) := by
  obtain ⟨p, hp, hd⟩ := current_ok w sect hcur
  have hnl := hwf.2.2.1
  have h9 := hwf.2.1
  simp only [SECTION_MAX_NB_LEVELS] at h9
  obtain ⟨m, hm⟩ : ∃ m : Nat, w.level = m := ⟨w.level.toNat, by omega⟩
  have hmt : w.level.toNat = m := by omega
  by_cases hshow : sect.shows key = true
  · have hj := json_print_int_exact w parent hwf h0 hpar key val
    simp only [writer_print_integer, hp, hd, hshow, if_true, hj, bind, Except.bind]
    rw [nb_item_inc_ok _ m]
    · simp [writer_field_result, hmt, uint_inc]
    · exact hm
    · show m < w.nb_item.length
      omega
  · simp [writer_print_integer, hp, hd, hshow, bind, Except.bind, pure, Except.pure]

/-- A field leaves the context well-formed, with the same open section and the
same section below it. -/
theorem writer_field_result_wf (w : WriterContext) (parent : Option Section)
    (item : List Byte) (hwf : w.wf) :
    (writer_field_result w parent item).wf ∧
    (writer_field_result w parent item).current = w.current ∧
    (writer_field_result w parent item).parent = w.parent ∧
    (writer_field_result w parent item).level = w.level := by
  refine ⟨?_, rfl, rfl, rfl⟩
  obtain ⟨h1, h2, h3, h4, h5, h6⟩ := hwf
  exact ⟨h1, h2, by simp [writer_field_result, h3], h4, h5, h6⟩

/-! ## Digits -/

theorem toDigitsCore_mem (b : Nat) (hb : 0 < b) (f : Nat) :
    ∀ (n : Nat) (ds : List Char) (c : Char), c ∈ Nat.toDigitsCore b f n ds →
      c ∈ ds ∨ ∃ k, k < b ∧ c = Nat.digitChar k := by
  induction f with
  | zero =>
    intro n ds c h
    exact Or.inl (by simpa [Nat.toDigitsCore] using h)
  | succ f ih =>
    intro n ds c h
    simp only [Nat.toDigitsCore] at h
    split_ifs at h
    · rcases List.mem_cons.mp h with h | h
      · exact Or.inr ⟨n % b, Nat.mod_lt _ hb, h⟩
      · exact Or.inl h
    · rcases ih _ _ _ h with h | h
      · rcases List.mem_cons.mp h with h | h
        · exact Or.inr ⟨n % b, Nat.mod_lt _ hb, h⟩
        · exact Or.inl h
      · exact Or.inr h

theorem fmt_digits_mem (b : Nat) (hb : 0 < b) (v : Nat) (x : Byte) (h : x ∈ fmt_digits b v) :
    ∃ k, k < b ∧ x = UInt8.ofNat (Nat.digitChar k).toNat := by
  simp only [fmt_digits, Nat.toDigits, List.mem_map] at h
  obtain ⟨c, hc, hx⟩ := h
  rcases toDigitsCore_mem b hb _ _ _ _ hc with h | ⟨k, hk, h⟩
  · cases h
  · exact ⟨k, hk, by rw [← hx, h]⟩

theorem digit_bytes_10 : ∀ k : Nat, k < 10 →
    (0x30 : Byte) ≤ UInt8.ofNat (Nat.digitChar k).toNat ∧
    UInt8.ofNat (Nat.digitChar k).toNat ≤ (0x39 : Byte) := by
  decide

/-- The bytes of `%d` are the minus sign and decimal digits. -/
theorem fmt_d_mem (v : Int) (x : Byte) (h : x ∈ fmt_d v) :
    x = 0x2d ∨ ((0x30 : Byte) ≤ x ∧ x ≤ (0x39 : Byte)) := by
  unfold fmt_d at h
  split_ifs at h
  · rcases List.mem_cons.mp h with h | h
    · exact Or.inl h
    · obtain ⟨k, hk, hx⟩ := fmt_digits_mem 10 (by decide) _ _ h
      rw [hx]
      exact Or.inr (digit_bytes_10 k hk)
  · obtain ⟨k, hk, hx⟩ := fmt_digits_mem 10 (by decide) _ _ h
    rw [hx]
    exact Or.inr (digit_bytes_10 k hk)

set_option maxRecDepth 100000 in
theorem json_escape_char_plain_ofNat : ∀ n : Nat, n < 256 →
    (UInt8.ofNat n = (0x2d : Byte) ∨
      ((0x30 : Byte) ≤ UInt8.ofNat n ∧ UInt8.ofNat n ≤ (0x39 : Byte))) →
    UInt8.ofNat n ≠ (0 : Byte) ∧ UInt8.ofNat n ≠ (0x22 : Byte) ∧
    json_escape_char (UInt8.ofNat n) = [UInt8.ofNat n] := by
  decide

/-- The bytes of `%d` are not NUL, are not the double quote and need no escape. -/
theorem fmt_d_plain (v : Int) (x : Byte) (h : x ∈ fmt_d v) :
    x ≠ 0 ∧ x ≠ 0x22 ∧ json_escape_char x = [x] := by
  have h1 := json_escape_char_plain_ofNat x.toNat x.val.isLt
  rw [byte_ofNat_toNat] at h1
  exact h1 (fmt_d_mem v x h)

theorem flatMap_plain (l : List Byte) (h : ∀ x ∈ l, json_escape_char x = [x]) :
    l.flatMap json_escape_char = l := by
  induction l with
  | nil => rfl
  | cons a l ih =>
    rw [List.flatMap_cons, h a (List.mem_cons_self _ _),
      ih (fun x hx => h x (List.mem_cons_of_mem _ hx))]
    rfl
/-! ## Timestamps and rationals -/

theorem ctx_format_reached :
    writer_print_section_header ctx_root SECTION_ID_FORMAT = .ok ctx_format := by
  decide

/-- An integer field never reads like the string field `N/A` of the same
key. -/
theorem json_int_item_ne_na (key : List Byte) (ts : Int) :
    json_int_item key ts ≠ json_str_item key (cs "N/A") := by
  intro h
  have e : json_str_item key (cs "N/A") =
      cs "\"" ++ json_escape_str [] key ++ cs "\": " ++ (0x22 :: cs "N/A\"") := by
    have e1 : json_escape_str [] (cs "N/A") = cs "N/A" := by decide
    have e2 : cs "\":" ++ (cs " \"" ++ (cs "N/A" ++ cs "\"")) =
        cs "\": " ++ (0x22 :: cs "N/A\"") := by decide
    simp only [json_str_item, e1, List.append_assoc, e2]
  rw [e, json_int_item] at h
  have h' := List.append_cancel_left h
  have hm : (0x22 : Byte) ∈ fmt_d ts := by rw [h']; exact List.mem_cons_self _ _
  exact (fmt_d_plain ts _ hm).2.1 rfl

/-- The bytes `%f` can write: a minus sign, a point, decimal digits and the
letters of `inf` and `nan`. -/
theorem fmt_double_mem (bits : Int) (x : Byte) (h : x ∈ fmt_double bits) :
    x = 0x2d ∨ x = 0x2e ∨ ((0x30 : Byte) ≤ x ∧ x ≤ (0x39 : Byte)) ∨
      x = 0x69 ∨ x = 0x6e ∨ x = 0x66 ∨ x = 0x61 := by
  have hsign : ∀ c : Prop, ∀ _ : Decidable c, x ∈ (if c then [(0x2d : Byte)] else []) → x = 0x2d := by
    intro c _ hx
    split_ifs at hx
    · exact List.mem_singleton.mp hx
    · cases hx
  have hdig : ∀ v : Nat, x ∈ fmt_digits 10 v → (0x30 : Byte) ≤ x ∧ x ≤ (0x39 : Byte) := by
    intro v hx
    obtain ⟨k, hk, hx⟩ := fmt_digits_mem 10 (by decide) _ _ hx
    rw [hx]
    exact digit_bytes_10 k hk
  simp only [fmt_double] at h
  split at h
  · rcases List.mem_append.mp h with h | h
    · exact Or.inl (hsign _ _ h)
    · split_ifs at h
      · have : x = 0x69 ∨ x = 0x6e ∨ x = 0x66 := by
          simpa [cs] using h
        rcases this with h | h | h
        · exact Or.inr (Or.inr (Or.inr (Or.inl h)))
        · exact Or.inr (Or.inr (Or.inr (Or.inr (Or.inl h))))
        · exact Or.inr (Or.inr (Or.inr (Or.inr (Or.inr (Or.inl h)))))
      · have : x = 0x6e ∨ x = 0x61 ∨ x = 0x6e := by
          simpa [cs] using h
        rcases this with h | h | h
        · exact Or.inr (Or.inr (Or.inr (Or.inr (Or.inl h))))
        · exact Or.inr (Or.inr (Or.inr (Or.inr (Or.inr (Or.inr h)))))
        · exact Or.inr (Or.inr (Or.inr (Or.inr (Or.inl h))))
  · simp only [List.mem_append, List.mem_singleton, List.mem_replicate] at h
    rcases h with (((h | h) | h) | h) | h
    · exact Or.inl (hsign _ _ h)
    · exact Or.inr (Or.inr (Or.inl (hdig _ h)))
    · exact Or.inr (Or.inl h)
    · rw [h.2]
      exact Or.inr (Or.inr (Or.inl (by decide)))
    · exact Or.inr (Or.inr (Or.inl (hdig _ h)))

/-- The text of `%f` is never empty. -/
theorem fmt_double_ne_nil (bits : Int) : fmt_double bits ≠ [] := by
  intro h
  have hl := congrArg List.length h
  simp only [fmt_double] at hl
  split at hl
  · split_ifs at hl <;> simp [cs] at hl
  · simp only [List.length_append, List.length_singleton, List.length_nil] at hl
    omega

set_option maxRecDepth 100000 in
theorem seconds_byte_plain_ofNat : ∀ n : Nat, n < 256 →
    (UInt8.ofNat n = (0x2d : Byte) ∨ UInt8.ofNat n = (0x2e : Byte) ∨
      ((0x30 : Byte) ≤ UInt8.ofNat n ∧ UInt8.ofNat n ≤ (0x39 : Byte)) ∨
      UInt8.ofNat n = (0x69 : Byte) ∨ UInt8.ofNat n = (0x6e : Byte) ∨
      UInt8.ofNat n = (0x66 : Byte) ∨ UInt8.ofNat n = (0x61 : Byte)) →
    UInt8.ofNat n ≠ (0 : Byte) ∧ UInt8.ofNat n ≠ (0x4e : Byte) ∧
    json_escape_char (UInt8.ofNat n) = [UInt8.ofNat n] := by
  decide

/-- The string `value_string` leaves for a double: the text of `%f` cut to
what the buffer holds, with nothing appended. -/
theorem value_string_seconds (fmt_f : Int → List Byte) (buf_size : Nat) (v : Int) :
    value_string fmt_f buf_size { val := v, unit := UnitStr.unit_second_str } =
      (fmt_f v).take (buf_size - 1) := by
  simp only [value_string, decide_True, true_or, if_true, ne_eq, not_true_eq_false, or_self,
    if_false, List.append_nil, av_strlcatf, snprintf, List.take_take, min_self]

/-- The seconds string of `writer_print_time` is not empty, holds no NUL, no
`N` and no byte that JSON escapes, so it is not the string `N/A`, and as a
field it does not read like the field `N/A`. -/
theorem seconds_string_spec (seconds : Int → AVRational → Int) (ts : Int)
    (time_base : AVRational) :
    seconds_string seconds ts time_base = (fmt_double (seconds ts time_base)).take 127 ∧
    seconds_string seconds ts time_base ≠ [] ∧
    (∀ x ∈ seconds_string seconds ts time_base,
      x ≠ 0 ∧ x ≠ 0x4e ∧ json_escape_char x = [x]) ∧
    seconds_string seconds ts time_base ≠ cs "N/A" ∧
    (∀ key : List Byte, json_str_item key (seconds_string seconds ts time_base) ≠
      json_str_item key (cs "N/A")) := by
  have e : seconds_string seconds ts time_base = (fmt_double (seconds ts time_base)).take 127 :=
    value_string_seconds fmt_double 128 _
  have hmem : ∀ x ∈ seconds_string seconds ts time_base,
      x ≠ 0 ∧ x ≠ 0x4e ∧ json_escape_char x = [x] := by
    intro x hx
    rw [e] at hx
    have h1 := seconds_byte_plain_ofNat x.toNat x.val.isLt
    rw [byte_ofNat_toNat] at h1
    exact h1 (fmt_double_mem _ x (List.mem_of_mem_take hx))
  have hne : seconds_string seconds ts time_base ≠ cs "N/A" := by
    intro h
    have hN : (0x4e : Byte) ∈ seconds_string seconds ts time_base := by
      rw [h]
      decide
    exact (hmem _ hN).2.1 rfl
  refine ⟨e, ?_, hmem, hne, ?_⟩
  · rw [e]
    intro h
    rcases List.take_eq_nil_iff.mp h with h | h
    · cases h
    · exact fmt_double_ne_nil _ h
  · intro key h
    have hesc : json_escape_str [] (seconds_string seconds ts time_base) =
        seconds_string seconds ts time_base := by
      rw [json_escape_str, c_str_of_ne_zero _ (fun b hb => (hmem b hb).1), List.nil_append,
        flatMap_plain _ (fun x hx => (hmem x hx).2.2)]
    have e1 : json_escape_str [] (cs "N/A") = cs "N/A" := by decide
    simp only [json_str_item, hesc, e1, List.append_assoc] at h
    have h1 := List.append_cancel_left h
    have h2 := List.append_cancel_left h1
    have h3 := List.append_cancel_left h2
    have h4 := List.append_cancel_left h3
    exact hne (List.append_cancel_right h4)

/-- Two contexts after a field differ when the texts of the fields differ. -/
theorem writer_field_result_inj (w : WriterContext) (parent : Option Section)
    (a b : List Byte) (h : writer_field_result w parent a = writer_field_result w parent b) :
    a = b := by
  have ho := congrArg (fun x : WriterContext => x.out) h
  simp only [writer_field_result] at ho
  exact List.append_cancel_left ho

/-- C18. `writer_print_time` and `writer_print_ts` share one guard: when the
flag `is_duration` is zero and the tick is `AV_NOPTS_VALUE`, or the flag is
not zero and the tick is 0, each of them is the string field `N/A` (printed
with `PRINT_STRING_OPT`); in every other case `writer_print_ts` is the integer
field of the tick itself and `writer_print_time` is the string field of the
seconds, the text of `%f` for the double cut to 127 characters, and neither
text is that of the field `N/A`. So in a section that shows the key each of
the two writes the field `N/A` exactly when the guard holds. A duration with
the tick 0 gives `N/A`. -/
theorem C18_time_and_ts_share_na_guard (seconds : Int → AVRational → Int) (w : WriterContext)
    (sect : Section) (parent : Option Section) (hwf : w.wf) (h0 : 0 ≤ w.level)
    (hcur : w.current = .ok sect) (hpar : w.parent = .ok parent)
    (key : List Byte) (ts : Int) (time_base : AVRational) (is_duration : Int) :
    (((is_duration = 0 ∧ ts = AV_NOPTS_VALUE) ∨ (is_duration ≠ 0 ∧ ts = 0)) →
      writer_print_ts w key ts is_duration =
        .ok (if sect.shows key then writer_field_result w parent (json_str_item key (cs "N/A"))
             else w) ∧
      writer_print_time (seconds_string seconds) w key ts time_base is_duration =
        .ok (if sect.shows key then writer_field_result w parent (json_str_item key (cs "N/A"))
             else w)) ∧
    (¬ ((is_duration = 0 ∧ ts = AV_NOPTS_VALUE) ∨ (is_duration ≠ 0 ∧ ts = 0)) →
      writer_print_ts w key ts is_duration =
        .ok (if sect.shows key then writer_field_result w parent (json_int_item key ts)
             else w) ∧
      writer_print_time (seconds_string seconds) w key ts time_base is_duration =
        .ok (if sect.shows key then
               writer_field_result w parent
                 (json_str_item key ((fmt_double (seconds ts time_base)).take 127))
             else w)) ∧
    json_int_item key ts ≠ json_str_item key (cs "N/A") ∧
    (fmt_double (seconds ts time_base)).take 127 ≠ cs "N/A" ∧
    json_str_item key ((fmt_double (seconds ts time_base)).take 127) ≠
      json_str_item key (cs "N/A") ∧
    (sect.shows key = true →
      (writer_print_ts w key ts is_duration =
          .ok (writer_field_result w parent (json_str_item key (cs "N/A"))) ↔
        ((is_duration = 0 ∧ ts = AV_NOPTS_VALUE) ∨ (is_duration ≠ 0 ∧ ts = 0))) ∧
      (writer_print_time (seconds_string seconds) w key ts time_base is_duration =
          .ok (writer_field_result w parent (json_str_item key (cs "N/A"))) ↔
        ((is_duration = 0 ∧ ts = AV_NOPTS_VALUE) ∨ (is_duration ≠ 0 ∧ ts = 0)))) ∧
    writer_print_ts w key 0 1 =
      .ok (if sect.shows key then writer_field_result w parent (json_str_item key (cs "N/A"))
           else w) ∧
    writer_print_time (seconds_string seconds) w key 0 time_base 1 =
      .ok (if sect.shows key then writer_field_result w parent (json_str_item key (cs "N/A"))
           else w) := by
  have hS : ∀ val flags, flags &&& PRINT_STRING_VALIDATE = 0 →
      writer_print_string w key val flags =
        .ok (0, if sect.shows key then writer_field_result w parent (json_str_item key val)
                else w) :=
    fun val flags hf => writer_print_string_exact w sect parent hwf h0 hcur hpar key val flags hf
  have hI := writer_print_integer_exact w sect parent hwf h0 hcur hpar key ts
  have hopt : PRINT_STRING_OPT &&& PRINT_STRING_VALIDATE = 0 := by decide
  have hzero : (0 : Nat) &&& PRINT_STRING_VALIDATE = 0 := by decide
  have hsec := seconds_string_spec seconds ts time_base
  have hna : ∀ t d, ((d = 0 ∧ t = AV_NOPTS_VALUE) ∨ (d ≠ 0 ∧ t = 0)) →
      writer_print_ts w key t d =
        .ok (if sect.shows key then writer_field_result w parent (json_str_item key (cs "N/A"))
             else w) ∧
      writer_print_time (seconds_string seconds) w key t time_base d =
        .ok (if sect.shows key then writer_field_result w parent (json_str_item key (cs "N/A"))
             else w) := by
    intro t d hg
    simp only [writer_print_ts, writer_print_time, if_pos hg, hS _ _ hopt, bind, Except.bind,
      pure, Except.pure, and_self]
  have hother : ¬ ((is_duration = 0 ∧ ts = AV_NOPTS_VALUE) ∨ (is_duration ≠ 0 ∧ ts = 0)) →
      writer_print_ts w key ts is_duration =
        .ok (if sect.shows key then writer_field_result w parent (json_int_item key ts)
             else w) ∧
      writer_print_time (seconds_string seconds) w key ts time_base is_duration =
        .ok (if sect.shows key then
               writer_field_result w parent
                 (json_str_item key ((fmt_double (seconds ts time_base)).take 127))
             else w) := by
    intro hg
    rw [← hsec.1]
    simp only [writer_print_ts, writer_print_time, if_neg hg, hS _ _ hzero, hI, bind,
      Except.bind, pure, Except.pure, and_self]
  have hne1 := json_int_item_ne_na key ts
  have hne2 : json_str_item key ((fmt_double (seconds ts time_base)).take 127) ≠
      json_str_item key (cs "N/A") := by
    rw [← hsec.1]
    exact hsec.2.2.2.2 key
  refine ⟨hna ts is_duration, hother, hne1, ?_, hne2, ?_, ?_, ?_⟩
  · rw [← hsec.1]
    exact hsec.2.2.2.1
  · intro hshow
    constructor
    · constructor
      · intro h
        by_contra hg
        rw [(hother hg).1, if_pos hshow] at h
        injection h with h
        exact hne1 (writer_field_result_inj w parent _ _ h)
      · intro hg
        rw [(hna ts is_duration hg).1, if_pos hshow]
    · constructor
      · intro h
        by_contra hg
        rw [(hother hg).2, if_pos hshow] at h
        injection h with h
        exact hne2 (writer_field_result_inj w parent _ _ h)
      · intro hg
        rw [(hna ts is_duration hg).2, if_pos hshow]
  · exact (hna 0 1 (Or.inr ⟨by decide, rfl⟩)).1
  · exact (hna 0 1 (Or.inr ⟨by decide, rfl⟩)).2

theorem C18_time_and_ts_share_na_guard_witness :
    (writer_print_time (seconds_string seconds_bits_example) ctx_format (cs "duration") 0
        ⟨1, 90000⟩ 1).map (fun w => w.out) =
      .ok (cs "\x7b\n    \"format\": \x7b\n        \"duration\": \"N/A\"") ∧
    (writer_print_time (seconds_string seconds_bits_example) ctx_format (cs "duration") 90000
        ⟨1, 90000⟩ 1).map (fun w => w.out) =
      .ok (cs "\x7b\n    \"format\": \x7b\n        \"duration\": \"1.000000\"") ∧
    (writer_print_ts ctx_format (cs "duration_ts") 90000 1).map (fun w => w.out) =
      .ok (cs "\x7b\n    \"format\": \x7b\n        \"duration_ts\": 90000") := by
  have h := C18_time_and_ts_share_na_guard seconds_bits_example ctx_format
    (Section.mk0 SECTION_ID_FORMAT "format" 0 [SECTION_ID_FORMAT_TAGS] none none 1)
    (some (Section.mk0 SECTION_ID_ROOT "root" SECTION_FLAG_IS_WRAPPER
      [SECTION_ID_CHAPTERS, SECTION_ID_FORMAT, SECTION_ID_FRAMES, SECTION_ID_PROGRAMS,
       SECTION_ID_STREAMS, SECTION_ID_PACKETS, SECTION_ID_ERROR, SECTION_ID_PROGRAM_VERSION,
       SECTION_ID_LIBRARY_VERSIONS, SECTION_ID_PIXEL_FORMATS] none none 0))
    (by decide) (by decide) (by decide) (by decide)
  refine ⟨?_, ?_, ?_⟩
  · rw [(h (cs "duration") 90000 ⟨1, 90000⟩ 1).2.2.2.2.2.2.2]
    decide
  · rw [((h (cs "duration") 90000 ⟨1, 90000⟩ 1).2.1 (by decide)).2]
    decide
  · rw [((h (cs "duration_ts") 90000 ⟨1, 90000⟩ 1).2.1 (by decide)).1]
    decide

/-- The value `writer_print_rational` builds, escaped: nothing is cut and only
the separator may need an escape. -/
theorem json_escape_rational (num den : Int) (sep : Byte) (hsep : sep ≠ 0) :
    json_escape_str [] (fmt_d num ++ [sep] ++ fmt_d den) =
      fmt_d num ++ json_escape_char sep ++ fmt_d den := by
  have hz : ∀ b ∈ fmt_d num ++ [sep] ++ fmt_d den, b ≠ 0 := by
    intro b hb
    simp only [List.mem_append, List.mem_singleton] at hb
    rcases hb with (hb | hb) | hb
    · exact (fmt_d_plain _ _ hb).1
    · rw [hb]; exact hsep
    · exact (fmt_d_plain _ _ hb).1
  rw [json_escape_str, c_str_of_ne_zero _ hz, List.nil_append, List.flatMap_append,
    List.flatMap_append, flatMap_plain _ (fun x hx => (fmt_d_plain _ _ hx).2.2),
    flatMap_plain _ (fun x hx => (fmt_d_plain _ _ hx).2.2)]
  simp

/-- C19 (counterexample). With the separator NUL the value of the field is the
numerator alone: the text built from 1, NUL and 2 is read back as the C string
`1`. -/
theorem C19_counterexample :
    (writer_print_rational ctx_format (cs "time_base") ⟨1, 2⟩ 0).map (fun w => w.out) =
      .ok (cs "\x7b\n    \"format\": \x7b\n        \"time_base\": \"1\"") := by
  decide

/-- C19 (amended). For every rational (any numerator and denominator, also a
zero denominator, negative values and unreduced fractions) and every
separator character other than NUL, `writer_print_rational` is the string
field whose value is the decimal rendering of the numerator, then the
separator, then the decimal rendering of the denominator, with no reduction
and no conversion; in the JSON output the separator is escaped when it needs
to be. The field is written when the open section shows the key. -/
theorem C19_rational_is_num_sep_den (w : WriterContext) (sect : Section)
    (parent : Option Section) (hwf : w.wf) (h0 : 0 ≤ w.level)
    (hcur : w.current = .ok sect) (hpar : w.parent = .ok parent)
    (key : List Byte) (q : AVRational) (sep : Byte) (hsep : sep ≠ 0) :
    c_str (fmt_d q.num ++ [sep] ++ fmt_d q.den) = fmt_d q.num ++ [sep] ++ fmt_d q.den ∧
    writer_print_rational w key q sep =
      .ok (if sect.shows key then
             writer_field_result w parent
               (cs "\"" ++ json_escape_str [] key ++ cs "\": \"" ++
                 fmt_d q.num ++ json_escape_char sep ++ fmt_d q.den ++ cs "\"")
           else w) := by
  have hz : ∀ b ∈ fmt_d q.num ++ [sep] ++ fmt_d q.den, b ≠ 0 := by
    intro b hb
    simp only [List.mem_append, List.mem_singleton] at hb
    rcases hb with (hb | hb) | hb
    · exact (fmt_d_plain _ _ hb).1
    · rw [hb]; exact hsep
    · exact (fmt_d_plain _ _ hb).1
  refine ⟨c_str_of_ne_zero _ hz, ?_⟩
  have hS := writer_print_string_exact w sect parent hwf h0 hcur hpar key
    (fmt_d q.num ++ [sep] ++ fmt_d q.den) 0 (by decide)
  have e : cs "\":" ++ cs " \"" = cs "\": \"" := by decide
  simp only [writer_print_rational, hS, bind, Except.bind, pure, Except.pure, json_str_item,
    json_escape_rational q.num q.den sep hsep]
  congr 2
  simp only [List.append_assoc]
  rw [← List.append_assoc (cs "\":"), e]

theorem C19_rational_is_num_sep_den_witness :
    (writer_print_rational ctx_format (cs "time_base") ⟨1, 90000⟩ 0x2f).map (fun w => w.out) =
      .ok (cs "\x7b\n    \"format\": \x7b\n        \"time_base\": \"1/90000\"") := by
  rw [(C19_rational_is_num_sep_den ctx_format
    (Section.mk0 SECTION_ID_FORMAT "format" 0 [SECTION_ID_FORMAT_TAGS] none none 1)
    (some (Section.mk0 SECTION_ID_ROOT "root" SECTION_FLAG_IS_WRAPPER
      [SECTION_ID_CHAPTERS, SECTION_ID_FORMAT, SECTION_ID_FRAMES, SECTION_ID_PROGRAMS,
       SECTION_ID_STREAMS, SECTION_ID_PACKETS, SECTION_ID_ERROR, SECTION_ID_PROGRAM_VERSION,
       SECTION_ID_LIBRARY_VERSIONS, SECTION_ID_PIXEL_FORMATS] none none 0))
    (by decide) (by decide) (by decide) (by decide) (cs "time_base") ⟨1, 90000⟩ 0x2f
    (by decide)).2]
  decide

/-! ## Side data -/

theorem ctx_stream_reached :
    writer_print_section_header ctx_streams SECTION_ID_STREAM = .ok ctx_stream := by
  decide

/-- In a section that shows no key the field calls write nothing. -/
theorem run_fields_hidden (sect : Section) (hshow : ∀ key, sect.shows key = false)
    (fs : List FieldCall) (w : WriterContext) (hwf : w.wf) (h0 : 0 ≤ w.level)
    (hcur : w.current = .ok sect) :
    run_fields fs w = .ok w := by
  obtain ⟨_, _, _, parent, _, _, _, _, _, _, hpar, _, _⟩ := wf_parent w hwf h0
  induction fs with
  | nil => rfl
  | cons f fs ih =>
    cases f with
    | str key val =>
      have h := writer_print_string_exact w sect parent hwf h0 hcur hpar key val 0 (by decide)
      simp only [hshow key, Bool.false_eq_true, if_false] at h
      simp only [run_fields, h, bind, Except.bind]
      exact ih
    | int key val =>
      have h := writer_print_integer_exact w sect parent hwf h0 hcur hpar key val
      simp only [hshow key, Bool.false_eq_true, if_false] at h
      simp only [run_fields, h, bind, Except.bind]
      exact ih

/-- The section `stream_side_data` shows no key: it is not marked to show all
entries and its allow-list is empty. -/
theorem stream_side_data_shows_nothing (sect : Section)
    (hs : sections[46]? = some sect) (key : List Byte) : sect.shows key = false := by
  have e : sections[46]? = some (Section.mk0 SECTION_ID_STREAM_SIDE_DATA "side_data" 0 [] none
      (some "stream_side_data") 0) := by decide
  rw [e] at hs
  injection hs with hs
  subst hs
  rfl

/-- For a record of the stream the loop body of `print_pkt_side_data` opens
the section and closes it, and nothing else. -/
theorem print_pkt_side_data_record_stream (w : WriterContext) (sd : AVPacketSideData)
    (hwf : w.wf) (h9 : w.level < 9) (hcat : w.sections = sections) :
    print_pkt_side_data_record SECTION_ID_STREAM_SIDE_DATA w sd =
      writer_print_section_header w SECTION_ID_STREAM_SIDE_DATA >>=
        writer_print_section_footer := by
  have hlo := hwf.1
  have hslen := hwf.2.2.2.1
  have hklen : 46 < w.sections.length := by rw [hcat]; decide
  have e46 : SECTION_ID_STREAM_SIDE_DATA = ((46 : Nat) : Int) := by decide
  obtain ⟨w1, h1, hwf1, hl1, hcat1, hsec1, _⟩ :=
    writer_print_section_header_ok w 46 hwf h9 hklen
  obtain ⟨m, k, sect, parent, hl, hp, hs, _, _, hcur, hpar, _, _⟩ :=
    wf_parent w1 hwf1 (by rw [hl1]; omega)
  have hk : k = 46 := by
    have hm : (w.level + 1).toNat = m := by rw [hl1] at hl; omega
    rw [hsec1, hm, List.getElem?_set_self (by rw [hl1] at hl; omega)] at hp
    injection hp with hp
    injection hp with hp
    omega
  subst hk
  have hshow := stream_side_data_shows_nothing sect (by rw [← hcat, ← hcat1]; exact hs)
  have hS := writer_print_string_exact w1 sect parent hwf1 (by rw [hl1]; omega) hcur hpar
    (cs "side_data_type") (sd.name.getD (cs "unknown")) 0 (by decide)
  simp only [hshow, Bool.false_eq_true, if_false] at hS
  have hF := run_fields_hidden sect hshow sd.fields w1 hwf1 (by rw [hl1]; omega) hcur
  simp only [print_pkt_side_data_record, e46, h1, bind, Except.bind, hS, hF]

theorem print_pkt_side_data_loop_stream (side_data : List AVPacketSideData) :
    ∀ (w : WriterContext) (rest : List SectionOp), w.wf → w.level < 9 →
      w.sections = sections →
      (print_pkt_side_data_loop SECTION_ID_STREAM_SIDE_DATA side_data w >>= run_ops rest) =
        run_ops (side_data.flatMap (fun _ =>
          [SectionOp.header SECTION_ID_STREAM_SIDE_DATA, SectionOp.footer]) ++ rest) w := by
  induction side_data with
  | nil =>
    intro w rest _ _ _
    rfl
  | cons sd side_data ih =>
    intro w rest hwf h9 hcat
    have hlo := hwf.1
    have hklen : 46 < w.sections.length := by rw [hcat]; decide
    have e46 : SECTION_ID_STREAM_SIDE_DATA = ((46 : Nat) : Int) := by decide
    obtain ⟨w1, h1, hwf1, hl1, hcat1, _⟩ := writer_print_section_header_ok w 46 hwf h9 hklen
    obtain ⟨w2, h2, hwf2, hl2, hcat2, _⟩ :=
      writer_print_section_footer_ok w1 hwf1 (by rw [hl1]; omega)
    have hrec := print_pkt_side_data_record_stream w sd hwf h9 hcat
    have hcyc : (writer_print_section_header w SECTION_ID_STREAM_SIDE_DATA >>=
        writer_print_section_footer) = .ok w2 := by
      simp only [e46, h1, bind, Except.bind, h2]
    rw [List.flatMap_cons]
    show (print_pkt_side_data_record SECTION_ID_STREAM_SIDE_DATA w sd >>=
        print_pkt_side_data_loop SECTION_ID_STREAM_SIDE_DATA side_data) >>= run_ops rest =
      run_ops (SectionOp.header SECTION_ID_STREAM_SIDE_DATA :: SectionOp.footer ::
        (side_data.flatMap (fun _ =>
          [SectionOp.header SECTION_ID_STREAM_SIDE_DATA, SectionOp.footer]) ++ rest)) w
    rw [run_ops_cycle, hrec, hcyc]
    exact ih w2 rest hwf2 (by rw [hl2, hl1]; omega) (by rw [hcat2, hcat1, hcat])

theorem balanced_cycles {α : Type} (n : Nat) (lo lvl : Int) (k : Int) (l : List α)
    (rest : List SectionOp) (hl : lvl + 1 < SECTION_MAX_NB_LEVELS) (hk0 : 0 ≤ k) (hk : k < n)
    (hlo : lo ≤ lvl) (hrest : balanced n lo lvl rest) :
    balanced n lo lvl
      (l.flatMap (fun _ => [SectionOp.header k, SectionOp.footer]) ++ rest) := by
  induction l with
  | nil => exact hrest
  | cons a l ih =>
    rw [List.flatMap_cons]
    refine ⟨hl, hk0, hk, by omega, ?_⟩
    rw [show lvl + 1 - 1 = lvl by omega]
    exact ih

/-- C14. For every stream, in every well-formed context of the catalog with
room for two more levels, `print_pkt_side_data` on the sections
`stream_side_data_list` and `stream_side_data` succeeds and does what opening
and closing an empty `side_data` section for each record does: the section
shows no key, so neither `side_data_type` nor any other field of a record is
written, whatever the type of the record. -/
theorem C14_stream_side_data_type_not_written (w : WriterContext)
    (side_data : List AVPacketSideData) (hwf : w.wf) (h8 : w.level < 8)
    (hcat : w.sections = sections) :
    (∃ w', print_pkt_side_data w side_data SECTION_ID_STREAM_SIDE_DATA_LIST
        SECTION_ID_STREAM_SIDE_DATA = .ok w') ∧
    print_pkt_side_data w side_data SECTION_ID_STREAM_SIDE_DATA_LIST
        SECTION_ID_STREAM_SIDE_DATA =
      run_ops (SectionOp.header SECTION_ID_STREAM_SIDE_DATA_LIST ::
        (side_data.flatMap (fun _ =>
          [SectionOp.header SECTION_ID_STREAM_SIDE_DATA, SectionOp.footer]) ++
         [SectionOp.footer])) w := by
  have hlo := hwf.1
  have hklen : 45 < w.sections.length := by rw [hcat]; decide
  have e45 : SECTION_ID_STREAM_SIDE_DATA_LIST = ((45 : Nat) : Int) := by decide
  obtain ⟨w1, h1, hwf1, hl1, hcat1, _⟩ :=
    writer_print_section_header_ok w 45 hwf (by omega) hklen
  have hloop := print_pkt_side_data_loop_stream side_data w1 [SectionOp.footer] hwf1
    (by rw [hl1]; omega) (by rw [hcat1, hcat])
  have hfoot : ∀ v, run_ops [SectionOp.footer] v = writer_print_section_footer v := by
    intro v
    simp only [run_ops, bind, Except.bind, pure, Except.pure]
    cases writer_print_section_footer v <;> rfl
  have heq : print_pkt_side_data w side_data SECTION_ID_STREAM_SIDE_DATA_LIST
        SECTION_ID_STREAM_SIDE_DATA =
      run_ops (SectionOp.header SECTION_ID_STREAM_SIDE_DATA_LIST ::
        (side_data.flatMap (fun _ =>
          [SectionOp.header SECTION_ID_STREAM_SIDE_DATA, SectionOp.footer]) ++
         [SectionOp.footer])) w := by
    have hfun : run_ops [SectionOp.footer] = writer_print_section_footer := funext hfoot
    rw [hfun] at hloop
    simp only [print_pkt_side_data, run_ops, e45, h1, bind, Except.bind] at hloop ⊢
    exact hloop
  refine ⟨?_, heq⟩
  rw [heq]
  have hb : balanced w.sections.length w.level w.level
      (SectionOp.header SECTION_ID_STREAM_SIDE_DATA_LIST ::
        (side_data.flatMap (fun _ =>
          [SectionOp.header SECTION_ID_STREAM_SIDE_DATA, SectionOp.footer]) ++
         [SectionOp.footer])) := by
    have hlen : w.sections.length = 48 := by rw [hcat]; decide
    refine ⟨by simp only [SECTION_MAX_NB_LEVELS]; omega, by decide, by rw [hlen]; decide, ?_⟩
    apply balanced_cycles
    · simp only [SECTION_MAX_NB_LEVELS]; omega
    · decide
    · rw [hlen]; decide
    · omega
    · exact ⟨by omega, by show w.level + 1 - 1 = w.level; omega⟩
  obtain ⟨w', h', _⟩ := run_ops_balanced _ w w.level hwf hlo (le_refl _) hb
  exact ⟨w', h'⟩

theorem C14_stream_side_data_type_not_written_witness :
    (print_pkt_side_data ctx_stream [side_data_displaymatrix] SECTION_ID_STREAM_SIDE_DATA_LIST
      SECTION_ID_STREAM_SIDE_DATA).map (fun w => w.out) =
    .ok (cs ("\x7b\n    \"streams\": [\n        \x7b\n" ++
      "            \"side_data_list\": [\n" ++
      "                \x7b\n\n                \x7d\n            ]")) := by
  rw [(C14_stream_side_data_type_not_written ctx_stream [side_data_displaymatrix]
    (by decide) (by decide) rfl).2]
  decide

/-! ## The hexadecimal dump -/

theorem fmt_0x_length (w v : Nat) (h : v < 16 ^ w) (hw : 0 < w) : (fmt_0x w v).length = w := by
  have hd : (fmt_digits 16 v).length ≤ w := by
    simp only [fmt_digits, List.length_map, Nat.toDigits]
    exact Nat.toDigitsCore_length 16 (by decide) _ _ _ h hw
  simp only [fmt_0x, List.length_append, List.length_replicate]
  omega

theorem fmt_0x_byte_length (b : Byte) : (fmt_0x 2 b.toNat).length = 2 :=
  fmt_0x_length 2 _ (by have := b.val.isLt; simp [UInt8.toNat]; omega) (by decide)

theorem range_flatMap_succ {α : Type} (n : Nat) (f : Nat → List α) :
    (List.range (n + 1)).flatMap f = f 0 ++ (List.range n).flatMap (fun i => f (i + 1)) := by
  rw [List.range_succ_eq_map, List.flatMap_cons, List.flatMap_map]

theorem hexdump_pairs_length : ∀ row : List Byte,
    (hexdump_pairs row).length = 2 * row.length + row.length / 2
  | [] => rfl
  | [a] => by simp [hexdump_pairs, fmt_0x_byte_length]
  | a :: b :: rest => by
    simp only [hexdump_pairs, List.length_append, fmt_0x_byte_length, List.length_cons,
      List.length_nil, hexdump_pairs_length rest]
    omega

theorem hexdump_pairs_range : ∀ row : List Byte,
    (List.range row.length).flatMap (fun i =>
      fmt_0x 2 (row.getD i 0).toNat ++ (if i &&& 1 ≠ 0 then cs " " else [])) =
    hexdump_pairs row
  | [] => rfl
  | [a] => by
    simp [hexdump_pairs, List.range_succ_eq_map]
  | a :: b :: rest => by
    have ih := hexdump_pairs_range rest
    have hsp : cs " " = [0x20] := by decide
    simp only [List.length_cons, range_flatMap_succ, hexdump_pairs]
    have h1 : (0 &&& 1 : Nat) = 0 := by decide
    have h2 : (0 + 1 &&& 1 : Nat) ≠ 0 := by decide
    have h3 : ∀ i : Nat, (i + 1 + 1) &&& 1 = i &&& 1 := by
      intro i
      rw [Nat.and_one_is_mod, Nat.and_one_is_mod]
      omega
    simp only [h1, h3, ne_eq, not_true_eq_false, if_false, List.append_nil, h2,
      not_false_eq_true, if_true, hsp, List.append_assoc]
    have e0 : (a :: b :: rest).getD 0 0 = a := rfl
    have e1 : (a :: b :: rest).getD (0 + 1) 0 = b := rfl
    have e2 : ∀ i, (a :: b :: rest).getD (i + 1 + 1) 0 = rest.getD i 0 := fun i => rfl
    simp only [e0, e1, e2]
    rw [← ih]
    simp [hsp]

theorem range_flatMap_map {α : Type} (c : Byte → α) : ∀ row : List Byte,
    (List.range row.length).flatMap (fun i => [c (row.getD i 0)]) = row.map c
  | [] => rfl
  | a :: rest => by
    have ih := range_flatMap_map c rest
    simp only [List.length_cons, range_flatMap_succ, List.map_cons]
    have e0 : (a :: rest).getD 0 0 = a := rfl
    have e1 : ∀ i, (a :: rest).getD (i + 1) 0 = rest.getD i 0 := fun i => rfl
    simp only [e0, e1, ih]
    rfl

theorem range_flatMap_take {α : Type} (data : List Byte) (l : Nat) (f : Nat → Byte → List α) :
    (List.range l).flatMap (fun i => f i (data.getD i 0)) =
      (List.range l).flatMap (fun i => f i ((data.take l).getD i 0)) := by
  apply List.flatMap_congr
  intro i hi
  have hi' : i < l := List.mem_range.mp hi
  simp [List.getD, List.getElem?_take, hi']

set_option maxRecDepth 100000 in
theorem writer_print_data_char_ofNat : ∀ n : Nat, n < 256 →
    writer_print_data_char (UInt8.ofNat n) = hexdump_char (UInt8.ofNat n) := by
  decide

theorem writer_print_data_char_eq : writer_print_data_char = hexdump_char := by
  funext b
  have h := writer_print_data_char_ofNat b.toNat b.val.isLt
  rwa [byte_ofNat_toNat] at h

/-- One turn of the loop of `writer_print_data` appends the row of the spec. -/
theorem writer_print_data_row (data : List Byte) (offset : Nat) :
    fmt_0x 8 offset ++ cs ": " ++
      (List.range (min data.length 16)).flatMap (fun i =>
        fmt_0x 2 (data.getD i 0).toNat ++ (if i &&& 1 ≠ 0 then cs " " else [])) ++
      List.replicate (41 - 2 * min data.length 16 - min data.length 16 / 2) 0x20 ++
      (List.range (min data.length 16)).flatMap (fun i =>
        [writer_print_data_char (data.getD i 0)]) ++ cs "\n" =
    hexdump_row offset (data.take 16) := by
  have hl : (data.take 16).length = min data.length 16 := by
    rw [List.length_take, Nat.min_comm]
  have ht : data.take (min data.length 16) = data.take 16 := by
    rcases Nat.le_total data.length 16 with h | h
    · rw [Nat.min_eq_left h, List.take_of_length_le (le_refl _), List.take_of_length_le h]
    · rw [Nat.min_eq_right h]
  have hnl : cs "\n" = [0x0a] := by decide
  rw [range_flatMap_take data _ (fun i b =>
      fmt_0x 2 b.toNat ++ (if i &&& 1 ≠ 0 then cs " " else [])),
    range_flatMap_take data _ (fun _ b => [writer_print_data_char b]), ht, ← hl,
    hexdump_pairs_range, range_flatMap_map, writer_print_data_char_eq, hnl]
  simp only [hexdump_row, hexdump_row_head, hexdump_pairs_length]
  have e : 41 - 2 * (List.take 16 data).length - (List.take 16 data).length / 2 =
      51 - 10 - (2 * (List.take 16 data).length + (List.take 16 data).length / 2) := by
    omega
  rw [e]

theorem writer_print_data_loop_eq (fuel : Nat) :
    ∀ (bp : List Byte) (offset : Nat) (data : List Byte), data.length ≤ fuel →
      writer_print_data_loop fuel bp offset data data.length =
        bp ++ (List.range ((data.length + 15) / 16)).flatMap (fun k =>
          hexdump_row (offset + 16 * k) ((data.drop (16 * k)).take 16)) := by
  induction fuel with
  | zero =>
    intro bp offset data h
    have : data = [] := List.length_eq_zero.mp (by omega)
    subst this
    simp [writer_print_data_loop]
  | succ fuel ih =>
    intro bp offset data h
    by_cases hd : data = []
    · subst hd
      simp [writer_print_data_loop]
    · have hpos : 0 < data.length := List.length_pos.mpr hd
      have hne : ¬ data.length = 0 := by omega
      have hrow := writer_print_data_row data offset
      simp only [writer_print_data_loop, if_neg hne]
      have hlen : (data.drop (min data.length 16)).length = data.length - min data.length 16 := by
        rw [List.length_drop]
      rw [← hlen, ih _ _ _ (by rw [hlen]; omega)]
      obtain ⟨m, hm⟩ : ∃ m, (data.length + 15) / 16 = m + 1 :=
        ⟨(data.length + 15) / 16 - 1, by omega⟩
      have htail : (List.range (((data.drop (min data.length 16)).length + 15) / 16)).flatMap
            (fun k => hexdump_row (offset + min data.length 16 + 16 * k)
              (((data.drop (min data.length 16)).drop (16 * k)).take 16)) =
          (List.range m).flatMap (fun i =>
            hexdump_row (offset + 16 * (i + 1)) ((data.drop (16 * (i + 1))).take 16)) := by
        rcases Nat.lt_or_ge data.length 16 with hlt | hge
        · have hm0 : m = 0 := by omega
          have hz : ((data.drop (min data.length 16)).length + 15) / 16 = 0 := by
            rw [hlen]; omega
          rw [hz, hm0]
          simp only [List.range_zero, List.flatMap_nil]
        · have hmin : min data.length 16 = 16 := Nat.min_eq_right hge
          have hz : ((data.drop (min data.length 16)).length + 15) / 16 = m := by
            rw [hlen, hmin]; omega
          rw [hz, hmin]
          apply List.flatMap_congr
          intro k _
          rw [List.drop_drop, show 16 + 16 * k = 16 * (k + 1) by omega,
            show offset + 16 + 16 * k = offset + 16 * (k + 1) by omega]
      rw [hm, range_flatMap_succ, htail]
      simp only [Nat.mul_zero, Nat.add_zero, List.drop_zero]
      rw [← hrow]
      simp only [List.append_assoc]

theorem digit_bytes_16 : ∀ k : Nat, k < 16 →
    UInt8.ofNat (Nat.digitChar k).toNat ≠ (0 : Byte) := by
  decide

theorem fmt_0x_ne_zero (w v : Nat) (x : Byte) (h : x ∈ fmt_0x w v) : x ≠ 0 := by
  simp only [fmt_0x, List.mem_append, List.mem_replicate] at h
  rcases h with ⟨_, h⟩ | h
  · rw [h]; decide
  · obtain ⟨k, hk, hx⟩ := fmt_digits_mem 16 (by decide) _ _ h
    rw [hx]
    exact digit_bytes_16 k hk

theorem hexdump_pairs_ne_zero : ∀ (row : List Byte) (x : Byte), x ∈ hexdump_pairs row → x ≠ 0
  | [], x, h => by cases h
  | [a], x, h => fmt_0x_ne_zero _ _ x h
  | a :: b :: rest, x, h => by
    simp only [hexdump_pairs, List.mem_append, List.mem_singleton] at h
    rcases h with ((h | h) | h) | h
    · exact fmt_0x_ne_zero _ _ x h
    · exact fmt_0x_ne_zero _ _ x h
    · rw [h]; decide
    · exact hexdump_pairs_ne_zero rest x h

set_option maxRecDepth 100000 in
theorem hexdump_char_ne_zero_ofNat : ∀ n : Nat, n < 256 →
    hexdump_char (UInt8.ofNat n) ≠ 0 := by
  decide

theorem hexdump_ne_zero (data : List Byte) : ∀ x ∈ hexdump data, x ≠ 0 := by
  intro x hx
  simp only [hexdump, List.mem_append, List.mem_singleton, List.mem_flatMap, hexdump_row,
    hexdump_row_head, List.mem_replicate, List.mem_map] at hx
  rcases hx with hx | ⟨k, _, hx⟩
  · rw [hx]; decide
  · rcases hx with ((((hx | hx) | hx) | ⟨_, hx⟩) | ⟨b, _, hx⟩) | hx
    · exact fmt_0x_ne_zero _ _ x hx
    · have : ∀ y ∈ cs ": ", y ≠ (0 : Byte) := by decide
      exact this x hx
    · exact hexdump_pairs_ne_zero _ x hx
    · rw [hx]; decide
    · rw [← hx]
      have h := hexdump_char_ne_zero_ofNat b.toNat b.val.isLt
      rwa [byte_ofNat_toNat] at h
    · rw [hx]; decide

/-- C17. For every buffer of `n` bytes (`n` fits the `int` that `size` is),
the string `writer_print_data` builds and hands to `writer_print_string` is a
newline followed by `ceil(n / 16)` rows; row `k` covers the bytes `16 k ..
min (16 k + 16) n - 1` and is the offset `16 k` in eight zero-padded lowercase
hexadecimal digits, a colon and a space, two hexadecimal digits for each byte
with a space after every second byte, blanks up to position 51, where the
ASCII column starts whatever the length of the row, one character for each
byte (the byte itself in `0x20 .. 0x7E`, a dot otherwise) and a newline. The
string holds no NUL, so all of it is the value of the field. For the buffer
`41 00 ff` the row starts with the offset and `4100 ff` and ends with
`A..`. -/
theorem C17_hexdump_rows (data : List Byte) (hsize : data.length < 2 ^ 31) :
    writer_print_data_text data data.length = hexdump data ∧
    (∀ k, k < (data.length + 15) / 16 →
      (fmt_0x 8 (16 * k)).length = 8 ∧
      (hexdump_row_head (16 * k) ((data.drop (16 * k)).take 16)).length = 51) ∧
    c_str (hexdump data) = hexdump data ∧
    (∀ (w : WriterContext) (name : List Byte),
      writer_print_data w name data data.length =
        (writer_print_string w name (hexdump data) 0).map (fun r => r.2)) ∧
    hexdump [0x41, 0x00, 0xff] =
      cs "\n00000000: 4100 ff" ++ List.replicate 34 0x20 ++ cs "A..\n" := by
  have h1 : writer_print_data_text data data.length = hexdump data := by
    rw [writer_print_data_text, writer_print_data_loop_eq _ _ _ _ (le_refl _)]
    simp only [hexdump, Nat.zero_add]
    rfl
  refine ⟨h1, ?_, c_str_of_ne_zero _ (hexdump_ne_zero data), ?_, by decide⟩
  · intro k hk
    have h8 : (fmt_0x 8 (16 * k)).length = 8 :=
      fmt_0x_length 8 _ (by norm_num; omega) (by decide)
    refine ⟨h8, ?_⟩
    have hrow : ((data.drop (16 * k)).take 16).length ≤ 16 := by
      rw [List.length_take]
      exact Nat.min_le_left _ _
    have hcs : (cs ": ").length = 2 := by decide
    simp only [hexdump_row_head, List.length_append, h8, hcs, List.length_replicate,
      hexdump_pairs_length]
    omega
  · intro w name
    simp only [writer_print_data, h1, bind, Except.bind, pure, Except.pure, Except.map]

theorem C17_hexdump_rows_witness :
    writer_print_data_text [0x41, 0x00, 0xff] 3 =
      cs "\n00000000: 4100 ff" ++ List.replicate 34 0x20 ++ cs "A..\n" := by
  have h := C17_hexdump_rows [0x41, 0x00, 0xff] (by decide)
  rw [← h.2.2.2.2]
  exact h.1

/-! ## The columned dump of integers -/

theorem writer_print_integers_row_eq (format : Nat → List Byte) (bytes : Nat)
    (hb : bytes = 1 ∨ bytes = 2 ∨ bytes = 4) (l : Nat) :
    ∀ (bp data : List Byte),
      writer_print_integers_row format bytes l bp data =
        (bp ++ (List.range l).flatMap (fun j => format (av_rn bytes (data.drop (j * bytes)))),
         data.drop (l * bytes)) := by
  induction l with
  | zero =>
    intro bp data
    simp [writer_print_integers_row]
  | succ l ih =>
    intro bp data
    have hstep : (if bytes = 1 then bp ++ format (av_rn 1 data)
        else if bytes = 2 then bp ++ format (av_rn 2 data)
        else if bytes = 4 then bp ++ format (av_rn 4 data)
        else bp) = bp ++ format (av_rn bytes data) := by
      rcases hb with h | h | h <;> subst h <;> simp
    simp only [writer_print_integers_row, hstep, ih, range_flatMap_succ, List.drop_drop,
      Nat.zero_mul, List.drop_zero, List.append_assoc]
    have e1 : ∀ j, bytes + j * bytes = (j + 1) * bytes := by
      intro j
      rw [Nat.add_mul, Nat.one_mul, Nat.add_comm]
    simp only [e1]

theorem ceil_div_small (n c : Nat) (hn : 0 < n) (hc : n ≤ c) : (n + c - 1) / c = 1 := by
  apply Nat.div_eq_of_lt_le
  · omega
  · omega

theorem ceil_div_step (n c : Nat) (hc : 0 < c) (hn : c ≤ n) :
    (n + c - 1) / c = (n - c + c - 1) / c + 1 := by
  rw [← Nat.add_div_right _ hc]
  congr 1
  omega

theorem writer_print_integers_loop_eq (format : Nat → List Byte) (c bytes : Nat) (a : Int)
    (hc : 1 ≤ c) (hb : bytes = 1 ∨ bytes = 2 ∨ bytes = 4) (fuel : Nat) :
    ∀ (bp : List Byte) (offset : Int) (data : List Byte) (n : Nat), n ≤ fuel →
      writer_print_integers_loop format c bytes a fuel bp offset data n =
        bp ++ (List.range ((n + c - 1) / c)).flatMap (fun k =>
          fmt_0x 8 ((offset + k * a) % 4294967296).toNat ++ cs ": " ++
            (List.range (min c (n - k * c))).flatMap (fun j =>
              format (av_rn bytes (data.drop ((k * c + j) * bytes)))) ++ [0x0a]) := by
  induction fuel with
  | zero =>
    intro bp offset data n h
    have hn : n = 0 := by omega
    subst hn
    have : (0 + c - 1) / c = 0 := Nat.div_eq_of_lt (by omega)
    rw [this]
    simp only [writer_print_integers_loop, List.range_zero, List.flatMap_nil, List.append_nil]
  | succ fuel ih =>
    intro bp offset data n h
    by_cases hn : n = 0
    · subst hn
      have : (0 + c - 1) / c = 0 := Nat.div_eq_of_lt (by omega)
      rw [this]
      simp only [writer_print_integers_loop, if_true, List.range_zero, List.flatMap_nil,
        List.append_nil]
    · have hnl : cs "\n" = [0x0a] := by decide
      simp only [writer_print_integers_loop, if_neg hn, writer_print_integers_row_eq format bytes hb,
        hnl]
      rw [ih _ _ _ _ (by omega)]
      rcases Nat.lt_or_ge n c with hlt | hge
      · have hmin : min n c = n := Nat.min_eq_left (by omega)
        have hrows : (n + c - 1) / c = 0 + 1 := ceil_div_small n c (by omega) (by omega)
        have hz : (n - n + c - 1) / c = 0 := Nat.div_eq_of_lt (by omega)
        have hmin' : min c (n - 0) = n := by
          rw [Nat.sub_zero]
          exact Nat.min_eq_right (by omega)
        rw [hmin, hrows, hz, range_flatMap_succ]
        simp only [List.range_zero, List.flatMap_nil, List.append_nil,
          hmin', Nat.cast_zero, zero_mul, add_zero, Nat.zero_mul,
          Nat.zero_add, List.append_assoc]
      · have hmin : min n c = c := Nat.min_eq_right hge
        have hrows := ceil_div_step n c (by omega) hge
        have hmin' : min c (n - 0) = c := by
          rw [Nat.sub_zero]
          exact Nat.min_eq_left hge
        rw [hmin]
        have htail : (List.range ((n - c + c - 1) / c)).flatMap (fun k =>
              fmt_0x 8 ((offset + a + k * a) % 4294967296).toNat ++ cs ": " ++
                (List.range (min c (n - c - k * c))).flatMap (fun j =>
                  format (av_rn bytes ((data.drop (c * bytes)).drop ((k * c + j) * bytes)))) ++
                [0x0a]) =
            (List.range ((n - c + c - 1) / c)).flatMap (fun i =>
              fmt_0x 8 ((offset + ((i + 1 : Nat) : Int) * a) % 4294967296).toNat ++ cs ": " ++
                (List.range (min c (n - (i + 1) * c))).flatMap (fun j =>
                  format (av_rn bytes (data.drop (((i + 1) * c + j) * bytes)))) ++
                [0x0a]) := by
          apply List.flatMap_congr
          intro k _
          have e1 : offset + a + (k : Int) * a = offset + ((k + 1 : Nat) : Int) * a := by
            push_cast
            ring
          have e2 : n - c - k * c = n - (k + 1) * c := by
            rw [Nat.add_mul, Nat.one_mul]
            omega
          have e3 : ∀ j, c * bytes + (k * c + j) * bytes = ((k + 1) * c + j) * bytes := by
            intro j
            ring
          simp only [e1, e2, e3, List.drop_drop]
        rw [htail, hrows, range_flatMap_succ]
        simp only [hmin', Nat.cast_zero, zero_mul, add_zero, Nat.zero_mul, Nat.zero_add,
          List.append_assoc]

/-- C20 (counterexample). With the offset step -1, two elements of one byte
and one column, the second row is labelled `ffffffff`: the `int` offset -1
printed as an `unsigned int`, not a rendering of `k a = -1`. -/
theorem C20_counterexample :
    writer_print_integers_text 2 [1, 2] 2 (fun v => fmt_d v) 1 1 (-1) =
      cs "\n00000000: 1\nffffffff: 2\n" := by
  decide

/-- C20 (amended). For every element count `n` (an `int`, so below `2 ^ 31`),
column count `c` of at least 1, element width of 1, 2 or 4 bytes and offset
step `a` for which the offset stays an `int` up to the last row, the loop of
`writer_print_integers` terminates, within `n` turns, and the text it builds
and hands to `writer_print_string` is a newline followed by `ceil(n / c)`
rows; row `k` is a label of exactly eight lowercase hexadecimal digits, a
colon and a space, the `min c (n - k c)` elements from index `k c` on, each
read in the given width and rendered by the format of the caller, and a
newline. The label is `k a` when `a` is not negative, and `2 ^ 32 + k a` when
`a` is negative and `k` is not 0, because `%08x` prints the `int` as
unsigned. -/
theorem C20_integers_rows (data : List Byte) (n c bytes : Nat) (a : Int)
    (format : Nat → List Byte) (hc : 1 ≤ c) (hb : bytes = 1 ∨ bytes = 2 ∨ bytes = 4)
    (hdata : n * bytes ≤ data.length) (hn : n < 2 ^ 31)
    (hlo : -2 ^ 31 ≤ (((n + c - 1) / c : Nat) : Int) * a)
    (hhi : (((n + c - 1) / c : Nat) : Int) * a < 2 ^ 31) :
    (∀ fuel, n ≤ fuel →
      writer_print_integers_text fuel data n format c bytes a =
        integers_dump data n format c bytes a) ∧
    (∀ k, k < (n + c - 1) / c →
      (fmt_0x 8 ((k * a) % 4294967296).toNat).length = 8 ∧
      (0 ≤ a → ((k * a) % 4294967296).toNat = k * a.toNat) ∧
      (a < 0 → 0 < k → (((k * a) % 4294967296).toNat : Int) = 4294967296 + k * a)) ∧
    (∀ fuel (w : WriterContext) (name : List Byte), n ≤ fuel →
      writer_print_integers fuel w name data n format c bytes a =
        (writer_print_string w name (integers_dump data n format c bytes a) 0).map
          (fun r => r.2)) := by
  have _ := hdata
  have _ := hn
  have h1 : ∀ fuel, n ≤ fuel →
      writer_print_integers_text fuel data n format c bytes a =
        integers_dump data n format c bytes a := by
    intro fuel hf
    rw [writer_print_integers_text,
      writer_print_integers_loop_eq format c bytes a hc hb fuel _ _ _ _ hf]
    simp only [integers_dump, integers_row, zero_add, List.drop_drop]
    rfl
  refine ⟨h1, ?_, ?_⟩
  · intro k hk
    have hpos : (0 : Int) < 4294967296 := by decide
    have hm0 := Int.emod_nonneg ((k : Int) * a) (ne_of_gt hpos)
    have hm1 := Int.emod_lt_of_pos ((k : Int) * a) hpos
    have hkr : (k : Int) + 1 ≤ (((n + c - 1) / c : Nat) : Int) := by exact_mod_cast hk
    have hk0 : (0 : Int) ≤ k := Int.ofNat_nonneg k
    refine ⟨fmt_0x_length 8 _ (by norm_num; omega) (by decide), ?_, ?_⟩
    · intro ha
      have hle : (k : Int) * a ≤ (((n + c - 1) / c : Nat) : Int) * a :=
        Int.mul_le_mul_of_nonneg_right (by omega) ha
      have hnn : 0 ≤ (k : Int) * a := Int.mul_nonneg hk0 ha
      rw [Int.emod_eq_of_lt hnn (by omega)]
      have : (k : Int) * a = ((k * a.toNat : Nat) : Int) := by
        push_cast
        rw [Int.toNat_of_nonneg ha]
      rw [this, Int.toNat_ofNat]
    · intro ha hkpos
      have hle : (((n + c - 1) / c : Nat) : Int) * a ≤ (k : Int) * a :=
        Int.mul_le_mul_of_nonpos_right (by omega) (by omega)
      have hneg : (k : Int) * a < 0 := Int.mul_neg_of_pos_of_neg (by omega) ha
      rw [Int.toNat_of_nonneg hm0]
      have e : (k : Int) * a = (4294967296 + k * a) + 4294967296 * (-1) := by ring
      rw [e, Int.add_mul_emod_self_left, Int.emod_eq_of_lt (by omega) (by omega)]
      ring_nf
  · intro fuel w name hf
    simp only [writer_print_integers, h1 fuel hf, bind, Except.bind, pure, Except.pure,
      Except.map]

set_option maxRecDepth 100000 in
theorem C20_integers_rows_witness :
    writer_print_integers_text 9 displaymatrix_example 9 fmt_displaymatrix 3 4 1 =
      cs ("\n00000000:            0       65536           0\n" ++
        "00000001:       -65536           0           0\n" ++
        "00000002:            0           0  1073741824\n") := by
  rw [(C20_integers_rows displaymatrix_example 9 3 4 1 fmt_displaymatrix (by decide)
    (by decide) (by decide) (by decide) (by decide) (by decide)).1 9 (le_refl _)]
  decide

/-! ## The JSON parser -/

theorem json_run_append (s : JState) (a b : List Byte) :
    json_run s (a ++ b) = json_run (json_run s a) b := by
  simp [json_run, List.foldl_append]

theorem json_run_cons (s : JState) (c : Byte) (l : List Byte) :
    json_run s (c :: l) = json_run (json_step s c) l := rfl

theorem json_run_nil (s : JState) : json_run s [] = s := rfl

/-- Between tokens the parser skips whitespace. -/
theorem json_run_ws (s : JState) (l : List Byte) (hl : ∀ c ∈ l, json_ws c = true)
    (hm : s.mode = JMode.value ∨ s.mode = JMode.value_or_close ∨ s.mode = JMode.key_or_close ∨
      s.mode = JMode.key ∨ s.mode = JMode.colon ∨ s.mode = JMode.after_value ∨
      s.mode = JMode.done) :
    json_run s l = s := by
  induction l with
  | nil => rfl
  | cons c l ih =>
    have hc := hl c (List.mem_cons_self _ _)
    have hstep : json_step s c = s := by
      rcases hm with h | h | h | h | h | h | h <;>
        simp [json_step, h, json_step_token, hc]
    rw [json_run_cons, hstep]
    exact ih (fun x hx => hl x (List.mem_cons_of_mem _ hx))

theorem json_str_lex_append (a b : List Byte) :
    ∀ lex, json_str_lex lex (a ++ b) = (json_str_lex lex a).bind (fun x => json_str_lex x b) := by
  induction a with
  | nil => intro lex; rfl
  | cons c a ih =>
    intro lex
    simp only [List.cons_append, json_str_lex]
    split_ifs
    · rfl
    · rfl
    · exact ih _

set_option maxRecDepth 100000 in
theorem json_str_lex_escape_ofNat : ∀ n : Nat, n < 256 →
    json_str_lex 0 (json_escape_char (UInt8.ofNat n)) = some 0 := by
  decide

theorem json_str_lex_escaped (l : List Byte) :
    json_str_lex 0 (l.flatMap json_escape_char) = some 0 := by
  induction l with
  | nil => rfl
  | cons c l ih =>
    have hc := json_str_lex_escape_ofNat c.toNat c.val.isLt
    rw [byte_ofNat_toNat] at hc
    rw [List.flatMap_cons, json_str_lex_append, hc]
    exact ih

/-- Inside a string the parser reads on as long as the string recogniser
does. -/
theorem json_run_str (l : List Byte) :
    ∀ (s : JState) (k : Bool) (lex lex' : Nat), s.mode = JMode.str k lex →
      json_str_lex lex l = some lex' →
      json_run s l = { s with mode := JMode.str k lex' } := by
  induction l with
  | nil =>
    intro s k lex lex' hm h
    simp only [json_str_lex, Option.some.injEq] at h
    subst h
    rw [json_run_nil, ← hm]
  | cons c l ih =>
    intro s k lex lex' hm h
    simp only [json_str_lex] at h
    split_ifs at h with h1 h2
    have hstep : json_step s c = { s with mode := JMode.str k (json_string_step lex c) } := by
      simp only [json_step, hm, if_neg h1, if_neg h2]
    rw [json_run_cons, hstep, ih _ k _ lex' rfl h]

/-- The escaped text of a string between its quotes: the parser reads it and
is at the closing quote in the state between characters. -/
theorem json_run_escaped (s : JState) (k : Bool) (text : List Byte)
    (hm : s.mode = JMode.str k 0) :
    json_run s (json_escape_str [] text) = s := by
  have h := json_run_str _ s k 0 0 hm (json_str_lex_escaped (c_str text))
  rw [json_escape_str, List.nil_append, h, ← hm]

theorem json_step_key_quote (s : JState)
    (hm : s.mode = JMode.key_or_close ∨ s.mode = JMode.key) :
    json_step s 0x22 = { s with mode := JMode.str true 0 } := by
  rcases hm with h | h <;> simp [json_step, h, json_step_token, json_ws]

theorem json_step_key_end (s : JState) (hm : s.mode = JMode.str true 0) :
    json_step s 0x22 = s.after_key := by
  simp [json_step, hm, JState.after_key]

theorem json_step_colon (s : JState) (hm : s.mode = JMode.colon) :
    json_step s 0x3a = { s with mode := JMode.value } := by
  simp [json_step, hm, json_step_token, json_ws]

theorem json_step_open (s : JState) (hm : s.mode = JMode.value ∨ s.mode = JMode.value_or_close) :
    json_step s 0x7b = s.push true ∧ json_step s 0x5b = s.push false := by
  rcases hm with h | h <;> simp [json_step, h, json_step_token, json_ws, json_start_value]

theorem json_step_value_quote (s : JState) (hm : s.mode = JMode.value) :
    json_step s 0x22 = { s with mode := JMode.str false 0 } := by
  simp [json_step, hm, json_step_token, json_ws, json_start_value]

theorem json_step_value_end (s : JState) (hm : s.mode = JMode.str false 0) :
    json_step s 0x22 = s.complete := by
  simp [json_step, hm]

theorem json_step_comma (s : JState) (hm : s.mode = JMode.after_value) :
    json_step s 0x2c =
      { s with mode := if s.stack.head? = some true then JMode.key else JMode.value } := by
  simp [json_step, hm, json_step_token, json_ws]

theorem json_step_close_obj (s : JState)
    (hm : s.mode = JMode.key_or_close ∨
      (s.mode = JMode.after_value ∧ s.stack.head? = some true)) :
    json_step s 0x7d = s.pop := by
  rcases hm with h | ⟨h, h'⟩ <;> simp [json_step, h, json_step_token, json_ws, *]

theorem json_step_close_arr (s : JState)
    (hm : s.mode = JMode.value_or_close ∨
      (s.mode = JMode.after_value ∧ s.stack.head? = some false)) :
    json_step s 0x5d = s.pop := by
  rcases hm with h | ⟨h, h'⟩ <;> simp [json_step, h, json_step_token, json_ws, *]

/-- A key between its quotes. -/
theorem json_run_key (s : JState) (key : List Byte)
    (hm : s.mode = JMode.key_or_close ∨ s.mode = JMode.key) :
    json_run s (cs "\"" ++ json_escape_str [] key ++ [0x22]) = s.after_key := by
  have e : cs "\"" = [0x22] := by decide
  rw [e, List.append_assoc, List.singleton_append, json_run_cons, json_step_key_quote s hm,
    json_run_append, json_run_escaped _ true key rfl, json_run_cons, json_run_nil,
    json_step_key_end _ rfl]
  rfl

/-- A string value between its quotes. -/
theorem json_run_string_value (s : JState) (val : List Byte) (hm : s.mode = JMode.value) :
    json_run s ([0x22] ++ json_escape_str [] val ++ [0x22]) =
      JState.complete { s with mode := JMode.str false 0 } := by
  rw [List.append_assoc, List.singleton_append, json_run_cons, json_step_value_quote s hm,
    json_run_append, json_run_escaped _ false val rfl, json_run_cons, json_run_nil,
    json_step_value_end _ rfl]

theorem fmt_star_c_ws (width : Int) : ∀ c ∈ fmt_star_c width 0x20, json_ws c = true := by
  intro c hc
  unfold fmt_star_c at hc
  split_ifs at hc
  · rcases List.mem_cons.mp hc with h | h
    · rw [h]; decide
    · rw [(List.mem_replicate.mp h).2]; decide
  · rcases List.mem_append.mp hc with h | h
    · rw [(List.mem_replicate.mp h).2]; decide
    · rw [List.mem_singleton.mp h]; decide

theorem json_indent_text_ws (n : Int) : ∀ c ∈ json_indent_text n, json_ws c = true :=
  fmt_star_c_ws _
/-! ## The writer and the parser -/

theorem kinds_upto_congr (w w' : WriterContext) (hs : w'.sections = w.sections) (n : Nat)
    (h : ∀ i, i < n → w'.section_[i]? = w.section_[i]?) :
    w'.kinds_upto n = w.kinds_upto n := by
  induction n with
  | zero => rfl
  | succ n ih =>
    simp only [WriterContext.kinds_upto]
    rw [ih (fun i hi => h i (by omega))]
    congr 1
    simp only [WriterContext.kind_at, List.getD, List.get?_eq_getElem?, h n (by omega), hs]

theorem json_priv_ok_ws (j : JSONContext) (h : json_priv_ok j) :
    (∀ c ∈ c_str j.item_start_end, json_ws c = true) ∧
    ∃ ws, c_str j.item_sep = 0x2c :: ws ∧ ∀ c ∈ ws, json_ws c = true := by
  rcases h with ⟨_, h1, h2⟩ | ⟨_, h1, h2⟩
  · rw [h1, h2]
    exact ⟨by decide, [0x0a], by decide, by decide⟩
  · rw [h1, h2]
    exact ⟨by decide, [0x20], by decide, by decide⟩

theorem json_run_ws_then (s : JState) (l rest : List Byte) (hl : ∀ c ∈ l, json_ws c = true)
    (hm : s.mode = JMode.value ∨ s.mode = JMode.value_or_close ∨ s.mode = JMode.key_or_close ∨
      s.mode = JMode.key ∨ s.mode = JMode.colon ∨ s.mode = JMode.after_value ∨
      s.mode = JMode.done) :
    json_run s (l ++ rest) = json_run s rest := by
  rw [json_run_append, json_run_ws s l hl hm]

theorem json_run_key_then (s : JState) (key rest : List Byte)
    (hm : s.mode = JMode.key_or_close ∨ s.mode = JMode.key) :
    json_run s (cs "\"" ++ (json_escape_str [] key ++ (0x22 :: rest))) =
      json_run s.after_key rest := by
  have h := json_run_key s key hm
  rw [← List.singleton_append (l := rest), ← List.append_assoc, ← List.append_assoc,
    json_run_append, h]

theorem json_run_string_value_then (s : JState) (val rest : List Byte)
    (hm : s.mode = JMode.value) :
    json_run s (0x22 :: (json_escape_str [] val ++ (0x22 :: rest))) =
      json_run (JState.complete { s with mode := JMode.str false 0 }) rest := by
  have h := json_run_string_value s val hm
  rw [← List.singleton_append (l := rest), ← List.singleton_append (l := _ ++ _),
    ← List.append_assoc, ← List.append_assoc, json_run_append, h]

/-- The parser reads the header of a section opened in an open section as the
opening of a container: after the key, when the parent is an object. -/
theorem json_run_header_text (s : JState) (j : JSONContext) (hj : json_priv_ok j)
    (sc sp : Section) (hcw : sc.flags &&& SECTION_FLAG_IS_WRAPPER = 0)
    (hca : sp.is_obj = false → sc.is_obj = true)
    (hpaf : sp.id ≠ SECTION_ID_PACKETS_AND_FRAMES)
    (hm : s.mode = json_open_mode sp.is_obj) (hmd : s.maxdepth = s.stack.length) :
    json_run s (json_header_text j sc (some sp)) =
      { stack := sc.is_obj :: s.stack, mode := json_open_mode sc.is_obj,
        maxdepth := s.maxdepth + 1, deepkeys := 0 } := by
  obtain ⟨hise, _⟩ := json_priv_ok_ws j hj
  have hind := json_indent_text_ws j.indent_level
  have e1 : cs "\": [\n" = [0x22, 0x3a, 0x20, 0x5b, 0x0a] := by decide
  have e2 : cs "\": \x7b" = [0x22, 0x3a, 0x20, 0x7b] := by decide
  have e3 : cs "\x7b" = [0x7b] := by decide
  have hsk : json_step { s.after_key with mode := JMode.value } 0x20 =
      { s.after_key with mode := JMode.value } := by
    simp [json_step, json_step_token, json_ws]
  have hcolon := json_step_colon s.after_key rfl
  by_cases hpo : sp.is_obj = true
  · -- the parent is an object: a member
    have hpf : sp.flags &&& SECTION_FLAG_IS_ARRAY = 0 := by
      simpa [Section.is_obj] using hpo
    have hmode : s.mode = JMode.key_or_close := by rw [hm, hpo]; rfl
    by_cases hco : sc.is_obj = true
    · have hcf : sc.flags &&& SECTION_FLAG_IS_ARRAY = 0 := by
        simpa [Section.is_obj] using hco
      simp only [json_header_text, hcw, hcf, hpf, ne_eq, not_true_eq_false, if_false, if_true, e2,
        List.append_assoc, List.cons_append, List.nil_append]
      rw [json_run_ws_then s _ _ hind (Or.inr (Or.inr (Or.inl hmode))),
        json_run_key_then s _ _ (Or.inl hmode), json_run_cons, hcolon, json_run_cons, hsk,
        json_run_cons, (json_step_open _ (Or.inl rfl)).1,
        json_run_ws _ _ hise (Or.inr (Or.inr (Or.inl rfl)))]
      simp [JState.push, JState.after_key, hco, json_open_mode, hmd]
    · have hcf : ¬ sc.flags &&& SECTION_FLAG_IS_ARRAY = 0 := by
        simpa [Section.is_obj] using hco
      have hco' : sc.is_obj = false := by simpa using hco
      simp only [json_header_text, hcw, hcf, ne_eq, not_true_eq_false, if_false,
        not_false_eq_true, if_true, e1, List.append_assoc, List.cons_append, List.nil_append]
      rw [json_run_ws_then s _ _ hind (Or.inr (Or.inr (Or.inl hmode))),
        json_run_key_then s _ _ (Or.inl hmode), json_run_cons, hcolon, json_run_cons, hsk,
        json_run_cons, (json_step_open _ (Or.inl rfl)).2,
        json_run_ws _ _ (by decide) (Or.inr (Or.inl rfl))]
      simp [JState.push, JState.after_key, hco', json_open_mode, hmd]
  · -- the parent is an array: an element
    have hpo' : sp.is_obj = false := by simpa using hpo
    have hpf : ¬ sp.flags &&& SECTION_FLAG_IS_ARRAY = 0 := by
      simpa [Section.is_obj] using hpo
    have hco := hca hpo'
    have hcf : sc.flags &&& SECTION_FLAG_IS_ARRAY = 0 := by
      simpa [Section.is_obj] using hco
    have hmode : s.mode = JMode.value_or_close := by rw [hm, hpo']; rfl
    simp only [json_header_text, hcw, hcf, hpf, hpaf, ne_eq, not_true_eq_false, if_false,
      if_true, e3, List.append_nil, List.append_assoc, List.cons_append, List.nil_append]
    rw [json_run_ws_then s _ _ hind (Or.inr (Or.inl hmode)), json_run_cons,
      (json_step_open _ (Or.inr hmode)).1,
      json_run_ws _ _ hise (Or.inr (Or.inr (Or.inl rfl)))]
    simp [JState.push, hco, json_open_mode, hmd]

/-- The parser reads a string field in an object as one more member. -/
theorem json_run_field (s : JState) (j : JSONContext) (hj : json_priv_ok j) (first : Bool)
    (ind key val : List Byte) (hind : ∀ c ∈ ind, json_ws c = true)
    (hm : s.mode = if first then JMode.key_or_close else JMode.after_value)
    (hobj : s.stack.head? = some true) (hdepth : s.stack.length = s.maxdepth) :
    json_run s ((if first then [] else c_str j.item_sep) ++ ind ++ json_str_item key val) =
      { s with mode := JMode.after_value, deepkeys := s.deepkeys + 1 } := by
  obtain ⟨_, ws, hsep, hws⟩ := json_priv_ok_ws j hj
  have e1 : cs "\":" = [0x22, 0x3a] := by decide
  have e2 : cs " \"" = [0x20, 0x22] := by decide
  have e3 : cs "\"" = [0x22] := by decide
  have hne : s.stack ≠ [] := by
    intro h
    rw [h] at hobj
    cases hobj
  -- the state in which the key starts
  obtain ⟨s1, hs1, hm1, hst1, hmd1, hdk1⟩ : ∃ s1 : JState,
      json_run s ((if first then [] else c_str j.item_sep) ++ ind ++ json_str_item key val) =
        json_run s1 (json_str_item key val) ∧
      (s1.mode = JMode.key_or_close ∨ s1.mode = JMode.key) ∧ s1.stack = s.stack ∧
      s1.maxdepth = s.maxdepth ∧ s1.deepkeys = s.deepkeys := by
    cases first with
    | true =>
      refine ⟨s, ?_, Or.inl (by simpa using hm), rfl, rfl, rfl⟩
      simp only [if_true, List.nil_append]
      rw [json_run_ws_then s _ _ hind (Or.inr (Or.inr (Or.inl (by simpa using hm))))]
    | false =>
      have hm' : s.mode = JMode.after_value := by simpa using hm
      refine ⟨{ s with mode := JMode.key }, ?_, Or.inr rfl, rfl, rfl, rfl⟩
      simp only [Bool.false_eq_true, if_false, hsep, List.cons_append, List.append_assoc]
      rw [json_run_cons, json_step_comma s hm', hobj]
      simp only [if_true]
      rw [json_run_ws_then _ _ _ hws (Or.inr (Or.inr (Or.inr (Or.inl rfl)))),
        json_run_ws_then _ _ _ hind (Or.inr (Or.inr (Or.inr (Or.inl rfl))))]
  rw [hs1]
  have hsk : json_step { s1.after_key with mode := JMode.value } 0x20 =
      { s1.after_key with mode := JMode.value } := by
    simp [json_step, json_step_token, json_ws]
  simp only [json_str_item, e1, e2, List.append_assoc, List.cons_append, List.nil_append]
  rw [json_run_key_then s1 _ _ hm1, json_run_cons, json_step_colon _ rfl, json_run_cons, hsk,
    e3, json_run_string_value_then _ _ _ rfl, json_run_nil]
  have hne1 : s1.stack ≠ [] := by rw [hst1]; exact hne
  cases s1 with
  | mk st1 m1 md1 dk1 =>
    simp only at hst1 hmd1 hdk1 hne1
    subst hst1 hmd1 hdk1
    simp [JState.complete, JState.after_key, hne, hdepth]

/-- The parser reads the footer of a section as the closing of its
container. -/
theorem json_run_footer (s : JState) (j : JSONContext) (hj : json_priv_ok j) (level : Int)
    (sect : Section) (rest : List Bool)
    (hm : s.mode = json_open_mode sect.is_obj ∨ s.mode = JMode.after_value)
    (hst : s.stack = sect.is_obj :: rest)
    (h0 : level = 0 → sect.is_obj = true ∧ rest = []) :
    json_run s (json_footer_text j level sect) =
      { s with stack := rest,
               mode := if rest = [] then JMode.done else JMode.after_value } := by
  obtain ⟨hise, _⟩ := json_priv_ok_ws j hj
  have hind := json_indent_text_ws (j.indent_level - 1)
  have e1 : cs "\n\x7d\n" = [0x0a, 0x7d, 0x0a] := by decide
  have hskip : s.mode = JMode.value ∨ s.mode = JMode.value_or_close ∨
      s.mode = JMode.key_or_close ∨ s.mode = JMode.key ∨ s.mode = JMode.colon ∨
      s.mode = JMode.after_value ∨ s.mode = JMode.done := by
    rcases hm with h | h
    · cases hk : sect.is_obj <;> simp [h, hk, json_open_mode]
    · simp [h]
  have hclose_obj : sect.is_obj = true → json_step s 0x7d = s.pop := by
    intro hk
    apply json_step_close_obj
    rcases hm with h | h
    · left; rw [h, hk]; rfl
    · right; exact ⟨h, by rw [hst, hk]; rfl⟩
  have hclose_arr : sect.is_obj = false → json_step s 0x5d = s.pop := by
    intro hk
    apply json_step_close_arr
    rcases hm with h | h
    · left; rw [h, hk]; rfl
    · right; exact ⟨h, by rw [hst, hk]; rfl⟩
  have hpop : s.pop =
      { s with stack := rest, mode := (if rest = [] then JMode.done else JMode.after_value) } := by
    simp [JState.pop, JState.complete, hst]
  by_cases hl : level = 0
  · obtain ⟨hk, hr⟩ := h0 hl
    simp only [json_footer_text, hl, if_true, e1]
    rw [json_run_cons]
    have hnl : json_step s 0x0a = s := by
      have := json_run_ws s [0x0a] (by decide) hskip
      simpa [json_run] using this
    rw [hnl, json_run_cons, hclose_obj hk, hpop]
    subst hr
    simp only [if_true]
    exact json_run_ws _ _ (by decide) (Or.inr (Or.inr (Or.inr (Or.inr (Or.inr (Or.inr rfl))))))
  · by_cases hk : sect.is_obj = true
    · have hcf : sect.flags &&& SECTION_FLAG_IS_ARRAY = 0 := by
        simpa [Section.is_obj] using hk
      simp only [json_footer_text, hl, if_false, hcf, ne_eq, not_true_eq_false,
        List.append_assoc]
      rw [json_run_ws_then s _ _ hise hskip]
      have hws : ∀ c ∈ (if j.compact = 0 then json_indent_text (j.indent_level - 1) else []),
          json_ws c = true := by
        split_ifs
        · exact hind
        · intro c hc; cases hc
      rw [json_run_ws_then s _ _ hws hskip, json_run_cons, hclose_obj hk, hpop, json_run_nil]
    · have hk' : sect.is_obj = false := by simpa using hk
      have hcf : ¬ sect.flags &&& SECTION_FLAG_IS_ARRAY = 0 := by
        simpa [Section.is_obj] using hk
      simp only [json_footer_text, hl, if_false, hcf, ne_eq, not_false_eq_true, if_true,
        List.append_assoc]
      rw [json_run_ws_then s [0x0a] _ (by decide) hskip, json_run_ws_then s _ _ hind hskip,
        json_run_cons, hclose_arr hk', hpop, json_run_nil]

theorem kinds_upto_length (w : WriterContext) (n : Nat) : (w.kinds_upto n).length = n := by
  induction n with
  | zero => rfl
  | succ n ih => simp [WriterContext.kinds_upto, ih]

/-- The open section is the innermost container. -/
theorem kinds_eq_cons (w : WriterContext) (sect : Section) (hwf : w.wf) (h0 : 0 ≤ w.level)
    (hcur : w.current = .ok sect) :
    w.kinds = sect.is_obj :: w.kinds_upto w.level.toNat := by
  obtain ⟨m, k, sect', parent, hl, hp, hs, _, _, hcur', _, _, _⟩ := wf_parent w hwf h0
  have e : sect' = sect := by
    rw [hcur'] at hcur
    injection hcur
  subst e
  have h1 : (w.level + 1).toNat = m + 1 := by omega
  have h2 : w.level.toNat = m := by omega
  rw [WriterContext.kinds, h1, h2, WriterContext.kinds_upto]
  congr 1
  simp [WriterContext.kind_at, List.getD, List.get?_eq_getElem?, hp, hs]

/-- The section below a section that is being opened is the open section. -/
theorem parent_next_of_current (w : WriterContext) (sp : Section) (hwf : w.wf)
    (h0 : 0 ≤ w.level) (hcur : w.current = .ok sp) :
    { w with level := w.level + 1 }.parent = .ok (some sp) := by
  obtain ⟨m, k, sect', parent, hl, hp, hs, _, _, hcur', _, _, _⟩ := wf_parent w hwf h0
  have e : sect' = sp := by
    rw [hcur'] at hcur
    injection hcur
  subst e
  have hl0 : w.level + 1 ≠ 0 := by omega
  have hl1 : w.level + 1 - 1 = (m : Int) := by omega
  simp only [WriterContext.parent, hl0, ne_eq, not_false_eq_true, if_true, hl1,
    bind, Except.bind, WriterContext.deref, arr_get_ok _ _ _ hp, arr_get_ok _ _ _ hs,
    pure, Except.pure]

theorem json_priv_ok_indent (j : JSONContext) (n : Int) (h : json_priv_ok j) :
    json_priv_ok { j with indent_level := n } := h

/-- Opening a child section in an open section without items keeps the
parser in step. -/
theorem json_sim_header (w : WriterContext) (sp sc : Section) (k md dk : Nat)
    (hsim : json_sim w (json_open_mode sp.is_obj) md dk)
    (h0 : 0 ≤ w.level) (h9 : w.level < 9) (hcur : w.current = .ok sp)
    (hnb : w.nb_item.getD w.level.toNat 0 = 0)
    (hmd : md = (w.level + 1).toNat)
    (hk : sections[k]? = some sc)
    (hcw : sc.flags &&& SECTION_FLAG_IS_WRAPPER = 0)
    (hca : sp.is_obj = false → sc.is_obj = true)
    (hpaf : sp.id ≠ SECTION_ID_PACKETS_AND_FRAMES) :
    ∃ w', writer_print_section_header w k = .ok w' ∧
      json_sim w' (json_open_mode sc.is_obj) (md + 1) 0 ∧
      w'.level = w.level + 1 ∧ w'.current = .ok sc ∧ w'.parent = .ok (some sp) ∧
      w'.nb_item.getD w'.level.toNat 0 = 0 := by
  obtain ⟨hwf, hcat, hpriv, hroot, hrun⟩ := hsim
  have hnlen : w.nb_item.length = 10 := hwf.2.2.1
  have hslen : w.section_.length = 10 := hwf.2.2.2.1
  obtain ⟨m, hm⟩ : ∃ m : Nat, w.level = m := ⟨w.level.toNat, by omega⟩
  have hmt : w.level.toNat = m := by omega
  have hm1 : (w.level + 1).toNat = m + 1 := by omega
  have hs' : w.sections[k]? = some sc := by rw [hcat]; exact hk
  have hklen : k < w.sections.length := by
    by_contra hc
    rw [List.getElem?_eq_none (by omega)] at hs'
    cases hs'
  have hparent1 := parent_next_of_current w sp hwf h0 hcur
  have hH := writer_print_section_header_exact w k sc hwf h9 hs' (some sp) hparent1
  obtain ⟨w1, hH', hwf1, hl1, hcat1, hsec1, _, _⟩ :=
    writer_print_section_header_ok w k hwf h9 hklen
  have hw1 : w1 = json_header_result (writer_header_enter w k (some sp)) sc (some sp) := by
    rw [hH] at hH'
    injection hH' with hH'
    exact hH'.symm
  have hty : json_header_typed sc (some sp) = false := by
    simp [json_header_typed, hpaf]
  have hcur1 : w1.current = .ok sc := by
    have e1 : w1.section_[m + 1]? = some (some (k : Int)) := by
      rw [hsec1, hm1, List.getElem?_set_self (by omega)]
    have e2 : w1.level = ((m + 1 : Nat) : Int) := by rw [hl1, hm]; simp
    simp only [WriterContext.current, bind, Except.bind, WriterContext.deref, e2,
      arr_get_ok _ _ _ e1, hcat1, arr_get_ok _ _ _ hs']
  have hpar1 : w1.parent = .ok (some sp) := by
    have e : w1.parent = { w with level := w.level + 1 }.parent := by
      obtain ⟨m', k', sect', parent', hl', hp', hs'', _, _, hcur', _, _, _⟩ := wf_parent w hwf h0
      have hmm : m' = m := by omega
      subst hmm
      have e1 : w1.section_[m']? = some (some (k' : Int)) := by
        rw [hsec1, hm1, List.getElem?_set_ne (by omega)]
        exact hp'
      have e2 : w1.level ≠ 0 := by rw [hl1]; omega
      have e3 : w1.level - 1 = (m' : Int) := by rw [hl1]; omega
      have e4 : w.level + 1 ≠ 0 := by omega
      have e5 : w.level + 1 - 1 = (m' : Int) := by omega
      simp only [WriterContext.parent, e2, e4, ne_eq, not_false_eq_true, if_true, e3, e5,
        bind, Except.bind, WriterContext.deref, arr_get_ok _ _ _ e1, arr_get_ok _ _ _ hp',
        hcat1]
    rw [e, hparent1]
  have hkinds : w1.kinds = sc.is_obj :: w.kinds := by
    have hk1 := kinds_eq_cons w1 sc hwf1 (by rw [hl1]; omega) hcur1
    rw [hk1, hl1, hm1, WriterContext.kinds, hm1]
    congr 1
    apply kinds_upto_congr _ _ hcat1
    intro i hi
    rw [hsec1, hm1, List.getElem?_set_ne (by omega)]
  have hout : w1.out = w.out ++ json_header_text w.priv sc (some sp) := by
    have e0 : ¬ w.level + 1 = 0 := by omega
    have e1 : (w.level + 1 - 1).toNat = m := by omega
    have e3 : (w.nb_item.set (m + 1) 0).getD m 0 = 0 := by
      rw [hmt] at hnb
      simp only [List.getD, List.get?_eq_getElem?] at hnb ⊢
      rw [List.getElem?_set_ne (by omega)]
      exact hnb
    rw [hw1]
    simp only [json_header_result, writer_header_enter, json_header_sep, e0, e1, hm1, e3,
      ne_eq, not_true_eq_false, not_false_eq_true, and_false, if_false, List.append_nil]
  have hlen : (w.kinds).length = md := by
    rw [WriterContext.kinds, kinds_upto_length, hmd]
  refine ⟨w1, hH', ⟨hwf1, by rw [hcat1, hcat], ?_, ?_, ?_⟩, hl1, hcur1, hpar1, ?_⟩
  · rw [hw1]
    exact hpriv
  · rw [hsec1, hm1, List.getElem?_set_ne (by omega)]
    exact hroot
  · rw [hout, json_run_append, hrun, hkinds,
      json_run_header_text _ w.priv hpriv sc sp hcw hca hpaf rfl (by simp [hlen])]
  · rw [hw1]
    simp only [json_header_result, hty, Bool.false_eq_true, if_false, writer_header_enter, hm1]
    simp only [List.getD, List.get?_eq_getElem?]
    rw [List.getElem?_set_self (by omega)]
    rfl

/-- A visible string field in an open object keeps the parser in step: one
more key at this level. -/
theorem json_sim_field (w : WriterContext) (sect : Section) (parent : Option Section)
    (i md dk : Nat) (key val : List Byte)
    (hsim : json_sim w (if i = 0 then JMode.key_or_close else JMode.after_value) md dk)
    (h0 : 0 ≤ w.level) (hcur : w.current = .ok sect) (hpar : w.parent = .ok parent)
    (hobj : sect.is_obj = true) (hshow : sect.shows key = true)
    (hnb : w.nb_item.getD w.level.toNat 0 = i) (hi : i + 1 < 4294967296)
    (hpaf : (parent.map Section.id).getD SECTION_ID_NONE ≠ SECTION_ID_PACKETS_AND_FRAMES)
    (hmd : md = (w.level + 1).toNat) :
    ∃ w', writer_print_string w key val 0 = .ok (0, w') ∧
      json_sim w' JMode.after_value md (dk + 1) ∧
      w'.level = w.level ∧ w'.current = .ok sect ∧ w'.parent = .ok parent ∧
      w'.nb_item.getD w'.level.toNat 0 = i + 1 := by
  obtain ⟨hwf, hcat, hpriv, hroot, hrun⟩ := hsim
  have hnlen : w.nb_item.length = 10 := hwf.2.2.1
  have h9 := hwf.2.1
  simp only [SECTION_MAX_NB_LEVELS] at h9
  have hS := writer_print_string_exact w sect parent hwf h0 hcur hpar key val 0 (by decide)
  rw [hshow, if_pos rfl] at hS
  obtain ⟨hwf', hcur', hpar', hl'⟩ :=
    writer_field_result_wf w parent (json_str_item key val) hwf
  have hkinds := kinds_eq_cons w sect hwf h0 hcur
  have hsep : json_item_sep_needed w parent = decide (i ≠ 0) := by
    unfold json_item_sep_needed
    rw [hnb]
    simp [hpaf]
  have hout : (writer_field_result w parent (json_str_item key val)).out =
      w.out ++ ((if decide (i = 0) then [] else c_str w.priv.item_sep) ++
        (if w.priv.compact = 0 then json_indent_text w.priv.indent_level else []) ++
        json_str_item key val) := by
    simp only [writer_field_result, json_item_prefix, hsep, List.append_assoc]
    by_cases hi0 : i = 0 <;> simp [hi0]
  have hws : ∀ c ∈ (if w.priv.compact = 0 then json_indent_text w.priv.indent_level else []),
      json_ws c = true := by
    split_ifs
    · exact json_indent_text_ws _
    · intro c hc; cases hc
  refine ⟨_, hS, ⟨hwf', hcat, hpriv, hroot, ?_⟩, hl', by rw [hcur', hcur], by rw [hpar', hpar],
    ?_⟩
  · have hk' : (writer_field_result w parent (json_str_item key val)).kinds = w.kinds := by
      exact kinds_upto_congr w (writer_field_result w parent (json_str_item key val)) rfl
        (w.level + 1).toNat (fun _ _ => rfl)
    rw [hout, json_run_append, hrun, hk']
    rw [json_run_field _ w.priv hpriv (decide (i = 0)) _ key val hws
      (by by_cases hi0 : i = 0 <;> simp [hi0])
      (by rw [hkinds, hobj]; rfl)
      (by simp only [WriterContext.kinds, kinds_upto_length, hmd])]
  · rw [hl']
    simp only [writer_field_result, hnb, uint_inc]
    simp only [List.getD, List.get?_eq_getElem?]
    rw [List.getElem?_set_self (by omega)]
    simp only [Option.getD_some]
    omega

/-- Closing the open section keeps the parser in step: the container closes,
and with the root section the document is complete. -/
theorem json_sim_footer (w : WriterContext) (sect : Section) (m : JMode) (md dk : Nat)
    (hsim : json_sim w m md dk) (h0 : 0 ≤ w.level) (hcur : w.current = .ok sect)
    (hm : m = json_open_mode sect.is_obj ∨ m = JMode.after_value) :
    ∃ w', writer_print_section_footer w = .ok w' ∧ w'.level = w.level - 1 ∧
      json_sim w' (if w.level = 0 then JMode.done else JMode.after_value) md dk := by
  obtain ⟨hwf, hcat, hpriv, hroot, hrun⟩ := hsim
  obtain ⟨mm, k, sect', parent, hl, hp, hs, _, _, hcur', hpar, _, _⟩ := wf_parent w hwf h0
  have e : sect' = sect := by
    rw [hcur'] at hcur
    injection hcur
  subst e
  have hF := writer_print_section_footer_exact w sect' parent hwf h0 hcur' hpar
  obtain ⟨w2, hF', hwf2, hl2, hcat2, hsec2, _, _⟩ := writer_print_section_footer_ok w hwf h0
  have hw2 : w2 = { json_footer_result (writer_footer_leave w sect' parent) sect' with
      level := w.level - 1 } := by
    rw [hF] at hF'
    injection hF' with hF'
    exact hF'.symm
  have hkinds := kinds_eq_cons w sect' hwf h0 hcur'
  have hk2 : w2.kinds = w.kinds_upto w.level.toNat := by
    rw [WriterContext.kinds, hl2, show (w.level - 1 + 1).toNat = w.level.toNat by omega]
    exact kinds_upto_congr _ _ hcat2 _ (fun i _ => by rw [hsec2])
  have hout : w2.out = w.out ++ json_footer_text w.priv w.level sect' := by
    rw [hw2]
    simp only [json_footer_result, writer_footer_leave]
  have hroot' : w.level = 0 → sect'.is_obj = true ∧ w.kinds_upto w.level.toNat = [] := by
    intro hz
    have hm0 : mm = 0 := by omega
    subst hm0
    rw [hroot] at hp
    injection hp with hp
    injection hp with hp
    have hk : k = 40 := by
      simp only [SECTION_ID_ROOT] at hp
      omega
    subst hk
    rw [hcat] at hs
    have e40 : sections[40]? = some (Section.mk0 SECTION_ID_ROOT "root" SECTION_FLAG_IS_WRAPPER
      [SECTION_ID_CHAPTERS, SECTION_ID_FORMAT, SECTION_ID_FRAMES, SECTION_ID_PROGRAMS,
       SECTION_ID_STREAMS, SECTION_ID_PACKETS, SECTION_ID_ERROR, SECTION_ID_PROGRAM_VERSION,
       SECTION_ID_LIBRARY_VERSIONS, SECTION_ID_PIXEL_FORMATS] none none 0) := by decide
    rw [e40] at hs
    injection hs with hs
    subst hs
    refine ⟨by decide, ?_⟩
    rw [hz]
    rfl
  refine ⟨w2, hF', hl2, hwf2, by rw [hcat2, hcat], ?_, ?_, ?_⟩
  · rw [hw2]
    exact hpriv
  · rw [hsec2]
    exact hroot
  · rw [hout, json_run_append, hrun, hk2]
    rw [json_run_footer _ w.priv hpriv w.level sect' (w.kinds_upto w.level.toNat) hm hkinds hroot']
    have hiff : w.kinds_upto w.level.toNat = [] ↔ w.level = 0 := by
      rw [← List.length_eq_zero, kinds_upto_length]
      omega
    simp only [hiff]

/-! ## Chains of sections -/

set_option maxRecDepth 100000 in
theorem catalog_children_ok : ∀ p : Nat, p < 48 → ∀ c : Nat, c < 48 →
    section_child p c = true → section_child_ok p c = true := by
  decide

set_option maxRecDepth 100000 in
theorem catalog_children_range : ∀ p : Nat, p < 48 →
    ∀ x ∈ ((sections[p]?).map Section.children_ids).getD [], (0 : Int) ≤ x ∧ x < 48 := by
  decide

theorem catalog_rank_le : ∀ c : Nat, c < 48 → section_rank.getD c 0 ≤ 8 := by
  decide

theorem catalog_ids : ∀ k : Nat, k < 48 → (sections[k]?).map Section.id = some (k : Int) := by
  decide

theorem section_child_facts (p c : Nat) (h : section_child p c = true) :
    ∃ sp sc, sections[p]? = some sp ∧ sections[c]? = some sc ∧ p < 48 ∧ c < 48 ∧ c ≠ 24 ∧
      sc.flags &&& SECTION_FLAG_IS_WRAPPER = 0 ∧ (sp.is_obj = false → sc.is_obj = true) ∧
      section_rank.getD p 0 < section_rank.getD c 0 := by
  have hp : p < 48 := by
    by_contra hc
    have : sections[p]? = none := List.getElem?_eq_none (by
      have : sections.length = 48 := by decide
      omega)
    simp [section_child, this] at h
  have hc : c < 48 := by
    have hr := catalog_children_range p hp
    unfold section_child at h
    cases hsp : sections[p]? with
    | none => simp [hsp] at h
    | some sp =>
      simp only [hsp, decide_eq_true_eq] at h
      have := hr (c : Int) (by simpa [hsp] using h)
      omega
  have hok := catalog_children_ok p hp c hc h
  unfold section_child_ok at hok
  cases hsp : sections[p]? with
  | none => simp [hsp] at hok
  | some sp =>
    cases hsc : sections[c]? with
    | none => simp [hsp, hsc] at hok
    | some sc =>
      simp only [hsp, hsc, Bool.and_eq_true, decide_eq_true_eq, Bool.or_eq_true] at hok
      obtain ⟨⟨⟨h1, h2⟩, h3⟩, h4⟩ := hok
      refine ⟨sp, sc, rfl, rfl, hp, hc, h1, h2, ?_, h4⟩
      intro hf
      rcases h3 with h3 | h3
      · rw [h3] at hf
        cases hf
      · exact h3

theorem writer_open_alloc_wf (env : WriterOpenEnv) :
    (json_init (writer_open_alloc env sections)).wf := by
  refine ⟨?_, ?_, ?_, ?_, ?_, ?_⟩
  · show (-1 : Int) ≤ -1
    decide
  · show (-1 : Int) < SECTION_MAX_NB_LEVELS
    decide
  · show (List.replicate 10 0).length = 10
    decide
  · show (List.replicate 10 (none : SectionPtr)).length = 10
    decide
  · intro i _ hi
    have hi' : (i : Int) ≤ -1 := hi
    omega
  · intro k hk
    have hk' : k < 48 := hk
    exact catalog_ids k hk'

theorem json_init_priv_ok (env : WriterOpenEnv) :
    json_priv_ok (json_init (writer_open_alloc env sections)).priv := by
  by_cases hc : env.compact = 0
  · left
    simp [json_init, writer_open_alloc, hc]
  · right
    simp [json_init, writer_open_alloc, hc]

/-- Opening the root section in the context `writer_open` returns starts the
document. -/
theorem json_sim_root (env : WriterOpenEnv) :
    ∃ w1 sr, writer_print_section_header (json_init (writer_open_alloc env sections))
        SECTION_ID_ROOT = .ok w1 ∧
      sections[40]? = some sr ∧ sr.is_obj = true ∧
      json_sim w1 JMode.key_or_close 1 0 ∧ w1.level = 0 ∧ w1.current = .ok sr ∧
      w1.parent = .ok none ∧ w1.nb_item.getD w1.level.toNat 0 = 0 := by
  have hwf := writer_open_alloc_wf env
  have e40 : sections[40]? = some (Section.mk0 SECTION_ID_ROOT "root" SECTION_FLAG_IS_WRAPPER
      [SECTION_ID_CHAPTERS, SECTION_ID_FORMAT, SECTION_ID_FRAMES, SECTION_ID_PROGRAMS,
       SECTION_ID_STREAMS, SECTION_ID_PACKETS, SECTION_ID_ERROR, SECTION_ID_PROGRAM_VERSION,
       SECTION_ID_LIBRARY_VERSIONS, SECTION_ID_PIXEL_FORMATS] none none 0) := by decide
  have hH := writer_print_section_header_exact (json_init (writer_open_alloc env sections)) 40 _
    hwf (by show (-1 : Int) < 9; decide) e40 none
    (by simp [WriterContext.parent, json_init, writer_open_alloc, pure, Except.pure])
  obtain ⟨w1, hH', hwf1, hl1, hcat1, hsec1, _, _⟩ :=
    writer_print_section_header_ok (json_init (writer_open_alloc env sections)) 40 hwf
      (by show (-1 : Int) < 9; decide) (by show 40 < 48; decide)
  have hw1 := hH
  rw [hH'] at hw1
  injection hw1 with hw1
  have hl0 : w1.level = 0 := by
    rw [hl1]
    show (-1 : Int) + 1 = 0
    decide
  have hs0 : w1.section_[0]? = some (some ((40 : Nat) : Int)) := by
    rw [hsec1]
    show ((List.replicate 10 (none : SectionPtr)).set ((-1 : Int) + 1).toNat (some 40))[0]? = _
    decide
  obtain ⟨sr, hsr⟩ : ∃ sr, sr = Section.mk0 SECTION_ID_ROOT "root" SECTION_FLAG_IS_WRAPPER
      [SECTION_ID_CHAPTERS, SECTION_ID_FORMAT, SECTION_ID_FRAMES, SECTION_ID_PROGRAMS,
       SECTION_ID_STREAMS, SECTION_ID_PACKETS, SECTION_ID_ERROR, SECTION_ID_PROGRAM_VERSION,
       SECTION_ID_LIBRARY_VERSIONS, SECTION_ID_PIXEL_FORMATS] none none 0 := ⟨_, rfl⟩
  rw [← hsr] at e40 hw1
  have hwr : sr.flags &&& SECTION_FLAG_IS_WRAPPER ≠ 0 := by rw [hsr]; decide
  have hobj : sr.is_obj = true := by rw [hsr]; decide
  have hcur1 : w1.current = .ok sr := by
    have hs := e40
    rw [show sections = w1.sections from hcat1.symm] at hs
    have hA : arr_get w1.section_ w1.level = .ok (some ((40 : Nat) : Int)) := by
      rw [hl0]
      exact arr_get_ok _ 0 _ hs0
    simp only [WriterContext.current, bind, Except.bind, WriterContext.deref, hA,
      arr_get_ok _ _ _ hs]
  have hpar1 : w1.parent = .ok none := by
    simp [WriterContext.parent, hl0, pure, Except.pure]
  have hkinds := kinds_eq_cons w1 _ hwf1 (by omega) hcur1
  have hout : w1.out = [0x7b, 0x0a] := by
    have e : cs "\x7b\n" = [0x7b, 0x0a] := by decide
    rw [hw1]
    simp [json_header_result, json_header_sep, writer_header_enter, json_header_text, json_init,
      writer_open_alloc, hwr, e]
  have hnb : w1.nb_item = (List.replicate 10 0).set 0 0 := by
    have hty : json_header_typed sr none = false := rfl
    rw [hw1]
    simp only [json_header_result, hty, Bool.false_eq_true, if_false, writer_header_enter]
    rfl
  refine ⟨w1, sr, (by rw [← hH']; rfl), e40, hobj, ⟨hwf1, hcat1, ?_, hs0, ?_⟩, hl0, hcur1,
    hpar1, ?_⟩
  · rw [hw1]
    exact json_init_priv_ok env
  · rw [hkinds, hl0, hout, hobj]
    rfl
  · rw [hl0, hnb]
    rfl

/-! ## The round trip of a chain -/

/-- Opening the further sections of a chain, each in the one before it, keeps
the parser in step: one container deeper for each section. -/
theorem json_sim_headers (rest : List Nat) :
    ∀ (w : WriterContext) (p : Nat) (sp : Section),
      json_sim w (json_open_mode sp.is_obj) (w.level + 1).toNat 0 → 0 ≤ w.level →
      w.level ≤ section_rank.getD p 0 → w.current = .ok sp → sections[p]? = some sp →
      p ≠ 24 → w.nb_item.getD w.level.toNat 0 = 0 →
      (∃ parent, w.parent = .ok parent ∧
        (parent.map Section.id).getD SECTION_ID_NONE ≠ SECTION_ID_PACKETS_AND_FRAMES) →
      chain_links p rest = true →
      ∃ w' sd, run_ops (rest.map (fun (k : Nat) => SectionOp.header (k : Int))) w = .ok w' ∧
        json_sim w' (json_open_mode sd.is_obj) (w'.level + 1).toNat 0 ∧ 0 ≤ w'.level ∧
        w'.level = w.level + rest.length ∧ w'.current = .ok sd ∧
        sections[chain_last p rest]? = some sd ∧
        w'.nb_item.getD w'.level.toNat 0 = 0 ∧
        (∃ parent, w'.parent = .ok parent ∧
          (parent.map Section.id).getD SECTION_ID_NONE ≠ SECTION_ID_PACKETS_AND_FRAMES) := by
  induction rest with
  | nil =>
    intro w p sp hsim h0 _ hcur hsp _ hnb hpar _
    exact ⟨w, sp, rfl, hsim, h0, by simp, hcur, hsp, hnb, hpar⟩
  | cons c rest ih =>
    intro w p sp hsim h0 hrank hcur hsp hp24 hnb _ hlinks
    simp only [chain_links, Bool.and_eq_true] at hlinks
    obtain ⟨hchild, hlinks'⟩ := hlinks
    obtain ⟨sp', sc, hsp', hsc, hp48, hc48, hc24, hcw, hca, hrk⟩ := section_child_facts p c hchild
    have e : sp' = sp := by
      rw [hsp] at hsp'
      injection hsp' with h
      exact h.symm
    subst e
    have hrc := catalog_rank_le c hc48
    have hid : sp'.id = (p : Int) := by
      have := catalog_ids p hp48
      rw [hsp] at this
      simpa using this
    have hpaf : sp'.id ≠ SECTION_ID_PACKETS_AND_FRAMES := by
      rw [hid]
      simp only [SECTION_ID_PACKETS_AND_FRAMES]
      omega
    obtain ⟨w1, h1, hsim1, hl1, hcur1, hpar1, hnb1⟩ :=
      json_sim_header w sp' sc c (w.level + 1).toNat 0 hsim h0 (by omega) hcur hnb rfl hsc hcw
        hca hpaf
    have hmd : (w.level + 1).toNat + 1 = (w1.level + 1).toNat := by rw [hl1]; omega
    rw [hmd] at hsim1
    obtain ⟨w', sd, hrun, hsim', h0', hl', hcur', hsd, hnb', hpar'⟩ :=
      ih w1 c sc hsim1 (by rw [hl1]; omega) (by rw [hl1]; omega) hcur1 hsc hc24 hnb1
        ⟨some sp', hpar1, by simpa using hpaf⟩ hlinks'
    refine ⟨w', sd, ?_, hsim', h0', ?_, hcur', hsd, hnb', hpar'⟩
    · simp only [List.map_cons, run_ops, h1, bind, Except.bind]
      exact hrun
    · rw [hl', hl1]
      simp only [List.length_cons]
      push_cast
      ring

/-- Visible string fields in the open object keep the parser in step: one
more key for each field. -/
theorem json_sim_fields (sect : Section) (parent : Option Section) (md : Nat)
    (fields : List (List Byte × List Byte)) :
    ∀ (w : WriterContext) (i dk : Nat),
      json_sim w (if i = 0 then JMode.key_or_close else JMode.after_value) md dk →
      0 ≤ w.level → w.current = .ok sect → w.parent = .ok parent → sect.is_obj = true →
      (∀ f ∈ fields, sect.shows f.1 = true) →
      w.nb_item.getD w.level.toNat 0 = i → i + fields.length < 4294967296 →
      (parent.map Section.id).getD SECTION_ID_NONE ≠ SECTION_ID_PACKETS_AND_FRAMES →
      md = (w.level + 1).toNat →
      ∃ w', run_fields (fields.map (fun f => FieldCall.str f.1 f.2)) w = .ok w' ∧
        json_sim w' (if i + fields.length = 0 then JMode.key_or_close else JMode.after_value)
          md (dk + fields.length) ∧
        w'.level = w.level ∧ w'.current = .ok sect := by
  induction fields with
  | nil =>
    intro w i dk hsim _ hcur _ _ _ _ _ _ _
    exact ⟨w, rfl, hsim, rfl, hcur⟩
  | cons f fields ih =>
    intro w i dk hsim h0 hcur hpar hobj hshow hnb hi hpaf hmd
    simp only [List.length_cons] at hi
    obtain ⟨w1, h1, hsim1, hl1, hcur1, hpar1, hnb1⟩ :=
      json_sim_field w sect parent i md dk f.1 f.2 hsim h0 hcur hpar hobj
        (hshow f (List.mem_cons_self _ _)) hnb (by omega) hpaf hmd
    have hsim1' : json_sim w1 (if i + 1 = 0 then JMode.key_or_close else JMode.after_value) md
        (dk + 1) := by
      simpa using hsim1
    obtain ⟨w', hrun, hsim', hl', hcur'⟩ :=
      ih w1 (i + 1) (dk + 1) hsim1' (by rw [hl1]; exact h0) hcur1 hpar1 hobj
        (fun g hg => hshow g (List.mem_cons_of_mem _ hg)) hnb1 (by omega) hpaf
        (by rw [hl1]; exact hmd)
    refine ⟨w', ?_, ?_, by rw [hl', hl1], hcur'⟩
    · simp only [List.map_cons, run_fields, h1, bind, Except.bind]
      exact hrun
    · have e1 : i + 1 + fields.length = i + (fields.length + 1) := by omega
      have e2 : dk + 1 + fields.length = dk + (fields.length + 1) := by omega
      rw [e1, e2] at hsim'
      exact hsim'

/-- Closing all the open sections completes the document. -/
theorem json_sim_footers (n : Nat) :
    ∀ (w : WriterContext) (m : JMode) (md dk : Nat), json_sim w m md dk → w.level = n →
      (m = JMode.after_value ∨ ∃ sect, w.current = .ok sect ∧ m = json_open_mode sect.is_obj) →
      ∃ w', run_ops (List.replicate (n + 1) SectionOp.footer) w = .ok w' ∧
        json_sim w' JMode.done md dk := by
  induction n with
  | zero =>
    intro w m md dk hsim hl hm
    have h0 : 0 ≤ w.level := by omega
    obtain ⟨_, _, sect, _, _, _, _, _, _, hcur, _, _, _⟩ := wf_parent w hsim.1 h0
    have hm' : m = json_open_mode sect.is_obj ∨ m = JMode.after_value := by
      rcases hm with h | ⟨sect', hc, h⟩
      · exact Or.inr h
      · rw [hcur] at hc
        injection hc with hc
        subst hc
        exact Or.inl h
    obtain ⟨w1, h1, _, hsim1⟩ := json_sim_footer w sect m md dk hsim h0 hcur hm'
    have hz : w.level = 0 := by omega
    rw [if_pos hz] at hsim1
    refine ⟨w1, ?_, hsim1⟩
    simp only [List.replicate, run_ops, h1, bind, Except.bind, pure, Except.pure]
  | succ n ih =>
    intro w m md dk hsim hl hm
    have h0 : 0 ≤ w.level := by omega
    obtain ⟨_, _, sect, _, _, _, _, _, _, hcur, _, _, _⟩ := wf_parent w hsim.1 h0
    have hm' : m = json_open_mode sect.is_obj ∨ m = JMode.after_value := by
      rcases hm with h | ⟨sect', hc, h⟩
      · exact Or.inr h
      · rw [hcur] at hc
        injection hc with hc
        subst hc
        exact Or.inl h
    obtain ⟨w1, h1, hl1, hsim1⟩ := json_sim_footer w sect m md dk hsim h0 hcur hm'
    have hz : ¬ w.level = 0 := by omega
    rw [if_neg hz] at hsim1
    obtain ⟨w', hrun, hsim'⟩ := ih w1 JMode.after_value md dk hsim1 (by rw [hl1, hl]; simp)
      (Or.inl rfl)
    refine ⟨w', ?_, hsim'⟩
    rw [List.replicate_succ]
    simp only [run_ops, h1, bind, Except.bind]
    exact hrun

/-- C13, amended: starting from the context `writer_open` sets up for the
JSON backend, rendering a chain of nested sections (the root first, each a
permitted child of the one before it) with string fields the deepest section
shows, fewer than 2^32 of them and none when the deepest section is an array,
and closing all the sections, succeeds, and the output parses as a JSON
document whose nesting has the depth of the chain and the number of the fields
as keys at the deepest level. -/
theorem C13_chain_round_trip (env : WriterOpenEnv) (chain : List Nat)
    (fields : List (List Byte × List Byte)) (sd : Section)
    (hchain : chain_permitted chain = true)
    (hdeep : chain_deepest chain = some sd)
    (hobj : fields ≠ [] → sd.flags &&& SECTION_FLAG_IS_ARRAY = 0)
    (hshow : ∀ f ∈ fields, sd.shows f.1 = true)
    (hn : fields.length < 4294967296) :
    ∃ w', render_chain (json_init (writer_open_alloc env sections)) chain fields = .ok w' ∧
      json_parse w'.out = some (chain.length, fields.length) := by
  cases chain with
  | nil => simp [chain_permitted] at hchain
  | cons r rest =>
    simp only [chain_permitted, Bool.and_eq_true, decide_eq_true_eq] at hchain
    obtain ⟨hr, hlinks⟩ := hchain
    have hr40 : r = 40 := by
      simp only [SECTION_ID_ROOT] at hr
      omega
    subst hr40
    obtain ⟨w1, sr, h1, hsr, hsrobj, hsim1, hl1, hcur1, hpar1, hnb1⟩ := json_sim_root env
    have hsim1' : json_sim w1 (json_open_mode sr.is_obj) (w1.level + 1).toNat 0 := by
      rw [hsrobj, hl1]
      exact hsim1
    obtain ⟨w2, sd', h2, hsim2, h02, hl2, hcur2, hsd', hnb2, parent, hpar2, hpaf2⟩ :=
      json_sim_headers rest w1 40 sr hsim1' (by omega) (by rw [hl1]; decide) hcur1 hsr
        (by decide) hnb1 ⟨none, hpar1, by decide⟩ hlinks
    have e : sd' = sd := by
      simp only [chain_deepest] at hdeep
      rw [hsd'] at hdeep
      injection hdeep
    subst e
    have hmd : (w2.level + 1).toNat = rest.length + 1 := by
      rw [hl2, hl1]
      omega
    rw [hmd] at hsim2
    have hfields : ∃ w3 m, run_fields (fields.map (fun f => FieldCall.str f.1 f.2)) w2 = .ok w3 ∧
        json_sim w3 m (rest.length + 1) fields.length ∧ w3.level = w2.level ∧
        (m = JMode.after_value ∨
          ∃ sect, w3.current = .ok sect ∧ m = json_open_mode sect.is_obj) := by
      by_cases hf : fields = []
      · subst hf
        exact ⟨w2, _, rfl, hsim2, rfl, Or.inr ⟨sd', hcur2, rfl⟩⟩
      · have hso : sd'.is_obj = true := by
          simpa [Section.is_obj] using hobj hf
        have hsim2' : json_sim w2 (if (0 : Nat) = 0 then JMode.key_or_close
            else JMode.after_value) (rest.length + 1) 0 := by
          rw [hso] at hsim2
          exact hsim2
        obtain ⟨w3, h3, hsim3, hl3, _⟩ :=
          json_sim_fields sd' parent (rest.length + 1) fields w2 0 0 hsim2' h02 hcur2 hpar2 hso
            hshow hnb2 (by omega) hpaf2 hmd.symm
        have hlen : 0 + fields.length ≠ 0 := by
          have := List.length_pos.mpr hf
          omega
        rw [if_neg hlen, Nat.zero_add] at hsim3
        exact ⟨w3, _, h3, hsim3, hl3, Or.inl rfl⟩
    obtain ⟨w3, m, h3, hsim3, hl3, hm3⟩ := hfields
    obtain ⟨w4, h4, hsim4⟩ :=
      json_sim_footers rest.length w3 m (rest.length + 1) fields.length hsim3
        (by rw [hl3, hl2, hl1]; simp) hm3
    refine ⟨w4, ?_, ?_⟩
    · have hfoot : (40 :: rest).map (fun _ => SectionOp.footer) =
          List.replicate (rest.length + 1) SectionOp.footer := by
        rw [List.map_const', List.length_cons]
      have h1' : writer_print_section_header (json_init (writer_open_alloc env sections))
          ((40 : Nat) : Int) = .ok w1 := h1
      unfold render_chain
      rw [hfoot]
      simp only [List.map_cons, run_ops, h1', bind, Except.bind]
      rw [h2]
      simp only [h3]
      exact h4
    · simp only [json_parse, hsim4.2.2.2.2, json_finish, List.length_cons]

/-- The counterexample to C13: the chain of the root section and the
`streams` section, an array, with one field, which that section shows, renders
without a fault, and the output is no JSON document. -/
theorem C13_counterexample :
    chain_permitted [40, 43] = true ∧
    (chain_deepest [40, 43]).map (fun sd => sd.shows (cs "a")) = some true ∧
    (render_chain (json_init (writer_open_alloc ffprobe_open_env sections)) [40, 43]
        [(cs "a", cs "b")]).toOption.map (fun w => (c_str w.out == w.out, json_parse w.out)) =
      some (true, none) := by
  decide

theorem C13_chain_round_trip_witness :
    chain_permitted [40, 4] = true ∧ [(cs "a", cs "b"), (cs "c", cs "d")].length < 4294967296 ∧
    ∃ w', render_chain (json_init (writer_open_alloc ffprobe_open_env sections)) [40, 4]
        [(cs "a", cs "b"), (cs "c", cs "d")] = .ok w' ∧
      json_parse w'.out = some ([40, 4].length, [(cs "a", cs "b"), (cs "c", cs "d")].length) :=
  ⟨by decide, by decide,
    C13_chain_round_trip ffprobe_open_env [40, 4] [(cs "a", cs "b"), (cs "c", cs "d")]
      (Section.mk0 SECTION_ID_FORMAT "format" 0 [SECTION_ID_FORMAT_TAGS] none none 1) (by decide) (by decide)
      (by decide) (by decide) (by decide)⟩

/-! ## Values with a unit -/

/-- The text of `%lld` for a 64-bit value has at most 20 characters. -/
theorem fmt_d_length (v : Int) (h1 : -9223372036854775808 ≤ v) (h2 : v < 9223372036854775808) :
    (fmt_d v).length ≤ 20 := by
  have hn : v.natAbs < 10 ^ 19 := by
    have : v.natAbs ≤ 9223372036854775808 := by omega
    calc v.natAbs ≤ 9223372036854775808 := this
      _ < 10 ^ 19 := by norm_num
  have hd : (fmt_digits 10 v.natAbs).length ≤ 19 := by
    simp only [fmt_digits, List.length_map, Nat.toDigits]
    exact Nat.toDigitsCore_length 10 (by decide) _ _ _ hn (by decide)
  unfold fmt_d
  split_ifs
  · simp only [List.length_cons]
    omega
  · omega

/-- C21 (counterexample). With a buffer of 5 bytes `value_string` leaves
`1234` for the value 12345 in bytes: `snprintf` cuts the text to the size of
the buffer, so the result is not the decimal rendering of the value. -/
theorem C21_counterexample :
    value_string fmt_double 5 { val := 12345, unit := UnitStr.unit_byte_str } = cs "1234" ∧
    fmt_d 12345 = cs "12345" := by
  decide

/-- C21 (amended). For every 64-bit integer and every unit other than the seconds,
`value_string` with a buffer of at least 21 bytes, as the 128 bytes of
`print_val`, leaves the plain decimal rendering of the integer: the text of
`%lld`, which consists of a minus sign and digits only, with no magnitude
letter, no space and no unit; `print_val` prints that text. -/
theorem C21_value_string_plain_integer (fmt_f : Int → List Byte) (buf_size : Nat) (v : Int)
    (u : UnitStr) (h1 : -9223372036854775808 ≤ v) (h2 : v < 9223372036854775808)
    (hu : u ≠ UnitStr.unit_second_str) (hb : 21 ≤ buf_size) :
    value_string fmt_f buf_size { val := v, unit := u } = fmt_d v ∧
    (∀ x ∈ value_string fmt_f buf_size { val := v, unit := u },
      x = 0x2d ∨ ((0x30 : Byte) ≤ x ∧ x ≤ (0x39 : Byte))) ∧
    (∀ (w : WriterContext) (k : List Byte),
      print_val fmt_f w k v u = writer_print_string w k (fmt_d v) 0) := by
  have hlen := fmt_d_length v h1 h2
  have key : ∀ n : Nat, 21 ≤ n → value_string fmt_f n { val := v, unit := u } = fmt_d v := by
    intro n hn
    simp only [value_string, hu, decide_False, Bool.false_eq_true, or_self, if_false, ne_eq,
      not_true_eq_false, List.append_nil, av_strlcatf, snprintf]
    have e1 : (fmt_d v).take (n - 1) = fmt_d v := List.take_of_length_le (by omega)
    rw [e1, e1]
  refine ⟨key _ hb, ?_, ?_⟩
  · intro x hx
    rw [key _ hb] at hx
    exact fmt_d_mem v x hx
  · intro w k
    simp only [print_val, key 128 (by decide)]

theorem C21_value_string_plain_integer_witness :
    value_string (fun _ => cs "0.000000") 128
        { val := -1500000, unit := UnitStr.unit_bit_per_second_str } = cs "-1500000" := by
  have h := (C21_value_string_plain_integer (fun _ => cs "0.000000") 128 (-1500000)
    UnitStr.unit_bit_per_second_str (by decide) (by decide) (by decide) (by decide)).1
  rw [h]
  decide

/-! ## The replacement string at configuration time -/

theorem section_rank_le (c : Nat) : section_rank.getD c 0 ≤ 8 := by
  by_cases h : c < 48
  · exact catalog_rank_le c h
  · have : section_rank.length = 48 := by decide
    rw [List.getD_eq_default _ _ (by omega)]
    omega

/-- Along child links the rank grows by one at least with every link. -/
theorem chain_links_rank (rest : List Nat) :
    ∀ p : Nat, chain_links p rest = true →
      section_rank.getD p 0 + rest.length ≤ section_rank.getD (chain_last p rest) 0 ∧
      ∀ x ∈ rest, section_rank.getD p 0 < section_rank.getD x 0 := by
  induction rest with
  | nil =>
    intro p _
    simp [chain_last]
  | cons c rest ih =>
    intro p h
    simp only [chain_links, Bool.and_eq_true] at h
    obtain ⟨_, _, _, _, _, _, _, _, _, hrk⟩ := section_child_facts p c h.1
    obtain ⟨h1, h2⟩ := ih c h.2
    refine ⟨?_, ?_⟩
    · simp only [chain_last, List.length_cons]
      omega
    · intro x hx
      rcases List.mem_cons.mp hx with hx | hx
      · rw [hx]
        exact hrk
      · have := h2 x hx
        omega

theorem chain_links_nodup (rest : List Nat) :
    ∀ p : Nat, chain_links p rest = true → (p :: rest).Nodup := by
  induction rest with
  | nil =>
    intro p _
    simp
  | cons c rest ih =>
    intro p h
    have hr := (chain_links_rank (c :: rest) p h).2
    simp only [chain_links, Bool.and_eq_true] at h
    refine List.nodup_cons.mpr ⟨?_, ih c h.2⟩
    intro hp
    have := hr p hp
    omega

theorem chain_permitted_length (chain : List Nat) (h : chain_permitted chain = true) :
    chain.length ≤ 9 := by
  cases chain with
  | nil => simp
  | cons r rest =>
    simp only [chain_permitted, Bool.and_eq_true, decide_eq_true_eq] at h
    have h1 := (chain_links_rank rest r h.2).1
    have h2 := section_rank_le (chain_last r rest)
    simp only [List.length_cons]
    omega

theorem chain_links_append (rest : List Nat) (c : Nat) :
    ∀ p : Nat, chain_links p (rest ++ [c]) =
      (chain_links p rest && section_child (chain_last p rest) c) := by
  induction rest with
  | nil =>
    intro p
    simp [chain_links, chain_last]
  | cons d rest ih =>
    intro p
    show (section_child p d && chain_links d (rest ++ [c])) = _
    rw [ih d]
    simp only [chain_links, chain_last, Bool.and_assoc]

theorem chain_last_getLast (rest : List Nat) :
    ∀ p : Nat, (p :: rest).getLast?.getD 0 = chain_last p rest := by
  induction rest with
  | nil =>
    intro p
    rfl
  | cons d rest ih =>
    intro p
    rw [List.getLast?_cons_cons]
    exact ih d

theorem chain_permitted_append (chain : List Nat) (c : Nat)
    (h : chain_permitted chain = true) (hc : section_child (chain.getLast?.getD 0) c = true) :
    chain_permitted (chain ++ [c]) = true := by
  cases chain with
  | nil => simp [chain_permitted] at h
  | cons r rest =>
    simp only [chain_permitted, Bool.and_eq_true, decide_eq_true_eq] at h
    rw [chain_last_getLast] at hc
    simp only [List.cons_append, chain_permitted, chain_links_append, h.1, h.2, hc, decide_True,
      Bool.and_self]

theorem open_ids_length (w : WriterContext) : w.open_ids.length = (w.level + 1).toNat := by
  simp [WriterContext.open_ids]

/-- After a section is opened the open sections are those before and the new
one. -/
theorem open_ids_header (w w' : WriterContext) (c : Nat) (h0 : -1 ≤ w.level)
    (hlen : (w.level + 1).toNat < w.section_.length)
    (hl : w'.level = w.level + 1)
    (hs : w'.section_ = w.section_.set (w.level + 1).toNat (some (c : Int))) :
    w'.open_ids = w.open_ids ++ [c] := by
  obtain ⟨n, hn⟩ : ∃ n : Nat, (w.level + 1).toNat = n := ⟨_, rfl⟩
  have hn' : (w'.level + 1).toNat = n + 1 := by rw [hl]; omega
  simp only [WriterContext.open_ids, hn, hn', List.range_succ, List.map_append, List.map_cons,
    List.map_nil, hs]
  rw [hn] at hlen
  congr 1
  · apply List.map_congr_left
    intro i hi
    have hi' : i < n := List.mem_range.mp hi
    have hne : n ≠ i := by omega
    simp [List.getD, List.getElem?_set_ne hne]
  · simp [List.getD, List.getElem?_set_self hlen]

/-- C28. In the table `sections` every listed child id is an index of the
table whose entry carries that id; the child relation has no cycle: a chain of
child links never meets a section twice; a chain of sections from the root
along child links has at most 9 sections, fewer than `SECTION_MAX_NB_LEVELS`,
and the chain down to the pieces of the side data of a frame has 9. So the
depth assertion does not fire for a caller that follows the schema: opening
the root in the context `writer_open` sets up succeeds, and in a well-formed
context whose open sections form such a chain, opening a child of the current
section succeeds and gives a context of the same kind. -/
theorem C28_schema_depth_bound :
    (∀ p : Nat, p < 48 → ∀ x ∈ ((sections[p]?).map Section.children_ids).getD [],
      (0 : Int) ≤ x ∧ x < 48 ∧ (sections[x.toNat]?).map Section.id = some x) ∧
    (∀ (p : Nat) (rest : List Nat), chain_links p rest = true → (p :: rest).Nodup) ∧
    (∀ chain : List Nat, chain_permitted chain = true →
      chain.length ≤ 9 ∧ (chain.length : Int) < SECTION_MAX_NB_LEVELS) ∧
    chain_permitted [40, 7, 6, 9, 10, 13, 14, 15, 16] = true ∧
    (∀ env : WriterOpenEnv, ∃ w1,
      writer_print_section_header (json_init (writer_open_alloc env sections)) SECTION_ID_ROOT =
        .ok w1 ∧ w1.wf ∧ w1.sections = sections ∧ w1.open_ids = [40]) ∧
    (∀ (w : WriterContext) (c : Nat), w.wf → w.sections = sections →
      chain_permitted w.open_ids = true → section_child (w.open_ids.getLast?.getD 0) c = true →
      ∃ w', writer_print_section_header w c = .ok w' ∧ w'.wf ∧ w'.sections = sections ∧
        w'.open_ids = w.open_ids ++ [c] ∧ chain_permitted w'.open_ids = true) := by
  refine ⟨?_, fun p rest => chain_links_nodup rest p, ?_, by decide, ?_, ?_⟩
  · intro p hp x hx
    obtain ⟨h0, h48⟩ := catalog_children_range p hp x hx
    refine ⟨h0, h48, ?_⟩
    have := catalog_ids x.toNat (by omega)
    rw [this]
    congr 1
    omega
  · intro chain h
    have := chain_permitted_length chain h
    simp only [SECTION_MAX_NB_LEVELS]
    omega
  · intro env
    have hwf := writer_open_alloc_wf env
    have hlen : 40 < (json_init (writer_open_alloc env sections)).sections.length := by
      show 40 < sections.length
      decide
    obtain ⟨w1, h1, hwf1, hl1, hcat1, hsec1, _⟩ :=
      writer_print_section_header_ok _ 40 hwf (by show (-1 : Int) < 9; decide) hlen
    refine ⟨w1, h1, hwf1, hcat1, ?_⟩
    have := open_ids_header (json_init (writer_open_alloc env sections)) w1 40
      (by show (-1 : Int) ≤ -1; decide) (by show (0 : Nat) < 10; decide) hl1 hsec1
    rw [this]
    rfl
  · intro w c hwf hcat hchain hchild
    have hlen9 := chain_permitted_length _ (chain_permitted_append _ c hchain hchild)
    rw [List.length_append, open_ids_length] at hlen9
    simp only [List.length_cons, List.length_nil] at hlen9
    have hlo := hwf.1
    have hslen := hwf.2.2.2.1
    obtain ⟨_, _, _, _, _, hc48, _⟩ := section_child_facts _ c hchild
    have hk : c < w.sections.length := by
      rw [hcat]
      have : sections.length = 48 := by decide
      omega
    obtain ⟨w', h1, hwf', hl', hcat', hsec', _⟩ :=
      writer_print_section_header_ok w c hwf (by omega) hk
    have hids := open_ids_header w w' c hlo (by omega) hl' hsec'
    refine ⟨w', h1, hwf', by rw [hcat', hcat], hids, ?_⟩
    rw [hids]
    exact chain_permitted_append _ c hchain hchild

theorem C28_schema_depth_bound_witness :
    chain_permitted [40, 43, 41] = true ∧ [40, 43, 41].length ≤ 9 :=
  ⟨by decide, (C28_schema_depth_bound.2.2.1 [40, 43, 41] (by decide)).1⟩

/-! ## Reading an escaped string back -/

theorem json_unescape_run_append (s : (Nat × Nat) × List Byte) (a b : List Byte) :
    json_unescape_run s (a ++ b) = json_unescape_run (json_unescape_run s a) b := by
  simp [json_unescape_run, List.foldl_append]

/-- The bytes yielded before do not bear on the reading. -/
theorem json_unescape_run_out (text : List Byte) :
    ∀ (st : Nat × Nat) (out : List Byte),
      json_unescape_run (st, out) text =
        ((json_unescape_run (st, []) text).1, out ++ (json_unescape_run (st, []) text).2) := by
  induction text with
  | nil =>
    intro st out
    simp [json_unescape_run]
  | cons c text ih =>
    intro st out
    have h1 : json_unescape_run (st, out) (c :: text) =
        json_unescape_run ((json_unescape_step st c).1, out ++ (json_unescape_step st c).2)
          text := rfl
    have h2 : json_unescape_run (st, []) (c :: text) =
        json_unescape_run ((json_unescape_step st c).1, [] ++ (json_unescape_step st c).2)
          text := rfl
    rw [h1, h2, ih _ (out ++ _), ih _ ([] ++ _)]
    simp [List.append_assoc]

set_option maxRecDepth 100000 in
/-- The escape of a byte reads back as the byte. -/
theorem json_unescape_escape_ofNat :
    ∀ n : Nat, n < 256 →
      json_unescape_run ((0, 0), []) (json_escape_byte_spec (UInt8.ofNat n)) =
        ((0, 0), [UInt8.ofNat n]) := by
  decide

theorem json_unescape_flatMap (l : List Byte) :
    json_unescape_run ((0, 0), []) (l.flatMap json_escape_byte_spec) = ((0, 0), l) := by
  have h : ∀ (l : List Byte) (out : List Byte),
      json_unescape_run ((0, 0), out) (l.flatMap json_escape_byte_spec) = ((0, 0), out ++ l) := by
    intro l
    induction l with
    | nil =>
      intro out
      simp [json_unescape_run]
    | cons c l ih =>
      intro out
      have hc := json_unescape_escape_ofNat c.toNat c.val.isLt
      rw [byte_ofNat_toNat] at hc
      have hstep : json_unescape_run ((0, 0), out) (json_escape_byte_spec c) =
          ((0, 0), out ++ [c]) := by
        rw [json_unescape_run_out, hc]
      rw [List.flatMap_cons, json_unescape_run_append, hstep, ih]
      simp
  simpa using h l []

/-- C29. The escaping of `json_escape_str` can be undone: reading the escaped
text back as the body of a JSON string gives the C string that was escaped,
which is the whole string when it holds no NUL; so two different strings
without NUL never have the same escaped text. -/
theorem C29_json_escape_str_decodable :
    (∀ s : List Byte, json_unescape (json_escape_str [] s) = some (c_str s)) ∧
    (∀ s : List Byte, (∀ b ∈ s, b ≠ 0) → json_unescape (json_escape_str [] s) = some s) ∧
    (∀ s t : List Byte, (∀ b ∈ s, b ≠ 0) → (∀ b ∈ t, b ≠ 0) →
      json_escape_str [] s = json_escape_str [] t → s = t) := by
  have hfun : json_escape_char = json_escape_byte_spec := funext json_escape_char_eq
  have h1 : ∀ s : List Byte, json_unescape (json_escape_str [] s) = some (c_str s) := by
    intro s
    simp only [json_unescape, json_escape_str, hfun, List.nil_append, json_unescape_flatMap,
      if_true]
  have h2 : ∀ s : List Byte, (∀ b ∈ s, b ≠ 0) →
      json_unescape (json_escape_str [] s) = some s := by
    intro s hs
    rw [h1, c_str_of_ne_zero s hs]
  refine ⟨h1, h2, ?_⟩
  intro s t hs ht h
  have := h2 s hs
  rw [h, h2 t ht] at this
  injection this with this
  exact this.symm

theorem C29_json_escape_str_decodable_witness :
    json_unescape (json_escape_str [] [0x61, 0x22, 0x0a, 0x01, 0xc3, 0xa9]) =
      some [0x61, 0x22, 0x0a, 0x01, 0xc3, 0xa9] :=
  C29_json_escape_str_decodable.2.1 [0x61, 0x22, 0x0a, 0x01, 0xc3, 0xa9] (by decide)

/-! ## The report builder: levels and sections -/

theorem Kept.same (w : WriterContext) (hwf : w.wf) : Kept w w :=
  ⟨hwf, rfl, rfl, fun _ _ => rfl⟩

theorem Kept.and_then {a b c : WriterContext} (h1 : Kept a b) (h2 : Kept b c) : Kept a c :=
  ⟨h2.wf, by rw [h2.level, h1.level], by rw [h2.sections, h1.sections],
    fun i hi => by rw [h2.section_ i (by rw [h1.level]; exact hi), h1.section_ i hi]⟩

/-- A field call changes the output, the log and the item counter of the
level at most. -/
theorem kept_field_update (w : WriterContext) (hwf : w.wf) (m x : Nat) (o : List Byte)
    (g : List LogEvent) :
    Kept w { w with nb_item := w.nb_item.set m x, out := o, log := g } := by
  obtain ⟨h1, h2, h3, h4, h5, h6⟩ := hwf
  exact ⟨⟨h1, h2, by simpa using h3, h4, h5, h6⟩, rfl, rfl, fun _ _ => rfl⟩

theorem kept_string (w : WriterContext) (hwf : w.wf) (h0 : 0 ≤ w.level) (key val : List Byte)
    (flags : Nat) :
    ∃ ret w', writer_print_string w key val flags = .ok (ret, w') ∧ Kept w w' := by
  obtain ⟨m, sect, hl, hn, hcur, hsep⟩ := wf_current w hwf h0
  obtain ⟨hshown, hhidden⟩ := writer_print_string_ok w sect m hl hn hcur hsep key val flags
  by_cases hs : sect.shows key = true
  · obtain ⟨ret, o, g, h, _⟩ := hshown hs
    exact ⟨ret, _, h, kept_field_update w hwf _ _ _ _⟩
  · have hs' : sect.shows key = false := by simpa using hs
    exact ⟨0, w, hhidden hs', Kept.same w hwf⟩

theorem kept_integer (w : WriterContext) (hwf : w.wf) (h0 : 0 ≤ w.level) (key : List Byte)
    (val : Int) :
    ∃ w', writer_print_integer w key val = .ok w' ∧ Kept w w' := by
  obtain ⟨m, sect, hl, hn, hcur, hsep⟩ := wf_current w hwf h0
  obtain ⟨hshown, hhidden⟩ := writer_print_integer_ok w sect m hl hn hcur hsep key val
  by_cases hs : sect.shows key = true
  · obtain ⟨o, h⟩ := hshown hs
    have := kept_field_update w hwf m ((w.nb_item.getD m 0 + 1) % 2 ^ 32) o w.log
    exact ⟨_, h, this⟩
  · have hs' : sect.shows key = false := by simpa using hs
    exact ⟨w, hhidden hs', Kept.same w hwf⟩

theorem kept_print_str (w : WriterContext) (hwf : w.wf) (h0 : 0 ≤ w.level) (k v : List Byte) :
    ∃ w', print_str w k v = .ok w' ∧ Kept w w' := by
  obtain ⟨ret, w', h, hk⟩ := kept_string w hwf h0 k v 0
  exact ⟨w', by simp only [print_str, h, bind, Except.bind, pure, Except.pure], hk⟩

theorem kept_print_str_opt (w : WriterContext) (hwf : w.wf) (h0 : 0 ≤ w.level)
    (k v : List Byte) :
    ∃ w', print_str_opt w k v = .ok w' ∧ Kept w w' := by
  obtain ⟨ret, w', h, hk⟩ := kept_string w hwf h0 k v PRINT_STRING_OPT
  exact ⟨w', by simp only [print_str_opt, h, bind, Except.bind, pure, Except.pure], hk⟩

theorem kept_print_time (sec : SecondsString) (w : WriterContext) (hwf : w.wf)
    (h0 : 0 ≤ w.level) (k : List Byte) (v : Int) (tb : AVRational) :
    ∃ w', print_time sec w k v tb = .ok w' ∧ Kept w w' := by
  unfold print_time writer_print_time
  split_ifs
  · obtain ⟨ret, w', h, hk⟩ := kept_string w hwf h0 k (cs "N/A") PRINT_STRING_OPT
    exact ⟨w', by simp only [h, bind, Except.bind, pure, Except.pure], hk⟩
  · obtain ⟨ret, w', h, hk⟩ := kept_string w hwf h0 k (sec v tb) 0
    exact ⟨w', by simp only [h, bind, Except.bind, pure, Except.pure], hk⟩

theorem kept_run_fields (fs : List FieldCall) :
    ∀ w : WriterContext, w.wf → 0 ≤ w.level → ∃ w', run_fields fs w = .ok w' ∧ Kept w w' := by
  induction fs with
  | nil =>
    intro w hwf _
    exact ⟨w, rfl, Kept.same w hwf⟩
  | cons f fs ih =>
    intro w hwf h0
    cases f with
    | str key val =>
      obtain ⟨ret, w1, h1, k1⟩ := kept_string w hwf h0 key val 0
      obtain ⟨w2, h2, k2⟩ := ih w1 k1.wf (by rw [k1.level]; exact h0)
      exact ⟨w2, by simp only [run_fields, h1, bind, Except.bind]; exact h2, k1.and_then k2⟩
    | int key val =>
      obtain ⟨w1, h1, k1⟩ := kept_integer w hwf h0 key val
      obtain ⟨w2, h2, k2⟩ := ih w1 k1.wf (by rw [k1.level]; exact h0)
      exact ⟨w2, by simp only [run_fields, h1, bind, Except.bind]; exact h2, k1.and_then k2⟩

theorem kept_show_tags_loop (tags : AVDictionary) :
    ∀ (ret : Int) (w : WriterContext), w.wf → 0 ≤ w.level →
      ∃ ret' w', show_tags_loop tags ret w = .ok (ret', w') ∧ Kept w w' := by
  induction tags with
  | nil =>
    intro ret w hwf _
    exact ⟨ret, w, rfl, Kept.same w hwf⟩
  | cons tag tags ih =>
    intro ret w hwf h0
    obtain ⟨r1, w1, h1, k1⟩ := kept_string w hwf h0 tag.1 tag.2 PRINT_STRING_VALIDATE
    by_cases hr : r1 < 0
    · exact ⟨r1, w1, by
        simp only [show_tags_loop, print_str_validate, h1, bind, Except.bind, hr, if_true, pure,
          Except.pure], k1⟩
    · obtain ⟨r2, w2, h2, k2⟩ := ih r1 w1 k1.wf (by rw [k1.level]; exact h0)
      exact ⟨r2, w2, by
        simp only [show_tags_loop, print_str_validate, h1, bind, Except.bind, hr, if_false]
        exact h2, k1.and_then k2⟩

/-- The open section of a context, from the entry of the level. -/
theorem current_of_entry (w : WriterContext) (h0 : 0 ≤ w.level) (k : Nat) (sect : Section)
    (hsec : w.section_[w.level.toNat]? = some (some (k : Int)))
    (hs : w.sections[k]? = some sect) : w.current = .ok sect := by
  obtain ⟨m, hm⟩ : ∃ m : Nat, w.level = m := ⟨w.level.toNat, by omega⟩
  have hm' : w.level.toNat = m := by omega
  rw [hm'] at hsec
  simp only [WriterContext.current, bind, Except.bind, hm, arr_get_ok _ _ _ hsec,
    WriterContext.deref, arr_get_ok _ _ _ hs]

/-- In a context of the catalog a child of the open section is permitted. -/
theorem permitted_child (w : WriterContext) (hcat : w.sections = sections) (h0 : 0 ≤ w.level)
    (p c : Nat) (hsec : w.section_[w.level.toNat]? = some (some (p : Int)))
    (hc : section_child p c = true) : header_permitted w c = true := by
  unfold section_child at hc
  cases hsp : sections[p]? with
  | none => simp [hsp] at hc
  | some sp =>
    simp only [hsp] at hc
    have hcur := current_of_entry w h0 p sp hsec (by rw [hcat]; exact hsp)
    have hl : ¬ w.level = -1 := by omega
    simp only [header_permitted, hl, if_false, hcur]
    exact hc

/-- Opening a section of the catalog in a context with room. -/
theorem header_open (w : WriterContext) (k : Nat) (hwf : w.wf) (h9 : w.level < 9)
    (hk : k < w.sections.length) :
    ∃ w1, writer_print_section_header w k = .ok w1 ∧ w1.wf ∧ w1.level = w.level + 1 ∧
      w1.sections = w.sections ∧
      (∀ i : Nat, (i : Int) ≤ w.level → w1.section_[i]? = w.section_[i]?) ∧
      w1.section_[w1.level.toNat]? = some (some (k : Int)) := by
  obtain ⟨w1, h1, hwf1, hl1, hcat1, hsec1, _⟩ := writer_print_section_header_ok w k hwf h9 hk
  have hlo := hwf.1
  have hslen := hwf.2.2.2.1
  refine ⟨w1, h1, hwf1, hl1, hcat1, ?_, ?_⟩
  · intro i hi
    rw [hsec1]
    have hne : (w.level + 1).toNat ≠ i := by omega
    exact List.getElem?_set_ne hne
  · rw [hsec1, hl1]
    exact List.getElem?_set_self (by omega)

/-- Closing the section that was opened in `w`, after calls that kept the
context, gives a context that keeps `w`. -/
theorem footer_close (w w1 w2 : WriterContext) (hlo : -1 ≤ w.level)
    (hl1 : w1.level = w.level + 1) (hcat1 : w1.sections = w.sections)
    (hsec1 : ∀ i : Nat, (i : Int) ≤ w.level → w1.section_[i]? = w.section_[i]?)
    (hk : Kept w1 w2) :
    ∃ w3, writer_print_section_footer w2 = .ok w3 ∧ Kept w w3 := by
  obtain ⟨w3, h3, hwf3, hl3, hcat3, hsec3, _⟩ :=
    writer_print_section_footer_ok w2 hk.wf (by rw [hk.level, hl1]; omega)
  refine ⟨w3, h3, hwf3, ?_, ?_, ?_⟩
  · rw [hl3, hk.level, hl1]
    omega
  · rw [hcat3, hk.sections, hcat1]
  · intro i hi
    rw [hsec3, hk.section_ i (by rw [hl1]; omega), hsec1 i hi]

/-- The check of the schema gives the same answer in a context that was
kept. -/
theorem permitted_kept (w w' : WriterContext) (hk : Kept w w') (hlo : -1 ≤ w.level)
    (id : Int) : header_permitted w' id = header_permitted w id := by
  by_cases hl : w.level = -1
  · simp only [header_permitted, hk.level, hl, if_true]
  · have hcur : w'.current = w.current := by
      obtain ⟨m, hm⟩ : ∃ m : Nat, w.level = m := ⟨w.level.toNat, by omega⟩
      have hs := hk.section_ m (by omega)
      simp only [WriterContext.current, bind, Except.bind, hk.level, hm, arr_get,
        Int.toNat_ofNat, hs, WriterContext.deref, hk.sections]
    simp only [header_permitted, hk.level, hcur]

theorem entry_kept (w w' : WriterContext) (hk : Kept w w') (h0 : 0 ≤ w.level)
    (x : SectionPtr) (hsec : w.section_[w.level.toNat]? = some x) :
    w'.section_[w'.level.toNat]? = some x := by
  rw [hk.level, hk.section_ w.level.toNat (by omega)]
  exact hsec

theorem header_agrees_plain (S : Prop) : header_agrees writer_print_section_header S :=
  fun _ _ _ => rfl

theorem header_agrees_checked : header_agrees header_checked True := by
  intro w id h
  simp only [header_checked, h trivial, if_true]

/-- The routine `show_tags` closes the section it opens; with a function
`hdr` that agrees with `writer_print_section_header` the result is the
same. -/
theorem show_tags_spec (hdr : HeaderFn) (S : Prop) (hagree : header_agrees hdr S)
    (w : WriterContext) (hwf : w.wf) (h9 : w.level < 9) (tags : Option AVDictionary) (id : Nat)
    (hid : id < w.sections.length) (hperm : S → header_permitted w id = true) :
    ∃ ret w', show_tags hdr w tags id = .ok (ret, w') ∧
      show_tags writer_print_section_header w tags id = .ok (ret, w') ∧ Kept w w' := by
  cases tags with
  | none => exact ⟨0, w, rfl, rfl, Kept.same w hwf⟩
  | some tags =>
    obtain ⟨w1, h1, hwf1, hl1, hcat1, hsec1, _⟩ := header_open w id hwf h9 hid
    have hh : hdr w id = .ok w1 := (hagree w id hperm).trans h1
    have hlo := hwf.1
    obtain ⟨r, w2, h2, k2⟩ := kept_show_tags_loop tags 0 w1 hwf1 (by rw [hl1]; omega)
    obtain ⟨w3, h3, k3⟩ := footer_close w w1 w2 hlo hl1 hcat1 hsec1 k2
    refine ⟨r, w3, ?_, ?_, k3⟩
    · simp only [show_tags, hh, h2, h3, bind, Except.bind, pure, Except.pure]
    · simp only [show_tags, h1, h2, h3, bind, Except.bind, pure, Except.pure]

theorem print_pkt_side_data_loop_spec (hdr : HeaderFn) (S : Prop)
    (hagree : header_agrees hdr S) (idd : Nat) (side_data : List AVPacketSideData) :
    ∀ (w : WriterContext), w.wf → w.level < 9 → idd < w.sections.length →
      (S → header_permitted w idd = true) →
      ∃ w', print_pkt_side_data_loop_via hdr idd side_data w = .ok w' ∧
        print_pkt_side_data_loop_via writer_print_section_header idd side_data w = .ok w' ∧
        Kept w w' := by
  induction side_data with
  | nil =>
    intro w hwf _ _ _
    exact ⟨w, rfl, rfl, Kept.same w hwf⟩
  | cons sd side_data ih =>
    intro w hwf h9 hid hperm
    have hlo := hwf.1
    obtain ⟨w1, h1, hwf1, hl1, hcat1, hsec1, _⟩ := header_open w idd hwf h9 hid
    have hh : hdr w idd = .ok w1 := (hagree w idd hperm).trans h1
    obtain ⟨r2, w2, h2, k2⟩ := kept_string w1 hwf1 (by rw [hl1]; omega) (cs "side_data_type")
      (sd.name.getD (cs "unknown")) 0
    obtain ⟨w3, h3, k3⟩ := kept_run_fields sd.fields w2 k2.wf (by rw [k2.level, hl1]; omega)
    obtain ⟨w4, h4, k4⟩ := footer_close w w1 w3 hlo hl1 hcat1 hsec1 (k2.and_then k3)
    obtain ⟨w5, h5, h5', k5⟩ := ih w4 k4.wf (by rw [k4.level]; exact h9)
      (by rw [k4.sections]; exact hid)
      (fun hs => (permitted_kept w w4 k4 hlo _).trans (hperm hs))
    refine ⟨w5, ?_, ?_, k4.and_then k5⟩
    · simp only [print_pkt_side_data_loop_via, print_pkt_side_data_record_via, hh, h2, h3, h4,
        bind, Except.bind]
      exact h5
    · simp only [print_pkt_side_data_loop_via, print_pkt_side_data_record_via, h1, h2, h3, h4,
        bind, Except.bind]
      exact h5'

theorem print_pkt_side_data_spec (hdr : HeaderFn) (S : Prop) (hagree : header_agrees hdr S)
    (w : WriterContext) (hwf : w.wf) (hcat : w.sections = sections) (h8 : w.level < 8)
    (side_data : List AVPacketSideData) (idl idd : Nat) (hidl : idl < 48) (hidd : idd < 48)
    (hperm : S → header_permitted w idl = true) (hchild : S → section_child idl idd = true) :
    ∃ w', print_pkt_side_data_via hdr w side_data idl idd = .ok w' ∧
      print_pkt_side_data_via writer_print_section_header w side_data idl idd = .ok w' ∧
      Kept w w' := by
  have hlo := hwf.1
  have hlen : sections.length = 48 := by decide
  obtain ⟨w1, h1, hwf1, hl1, hcat1, hsec1, hnew1⟩ :=
    header_open w idl hwf (by omega) (by rw [hcat]; omega)
  have hh : hdr w idl = .ok w1 := (hagree w idl hperm).trans h1
  obtain ⟨w2, h2, h2', k2⟩ := print_pkt_side_data_loop_spec hdr S hagree idd side_data w1 hwf1
    (by rw [hl1]; omega) (by rw [hcat1, hcat]; omega)
    (fun hs => permitted_child w1 (by rw [hcat1, hcat]) (by rw [hl1]; omega) idl idd hnew1
      (hchild hs))
  obtain ⟨w3, h3, k3⟩ := footer_close w w1 w2 hlo hl1 hcat1 hsec1 k2
  refine ⟨w3, ?_, ?_, k3⟩
  · simp only [print_pkt_side_data_via, hh, h2, h3, bind, Except.bind]
  · simp only [print_pkt_side_data_via, h1, h2', h3, bind, Except.bind]

/-- The function with `writer_print_section_header` for `hdr` is
`print_pkt_side_data`. -/
theorem print_pkt_side_data_via_plain (w : WriterContext) (side_data : List AVPacketSideData)
    (idl idd : Int) :
    print_pkt_side_data_via writer_print_section_header w side_data idl idd =
      print_pkt_side_data w side_data idl idd := by
  have hloop : ∀ (l : List AVPacketSideData) (w : WriterContext),
      print_pkt_side_data_loop_via writer_print_section_header idd l w =
        print_pkt_side_data_loop idd l w := by
    intro l
    induction l with
    | nil =>
      intro w
      rfl
    | cons sd l ih =>
      intro w
      simp only [print_pkt_side_data_loop_via, print_pkt_side_data_loop]
      have : print_pkt_side_data_loop_via writer_print_section_header idd l =
          print_pkt_side_data_loop idd l := funext ih
      rw [this]
      rfl
  simp only [print_pkt_side_data_via, print_pkt_side_data]
  have : print_pkt_side_data_loop_via writer_print_section_header idd side_data =
      print_pkt_side_data_loop idd side_data := funext (hloop side_data)
  rw [this]

theorem show_stream_spec (hdr : HeaderFn) (S : Prop) (hagree : header_agrees hdr S)
    (w : WriterContext) (hwf : w.wf) (hcat : w.sections = sections) (h7 : w.level < 7)
    (hperm : S → header_permitted w SECTION_ID_STREAM = true) (ist : InputStream) :
    ∃ ret w', show_stream hdr w ist = .ok (ret, w') ∧
      show_stream writer_print_section_header w ist = .ok (ret, w') ∧ Kept w w' := by
  have hlo := hwf.1
  have hlen : sections.length = 48 := by decide
  have e41 : SECTION_ID_STREAM = ((41 : Nat) : Int) := rfl
  have e42 : SECTION_ID_STREAM_DISPOSITION = ((42 : Nat) : Int) := rfl
  have e44 : SECTION_ID_STREAM_TAGS = ((44 : Nat) : Int) := rfl
  have e45 : SECTION_ID_STREAM_SIDE_DATA_LIST = ((45 : Nat) : Int) := rfl
  have e46 : SECTION_ID_STREAM_SIDE_DATA = ((46 : Nat) : Int) := rfl
  obtain ⟨w1, h1, hwf1, hl1, hcat1, hsec1, hnew1⟩ :=
    header_open w 41 hwf (by omega) (by rw [hcat]; omega)
  have hh1 : hdr w SECTION_ID_STREAM = .ok w1 := (hagree w _ hperm).trans h1
  have h01 : 0 ≤ w1.level := by rw [hl1]; omega
  obtain ⟨w2, h2, k2⟩ := kept_run_fields ist.fields w1 hwf1 h01
  have hc2 : w2.sections = sections := by rw [k2.sections, hcat1, hcat]
  have h02 : 0 ≤ w2.level := by rw [k2.level]; exact h01
  have hnew2 := entry_kept w1 w2 k2 h01 _ hnew1
  obtain ⟨w3, h3, hwf3, hl3, hcat3, hsec3, _⟩ :=
    header_open w2 42 k2.wf (by rw [k2.level, hl1]; omega) (by rw [hc2]; omega)
  have hh3 : hdr w2 SECTION_ID_STREAM_DISPOSITION = .ok w3 :=
    (hagree w2 _ (fun _ => permitted_child w2 hc2 h02 41 42 hnew2 (by decide))).trans h3
  obtain ⟨w4, h4, k4⟩ := kept_run_fields
    (disposition_names.map (fun name => FieldCall.int name (ist.disposition name))) w3 hwf3
    (by rw [hl3]; omega)
  obtain ⟨w5, h5, k5⟩ := footer_close w2 w3 w4 (by omega) hl3 hcat3 hsec3 k4
  have k15 := k2.and_then k5
  have hc5 : w5.sections = sections := by rw [k5.sections, hc2]
  have h05 : 0 ≤ w5.level := by rw [k15.level]; exact h01
  have hnew5 := entry_kept w1 w5 k15 h01 _ hnew1
  obtain ⟨r, w6, h6, h6', k6⟩ := show_tags_spec hdr S hagree w5 k5.wf
    (by rw [k15.level, hl1]; omega) ist.metadata 44 (by rw [hc5]; omega)
    (fun _ => permitted_child w5 hc5 h05 41 44 hnew5 (by decide))
  have k16 := k15.and_then k6
  have hc6 : w6.sections = sections := by rw [k6.sections, hc5]
  have h06 : 0 ≤ w6.level := by rw [k16.level]; exact h01
  have hnew6 := entry_kept w1 w6 k16 h01 _ hnew1
  have hside : ∃ w7, Kept w6 w7 ∧
      (ist.side_data.length ≠ 0 →
        print_pkt_side_data_via hdr w6 ist.side_data SECTION_ID_STREAM_SIDE_DATA_LIST
          SECTION_ID_STREAM_SIDE_DATA = .ok w7 ∧
        print_pkt_side_data_via writer_print_section_header w6 ist.side_data
          SECTION_ID_STREAM_SIDE_DATA_LIST SECTION_ID_STREAM_SIDE_DATA = .ok w7) ∧
      (¬ ist.side_data.length ≠ 0 → w7 = w6) := by
    by_cases hn : ist.side_data.length ≠ 0
    · obtain ⟨w7, h7a, h7b, k7⟩ := print_pkt_side_data_spec hdr S hagree w6 k6.wf hc6
        (by rw [k16.level, hl1]; omega) ist.side_data 45 46 (by omega) (by omega)
        (fun _ => permitted_child w6 hc6 h06 41 45 hnew6 (by decide)) (fun _ => by decide)
      exact ⟨w7, k7, fun _ => ⟨h7a, h7b⟩, fun h => absurd hn h⟩
    · exact ⟨w6, Kept.same w6 k6.wf, fun h => absurd h hn, fun _ => rfl⟩
  obtain ⟨w7, k7, h7y, h7n⟩ := hside
  obtain ⟨w8, h8, k8⟩ := footer_close w w1 w7 hlo hl1 hcat1 hsec1 (k16.and_then k7)
  have h1s : writer_print_section_header w SECTION_ID_STREAM = .ok w1 := h1
  have h3s : writer_print_section_header w2 SECTION_ID_STREAM_DISPOSITION = .ok w3 := h3
  have h6s : show_tags hdr w5 ist.metadata SECTION_ID_STREAM_TAGS = .ok (r, w6) := h6
  have h6s' : show_tags writer_print_section_header w5 ist.metadata SECTION_ID_STREAM_TAGS =
      .ok (r, w6) := h6'
  refine ⟨r, w8, ?_, ?_, k8⟩
  · simp only [show_stream, hh1, h2, hh3, h4, h5, h6s, bind, Except.bind]
    by_cases hn : ist.side_data.length ≠ 0
    · simp only [if_pos hn, (h7y hn).1, h8, pure, Except.pure]
    · have e := h7n hn
      subst e
      simp only [if_neg hn, h8, pure, Except.pure]
  · simp only [show_stream, h1s, h2, h3s, h4, h5, h6s', bind, Except.bind]
    by_cases hn : ist.side_data.length ≠ 0
    · simp only [if_pos hn, (h7y hn).2, h8, pure, Except.pure]
    · have e := h7n hn
      subst e
      simp only [if_neg hn, h8, pure, Except.pure]

theorem show_streams_loop_spec (hdr : HeaderFn) (S : Prop) (hagree : header_agrees hdr S)
    (streams : List InputStream) :
    ∀ (selected_streams : List Int) (ret : Int) (w : WriterContext), w.wf →
      w.sections = sections → w.level < 7 →
      (S → header_permitted w SECTION_ID_STREAM = true) →
      ∃ ret' w', show_streams_loop hdr streams selected_streams ret w = .ok (ret', w') ∧
        show_streams_loop writer_print_section_header streams selected_streams ret w =
          .ok (ret', w') ∧ Kept w w' := by
  induction streams with
  | nil =>
    intro _ ret w hwf _ _ _
    exact ⟨ret, w, rfl, rfl, Kept.same w hwf⟩
  | cons ist streams ih =>
    intro sel ret w hwf hcat h7 hperm
    by_cases hsel : sel.headD 0 ≠ 0
    · obtain ⟨r1, w1, h1, h1', k1⟩ := show_stream_spec hdr S hagree w hwf hcat h7 hperm ist
      by_cases hr : r1 < 0
      · refine ⟨r1, w1, ?_, ?_, k1⟩
        · simp only [show_streams_loop, if_pos hsel, h1, bind, Except.bind, hr, if_true, pure,
            Except.pure]
        · simp only [show_streams_loop, if_pos hsel, h1', bind, Except.bind, hr, if_true, pure,
            Except.pure]
      · obtain ⟨r2, w2, h2, h2', k2⟩ := ih sel.tail r1 w1 k1.wf (by rw [k1.sections, hcat])
          (by rw [k1.level]; exact h7)
          (fun hs => (permitted_kept w w1 k1 hwf.1 _).trans (hperm hs))
        refine ⟨r2, w2, ?_, ?_, k1.and_then k2⟩
        · simp only [show_streams_loop, if_pos hsel, h1, bind, Except.bind, hr, if_false]
          exact h2
        · simp only [show_streams_loop, if_pos hsel, h1', bind, Except.bind, hr, if_false]
          exact h2'
    · obtain ⟨r2, w2, h2, h2', k2⟩ := ih sel.tail ret w hwf hcat h7 hperm
      refine ⟨r2, w2, ?_, ?_, k2⟩
      · simp only [show_streams_loop, if_neg hsel]
        exact h2
      · simp only [show_streams_loop, if_neg hsel]
        exact h2'

theorem show_streams_spec (hdr : HeaderFn) (S : Prop) (hagree : header_agrees hdr S)
    (w : WriterContext) (hwf : w.wf) (hcat : w.sections = sections) (h6 : w.level < 6)
    (hperm : S → header_permitted w SECTION_ID_STREAMS = true) (streams : List InputStream)
    (selected_streams : List Int) :
    ∃ ret w', show_streams hdr w streams selected_streams = .ok (ret, w') ∧
      show_streams writer_print_section_header w streams selected_streams = .ok (ret, w') ∧
      Kept w w' := by
  have hlo := hwf.1
  have hlen : sections.length = 48 := by decide
  obtain ⟨w1, h1, hwf1, hl1, hcat1, hsec1, hnew1⟩ :=
    header_open w 43 hwf (by omega) (by rw [hcat]; omega)
  have h1s : writer_print_section_header w SECTION_ID_STREAMS = .ok w1 := h1
  have hh1 : hdr w SECTION_ID_STREAMS = .ok w1 := (hagree w _ hperm).trans h1
  have hc1 : w1.sections = sections := by rw [hcat1, hcat]
  obtain ⟨r, w2, h2, h2', k2⟩ := show_streams_loop_spec hdr S hagree streams selected_streams 0
    w1 hwf1 hc1 (by rw [hl1]; omega)
    (fun _ => permitted_child w1 hc1 (by rw [hl1]; omega) 43 41 hnew1 (by decide))
  obtain ⟨w3, h3, k3⟩ := footer_close w w1 w2 hlo hl1 hcat1 hsec1 k2
  refine ⟨r, w3, ?_, ?_, k3⟩
  · simp only [show_streams, hh1, h2, h3, bind, Except.bind, pure, Except.pure]
  · simp only [show_streams, h1s, h2', h3, bind, Except.bind, pure, Except.pure]

theorem kept_print_val (fmt_f : Int → List Byte) (w : WriterContext) (hwf : w.wf)
    (h0 : 0 ≤ w.level) (k : List Byte) (v : Int) (u : UnitStr) :
    ∃ ret w', print_val fmt_f w k v u = .ok (ret, w') ∧ Kept w w' :=
  kept_string w hwf h0 k _ 0

/-- The fields `size` and `bit_rate` of `show_format`. -/
theorem kept_val_or_na (fmt_f : Int → List Byte) (w : WriterContext) (hwf : w.wf)
    (h0 : 0 ≤ w.level) (c : Prop) [Decidable c] (k : List Byte) (v : Int) (u : UnitStr) :
    ∃ w', (if c then do
        let r ← print_val fmt_f w k v u
        pure r.2
      else print_str_opt w k (cs "N/A")) = .ok w' ∧ Kept w w' := by
  by_cases hc : c
  · obtain ⟨ret, w', h, hk⟩ := kept_print_val fmt_f w hwf h0 k v u
    exact ⟨w', by simp only [if_pos hc, h, bind, Except.bind, pure, Except.pure], hk⟩
  · obtain ⟨w', h, hk⟩ := kept_print_str_opt w hwf h0 k (cs "N/A")
    exact ⟨w', by simp only [if_neg hc, h], hk⟩

theorem show_format_spec (hdr : HeaderFn) (S : Prop) (hagree : header_agrees hdr S)
    (sec : SecondsString) (fmt_f : Int → List Byte) (w : WriterContext) (hwf : w.wf)
    (hcat : w.sections = sections) (h8 : w.level < 8)
    (hperm : S → header_permitted w SECTION_ID_FORMAT = true) (fmt_ctx : AVFormatContext) :
    ∃ ret w', show_format hdr sec fmt_f w fmt_ctx = .ok (ret, w') ∧
      show_format writer_print_section_header sec fmt_f w fmt_ctx = .ok (ret, w') ∧
      Kept w w' := by
  have hlo := hwf.1
  have hlen : sections.length = 48 := by decide
  obtain ⟨w1, h1, hwf1, hl1, hcat1, hsec1, hnew1⟩ :=
    header_open w 4 hwf (by omega) (by rw [hcat]; omega)
  have h1s : writer_print_section_header w SECTION_ID_FORMAT = .ok w1 := h1
  have hh1 : hdr w SECTION_ID_FORMAT = .ok w1 := (hagree w _ hperm).trans h1
  have h01 : 0 ≤ w1.level := by rw [hl1]; omega
  obtain ⟨r2, w2, h2, k2⟩ := kept_string w1 hwf1 h01 (cs "filename") fmt_ctx.url
    PRINT_STRING_VALIDATE
  have l2 : 0 ≤ w2.level := by rw [k2.level]; exact h01
  obtain ⟨w3, h3, k3⟩ := kept_integer w2 k2.wf l2 (cs "nb_streams") fmt_ctx.nb_streams
  have l3 : 0 ≤ w3.level := by rw [k3.level]; exact l2
  obtain ⟨w4, h4, k4⟩ := kept_integer w3 k3.wf l3 (cs "nb_programs") fmt_ctx.nb_programs
  have l4 : 0 ≤ w4.level := by rw [k4.level]; exact l3
  obtain ⟨w5, h5, k5⟩ := kept_print_str w4 k4.wf l4 (cs "format_name") fmt_ctx.iformat_name
  have l5 : 0 ≤ w5.level := by rw [k5.level]; exact l4
  have hlong : ∃ w6,
      (match fmt_ctx.iformat_long_name with
        | some long_name => print_str w5 (cs "format_long_name") long_name
        | none => print_str_opt w5 (cs "format_long_name") (cs "unknown")) = .ok w6 ∧
      Kept w5 w6 := by
    cases fmt_ctx.iformat_long_name with
    | some long_name => exact kept_print_str w5 k5.wf l5 _ _
    | none => exact kept_print_str_opt w5 k5.wf l5 _ _
  obtain ⟨w6, h6, k6⟩ := hlong
  have l6 : 0 ≤ w6.level := by rw [k6.level]; exact l5
  obtain ⟨w7, h7, k7⟩ := kept_print_time sec w6 k6.wf l6 (cs "start_time") fmt_ctx.start_time
    AV_TIME_BASE_Q
  have l7 : 0 ≤ w7.level := by rw [k7.level]; exact l6
  obtain ⟨w8, h8', k8⟩ := kept_print_time sec w7 k7.wf l7 (cs "duration") fmt_ctx.duration
    AV_TIME_BASE_Q
  have l8 : 0 ≤ w8.level := by rw [k8.level]; exact l7
  obtain ⟨w9, h9, k9⟩ := kept_val_or_na fmt_f w8 k8.wf l8 (fmt_ctx.size ≥ 0) (cs "size")
    fmt_ctx.size UnitStr.unit_byte_str
  have l9 : 0 ≤ w9.level := by rw [k9.level]; exact l8
  obtain ⟨w10, h10, k10⟩ := kept_val_or_na fmt_f w9 k9.wf l9 (fmt_ctx.bit_rate > 0)
    (cs "bit_rate") fmt_ctx.bit_rate UnitStr.unit_bit_per_second_str
  have l10 : 0 ≤ w10.level := by rw [k10.level]; exact l9
  obtain ⟨w11, h11, k11⟩ := kept_integer w10 k10.wf l10 (cs "probe_score")
    fmt_ctx.probe_score
  have kall : Kept w1 w11 :=
    k2.and_then (k3.and_then (k4.and_then (k5.and_then (k6.and_then (k7.and_then
      (k8.and_then (k9.and_then (k10.and_then k11))))))))
  have hc11 : w11.sections = sections := by rw [kall.sections, hcat1, hcat]
  have l11 : 0 ≤ w11.level := by rw [kall.level]; exact h01
  have hnew11 := entry_kept w1 w11 kall h01 _ hnew1
  obtain ⟨r, w12, h12, h12', k12⟩ := show_tags_spec hdr S hagree w11 kall.wf
    (by rw [kall.level, hl1]; omega) fmt_ctx.metadata 5 (by rw [hc11]; omega)
    (fun _ => permitted_child w11 hc11 l11 4 5 hnew11 (by decide))
  have h12s : show_tags hdr w11 fmt_ctx.metadata SECTION_ID_FORMAT_TAGS = .ok (r, w12) := h12
  have h12s' : show_tags writer_print_section_header w11 fmt_ctx.metadata
      SECTION_ID_FORMAT_TAGS = .ok (r, w12) := h12'
  obtain ⟨w13, h13, k13⟩ := footer_close w w1 w12 hlo hl1 hcat1 hsec1 (kall.and_then k12)
  simp only [bind, Except.bind, pure, Except.pure] at h9 h10
  refine ⟨r, w13, ?_, ?_, k13⟩
  · simp only [show_format, hh1, print_str_validate, print_int, h2, h3, h4, h5, bind,
      Except.bind]
    simp only [pure, Except.pure, h6, h7, h8', h9, h10, h11, h12s, h13]
  · simp only [show_format, h1s, print_str_validate, print_int, h2, h3, h4, h5, bind,
      Except.bind]
    simp only [pure, Except.pure, h6, h7, h8', h9, h10, h11, h12s', h13]

theorem probe_file_spec (hdr : HeaderFn) (S : Prop) (hagree : header_agrees hdr S)
    (sec : SecondsString) (fmt_f : Int → List Byte) (w : WriterContext) (hwf : w.wf)
    (hcat : w.sections = sections) (h6 : w.level < 6)
    (hstreams : S → header_permitted w SECTION_ID_STREAMS = true)
    (hformat : S → header_permitted w SECTION_ID_FORMAT = true) (env : ProbeEnv) :
    ∃ ret w', probe_file hdr sec fmt_f w env = .ok (ret, w') ∧
      probe_file writer_print_section_header sec fmt_f w env = .ok (ret, w') ∧ Kept w w' := by
  unfold probe_file
  by_cases c1 : env.open_input_ret < 0
  · exact ⟨_, w, by simp only [if_pos c1]; rfl, by simp only [if_pos c1]; rfl, Kept.same w hwf⟩
  by_cases c2 : env.realloc_frames_ret < 0
  · exact ⟨_, w, by simp only [if_neg c1, if_pos c2]; rfl, by simp only [if_neg c1, if_pos c2]; rfl,
      Kept.same w hwf⟩
  by_cases c3 : env.realloc_packets_ret < 0
  · exact ⟨_, w, by simp only [if_neg c1, if_neg c2, if_pos c3]; rfl,
      by simp only [if_neg c1, if_neg c2, if_pos c3]; rfl, Kept.same w hwf⟩
  by_cases c4 : env.realloc_selected_ret < 0
  · exact ⟨_, w, by simp only [if_neg c1, if_neg c2, if_neg c3, if_pos c4]; rfl,
      by simp only [if_neg c1, if_neg c2, if_neg c3, if_pos c4]; rfl, Kept.same w hwf⟩
  simp only [if_neg c1, if_neg c2, if_neg c3, if_neg c4]
  obtain ⟨r1, w1, h1, h1', k1⟩ := show_streams_spec hdr S hagree w hwf hcat h6 hstreams
    env.streams (List.replicate env.streams.length 1)
  by_cases hr : r1 < 0
  · refine ⟨r1, w1, ?_, ?_, k1⟩
    · simp only [h1, bind, Except.bind, hr, if_true, pure, Except.pure]
    · simp only [h1', bind, Except.bind, hr, if_true, pure, Except.pure]
  · obtain ⟨r2, w2, h2, h2', k2⟩ := show_format_spec hdr S hagree sec fmt_f w1 k1.wf
      (by rw [k1.sections, hcat]) (by rw [k1.level]; omega)
      (fun hs => (permitted_kept w w1 k1 hwf.1 _).trans (hformat hs)) env.fmt_ctx
    refine ⟨r2, w2, ?_, ?_, k1.and_then k2⟩
    · simp only [h1, bind, Except.bind, hr, if_false]
      exact h2
    · simp only [h1', bind, Except.bind, hr, if_false]
      exact h2'

/-- What `writer_open` returns in `ffprobe`. -/
theorem writer_open_ffprobe (a b : Bool) (r : Int) :
    writer_open (ffprobe_env a b r) sections =
      if a = false then .ok (AVERROR_ENOMEM, none)
      else if b = false then .error Fault.undefined
      else if r < 0 then .ok (r, none)
      else .ok (0, some (json_init (writer_open_alloc (ffprobe_env a b r) sections))) := by
  have hloop : writer_open_replace_loop 0 (c_str [0xEF, 0xBF, 0xBD]).length
      (c_str [0xEF, 0xBF, 0xBD]) = 0 := by decide
  have hargs : ¬ ((0 : Int) < 0) := by decide
  cases a <;> cases b <;>
    simp only [writer_open, ffprobe_env, ffprobe_open_env, writer_open_alloc, hloop, hargs,
      if_true, if_false, not_true_eq_false, not_false_eq_true, pure, Except.pure, throw,
      throwThe, MonadExceptOf.throw, true_and, lt_self_iff_false, Bool.false_eq_true,
      Bool.true_eq_false]

/-- The run of `ffprobe` when the writer could be opened: the root section is
opened and closed around `probe_file`, and a function `hdr` that agrees with
`writer_print_section_header` where the schema permits gives the same run. -/
theorem ffprobe_spec (hdr : HeaderFn) (hagree : header_agrees hdr True) (sec : SecondsString)
    (fmt_f : Int → List Byte) (argc : Int) (r : Int) (env : ProbeEnv) (hargc : ¬ argc < 3)
    (hr : ¬ r < 0) :
    ∃ status out, ffprobe hdr sec fmt_f argc true true r env = .ok (status, out) ∧
      ffprobe writer_print_section_header sec fmt_f argc true true r env =
        .ok (status, out) := by
  obtain ⟨w0, hw0⟩ : ∃ w0, w0 = json_init (writer_open_alloc (ffprobe_env true true r) sections) :=
    ⟨_, rfl⟩
  have hopen : writer_open (ffprobe_env true true r) sections = .ok (0, some w0) := by
    rw [writer_open_ffprobe, hw0]
    simp only [Bool.true_eq_false, if_false, hr]
  have hwf0 : w0.wf := by rw [hw0]; exact writer_open_alloc_wf _
  have hcat0 : w0.sections = sections := by rw [hw0]; rfl
  have hl0 : w0.level = -1 := by rw [hw0]; rfl
  have hlen : sections.length = 48 := by decide
  obtain ⟨w1, h1, hwf1, hl1, hcat1, _, hnew1⟩ :=
    header_open w0 40 hwf0 (by rw [hl0]; decide) (by rw [hcat0]; omega)
  have h1s : writer_print_section_header w0 SECTION_ID_ROOT = .ok w1 := h1
  have hperm0 : header_permitted w0 SECTION_ID_ROOT = true := by
    simp only [header_permitted, hl0, if_true, decide_True]
  have hh1 : hdr w0 SECTION_ID_ROOT = .ok w1 := (hagree w0 _ (fun _ => hperm0)).trans h1
  have hc1 : w1.sections = sections := by rw [hcat1, hcat0]
  have h01 : 0 ≤ w1.level := by rw [hl1, hl0]; decide
  obtain ⟨r2, w2, h2, h2', k2⟩ := probe_file_spec hdr True hagree sec fmt_f w1 hwf1 hc1
    (by rw [hl1, hl0]; decide)
    (fun _ => permitted_child w1 hc1 h01 40 43 hnew1 (by decide))
    (fun _ => permitted_child w1 hc1 h01 40 4 hnew1 (by decide)) env
  obtain ⟨w3, h3, _⟩ := writer_print_section_footer_ok w2 k2.wf (by rw [k2.level]; exact h01)
  have h00 : (0 : Int) ≥ 0 := by decide
  refine ⟨if min (writer_close env w3) r2 < 0 then 1 else 0, w3.out, ?_, ?_⟩
  · simp only [ffprobe, if_neg hargc, hopen, bind, Except.bind, h00, if_true, hh1, h2, h3, pure,
      Except.pure]
  · simp only [ffprobe, if_neg hargc, hopen, bind, Except.bind, h00, if_true, h1s, h2', h3, pure,
      Except.pure]

/-- The run of `ffprobe` when the writer could not be opened: the call of
`writer_print_section_footer` on the context that is `NULL` is undefined
behaviour. -/
theorem ffprobe_open_failed (hdr : HeaderFn) (sec : SecondsString) (fmt_f : Int → List Byte)
    (argc : Int) (a b : Bool) (r : Int) (env : ProbeEnv) (hargc : ¬ argc < 3)
    (hfail : ¬ (a = true ∧ b = true ∧ 0 ≤ r)) :
    ffprobe hdr sec fmt_f argc a b r env = .error Fault.undefined := by
  have hE : ¬ (AVERROR_ENOMEM ≥ 0) := by decide
  cases a
  · simp only [ffprobe, if_neg hargc, writer_open_ffprobe, if_true, bind, Except.bind, hE,
      if_false, pure, Except.pure, throw, throwThe, MonadExceptOf.throw]
  · cases b
    · simp only [ffprobe, if_neg hargc, writer_open_ffprobe, Bool.true_eq_false, if_false,
        if_true, bind, Except.bind]
    · have hr : r < 0 := by
        by_contra hc
        exact hfail ⟨rfl, rfl, by omega⟩
      have hr' : ¬ r ≥ 0 := by omega
      simp only [ffprobe, if_neg hargc, writer_open_ffprobe, Bool.true_eq_false, if_false, hr,
        if_true, bind, Except.bind, hr', pure, Except.pure, throw, throwThe,
        MonadExceptOf.throw]

/-- C25. In every well-formed context of the catalog with room for the
sections a routine opens, and for every input of the routine (a dictionary
that is `NULL` or empty, no stream, no side data, a tag that fails validation
under any policy), each of `show_tags`, `show_format`, `show_stream`,
`show_streams` and `print_pkt_side_data` returns, and the context it leaves
has the level of the context it was called in, with the same sections open
below: every section the routine opened is closed. -/
theorem C25_report_routines_balanced (sec : SecondsString) (fmt_f : Int → List Byte)
    (w : WriterContext) (hwf : w.wf) (hcat : w.sections = sections) :
    (∀ (tags : Option AVDictionary) (id : Nat), id < 48 → w.level < 9 →
      ∃ ret w', show_tags writer_print_section_header w tags id = .ok (ret, w') ∧
        w'.level = w.level ∧ Kept w w') ∧
    (∀ fmt_ctx : AVFormatContext, w.level < 8 →
      ∃ ret w', show_format writer_print_section_header sec fmt_f w fmt_ctx = .ok (ret, w') ∧
        w'.level = w.level ∧ Kept w w') ∧
    (∀ ist : InputStream, w.level < 7 →
      ∃ ret w', show_stream writer_print_section_header w ist = .ok (ret, w') ∧
        w'.level = w.level ∧ Kept w w') ∧
    (∀ (streams : List InputStream) (selected_streams : List Int), w.level < 6 →
      ∃ ret w', show_streams writer_print_section_header w streams selected_streams =
          .ok (ret, w') ∧ w'.level = w.level ∧ Kept w w') ∧
    (∀ (side_data : List AVPacketSideData) (id_data_list id_data : Nat), id_data_list < 48 →
      id_data < 48 → w.level < 8 →
      ∃ w', print_pkt_side_data w side_data id_data_list id_data = .ok w' ∧
        w'.level = w.level ∧ Kept w w') := by
  have hp := header_agrees_plain False
  have hlen : sections.length = 48 := by decide
  refine ⟨?_, ?_, ?_, ?_, ?_⟩
  · intro tags id hid h9
    obtain ⟨ret, w', _, h, k⟩ := show_tags_spec _ False hp w hwf h9 tags id
      (by rw [hcat]; omega) (fun hf => hf.elim)
    exact ⟨ret, w', h, k.level, k⟩
  · intro fmt_ctx h8
    obtain ⟨ret, w', _, h, k⟩ := show_format_spec _ False hp sec fmt_f w hwf hcat h8
      (fun hf => hf.elim) fmt_ctx
    exact ⟨ret, w', h, k.level, k⟩
  · intro ist h7
    obtain ⟨ret, w', _, h, k⟩ := show_stream_spec _ False hp w hwf hcat h7 (fun hf => hf.elim) ist
    exact ⟨ret, w', h, k.level, k⟩
  · intro streams sel h6
    obtain ⟨ret, w', _, h, k⟩ := show_streams_spec _ False hp w hwf hcat h6 (fun hf => hf.elim)
      streams sel
    exact ⟨ret, w', h, k.level, k⟩
  · intro side_data idl idd hidl hidd h8
    obtain ⟨w', _, h, k⟩ := print_pkt_side_data_spec _ False hp w hwf hcat h8 side_data idl idd
      hidl hidd (fun hf => hf.elim) (fun hf => hf.elim)
    rw [print_pkt_side_data_via_plain] at h
    exact ⟨w', h, k.level, k⟩

theorem C25_report_routines_balanced_witness :
    ∃ ret w', show_tags writer_print_section_header ctx_format_strict
        (some [(cs "title", [0x74, 0xff]), (cs "artist", cs "a")]) ((5 : Nat) : Int) =
        .ok (ret, w') ∧
      w'.level = ctx_format_strict.level ∧ Kept ctx_format_strict w' :=
  (C25_report_routines_balanced seconds_example (fun _ => cs "0.000000") ctx_format_strict
    (by decide) rfl).1 (some [(cs "title", [0x74, 0xff]), (cs "artist", cs "a")]) 5 (by decide)
    (by decide)

/-- C26. In every run of `ffprobe` every section is opened where the schema
permits it: with a check in front of every call of
`writer_print_section_header` in `ffprobe`, `probe_file`, `show_streams`,
`show_stream`, `show_format`, `show_tags` and `print_pkt_side_data`, which
fails unless the section is the root when no section is open and a child of
the open section otherwise, the run is the same, so the check never fails;
and the run ends with a return value whenever the writer could be opened. -/
theorem C26_sections_opened_in_schema_order (sec : SecondsString) (fmt_f : Int → List Byte)
    (argc : Int) (malloc_wctx malloc_priv : Bool) (avio_open_ret : Int) (env : ProbeEnv) :
    ffprobe header_checked sec fmt_f argc malloc_wctx malloc_priv avio_open_ret env =
      ffprobe writer_print_section_header sec fmt_f argc malloc_wctx malloc_priv avio_open_ret
        env ∧
    (3 ≤ argc → malloc_wctx = true → malloc_priv = true → 0 ≤ avio_open_ret →
      ∃ status out,
        ffprobe writer_print_section_header sec fmt_f argc malloc_wctx malloc_priv
          avio_open_ret env = .ok (status, out)) := by
  constructor
  · by_cases hargc : argc < 3
    · simp only [ffprobe, if_pos hargc]
    · by_cases hok : malloc_wctx = true ∧ malloc_priv = true ∧ 0 ≤ avio_open_ret
      · obtain ⟨ha, hb, hr⟩ := hok
        subst ha
        subst hb
        obtain ⟨status, out, h1, h2⟩ := ffprobe_spec header_checked header_agrees_checked sec
          fmt_f argc avio_open_ret env hargc (by omega)
        rw [h1, h2]
      · rw [ffprobe_open_failed _ sec fmt_f argc _ _ _ env hargc hok,
          ffprobe_open_failed _ sec fmt_f argc _ _ _ env hargc hok]
  · intro hargc ha hb hr
    subst ha
    subst hb
    obtain ⟨status, out, _, h2⟩ := ffprobe_spec writer_print_section_header
      (header_agrees_plain True) sec fmt_f argc avio_open_ret env (by omega) (by omega)
    exact ⟨status, out, h2⟩

theorem C26_sections_opened_in_schema_order_witness :
    ∃ status out,
      ffprobe writer_print_section_header seconds_example (fun _ => cs "0.000000") 3 true true 0
        probe_env_example = .ok (status, out) :=
  (C26_sections_opened_in_schema_order seconds_example (fun _ => cs "0.000000") 3 true true 0
    probe_env_example).2 (by decide) rfl rfl (by decide)

/-- C30, what the code does. When `writer_open` fails in `ffprobe`, whose
arguments are in place, it leaves `wctx` at `NULL`, or ends in undefined
behaviour itself when the private data could not be allocated; `ffprobe` then
calls `writer_print_section_footer` on that context all the same, which
dereferences it: the run ends in undefined behaviour and not in a return
value. -/
theorem C30_failed_open_is_not_guarded (sec : SecondsString) (fmt_f : Int → List Byte)
    (argc : Int) (malloc_wctx malloc_priv : Bool) (avio_open_ret : Int) (env : ProbeEnv)
    (hargc : 3 ≤ argc)
    (hfail : ¬ (malloc_wctx = true ∧ malloc_priv = true ∧ 0 ≤ avio_open_ret)) :
    (writer_open (ffprobe_env malloc_wctx malloc_priv avio_open_ret) sections =
        .error Fault.undefined ∨
      ∃ ret, ret < 0 ∧
        writer_open (ffprobe_env malloc_wctx malloc_priv avio_open_ret) sections =
          .ok (ret, none)) ∧
    ffprobe writer_print_section_header sec fmt_f argc malloc_wctx malloc_priv avio_open_ret
      env = .error Fault.undefined := by
  refine ⟨?_, ffprobe_open_failed _ sec fmt_f argc _ _ _ env (by omega) hfail⟩
  rw [writer_open_ffprobe]
  cases malloc_wctx
  · exact Or.inr ⟨AVERROR_ENOMEM, by decide, by simp only [if_true]⟩
  · cases malloc_priv
    · exact Or.inl (by simp only [Bool.true_eq_false, if_false, if_true])
    · have hr : avio_open_ret < 0 := by
        by_contra hc
        exact hfail ⟨rfl, rfl, by omega⟩
      exact Or.inr ⟨avio_open_ret, hr, by simp only [Bool.true_eq_false, if_false, hr, if_true]⟩

theorem C30_failed_open_is_not_guarded_witness :
    writer_open (ffprobe_env true true (-13)) sections = .ok (-13, none) ∧
    ffprobe writer_print_section_header seconds_example (fun _ => cs "0.000000") 3 true true
      (-13) probe_env_example = .error Fault.undefined :=
  ⟨by decide,
    (C30_failed_open_is_not_guarded seconds_example (fun _ => cs "0.000000") 3 true true (-13)
      probe_env_example (by decide) (by decide)).2⟩

/-! ## The indentation in step with the level -/

theorem writer_open_alloc_wf_of (env : WriterOpenEnv) (secs : List Section)
    (hcat : catalog_ids_ok secs) : (json_init (writer_open_alloc env secs)).wf := by
  refine ⟨?_, ?_, ?_, ?_, ?_, hcat⟩
  · show (-1 : Int) ≤ -1
    decide
  · show (-1 : Int) < SECTION_MAX_NB_LEVELS
    decide
  · show (List.replicate 10 0).length = 10
    decide
  · show (List.replicate 10 (none : SectionPtr)).length = 10
    decide
  · intro i _ hi
    have hi' : (i : Int) ≤ -1 := hi
    omega

/-- A field call leaves the level and the private data of the backend as they
are. -/
theorem string_keeps_priv (w : WriterContext) (hwf : w.wf) (h0 : 0 ≤ w.level)
    (key val : List Byte) (flags : Nat) :
    ∃ ret w', writer_print_string w key val flags = .ok (ret, w') ∧ Kept w w' ∧
      w'.priv = w.priv := by
  obtain ⟨m, sect, hl, hn, hcur, hsep⟩ := wf_current w hwf h0
  obtain ⟨hshown, hhidden⟩ := writer_print_string_ok w sect m hl hn hcur hsep key val flags
  by_cases hs : sect.shows key = true
  · obtain ⟨ret, o, g, h, _⟩ := hshown hs
    exact ⟨ret, _, h, kept_field_update w hwf _ _ _ _, rfl⟩
  · have hs' : sect.shows key = false := by simpa using hs
    exact ⟨0, w, hhidden hs', Kept.same w hwf, rfl⟩

theorem integer_keeps_priv (w : WriterContext) (hwf : w.wf) (h0 : 0 ≤ w.level)
    (key : List Byte) (val : Int) :
    ∃ w', writer_print_integer w key val = .ok w' ∧ Kept w w' ∧ w'.priv = w.priv := by
  obtain ⟨m, sect, hl, hn, hcur, hsep⟩ := wf_current w hwf h0
  obtain ⟨hshown, hhidden⟩ := writer_print_integer_ok w sect m hl hn hcur hsep key val
  by_cases hs : sect.shows key = true
  · obtain ⟨o, h⟩ := hshown hs
    have := kept_field_update w hwf m ((w.nb_item.getD m 0 + 1) % 2 ^ 32) o w.log
    exact ⟨_, h, this, rfl⟩
  · have hs' : sect.shows key = false := by simpa using hs
    exact ⟨w, hhidden hs', Kept.same w hwf, rfl⟩

/-- Opening a section raises the level and the indent level by one each. -/
theorem header_indent (w : WriterContext) (k : Nat) (hwf : w.wf) (h9 : w.level < 9)
    (hk : k < w.sections.length) :
    ∃ w', writer_print_section_header w k = .ok w' ∧ w'.wf ∧ w'.level = w.level + 1 ∧
      w'.sections = w.sections ∧ w'.priv.indent_level = w.priv.indent_level + 1 := by
  obtain ⟨w', h1, hwf', hl', hcat', _⟩ := writer_print_section_header_ok w k hwf h9 hk
  obtain ⟨parent, hpar⟩ := wf_parent_next w hwf
  have hs : w.sections[k]? = some w.sections[k] := List.getElem?_eq_getElem hk
  have hx := writer_print_section_header_exact w k _ hwf h9 hs parent hpar
  rw [hx] at h1
  injection h1 with h1
  refine ⟨w', by rw [hx, h1], hwf', hl', hcat', ?_⟩
  rw [← h1]
  rfl

/-- Closing a section lowers the level and the indent level by one each. -/
theorem footer_indent (w : WriterContext) (hwf : w.wf) (h0 : 0 ≤ w.level) :
    ∃ w', writer_print_section_footer w = .ok w' ∧ w'.wf ∧ w'.level = w.level - 1 ∧
      w'.sections = w.sections ∧ w'.priv.indent_level = w.priv.indent_level - 1 := by
  obtain ⟨w', h1, hwf', hl', hcat', _⟩ := writer_print_section_footer_ok w hwf h0
  obtain ⟨_, _, sect, parent, _, _, _, _, _, hcur, hpar, _, _⟩ := wf_parent w hwf h0
  have hx := writer_print_section_footer_exact w sect parent hwf h0 hcur hpar
  rw [hx] at h1
  injection h1 with h1
  refine ⟨w', by rw [hx, h1], hwf', hl', hcat', ?_⟩
  rw [← h1]
  rfl

theorem run_calls_indent (calls : List WriterCall) :
    ∀ (w : WriterContext), w.wf → w.priv.indent_level = w.level + 1 →
      calls_in_bounds w.sections.length w.level calls →
      ∃ w', run_calls calls w = .ok w' ∧ w'.wf ∧ w'.level = calls_level w.level calls ∧
        w'.priv.indent_level = w'.level + 1 := by
  induction calls with
  | nil =>
    intro w hwf hi _
    exact ⟨w, rfl, hwf, rfl, hi⟩
  | cons c calls ih =>
    intro w hwf hi hb
    cases c with
    | header section_id =>
      obtain ⟨h10, hk0, hk, hb'⟩ := hb
      simp only [SECTION_MAX_NB_LEVELS] at h10
      obtain ⟨k, rfl⟩ : ∃ k : Nat, section_id = k := ⟨section_id.toNat, by omega⟩
      obtain ⟨w1, h1, hwf1, hl1, hcat1, hi1⟩ := header_indent w k hwf (by omega) (by omega)
      obtain ⟨w', h', hwf', hl', hi'⟩ := ih w1 hwf1 (by rw [hi1, hl1, hi])
        (by rw [hcat1, hl1]; exact hb')
      refine ⟨w', ?_, hwf', ?_, hi'⟩
      · simp only [run_calls, run_call, h1, bind, Except.bind]
        exact h'
      · rw [hl', hl1]
        rfl
    | footer =>
      obtain ⟨h0, hb'⟩ := hb
      obtain ⟨w1, h1, hwf1, hl1, hcat1, hi1⟩ := footer_indent w hwf h0
      obtain ⟨w', h', hwf', hl', hi'⟩ := ih w1 hwf1 (by rw [hi1, hl1, hi]; ring)
        (by rw [hcat1, hl1]; exact hb')
      refine ⟨w', ?_, hwf', ?_, hi'⟩
      · simp only [run_calls, run_call, h1, bind, Except.bind]
        exact h'
      · rw [hl', hl1]
        rfl
    | string key val flags =>
      obtain ⟨h0, hb'⟩ := hb
      obtain ⟨ret, w1, h1, k1, hp1⟩ := string_keeps_priv w hwf h0 key val flags
      obtain ⟨w', h', hwf', hl', hi'⟩ := ih w1 k1.wf (by rw [hp1, k1.level, hi])
        (by rw [k1.sections, k1.level]; exact hb')
      refine ⟨w', ?_, hwf', ?_, hi'⟩
      · simp only [run_calls, run_call, h1, bind, Except.bind, pure, Except.pure]
        exact h'
      · rw [hl', k1.level]
        rfl
    | integer key val =>
      obtain ⟨h0, hb'⟩ := hb
      obtain ⟨w1, h1, k1, hp1⟩ := integer_keeps_priv w hwf h0 key val
      obtain ⟨w', h', hwf', hl', hi'⟩ := ih w1 k1.wf (by rw [hp1, k1.level, hi])
        (by rw [k1.sections, k1.level]; exact hb')
      refine ⟨w', ?_, hwf', ?_, hi'⟩
      · simp only [run_calls, run_call, h1, bind, Except.bind]
        exact h'
      · rw [hl', k1.level]
        rfl

/-- C24. For every catalog whose entries carry their index as id, whatever
the flags of its sections, and every sequence of calls that keeps within the
bounds of the writer, run in the context `writer_open` sets up (level -1,
indent level 0): every call returns, and in the context after the sequence,
hence after each of its calls, the indent level of the JSON backend is the
level of the writer plus one. A field call, validated or not, shown or not,
changes neither the level nor the indent level. -/
theorem C24_indent_level_in_lockstep (secs : List Section) (hcat : catalog_ids_ok secs)
    (env : WriterOpenEnv) (calls : List WriterCall)
    (hb : calls_in_bounds secs.length (-1) calls) :
    (∃ w', run_calls calls (json_init (writer_open_alloc env secs)) = .ok w' ∧
      w'.level = calls_level (-1) calls ∧ w'.priv.indent_level = w'.level + 1) ∧
    (∀ (w : WriterContext), w.wf → 0 ≤ w.level →
      (∀ (key val : List Byte) (flags : Nat), ∃ ret w',
        writer_print_string w key val flags = .ok (ret, w') ∧ w'.level = w.level ∧
          w'.priv.indent_level = w.priv.indent_level) ∧
      (∀ (key : List Byte) (val : Int), ∃ w',
        writer_print_integer w key val = .ok w' ∧ w'.level = w.level ∧
          w'.priv.indent_level = w.priv.indent_level)) := by
  constructor
  · obtain ⟨w', h, _, hl, hi⟩ := run_calls_indent calls (json_init (writer_open_alloc env secs))
      (writer_open_alloc_wf_of env secs hcat) rfl hb
    exact ⟨w', h, hl, hi⟩
  · intro w hwf h0
    constructor
    · intro key val flags
      obtain ⟨ret, w', h, k, hp⟩ := string_keeps_priv w hwf h0 key val flags
      exact ⟨ret, w', h, k.level, by rw [hp]⟩
    · intro key val
      obtain ⟨w', h, k, hp⟩ := integer_keeps_priv w hwf h0 key val
      exact ⟨w', h, k.level, by rw [hp]⟩

theorem C24_indent_level_in_lockstep_witness :
    ∃ w', run_calls
        [WriterCall.header 40, WriterCall.header 43, WriterCall.header 41,
          WriterCall.integer (cs "index") 0, WriterCall.header 44,
          WriterCall.string (cs "title") [0x74, 0xff] PRINT_STRING_VALIDATE, WriterCall.footer]
        (json_init (writer_open_alloc ffprobe_open_env sections)) = .ok w' ∧
      w'.level = 2 ∧ w'.priv.indent_level = w'.level + 1 :=
  (C24_indent_level_in_lockstep sections (by unfold catalog_ids_ok; decide) ffprobe_open_env
    [WriterCall.header 40, WriterCall.header 43, WriterCall.header 41,
      WriterCall.integer (cs "index") 0, WriterCall.header 44,
      WriterCall.string (cs "title") [0x74, 0xff] PRINT_STRING_VALIDATE, WriterCall.footer]
    (by simp only [calls_in_bounds]; decide)).1

/-! ## Items and separators -/

theorem items_rel_length (w : WriterContext) (st : List (Int × Nat)) :
    ∀ lvl : Int, items_rel w lvl st → (st.length : Int) = lvl + 1 := by
  induction st with
  | nil =>
    intro lvl h
    simp only [items_rel] at h
    simp [h]
  | cons x rest ih =>
    intro lvl h
    obtain ⟨_, _, _, h4⟩ := h
    have := ih _ h4
    simp only [List.length_cons]
    push_cast
    omega

theorem items_rel_congr (w w' : WriterContext) (st : List (Int × Nat)) :
    ∀ lvl : Int,
      (∀ i : Nat, (i : Int) ≤ lvl → w'.section_[i]? = w.section_[i]? ∧
        w'.nb_item.getD i 0 = w.nb_item.getD i 0) →
      items_rel w lvl st → items_rel w' lvl st := by
  induction st with
  | nil =>
    intro lvl _ h
    exact h
  | cons x rest ih =>
    intro lvl hc h
    obtain ⟨h1, h2, h3, h4⟩ := h
    have hi := hc lvl.toNat (by omega)
    exact ⟨h1, by rw [hi.1]; exact h2, by rw [hi.2]; exact h3,
      ih _ (fun i hi' => hc i (by omega)) h4⟩

theorem items_ok_mono (b b' : Nat) (hb : b ≤ b') (st : List (Int × Nat)) :
    items_ok b st → items_ok b' st := by
  induction st with
  | nil => exact fun h => h
  | cons x rest ih =>
    intro h
    obtain ⟨h1, h2, h3, h4, h5⟩ := h
    exact ⟨h1, h2, by omega, h4, ih h5⟩

theorem items_ok_step (cfg : WriterContext) (b : Nat) (st : List (Int × Nat)) (c : WriterCall)
    (hok : items_ok b st) (hadm : call_admitted cfg st c) :
    items_ok (b + 1) (items_step st c) := by
  have hmono := items_ok_mono b (b + 1) (by omega)
  cases c with
  | header section_id =>
    obtain ⟨_, h0, h48, hpaf⟩ := hadm
    refine ⟨h0, h48, ?_, ?_, hmono st hok⟩
    · show (if item_typed section_id (st.head?.map Prod.fst) then 1 else 0) ≤ b + 1
      split_ifs <;> omega
    · intro hp
      show 1 ≤ (if item_typed section_id (st.head?.map Prod.fst) then 1 else 0)
      rw [hp, hpaf hp]
      simp
  | footer =>
    match st, hok with
    | [], _ => trivial
    | [_], _ => trivial
    | _ :: p :: rest, hok =>
      obtain ⟨_, _, _, _, h1, h2, h3, h4, h5⟩ := hok
      exact ⟨h1, h2, by show p.2 + 1 ≤ b + 1; omega, fun _ => by show 1 ≤ p.2 + 1; omega,
        hmono rest h5⟩
  | string key val flags =>
    match st, hok with
    | [], _ => trivial
    | x :: rest, hok =>
      obtain ⟨h1, h2, h3, h4, h5⟩ := hok
      simp only [items_step]
      split_ifs
      · exact ⟨h1, h2, by show x.2 + 1 ≤ b + 1; omega, fun _ => by show 1 ≤ x.2 + 1; omega,
          hmono rest h5⟩
      · exact ⟨h1, h2, by omega, h4, hmono rest h5⟩
  | integer key val =>
    match st, hok with
    | [], _ => trivial
    | x :: rest, hok =>
      obtain ⟨h1, h2, h3, h4, h5⟩ := hok
      simp only [items_step]
      split_ifs
      · exact ⟨h1, h2, by show x.2 + 1 ≤ b + 1; omega, fun _ => by show 1 ≤ x.2 + 1; omega,
          hmono rest h5⟩
      · exact ⟨h1, h2, by omega, h4, hmono rest h5⟩

/-- What the invariant says of the open section and of the section below
it. -/
theorem items_current (cfg w : WriterContext) (x : Int × Nat) (rest : List (Int × Nat))
    (b : Nat) (hinv : items_inv cfg w (x :: rest)) (hok : items_ok b (x :: rest)) :
    ∃ (sect : Section) (parent : Option Section),
      0 ≤ w.level ∧ w.current = .ok sect ∧ w.parent = .ok parent ∧
      sections[x.1.toNat]? = some sect ∧
      w.nb_item.getD w.level.toNat 0 = x.2 % 4294967296 ∧
      parent.map Section.id = rest.head?.map Prod.fst ∧
      (∀ sp, parent = some sp → sections[((rest.head?.map Prod.fst).getD 0).toNat]? = some sp) ∧
      ((w.level = 0) ↔ rest = []) := by
  obtain ⟨hwf, hcat, _, hrel, _⟩ := hinv
  obtain ⟨h0, hsec, hnb, hrest⟩ := hrel
  obtain ⟨hx0, hx48, _, _, hokr⟩ := hok
  obtain ⟨m, k, sect, parent, hl, hp, hs, hid, hn, hcur, hpar, hp0, hparent⟩ :=
    wf_parent w hwf h0
  have hm : w.level.toNat = m := by omega
  rw [hm, hp] at hsec
  have hk : (k : Int) = x.1 := by
    injection hsec with h
    injection h
  have hsx : sections[x.1.toNat]? = some sect := by
    rw [← hk, Int.toNat_ofNat, ← hcat]
    exact hs
  refine ⟨sect, parent, h0, hcur, hpar, hsx, hnb, ?_, ?_, ?_⟩
  · cases rest with
    | nil =>
      simp only [items_rel] at hrest
      have : m = 0 := by omega
      rw [hp0 this]
      rfl
    | cons y rest' =>
      obtain ⟨hy0, hysec, _, _⟩ := hrest
      obtain ⟨l, hl'⟩ : ∃ l : Nat, m = l + 1 := ⟨m - 1, by omega⟩
      obtain ⟨kp, sp, hpp, hsp, hidp, hpe⟩ := hparent l hl'
      have hlt : (w.level - 1).toNat = l := by omega
      rw [hlt, hpp] at hysec
      have hkp : (kp : Int) = y.1 := by
        injection hysec with h
        injection h
      rw [hpe]
      simp only [Option.map_some', List.head?_cons, hidp, hkp]
  · intro sp hsp
    cases rest with
    | nil =>
      simp only [items_rel] at hrest
      have : m = 0 := by omega
      rw [hp0 this] at hsp
      cases hsp
    | cons y rest' =>
      obtain ⟨hy0, hysec, _, _⟩ := hrest
      obtain ⟨l, hl'⟩ : ∃ l : Nat, m = l + 1 := ⟨m - 1, by omega⟩
      obtain ⟨kp, sp', hpp, hsp', hidp, hpe⟩ := hparent l hl'
      have hlt : (w.level - 1).toNat = l := by omega
      rw [hlt, hpp] at hysec
      have hkp : (kp : Int) = y.1 := by
        injection hysec with h
        injection h
      rw [hpe] at hsp
      injection hsp with hsp
      subst hsp
      simp only [List.head?_cons, Option.map_some', Option.getD_some, ← hkp, Int.toNat_ofNat,
        ← hcat]
      exact hsp'
  · have hlen := items_rel_length w rest _ hrest
    constructor
    · intro hz
      have : (rest.length : Int) = 0 := by omega
      exact List.length_eq_zero.mp (by exact_mod_cast this)
    · intro hr
      rw [hr] at hlen
      simp at hlen
      omega

theorem json_indent_text_head (n : Int) : ∃ t, json_indent_text n = 0x20 :: t := by
  unfold json_indent_text fmt_star_c
  split_ifs
  · exact ⟨_, rfl⟩
  · cases h : (n * 4).natAbs - 1 with
    | zero => exact ⟨[], rfl⟩
    | succ k => exact ⟨List.replicate k 0x20 ++ [0x20], by rw [List.replicate_succ]; rfl⟩

theorem json_indent_then_head (n : Int) (t : List Byte) :
    json_indent_text n ++ t ≠ [] ∧ (json_indent_text n ++ t).head? ≠ some 0x2c := by
  obtain ⟨u, hu⟩ := json_indent_text_head n
  rw [hu]
  constructor <;> simp

theorem json_header_text_head (j : JSONContext) (sect : Section) (parent : Option Section) :
    json_header_text j sect parent ≠ [] ∧
    (json_header_text j sect parent).head? ≠ some 0x2c := by
  unfold json_header_text
  by_cases hw : sect.flags &&& SECTION_FLAG_IS_WRAPPER ≠ 0
  · rw [if_pos hw]
    constructor <;> decide
  · rw [if_neg hw]
    exact json_indent_then_head _ _

theorem json_footer_text_no_comma (j : JSONContext) (hj : json_priv_ok j) (lvl : Int)
    (sect : Section) : (0x2c : Byte) ∉ json_footer_text j lvl sect := by
  have hws : ∀ n : Int, (0x2c : Byte) ∉ json_indent_text n := by
    intro n hc
    have := json_indent_text_ws n _ hc
    revert this
    decide
  have hse : (0x2c : Byte) ∉ c_str j.item_start_end := by
    rcases hj with ⟨_, _, h⟩ | ⟨_, _, h⟩ <;> rw [h] <;> decide
  have h5d : ¬ (0x2c : Byte) = 0x5d := by decide
  have h7d : ¬ (0x2c : Byte) = 0x7d := by decide
  have h0a : ¬ (0x2c : Byte) = 0x0a := by decide
  unfold json_footer_text
  by_cases hz : lvl = 0
  · rw [if_pos hz]
    decide
  · rw [if_neg hz]
    by_cases ha : sect.flags &&& SECTION_FLAG_IS_ARRAY ≠ 0
    · rw [if_pos ha]
      intro hc
      rcases List.mem_append.mp hc with hc | hc
      · rcases List.mem_append.mp hc with hc | hc
        · exact h0a (List.mem_singleton.mp hc)
        · exact hws _ hc
      · exact h5d (List.mem_singleton.mp hc)
    · rw [if_neg ha]
      intro hc
      rcases List.mem_append.mp hc with hc | hc
      · rcases List.mem_append.mp hc with hc | hc
        · exact hse hc
        · by_cases hcomp : j.compact = 0
          · rw [if_pos hcomp] at hc
            exact hws _ hc
          · rw [if_neg hcomp] at hc
            cases hc
      · exact h7d (List.mem_singleton.mp hc)

theorem json_item_sep_text (j : JSONContext) (hj : json_priv_ok j) :
    c_str j.item_sep = cs ",\n" ∨ c_str j.item_sep = cs ", " := by
  rcases hj with ⟨_, h, _⟩ | ⟨_, h, _⟩
  · left
    rw [h]
    decide
  · right
    rw [h]
    decide

/-- The text of a field after the separator: the indentation, when there is
one, and the item, which starts with a double quote. -/
theorem json_item_body_head (j : JSONContext) (t : List Byte) :
    (if j.compact = 0 then json_indent_text j.indent_level else []) ++ (0x22 :: t) ≠ [] ∧
    ((if j.compact = 0 then json_indent_text j.indent_level else []) ++ (0x22 :: t)).head? ≠
      some 0x2c := by
  split_ifs
  · obtain ⟨u, hu⟩ := json_indent_text_head j.indent_level
    rw [hu]
    constructor <;> simp
  · constructor <;> simp

theorem mod_ne_zero_of_le (n b : Nat) (hn : n ≤ b) (hb : b < 4294967296) :
    n % 4294967296 ≠ 0 ↔ n ≠ 0 := by
  rw [Nat.mod_eq_of_lt (by omega)]

/-- Opening a section keeps the invariant and writes an item of the section
it is opened in. -/
theorem items_header_spec (cfg w : WriterContext) (st : List (Int × Nat)) (b : Nat)
    (hinv : items_inv cfg w st) (hok : items_ok b st) (hb : b < 4294967296)
    (section_id : Int) (hadm : call_admitted cfg st (WriterCall.header section_id)) :
    ∃ w', writer_print_section_header w section_id = .ok w' ∧
      items_inv cfg w' (items_step st (WriterCall.header section_id)) ∧
      item_emitted w w' (items_before st) := by
  obtain ⟨hlen10, hid0, hid48, _⟩ := hadm
  have hinv' := hinv
  obtain ⟨hwf, hcat, hpriv, hrel, hc1, hc2, hc3⟩ := hinv
  have hlen := items_rel_length w st _ hrel
  have hlo := hwf.1
  have hnlen : w.nb_item.length = 10 := hwf.2.2.1
  have hslen : w.section_.length = 10 := hwf.2.2.2.1
  have h9 : w.level < 9 := by omega
  obtain ⟨k, hk⟩ : ∃ k : Nat, section_id = k := ⟨section_id.toNat, by omega⟩
  subst hk
  have hk48 : k < 48 := by omega
  have hslen48 : sections.length = 48 := by decide
  obtain ⟨sect, hsect⟩ : ∃ sect, sections[k]? = some sect :=
    ⟨sections[k], List.getElem?_eq_getElem (by omega)⟩
  -- the section below the new one, and what the spec side says of it
  have hparent : ∃ parent, { w with level := w.level + 1 }.parent = .ok parent ∧
      item_typed (k : Int) (st.head?.map Prod.fst) = json_header_typed sect parent ∧
      (st = [] → w.level = -1) ∧
      (∀ x rest, st = x :: rest → 0 ≤ w.level ∧
        w.nb_item.getD w.level.toNat 0 = x.2 % 4294967296) := by
    cases st with
    | nil =>
      simp only [items_rel] at hrel
      refine ⟨none, ?_, ?_, fun _ => hrel, (fun _ _ h => by cases h)⟩
      · simp [WriterContext.parent, hrel, pure, Except.pure]
      · simp only [item_typed, Int.toNat_ofNat, hsect, List.head?_nil, Option.map_none',
          json_header_typed]
    | cons x rest =>
      obtain ⟨sx, px, h0, hcur, _, hsx, hnb, _⟩ := items_current cfg w x rest b hinv' hok
      refine ⟨some sx, parent_next_of_current w sx hwf h0 hcur, ?_, (fun h => by cases h), ?_⟩
      · simp only [item_typed, Int.toNat_ofNat, hsect, List.head?_cons, Option.map_some', hsx]
      · intro y rest' h
        injection h with h1 h2
        subst h1
        exact ⟨h0, hnb⟩
  obtain ⟨parent, hpar, htyped, hnil, hcons⟩ := hparent
  obtain ⟨w', h1, hwf', hl', hcat', hsec', hnb', _, hv1, hv2, hv3⟩ :=
    writer_print_section_header_ok w k hwf h9 (by rw [hcat]; omega)
  have hx := writer_print_section_header_exact w k sect hwf h9 (by rw [hcat]; exact hsect)
    parent hpar
  rw [hx] at h1
  injection h1 with hw'
  obtain ⟨n1, hn1⟩ : ∃ n1 : Nat, (w.level + 1).toNat = n1 := ⟨_, rfl⟩
  have hn1' : w.level + 1 = (n1 : Int) := by omega
  have hn110 : n1 < 10 := by omega
  -- the counter of the new level
  have hnbnew : w'.nb_item.getD n1 0 =
      (if item_typed (k : Int) (st.head?.map Prod.fst) then 1 else 0) % 4294967296 := by
    rw [← hw', htyped]
    simp only [json_header_result, writer_header_enter, hn1]
    by_cases ht : json_header_typed sect parent = true
    · simp only [ht, if_true, List.getD, List.get?_eq_getElem?]
      rw [List.getElem?_set_self (by simp; omega)]
      simp only [Option.getD_some, uint_inc]
      rw [List.getElem?_set_self (by omega)]
      rfl
    · simp only [ht, Bool.false_eq_true, if_false, List.getD, List.get?_eq_getElem?]
      rw [List.getElem?_set_self (by omega)]
      rfl
  refine ⟨w', by rw [hx, hw'], ⟨hwf', by rw [hcat', hcat], ?_, ?_, by rw [hv1, hc1],
    by rw [hv2, hc2], by rw [hv3, hc3]⟩, ?_⟩
  · rw [← hw']
    exact hpriv
  · rw [hl']
    refine ⟨by omega, ?_, ?_, ?_⟩
    · rw [hsec', hn1]
      exact List.getElem?_set_self (by omega)
    · rw [hn1]
      exact hnbnew
    · have e : w.level + 1 - 1 = w.level := by omega
      rw [e]
      apply items_rel_congr w w' st w.level _ hrel
      intro i hi
      constructor
      · rw [hsec', hn1]
        exact List.getElem?_set_ne (by omega)
      · have := hnb' i hi
        simp only [List.getD, List.get?_eq_getElem?, this]
  · -- the text
    have hout : w'.out = w.out ++ json_header_sep (writer_header_enter w k parent) ++
        json_header_text (writer_header_enter w k parent).priv sect parent := by
      rw [← hw']
      rfl
    have hsep : json_header_sep (writer_header_enter w k parent) =
        if items_before st ≠ 0 then cs ",\n" else [] := by
      cases st with
      | nil =>
        have hl := hnil rfl
        simp [json_header_sep, writer_header_enter, hl, items_before]
      | cons x rest =>
        obtain ⟨h0, hnb⟩ := hcons x rest rfl
        obtain ⟨_, _, hxb, _⟩ := hok
        have hne : w.level + 1 ≠ 0 := by omega
        have hidx : (w.level + 1 - 1).toNat = w.level.toNat := by
          congr 1
          omega
        have hget : (w.nb_item.set n1 0).getD w.level.toNat 0 = x.2 % 4294967296 := by
          rw [← hnb]
          simp only [List.getD, List.get?_eq_getElem?]
          rw [List.getElem?_set_ne (by omega)]
        have hmod := mod_ne_zero_of_le x.2 b hxb hb
        simp only [json_header_sep, writer_header_enter, hn1, hne, ne_eq, not_false_eq_true,
          true_and, hidx, hget, items_before, List.head?_cons, Option.map_some',
          Option.getD_some]
        by_cases hz : x.2 = 0
        · simp [hz]
        · have := hmod.mpr hz
          simp [hz, this]
    obtain ⟨hne, hhead⟩ := json_header_text_head (writer_header_enter w k parent).priv sect parent
    exact ⟨cs ",\n", _, Or.inl rfl, by rw [hout, hsep], hne, hhead⟩

theorem json_str_item_head (key val : List Byte) : ∃ t, json_str_item key val = 0x22 :: t :=
  ⟨_, rfl⟩

theorem json_int_item_head (key : List Byte) (val : Int) :
    ∃ t, json_int_item key val = 0x22 :: t :=
  ⟨_, rfl⟩

theorem field_written_result (w : WriterContext) (parent : Option Section) (item : List Byte)
    (hwf : w.wf) (g : List LogEvent) (hitem : ∃ t, item = 0x22 :: t) :
    field_written w { writer_field_result w parent item with log := g } parent true := by
  obtain ⟨t, ht⟩ := hitem
  obtain ⟨h1, h2, h3, h4, h5, h6⟩ := hwf
  refine ⟨⟨h1, h2, by simp [writer_field_result, h3], h4, h5, h6⟩, rfl, rfl, rfl, rfl, rfl, rfl,
    rfl, ?_⟩
  simp only [if_true]
  exact ⟨⟨t, by rw [← ht]; rfl⟩, rfl⟩

theorem field_written_hidden (w : WriterContext) (parent : Option Section) (hwf : w.wf) :
    field_written w w parent false :=
  ⟨hwf, rfl, rfl, rfl, rfl, rfl, rfl, rfl, by simp⟩

/-- A validated string field whose key and value pass the validation is
written as the field of the validated strings. -/
theorem writer_print_string_validated_exact (w : WriterContext) (sect : Section)
    (parent : Option Section) (hwf : w.wf) (h0 : 0 ≤ w.level) (hcur : w.current = .ok sect)
    (hpar : w.parent = .ok parent) (key val : List Byte) (flags : Nat)
    (hf : flags &&& PRINT_STRING_VALIDATE ≠ 0)
    (hk : ¬ (validate_string w key).1 < 0) (hv : ¬ (validate_string w val).1 < 0)
    (hshow : sect.shows key = true) :
    ∃ ret g, writer_print_string w key val flags =
      .ok (ret, { writer_field_result w parent
        (json_str_item (validate_string w key).2.1 (validate_string w val).2.1) with
        log := g }) := by
  obtain ⟨p, hp, hd⟩ := current_ok w sect hcur
  have hnl := hwf.2.2.1
  have h9 := hwf.2.1
  simp only [SECTION_MAX_NB_LEVELS] at h9
  obtain ⟨m, hm⟩ : ∃ m : Nat, w.level = m := ⟨w.level.toNat, by omega⟩
  have hmt : w.level.toNat = m := by omega
  have hcongr : validate_string { w with log := w.log ++ (validate_string w key).2.2 } val =
      validate_string w val := validate_string_congr _ _ _ rfl rfl rfl
  obtain ⟨w2, hw2⟩ : ∃ w2 : WriterContext, w2 =
      { w with log := w.log ++ (validate_string w key).2.2 ++ (validate_string w val).2.2 } :=
    ⟨_, rfl⟩
  have hwf2 : w2.wf := by rw [hw2]; exact hwf
  have hpar2 : w2.parent = .ok parent := by rw [hw2]; exact hpar
  have hj := json_print_str_exact w2 parent hwf2 (by rw [hw2]; exact h0) hpar2
    (validate_string w key).2.1 (validate_string w val).2.1
  have hinc := nb_item_inc_ok
    { w2 with out := w2.out ++ json_item_prefix w2 parent ++
        json_str_item (validate_string w key).2.1 (validate_string w val).2.1 } m
    (by rw [hw2]; exact hm) (by rw [hw2]; show m < w.nb_item.length; omega)
  refine ⟨(validate_string w val).1, w2.log, ?_⟩
  simp only [writer_print_string, hp, hd, hshow, if_true, hf, ne_eq, not_false_eq_true,
    writer_print_string_validate, hk, if_false, hcongr, hv, bind, Except.bind, pure,
    Except.pure]
  rw [← hw2, hj]
  simp only [hinc]
  rw [hw2]
  simp only [writer_field_result, json_item_prefix, json_item_sep_needed, hmt, uint_inc]
  rfl

/-- A string field that does not fail validation. -/
theorem string_field_written (cfg w : WriterContext) (sect : Section)
    (parent : Option Section) (hwf : w.wf) (h0 : 0 ≤ w.level) (hcur : w.current = .ok sect)
    (hpar : w.parent = .ok parent) (key val : List Byte) (flags : Nat)
    (hc1 : w.string_validation = cfg.string_validation)
    (hc2 : w.string_validation_replacement = cfg.string_validation_replacement)
    (hc3 : w.string_validation_utf8_flags = cfg.string_validation_utf8_flags)
    (hvalid : flags &&& PRINT_STRING_VALIDATE ≠ 0 →
      ¬ (validate_string cfg key).1 < 0 ∧ ¬ (validate_string cfg val).1 < 0) :
    ∃ ret w', writer_print_string w key val flags = .ok (ret, w') ∧
      field_written w w' parent (sect.shows key) := by
  by_cases hshow : sect.shows key = true
  · by_cases hf : flags &&& PRINT_STRING_VALIDATE = 0
    · have h := writer_print_string_exact w sect parent hwf h0 hcur hpar key val flags hf
      rw [hshow, if_pos rfl] at h
      refine ⟨0, _, h, ?_⟩
      rw [hshow]
      exact field_written_result w parent _ hwf w.log (json_str_item_head key val)
    · obtain ⟨hk, hv⟩ := hvalid hf
      rw [← validate_string_congr cfg w key hc1 hc2 hc3] at hk
      rw [← validate_string_congr cfg w val hc1 hc2 hc3] at hv
      obtain ⟨ret, g, h⟩ := writer_print_string_validated_exact w sect parent hwf h0 hcur hpar
        key val flags hf hk hv hshow
      refine ⟨ret, _, h, ?_⟩
      rw [hshow]
      exact field_written_result w parent _ hwf g (json_str_item_head _ _)
  · have hs' : sect.shows key = false := by simpa using hshow
    obtain ⟨m, sect', hl, hn, hcur', hsep⟩ := wf_current w hwf h0
    have e : sect' = sect := by
      rw [hcur'] at hcur
      injection hcur
    subst e
    have h := (writer_print_string_ok w sect' m hl hn hcur' hsep key val flags).2 hs'
    refine ⟨0, w, h, ?_⟩
    rw [hs']
    exact field_written_hidden w parent hwf

theorem integer_field_written (w : WriterContext) (sect : Section) (parent : Option Section)
    (hwf : w.wf) (h0 : 0 ≤ w.level) (hcur : w.current = .ok sect)
    (hpar : w.parent = .ok parent) (key : List Byte) (val : Int) :
    ∃ w', writer_print_integer w key val = .ok w' ∧
      field_written w w' parent (sect.shows key) := by
  have h := writer_print_integer_exact w sect parent hwf h0 hcur hpar key val
  by_cases hshow : sect.shows key = true
  · rw [hshow, if_pos rfl] at h
    refine ⟨_, h, ?_⟩
    rw [hshow]
    exact field_written_result w parent _ hwf w.log (json_int_item_head key val)
  · have hs' : sect.shows key = false := by simpa using hshow
    rw [hs'] at h
    simp only [Bool.false_eq_true, if_false] at h
    refine ⟨w, h, ?_⟩
    rw [hs']
    exact field_written_hidden w parent hwf

theorem uint_inc_mod (n : Nat) : uint_inc (n % 4294967296) = (n + 1) % 4294967296 := by
  unfold uint_inc
  omega

/-- A field call keeps the invariant, and writes an item when the section
shows the key. -/
theorem items_field_spec (cfg w w' : WriterContext) (x : Int × Nat) (rest : List (Int × Nat))
    (b : Nat) (hinv : items_inv cfg w (x :: rest)) (hok : items_ok b (x :: rest))
    (hb : b < 4294967296) (sect : Section) (parent : Option Section)
    (hcur : w.current = .ok sect) (hpar : w.parent = .ok parent) (key : List Byte)
    (hfw : field_written w w' parent (sect.shows key)) :
    sect.shows key = item_shown x.1 key ∧
    items_inv cfg w' (if item_shown x.1 key then (x.1, x.2 + 1) :: rest else x :: rest) ∧
    (if item_shown x.1 key then item_emitted w w' x.2 else w'.out = w.out) := by
  obtain ⟨sect', parent', h0, hcur', hpar', hsx, hnb, hpid, _, _⟩ :=
    items_current cfg w x rest b hinv hok
  have e1 : sect' = sect := by
    rw [hcur'] at hcur
    injection hcur
  have e2 : parent' = parent := by
    rw [hpar'] at hpar
    injection hpar
  subst e1 e2
  obtain ⟨hwf, hcat, hpriv, hrel, hc1, hc2, hc3⟩ := hinv
  obtain ⟨_, hsec, _, hrest⟩ := hrel
  obtain ⟨_, _, hxb, hpaf, _⟩ := hok
  obtain ⟨hwf', hl', hcat', hsec', hpriv', hv1, hv2, hv3, hres⟩ := hfw
  have hnlen : w.nb_item.length = 10 := hwf.2.2.1
  have h9 := hwf.2.1
  simp only [SECTION_MAX_NB_LEVELS] at h9
  have hshown : sect'.shows key = item_shown x.1 key := by
    simp only [item_shown, hsx]
  refine ⟨hshown, ?_⟩
  rw [← hshown]
  by_cases hs : sect'.shows key = true
  · rw [hs, if_pos rfl] at hres
    obtain ⟨⟨t, hout⟩, hnb'⟩ := hres
    simp only [hs, if_true]
    constructor
    · refine ⟨hwf', by rw [hcat', hcat], by rw [hpriv']; exact hpriv, ?_, by rw [hv1, hc1],
        by rw [hv2, hc2], by rw [hv3, hc3]⟩
      rw [hl']
      refine ⟨h0, by rw [hsec']; exact hsec, ?_, ?_⟩
      · rw [hnb', hnb, uint_inc_mod]
        simp only [List.getD, List.get?_eq_getElem?]
        rw [List.getElem?_set_self (by omega)]
        rfl
      · apply items_rel_congr w w' rest _ _ hrest
        intro i hi
        constructor
        · rw [hsec']
        · rw [hnb']
          simp only [List.getD, List.get?_eq_getElem?]
          rw [List.getElem?_set_ne (by omega)]
    · have hsep : json_item_sep_needed w parent' = decide (x.2 ≠ 0) := by
        have hmod := mod_ne_zero_of_le x.2 b hxb hb
        unfold json_item_sep_needed
        rw [hnb]
        by_cases hz : x.2 = 0
        · have hnp : ¬ (parent'.map Section.id).getD SECTION_ID_NONE =
              SECTION_ID_PACKETS_AND_FRAMES := by
            intro hp
            have : rest.head?.map Prod.fst = some SECTION_ID_PACKETS_AND_FRAMES := by
              rw [← hpid]
              cases hpp : parent'.map Section.id with
              | none =>
                rw [hpp] at hp
                revert hp
                decide
              | some v =>
                rw [hpp] at hp
                simp only [Option.getD_some] at hp
                rw [hp]
            have := hpaf this
            omega
          simp [hz, hnp]
        · have := hmod.mpr hz
          simp [hz, this]
      obtain ⟨hne, hhead⟩ := json_item_body_head w.priv t
      rcases json_item_sep_text w.priv hpriv with hsp | hsp
      · refine ⟨cs ",\n", _, Or.inl rfl, ?_, hne, hhead⟩
        rw [hout, json_item_prefix, hsep, hsp]
        by_cases hz : x.2 = 0 <;> simp [hz]
      · refine ⟨cs ", ", _, Or.inr rfl, ?_, hne, hhead⟩
        rw [hout, json_item_prefix, hsep, hsp]
        by_cases hz : x.2 = 0 <;> simp [hz]
  · have hs' : sect'.shows key = false := by simpa using hs
    rw [hs'] at hres
    simp only [Bool.false_eq_true, if_false] at hres
    simp only [hs', Bool.false_eq_true, if_false]
    refine ⟨⟨hwf', by rw [hcat', hcat], by rw [hpriv']; exact hpriv, ?_, by rw [hv1, hc1],
      by rw [hv2, hc2], by rw [hv3, hc3]⟩, hres.1⟩
    rw [hl']
    apply items_rel_congr w w' (x :: rest) _ _ ⟨h0, hsec, hnb, hrest⟩
    intro i _
    exact ⟨by rw [hsec'], by rw [hres.2]⟩

/-- Closing a section keeps the invariant, counts the section as an item of
the section below it, and writes no comma. -/
theorem items_footer_spec (cfg w : WriterContext) (x : Int × Nat) (rest : List (Int × Nat))
    (b : Nat) (hinv : items_inv cfg w (x :: rest)) (hok : items_ok b (x :: rest)) :
    ∃ w', writer_print_section_footer w = .ok w' ∧
      items_inv cfg w' (items_step (x :: rest) WriterCall.footer) ∧
      ∃ text, w'.out = w.out ++ text ∧ (0x2c : Byte) ∉ text := by
  obtain ⟨sect, parent, h0, hcur, hpar, hsx, hnb, hpid, _, hz⟩ :=
    items_current cfg w x rest b hinv hok
  obtain ⟨hwf, hcat, hpriv, hrel, hc1, hc2, hc3⟩ := hinv
  obtain ⟨_, hsec, _, hrest⟩ := hrel
  have hnlen : w.nb_item.length = 10 := hwf.2.2.1
  have h9 := hwf.2.1
  simp only [SECTION_MAX_NB_LEVELS] at h9
  obtain ⟨w', h1, hwf', hl', hcat', hsec', hnb', _, hv1, hv2, hv3⟩ :=
    writer_print_section_footer_ok w hwf h0
  have hx := writer_print_section_footer_exact w sect parent hwf h0 hcur hpar
  rw [hx] at h1
  injection h1 with hw'
  refine ⟨w', by rw [hx, hw'], ⟨hwf', by rw [hcat', hcat], ?_, ?_, by rw [hv1, hc1],
    by rw [hv2, hc2], by rw [hv3, hc3]⟩, ?_⟩
  · rw [← hw']
    exact hpriv
  · rw [hl']
    cases rest with
    | nil =>
      have : w.level = 0 := hz.mpr rfl
      show w.level - 1 = -1
      omega
    | cons y rest' =>
      have hne : ¬ w.level = 0 := fun h => by cases hz.mp h
      obtain ⟨hy0, hysec, hynb, hyrest⟩ := hrest
      refine ⟨hy0, by rw [hsec']; exact hysec, ?_, ?_⟩
      · show w'.nb_item.getD (w.level - 1).toNat 0 = (y.2 + 1) % 4294967296
        rw [hnb', if_neg hne, hynb, uint_inc_mod]
        simp only [List.getD, List.get?_eq_getElem?]
        rw [List.getElem?_set_self (by omega)]
        rfl
      · apply items_rel_congr w w' rest' _ _ hyrest
        intro i hi
        constructor
        · rw [hsec']
        · rw [hnb', if_neg hne]
          simp only [List.getD, List.get?_eq_getElem?]
          rw [List.getElem?_set_ne (by omega)]
  · refine ⟨json_footer_text w.priv w.level sect, ?_, json_footer_text_no_comma _ hpriv _ _⟩
    rw [← hw']
    rfl

/-- Every admitted call returns, keeps the invariant, and writes what the
separator rule says. -/
theorem items_call_spec (cfg w : WriterContext) (st : List (Int × Nat)) (b : Nat)
    (c : WriterCall) (hinv : items_inv cfg w st) (hok : items_ok b st) (hb : b < 4294967296)
    (hadm : call_admitted cfg st c) :
    ∃ w', run_call w c = .ok w' ∧ items_inv cfg w' (items_step st c) ∧
      call_emits w w' st c := by
  cases c with
  | header section_id => exact items_header_spec cfg w st b hinv hok hb section_id hadm
  | footer =>
    cases st with
    | nil => exact absurd rfl hadm
    | cons x rest => exact items_footer_spec cfg w x rest b hinv hok
  | string key val flags =>
    cases st with
    | nil => exact absurd rfl hadm.1
    | cons x rest =>
      obtain ⟨sect, parent, h0, hcur, hpar, _⟩ := items_current cfg w x rest b hinv hok
      obtain ⟨ret, w', h, hfw⟩ := string_field_written cfg w sect parent hinv.1 h0 hcur hpar
        key val flags hinv.2.2.2.2.1 hinv.2.2.2.2.2.1 hinv.2.2.2.2.2.2 hadm.2
      obtain ⟨_, hinv', hem⟩ := items_field_spec cfg w w' x rest b hinv hok hb sect parent hcur
        hpar key hfw
      refine ⟨w', by simp only [run_call, h, bind, Except.bind, pure, Except.pure], ?_, ?_⟩
      · simp only [items_step]
        split_ifs at hinv' ⊢ <;> exact hinv'
      · exact hem
  | integer key val =>
    cases st with
    | nil => exact absurd rfl hadm
    | cons x rest =>
      obtain ⟨sect, parent, h0, hcur, hpar, _⟩ := items_current cfg w x rest b hinv hok
      obtain ⟨w', h, hfw⟩ := integer_field_written w sect parent hinv.1 h0 hcur hpar key val
      obtain ⟨_, hinv', hem⟩ := items_field_spec cfg w w' x rest b hinv hok hb sect parent hcur
        hpar key hfw
      refine ⟨w', h, ?_, ?_⟩
      · simp only [items_step]
        split_ifs at hinv' ⊢ <;> exact hinv'
      · exact hem

theorem items_run_spec (cfg : WriterContext) (calls : List WriterCall) :
    ∀ (w : WriterContext) (st : List (Int × Nat)) (b : Nat), items_inv cfg w st →
      items_ok b st → b + calls.length < 4294967296 → calls_admitted cfg st calls →
      ∃ w', run_calls calls w = .ok w' ∧ items_inv cfg w' (items_run st calls) ∧
        items_ok (b + calls.length) (items_run st calls) := by
  induction calls with
  | nil =>
    intro w st b hinv hok _ _
    exact ⟨w, rfl, hinv, hok⟩
  | cons c calls ih =>
    intro w st b hinv hok hb hadm
    simp only [List.length_cons] at hb
    obtain ⟨hadm1, hadm2⟩ := hadm
    obtain ⟨w1, h1, hinv1, _⟩ := items_call_spec cfg w st b c hinv hok (by omega) hadm1
    have hok1 := items_ok_step cfg b st c hok hadm1
    obtain ⟨w', h', hinv', hok'⟩ := ih w1 (items_step st c) (b + 1) hinv1 hok1 (by omega) hadm2
    refine ⟨w', ?_, hinv', ?_⟩
    · simp only [run_calls, h1, bind, Except.bind]
      exact h'
    · have e : b + (c :: calls).length = b + 1 + calls.length := by
        simp only [List.length_cons]
        omega
      rw [e]
      exact hok'

theorem calls_admitted_append (cfg : WriterContext) (pre : List WriterCall) (c : WriterCall) :
    ∀ st : List (Int × Nat), calls_admitted cfg st (pre ++ [c]) →
      calls_admitted cfg st pre ∧ call_admitted cfg (items_run st pre) c := by
  induction pre with
  | nil =>
    intro st h
    exact ⟨trivial, h.1⟩
  | cons d pre ih =>
    intro st h
    obtain ⟨h1, h2⟩ := h
    obtain ⟨h3, h4⟩ := ih _ h2
    exact ⟨⟨h1, h3⟩, h4⟩

/-- C23, amended. In the context `writer_open` sets up for the JSON backend,
for every sequence of fewer than 2^32 calls that opens sections of the catalog
within the depth of the writer, opens in the `packets_and_frames` array only
elements that get the pair `type`, closes sections and prints fields only
while a section is open, and has no field that fails validation, and for
every further call of that kind: the calls return, and the further call writes
a separator, a comma and a newline or a blank, before its item (a field the
open section shows, or a child section) exactly when an item has been written
in the same open section before (a field shown, a child section closed, or the
pair `type`); the item itself does not start with a comma, a footer writes no
comma, and a field the section does not show writes nothing. -/
theorem C23_separator_iff_item_before (env : WriterOpenEnv) (pre : List WriterCall)
    (c : WriterCall)
    (hadm : calls_admitted (json_init (writer_open_alloc env sections)) [] (pre ++ [c]))
    (hlen : pre.length < 4294967296) :
    ∃ w w', run_calls pre (json_init (writer_open_alloc env sections)) = .ok w ∧
      run_call w c = .ok w' ∧ call_emits w w' (items_run [] pre) c := by
  obtain ⟨hadm1, hadm2⟩ := calls_admitted_append _ pre c [] hadm
  have hinv0 : items_inv (json_init (writer_open_alloc env sections))
      (json_init (writer_open_alloc env sections)) [] :=
    ⟨writer_open_alloc_wf env, rfl, json_init_priv_ok env, rfl, rfl, rfl, rfl⟩
  obtain ⟨w, h, hinv, hok⟩ := items_run_spec _ pre _ [] 0 hinv0 trivial (by omega) hadm1
  obtain ⟨w', h', _, hem⟩ := items_call_spec _ w _ (0 + pre.length) c hinv hok (by omega) hadm2
  exact ⟨w, w', h, h', hem⟩

/-- The counterexample to C23: the sequence that opens the root, the
`packets_and_frames` array and, in the array, the `streams` array, and then
prints a field that `streams` shows. No item has been written in `streams`,
and the field is written with a separator before it. -/
theorem C23_counterexample :
    items_before (items_run []
      [WriterCall.header 40, WriterCall.header 24, WriterCall.header 43]) = 0 ∧
    item_shown 43 (cs "a") = true ∧
    (run_calls [WriterCall.header 40, WriterCall.header 24, WriterCall.header 43]
        (json_init (writer_open_alloc ffprobe_open_env sections))).map (fun w => w.out) =
      .ok (cs "\x7b\n    \"packets_and_frames\": [\n        \"streams\": [\n") ∧
    (run_calls [WriterCall.header 40, WriterCall.header 24, WriterCall.header 43,
        WriterCall.string (cs "a") (cs "b") 0]
        (json_init (writer_open_alloc ffprobe_open_env sections))).map (fun w => w.out) =
      .ok (cs "\x7b\n    \"packets_and_frames\": [\n        \"streams\": [\n" ++
        cs ",\n            \"a\": \"b\"") := by
  decide

theorem C23_separator_iff_item_before_witness :
    ∃ w w', run_calls [WriterCall.header 40, WriterCall.header 4,
        WriterCall.integer (cs "nb_streams") 1]
        (json_init (writer_open_alloc ffprobe_open_env sections)) = .ok w ∧
      run_call w (WriterCall.string (cs "format_name") (cs "mov") 0) = .ok w' ∧
      call_emits w w' (items_run [] [WriterCall.header 40, WriterCall.header 4,
        WriterCall.integer (cs "nb_streams") 1])
        (WriterCall.string (cs "format_name") (cs "mov") 0) :=
  C23_separator_iff_item_before ffprobe_open_env
    [WriterCall.header 40, WriterCall.header 4, WriterCall.integer (cs "nb_streams") 1]
    (WriterCall.string (cs "format_name") (cs "mov") 0)
    (by simp only [List.cons_append, List.nil_append, calls_admitted, call_admitted]; decide)
    (by decide)

end Probe
